import Mathlib

/-!
# CakemuOoO: a shallow embedding of the out-of-order RISC-V core

The C++ model (SystemC) is embedded as pure functions on explicit state.

Conventions of the embedding:
* `uint64_t` / `uint32_t` / `uint8_t` values are natural numbers, with an explicit
  reduction modulo `2^w` wherever the C++ arithmetic can wrap;
* `int32_t` / `int64_t` values and the `int` indices that can be `-1` are integers;
* a `std::vector` of fixed size is a function from the index to the element, the
  size being kept next to it (`max_entries`, `size`, `bht_size`);
* a `for (i = 0; i < n; i++)` loop is `forRange n body`; a loop that returns at its
  first hit is a `List.find?` over `List.range n`;
* a local variable declared without initialiser (`ROBEntry rob_entry;`) starts from
  the corresponding field of `Uninit`, an extra input of the tick that stands for
  the indeterminate contents of the stack;
* an `sc_signal` is read at its value from before the tick and written for the next.
-/

namespace CakemuOoO

/-! ## Machine words

`Instruction` (`uint32_t`), `Address` and `RegisterValue` (`uint64_t`) are natural
numbers. -/

/-- Two to the 32. -/
def W32 : Nat := 4294967296

/-- Two to the 64. -/
def W64 : Nat := 18446744073709551616

/-- Conversion of a 32-bit pattern to `int32_t`. -/
def toInt32 (x : Nat) : Int :=
  if x % W32 < 2147483648 then ((x % W32 : Nat) : Int) else ((x % W32 : Nat) : Int) - 4294967296

/-- Conversion of a 64-bit pattern to `int64_t` (`static_cast<int64_t>`). -/
def toInt64 (x : Nat) : Int :=
  if x % W64 < 9223372036854775808 then ((x % W64 : Nat) : Int)
  else ((x % W64 : Nat) : Int) - 18446744073709551616

/-- Conversion of a signed value to `uint64_t`: sign extension of an `int32_t`, and the
wrap-around of a 64-bit difference. -/
def sext64 (i : Int) : Nat := (i % 18446744073709551616).toNat

/-- The loop `for (i = 0; i < n; i++) s = body i s`. -/
def forRange {σ : Type} (n : Nat) (body : Nat → σ → σ) (s : σ) : σ :=
  (List.range n).foldl (fun acc i => body i acc) s

/-- Assignment to one element of a vector. -/
def setAt {α : Type} (v : Nat → α) (i : Nat) (x : α) : Nat → α :=
  fun j => if j = i then x else v j

/-! ## types.h -/

inductive InstructionType where
  | R_TYPE | I_TYPE | S_TYPE | B_TYPE | U_TYPE | J_TYPE | UNKNOWN
  deriving DecidableEq

inductive Opcode where
  | LUI | AUIPC | JAL | JALR | BRANCH | LOAD | STORE | OP_IMM | OP | SYSTEM | UNKNOWN
  deriving DecidableEq

/-- The enumerator values of `enum class Opcode` (`UNKNOWN` follows `SYSTEM`). -/
def Opcode.toNat : Opcode → Nat
  | .LUI => 0b0110111
  | .AUIPC => 0b0010111
  | .JAL => 0b1101111
  | .JALR => 0b1100111
  | .BRANCH => 0b1100011
  | .LOAD => 0b0000011
  | .STORE => 0b0100011
  | .OP_IMM => 0b0010011
  | .OP => 0b0110011
  | .SYSTEM => 0b1110011
  | .UNKNOWN => 0b1110100

/-! The `enum class Funct3` has several enumerators per value, so a `Funct3` is kept as
its underlying integer and the enumerators are names for these numbers. -/

namespace Funct3
abbrev BEQ : Nat := 0
abbrev BNE : Nat := 1
abbrev BLT : Nat := 4
abbrev BGE : Nat := 5
abbrev BLTU : Nat := 6
abbrev BGEU : Nat := 7
abbrev LB : Nat := 0
abbrev LH : Nat := 1
abbrev LW : Nat := 2
abbrev LBU : Nat := 4
abbrev LHU : Nat := 5
abbrev SB : Nat := 0
abbrev SH : Nat := 1
abbrev SW : Nat := 2
abbrev ADD : Nat := 0
abbrev SLL : Nat := 1
abbrev SLT : Nat := 2
abbrev SLTU : Nat := 3
abbrev XOR : Nat := 4
abbrev SRL : Nat := 5
abbrev OR : Nat := 6
abbrev AND : Nat := 7
end Funct3

structure FetchPacket where
  instruction : Nat
  pc : Nat
  valid : Bool
  deriving DecidableEq

structure DecodePacket where
  instruction : Nat
  pc : Nat
  type : InstructionType
  opcode : Opcode
  funct3 : Nat
  funct7 : Nat
  rs1 : Nat
  rs2 : Nat
  rd : Nat
  imm : Int
  valid : Bool
  deriving DecidableEq

structure ExecutePacket where
  instruction : Nat
  pc : Nat
  rd : Nat
  result : Nat
  mem_access : Bool
  mem_write : Bool
  mem_addr : Nat
  mem_data : Nat
  branch_taken : Bool
  branch_target : Nat
  valid : Bool
  deriving DecidableEq

structure RSEntry where
  busy : Bool
  opcode : Opcode
  funct3 : Nat
  funct7 : Nat
  rd : Nat
  Vj : Nat
  Vk : Nat
  Qj : Nat
  Qk : Nat
  imm : Int
  pc : Nat
  ready : Bool
  deriving DecidableEq

structure ROBEntry where
  busy : Bool
  dest : Nat
  value : Nat
  completed : Bool
  is_store : Bool
  mem_addr : Nat
  mem_data : Nat
  pc : Nat
  funct3 : Nat
  deriving DecidableEq

structure RegisterStatus where
  busy : Bool
  rob_entry : Nat
  deriving DecidableEq

/-- The indeterminate initial contents of the locals that the C++ declares without
an initialiser: `ROBEntry rob_entry;` and `RSEntry rs_entry;` in `issue_proc`,
`ExecutePacket result;` in `execute_proc`, and the `empty_packet`s of the fetch and
decode stages. Each function assigns the fields the source assigns and leaves the
others as they are here. -/
structure Uninit where
  rob_entry : ROBEntry
  rs_entry : RSEntry
  result : ExecutePacket
  fetch_packet : FetchPacket
  decode_packet : DecodePacket

/-! ## decode_unit.cpp -/

namespace DecodeUnit

/-- Translation of `DecodeUnit::get_instruction_type`. -/
def get_instruction_type (inst : Nat) : InstructionType :=
  let opcode := inst &&& 0x7F
  if opcode = Opcode.OP.toNat then InstructionType.R_TYPE
  else if opcode = Opcode.OP_IMM.toNat ∨ opcode = Opcode.LOAD.toNat ∨ opcode = Opcode.JALR.toNat then
    InstructionType.I_TYPE
  else if opcode = Opcode.STORE.toNat then InstructionType.S_TYPE
  else if opcode = Opcode.BRANCH.toNat then InstructionType.B_TYPE
  else if opcode = Opcode.LUI.toNat ∨ opcode = Opcode.AUIPC.toNat then InstructionType.U_TYPE
  else if opcode = Opcode.JAL.toNat then InstructionType.J_TYPE
  else InstructionType.UNKNOWN

/-- Translation of `DecodeUnit::get_opcode`. -/
def get_opcode (inst : Nat) : Opcode :=
  let opcode := inst &&& 0x7F
  if opcode = 0b0110111 then Opcode.LUI
  else if opcode = 0b0010111 then Opcode.AUIPC
  else if opcode = 0b1101111 then Opcode.JAL
  else if opcode = 0b1100111 then Opcode.JALR
  else if opcode = 0b1100011 then Opcode.BRANCH
  else if opcode = 0b0000011 then Opcode.LOAD
  else if opcode = 0b0100011 then Opcode.STORE
  else if opcode = 0b0010011 then Opcode.OP_IMM
  else if opcode = 0b0110011 then Opcode.OP
  else if opcode = 0b1110011 then Opcode.SYSTEM
  else Opcode.UNKNOWN

/-- Translation of `DecodeUnit::get_funct3`. -/
def get_funct3 (inst : Nat) : Nat := (inst >>> 12) &&& 0x7

/-- Translation of `DecodeUnit::get_funct7`. -/
def get_funct7 (inst : Nat) : Nat := (inst >>> 25) &&& 0x7F

/-- Translation of `DecodeUnit::get_rd`. -/
def get_rd (inst : Nat) : Nat := (inst >>> 7) &&& 0x1F

/-- Translation of `DecodeUnit::get_rs1`. -/
def get_rs1 (inst : Nat) : Nat := (inst >>> 15) &&& 0x1F

/-- Translation of `DecodeUnit::get_rs2`. -/
def get_rs2 (inst : Nat) : Nat := (inst >>> 20) &&& 0x1F

/-- The 32-bit pattern that `get_immediate` holds in `imm` when it returns. -/
def immediate_bits (inst : Nat) (type : InstructionType) : Nat :=
  match type with
  | .I_TYPE =>
    let imm := (inst >>> 20) &&& 0xFFF
    if imm &&& 0x800 ≠ 0 then imm ||| 0xFFFFF000 else imm
  | .S_TYPE =>
    let imm := ((inst >>> 25) &&& 0x7F) <<< 5
    let imm := imm ||| ((inst >>> 7) &&& 0x1F)
    if imm &&& 0x800 ≠ 0 then imm ||| 0xFFFFF000 else imm
  | .B_TYPE =>
    let imm := ((inst >>> 31) &&& 0x1) <<< 12
    let imm := imm ||| (((inst >>> 7) &&& 0x1) <<< 11)
    let imm := imm ||| (((inst >>> 25) &&& 0x3F) <<< 5)
    let imm := imm ||| (((inst >>> 8) &&& 0xF) <<< 1)
    if imm &&& 0x1000 ≠ 0 then imm ||| 0xFFFFE000 else imm
  | .U_TYPE => inst &&& 0xFFFFF000
  | .J_TYPE =>
    let imm := ((inst >>> 31) &&& 0x1) <<< 20
    let imm := imm ||| (((inst >>> 12) &&& 0xFF) <<< 12)
    let imm := imm ||| (((inst >>> 20) &&& 0x1) <<< 11)
    let imm := imm ||| (((inst >>> 21) &&& 0x3FF) <<< 1)
    if imm &&& 0x100000 ≠ 0 then imm ||| 0xFFF00000 else imm
  | _ => 0

/-- Translation of `DecodeUnit::get_immediate`: the pattern read as `int32_t`. -/
def get_immediate (inst : Nat) (type : InstructionType) : Int :=
  toInt32 (immediate_bits inst type)

/-- The packet that `decode_proc` builds from a valid fetch packet. -/
def decode (fetch_packet : FetchPacket) : DecodePacket :=
  let inst := fetch_packet.instruction
  { instruction := inst
    pc := fetch_packet.pc
    type := get_instruction_type inst
    opcode := get_opcode inst
    funct3 := get_funct3 inst
    funct7 := get_funct7 inst
    rd := get_rd inst
    rs1 := get_rs1 inst
    rs2 := get_rs2 inst
    imm := get_immediate inst (get_instruction_type inst)
    valid := true }

/-- Translation of `DecodeUnit::decode_proc`: the new value of `decode_out`, given
its value so far (kept when the stage is stalled). -/
def decode_proc (reset stall : Bool) (fetch_in : FetchPacket) (decode_out : DecodePacket)
    (u : Uninit) : DecodePacket :=
  if reset then { u.decode_packet with valid := false }
  else if !stall then
    if fetch_in.valid then decode fetch_in
    else { u.decode_packet with valid := false }
  else decode_out

end DecodeUnit

/-! ## memory_system.cpp -/

/-- The byte array of `MemorySystem`: `memory a` is the byte at address `a`, for
`a < MEMORY_SIZE`. The elements are `uint8_t`: every write stores a value below 256
(see `WellFormed`), so the shifts of the little-endian reads do not wrap. -/
structure MemorySystem where
  memory : Nat → Nat

namespace MemorySystem

/-- The constant `MEMORY_SIZE` (1 MiB). -/
def MEMORY_SIZE : Nat := 1024 * 1024

/-- The state the constructor builds: `memory.resize(MEMORY_SIZE, 0)`. -/
def init : MemorySystem := { memory := fun _ => 0 }

/-- Every element of the array is a byte. -/
def WellFormed (m : MemorySystem) : Prop := ∀ a, m.memory a < 256

/-- Translation of `MemorySystem::read_instruction`. -/
def read_instruction (m : MemorySystem) (addr : Nat) : Nat :=
  if addr ≥ MEMORY_SIZE - 3 then 0
  else
    let inst := 0
    let inst := inst ||| m.memory addr
    let inst := inst ||| (m.memory (addr + 1) <<< 8)
    let inst := inst ||| (m.memory (addr + 2) <<< 16)
    let inst := inst ||| (m.memory (addr + 3) <<< 24)
    inst

/-- The bound `MEMORY_SIZE - (size - 1)` of the range checks; `size` is a `uint8_t`,
so the difference does not wrap. -/
def limit (size : Nat) : Nat := MEMORY_SIZE + 1 - size

/-- Translation of `MemorySystem::read_data`. -/
def read_data (m : MemorySystem) (addr : Nat) (size : Nat) : Nat :=
  if addr ≥ limit size then 0
  else forRange size (fun i data => data ||| (m.memory (addr + i) <<< (i * 8))) 0

/-- Translation of `MemorySystem::write_data`. -/
def write_data (m : MemorySystem) (addr : Nat) (data : Nat) (size : Nat) :
    MemorySystem :=
  if addr ≥ limit size then m
  else
    forRange size
      (fun i mem => { memory := setAt mem.memory (addr + i) ((data >>> (i * 8)) &&& 0xFF) }) m

/-- Translation of `MemorySystem::load_program` for a file that opens: the bytes of
the file, at most `MEMORY_SIZE` of them, are read into the array from offset 0. -/
def load_program (m : MemorySystem) (file : List Nat) : MemorySystem :=
  { memory := fun a => if a < file.length ∧ a < MEMORY_SIZE then file.getD a 0 else m.memory a }

end MemorySystem

/-! ## register_file.cpp -/

/-- The vector `registers` with its length. -/
structure RegisterFile where
  size : Nat
  registers : Nat → Nat

namespace RegisterFile

/-- The state the constructor builds: `registers.resize(size, 0)`. -/
def init (size : Nat) : RegisterFile := { size := size, registers := fun _ => 0 }

/-- Translation of `RegisterFile::reset`. -/
def reset (rf : RegisterFile) : RegisterFile :=
  { rf with registers := forRange rf.size (fun i regs => setAt regs i 0) rf.registers }

/-- Translation of `RegisterFile::read`. -/
def read (rf : RegisterFile) (index : Int) : Nat :=
  if index < 0 ∨ index ≥ (rf.size : Int) then 0
  else rf.registers index.toNat

/-- Translation of `RegisterFile::write`. -/
def write (rf : RegisterFile) (index : Int) (value : Nat) : RegisterFile :=
  if index ≤ 0 ∨ index ≥ (rf.size : Int) then rf
  else if index ≠ 0 then { rf with registers := setAt rf.registers index.toNat value }
  else rf

end RegisterFile

/-! ## reorder_buffer.cpp -/

/-- The ring of `ReorderBuffer`: `head`, `tail` and `count` are `int`s that the code
keeps non-negative, so they are natural numbers here. -/
structure ReorderBuffer where
  max_entries : Nat
  head : Nat
  tail : Nat
  count : Nat
  entries : Nat → ROBEntry
  newly_completed : Nat → Bool

namespace ReorderBuffer

/-- Translation of `ReorderBuffer::reset`. -/
def reset (rob : ReorderBuffer) : ReorderBuffer :=
  forRange rob.max_entries
    (fun i r =>
      { r with
        entries := setAt r.entries i { r.entries i with busy := false }
        newly_completed := setAt r.newly_completed i false })
    { rob with head := 0, tail := 0, count := 0 }

/-- The element that `entries.resize(size)` value-initialises: all fields zero. -/
def zero_entry : ROBEntry :=
  { busy := false, dest := 0, value := 0, completed := false, is_store := false,
    mem_addr := 0, mem_data := 0, pc := 0, funct3 := 0 }

/-- The state the constructor builds: both vectors resized, then `reset`. -/
def init (size : Nat) : ReorderBuffer :=
  reset { max_entries := size, head := 0, tail := 0, count := 0, entries := fun _ => zero_entry,
          newly_completed := fun _ => false }

/-- Translation of `ReorderBuffer::is_full`. -/
def is_full (rob : ReorderBuffer) : Bool := rob.count = rob.max_entries

/-- Translation of `ReorderBuffer::is_empty`. -/
def is_empty (rob : ReorderBuffer) : Bool := rob.count = 0

/-- Translation of `ReorderBuffer::allocate_entry`: the new state and the index
returned (`-1` when full). -/
def allocate_entry (rob : ReorderBuffer) : ReorderBuffer × Int :=
  if rob.is_full then (rob, -1)
  else
    let index := rob.tail
    ({ rob with
        tail := (rob.tail + 1) % rob.max_entries
        count := rob.count + 1
        entries := setAt rob.entries index { rob.entries index with busy := true, completed := false }
        newly_completed := setAt rob.newly_completed index false },
     (index : Int))

/-- Translation of `ReorderBuffer::update_entry`. -/
def update_entry (rob : ReorderBuffer) (index : Int) (entry : ROBEntry) : ReorderBuffer :=
  if index < 0 ∨ index ≥ (rob.max_entries : Int) then rob
  else { rob with entries := setAt rob.entries index.toNat entry }

/-- Translation of `ReorderBuffer::update_store_entry`. -/
def update_store_entry (rob : ReorderBuffer) (index : Int) (addr : Nat)
    (data : Nat) : ReorderBuffer :=
  if index < 0 ∨ index ≥ (rob.max_entries : Int) then rob
  else
    { rob with
      entries := setAt rob.entries index.toNat
        { rob.entries index.toNat with mem_addr := addr, mem_data := data, completed := true }
      newly_completed := setAt rob.newly_completed index.toNat true }

/-- Translation of `ReorderBuffer::complete_entry`. -/
def complete_entry (rob : ReorderBuffer) (index : Int) (value : Nat) : ReorderBuffer :=
  if index < 0 ∨ index ≥ (rob.max_entries : Int) then rob
  else
    { rob with
      entries := setAt rob.entries index.toNat
        { rob.entries index.toNat with value := value, completed := true }
      newly_completed := setAt rob.newly_completed index.toNat true }

/-- Translation of `ReorderBuffer::complete_branch_entry` (`taken` and `target` are
not stored). -/
def complete_branch_entry (rob : ReorderBuffer) (index : Int) (value : Nat)
    (_taken : Bool) (_target : Nat) : ReorderBuffer :=
  if index < 0 ∨ index ≥ (rob.max_entries : Int) then rob
  else
    { rob with
      entries := setAt rob.entries index.toNat
        { rob.entries index.toNat with value := value, completed := true }
      newly_completed := setAt rob.newly_completed index.toNat true }

/-- Translation of `ReorderBuffer::is_entry_completed`. -/
def is_entry_completed (rob : ReorderBuffer) (index : Int) : Bool :=
  if index < 0 ∨ index ≥ (rob.max_entries : Int) then false
  else (rob.entries index.toNat).busy && (rob.entries index.toNat).completed

/-- Translation of `ReorderBuffer::get_entry_value`. -/
def get_entry_value (rob : ReorderBuffer) (index : Int) : Nat :=
  if index < 0 ∨ index ≥ (rob.max_entries : Int) then 0
  else (rob.entries index.toNat).value

/-- Translation of `ReorderBuffer::is_head_completed`. -/
def is_head_completed (rob : ReorderBuffer) : Bool :=
  if rob.is_empty then false else (rob.entries rob.head).completed

/-- Translation of `ReorderBuffer::get_head_entry`; `empty` is the indeterminate local
returned (with `busy` cleared) when the buffer is empty. -/
def get_head_entry (rob : ReorderBuffer) (empty : ROBEntry) : ROBEntry :=
  if rob.is_empty then { empty with busy := false } else rob.entries rob.head

/-- Translation of `ReorderBuffer::get_head_index`. -/
def get_head_index (rob : ReorderBuffer) : Int := (rob.head : Int)

/-- Translation of `ReorderBuffer::remove_head`. -/
def remove_head (rob : ReorderBuffer) : ReorderBuffer :=
  if rob.is_empty then rob
  else
    { rob with
      entries := setAt rob.entries rob.head { rob.entries rob.head with busy := false }
      newly_completed := setAt rob.newly_completed rob.head false
      head := (rob.head + 1) % rob.max_entries
      count := rob.count - 1 }

/-- Translation of `ReorderBuffer::get_newly_completed`: the new state and the vector
of pairs returned. -/
def get_newly_completed (rob : ReorderBuffer) : ReorderBuffer × List (Int × Nat) :=
  forRange rob.max_entries
    (fun i acc =>
      if (acc.1.entries i).busy && acc.1.newly_completed i then
        ({ acc.1 with newly_completed := setAt acc.1.newly_completed i false },
         acc.2 ++ [((i : Int), (acc.1.entries i).value)])
      else acc)
    (rob, [])

end ReorderBuffer

/-! ## reservation_station.cpp -/

/-- The two vectors of `ReservationStation` with their length. -/
structure ReservationStation where
  max_entries : Nat
  entries : Nat → RSEntry
  rob_indices : Nat → Int

namespace ReservationStation

/-- Translation of `ReservationStation::reset`. -/
def reset (rs : ReservationStation) : ReservationStation :=
  forRange rs.max_entries
    (fun i r =>
      { r with
        entries := setAt r.entries i { r.entries i with busy := false }
        rob_indices := setAt r.rob_indices i (-1) })
    rs

/-- The element that `entries.resize(size)` value-initialises: all fields zero. The
zero value of `enum class Opcode` is none of its enumerators; it is rendered as
`UNKNOWN`, which takes the same `default:` branch in every `switch` of the model. -/
def zero_entry : RSEntry :=
  { busy := false, opcode := Opcode.UNKNOWN, funct3 := 0, funct7 := 0, rd := 0, Vj := 0, Vk := 0,
    Qj := 0, Qk := 0, imm := 0, pc := 0, ready := false }

/-- The state the constructor builds: both vectors resized, then `reset`. -/
def init (size : Nat) : ReservationStation :=
  reset { max_entries := size, entries := fun _ => zero_entry, rob_indices := fun _ => 0 }

/-- No slot of the pool is busy. -/
def Idle (rs : ReservationStation) : Prop := ∀ i, i < rs.max_entries → (rs.entries i).busy = false

/-- Translation of `ReservationStation::is_full`. -/
def is_full (rs : ReservationStation) : Bool :=
  match (List.range rs.max_entries).find? (fun i => !(rs.entries i).busy) with
  | some _ => false
  | none => true

/-- Translation of `ReservationStation::add_entry`: the new state and the value
returned. -/
def add_entry (rs : ReservationStation) (entry : RSEntry) (rob_index : Int) :
    ReservationStation × Bool :=
  match (List.range rs.max_entries).find? (fun i => !(rs.entries i).busy) with
  | some i =>
    ({ rs with entries := setAt rs.entries i entry, rob_indices := setAt rs.rob_indices i rob_index },
     true)
  | none => (rs, false)

/-- Translation of `ReservationStation::remove_entry`: the new state and the value
returned. -/
def remove_entry (rs : ReservationStation) (rob_index : Int) : ReservationStation × Bool :=
  match (List.range rs.max_entries).find?
      (fun i => (rs.entries i).busy && decide (rs.rob_indices i = rob_index)) with
  | some i =>
    ({ rs with
        entries := setAt rs.entries i { rs.entries i with busy := false }
        rob_indices := setAt rs.rob_indices i (-1) },
     true)
  | none => (rs, false)

/-- Translation of `ReservationStation::get_ready_entries`. -/
def get_ready_entries (rs : ReservationStation) : List (RSEntry × Int) :=
  forRange rs.max_entries
    (fun i ready_entries =>
      if (rs.entries i).busy && (rs.entries i).ready then
        ready_entries ++ [(rs.entries i, rs.rob_indices i)]
      else ready_entries)
    []

/-- The body of the loop of `update_waiting_entries` for a busy slot. -/
def capture (e : RSEntry) (tag : Int) (value : Nat) : RSEntry :=
  let e := if (e.Qj : Int) = tag then { e with Vj := value, Qj := 0 } else e
  let e := if (e.Qk : Int) = tag then { e with Vk := value, Qk := 0 } else e
  if e.Qj = 0 ∧ e.Qk = 0 then { e with ready := true } else e

/-- Translation of `ReservationStation::update_waiting_entries`. -/
def update_waiting_entries (rs : ReservationStation) (tag : Int) (value : Nat) :
    ReservationStation :=
  if tag = 0 then rs
  else
    forRange rs.max_entries
      (fun i r =>
        if (r.entries i).busy then { r with entries := setAt r.entries i (capture (r.entries i) tag value) }
        else r)
      rs

end ReservationStation

/-! ## execution_unit.cpp -/

/-- The members of `ExecutionUnit`. `mem` is the memory system bound to
`mem_interface`; `execute_out` is the value last written to the output port, that
is, the value the bound signal shows from the next tick on. -/
structure ExecutionUnit where
  rs_alu : ReservationStation
  rs_mem : ReservationStation
  rs_branch : ReservationStation
  rob : ReorderBuffer
  regfile : RegisterFile
  reg_status : Nat → RegisterStatus
  mem : MemorySystem
  execute_out : ExecutePacket

/-- The target of the pointer `rs` in `issue_proc`. -/
inductive Pool where
  | alu | mem | branch
  deriving DecidableEq

namespace ExecutionUnit

/-- The state the constructor builds, around the memory and the initial value of the
output signal that the processor binds to the ports. -/
def init (mem : MemorySystem) (execute_out : ExecutePacket) : ExecutionUnit :=
  { rs_alu := ReservationStation.init 8
    rs_mem := ReservationStation.init 4
    rs_branch := ReservationStation.init 2
    rob := ReorderBuffer.init 16
    regfile := RegisterFile.init 32
    reg_status := forRange 32 (fun i st => setAt st i { busy := false, rob_entry := 0 })
      (fun _ => { busy := false, rob_entry := 0 })
    mem := mem
    execute_out := execute_out }

/-- The first `switch` of `issue_proc`. -/
def select_pool (opcode : Opcode) : Pool :=
  match opcode with
  | .LOAD | .STORE => Pool.mem
  | .BRANCH | .JAL | .JALR => Pool.branch
  | _ => Pool.alu

/-- Dereference of the pointer `rs`. -/
def pool (s : ExecutionUnit) (p : Pool) : ReservationStation :=
  match p with
  | .alu => s.rs_alu
  | .mem => s.rs_mem
  | .branch => s.rs_branch

/-- Store through the pointer `rs`. -/
def set_pool (s : ExecutionUnit) (p : Pool) (rs : ReservationStation) : ExecutionUnit :=
  match p with
  | .alu => { s with rs_alu := rs }
  | .mem => { s with rs_mem := rs }
  | .branch => { s with rs_branch := rs }

/-- The operand capture of `issue_proc` for rs1 (lines 136-160). -/
def capture_rs1 (s : ExecutionUnit) (rob : ReorderBuffer) (decode_packet : DecodePacket)
    (rs_entry : RSEntry) : RSEntry :=
  if decode_packet.rs1 ≠ 0 ∧ decode_packet.type ≠ InstructionType.U_TYPE ∧
      decode_packet.type ≠ InstructionType.J_TYPE then
    if (s.reg_status decode_packet.rs1).busy then
      let wait_rob : Int := ((s.reg_status decode_packet.rs1).rob_entry : Int)
      if rob.is_entry_completed wait_rob then
        { rs_entry with Vj := rob.get_entry_value wait_rob, Qj := 0 }
      else
        { rs_entry with Qj := ((wait_rob + 1) % 256).toNat, ready := false }
    else
      { rs_entry with Vj := s.regfile.read (decode_packet.rs1 : Int), Qj := 0 }
  else
    { rs_entry with Vj := 0, Qj := 0 }

/-- The operand capture of `issue_proc` for rs2 (lines 163-188). -/
def capture_rs2 (s : ExecutionUnit) (rob : ReorderBuffer) (decode_packet : DecodePacket)
    (rs_entry : RSEntry) : RSEntry :=
  if decode_packet.rs2 ≠ 0 ∧ (decode_packet.type = InstructionType.R_TYPE ∨
      decode_packet.type = InstructionType.S_TYPE ∨
      decode_packet.type = InstructionType.B_TYPE) then
    if (s.reg_status decode_packet.rs2).busy then
      let wait_rob : Int := ((s.reg_status decode_packet.rs2).rob_entry : Int)
      if rob.is_entry_completed wait_rob then
        { rs_entry with Vk := rob.get_entry_value wait_rob, Qk := 0 }
      else
        { rs_entry with Qk := ((wait_rob + 1) % 256).toNat, ready := false }
    else
      { rs_entry with Vk := s.regfile.read (decode_packet.rs2 : Int), Qk := 0 }
  else
    { rs_entry with Vk := 0, Qk := 0 }

/-- The ROB entry that `issue_proc` initialises (lines 110-119): `rob_entry` is declared
without initialiser and `funct3` is not among the fields assigned. -/
def new_rob_entry (decode_packet : DecodePacket) (u : Uninit) : ROBEntry :=
  { u.rob_entry with
    busy := true
    dest := decode_packet.rd
    value := 0
    completed := false
    is_store := decide (decode_packet.opcode = Opcode.STORE)
    mem_addr := 0
    mem_data := 0
    pc := decode_packet.pc }

/-- The reservation-station entry that `issue_proc` builds (lines 123-188); `rob` is the
reorder buffer after the new ROB entry has been written. -/
def new_rs_entry (s : ExecutionUnit) (rob : ReorderBuffer) (decode_packet : DecodePacket)
    (u : Uninit) : RSEntry :=
  let rs_entry : RSEntry :=
    { u.rs_entry with
      busy := true
      opcode := decode_packet.opcode
      funct3 := decode_packet.funct3
      funct7 := decode_packet.funct7
      rd := decode_packet.rd
      imm := decode_packet.imm
      pc := decode_packet.pc
      ready := true }
  let rs_entry := capture_rs1 s rob decode_packet rs_entry
  capture_rs2 s rob decode_packet rs_entry

/-- Translation of `ExecutionUnit::issue_proc`. -/
def issue_proc (s : ExecutionUnit) (reset : Bool) (decode_packet : DecodePacket) (u : Uninit) :
    ExecutionUnit :=
  if reset then
    { s with
      rs_alu := s.rs_alu.reset
      rs_mem := s.rs_mem.reset
      rs_branch := s.rs_branch.reset
      rob := s.rob.reset
      reg_status := forRange 32 (fun i st => setAt st i { busy := false, rob_entry := 0 })
        s.reg_status }
  else if !decode_packet.valid then s
  else if s.rob.is_full then s
  else
    let rs := select_pool decode_packet.opcode
    if (s.pool rs).is_full then s
    else
      let alloc := s.rob.allocate_entry
      let rob_index := alloc.2
      if rob_index < 0 then { s with rob := alloc.1 }
      else
        let rob := alloc.1.update_entry rob_index (new_rob_entry decode_packet u)
        let rs_entry := new_rs_entry s rob decode_packet u
        let s1 := { s with rob := rob }
        let s2 := s1.set_pool rs ((s1.pool rs).add_entry rs_entry rob_index).1
        if decode_packet.rd ≠ 0 ∧ decode_packet.opcode ≠ Opcode.STORE ∧
            decode_packet.opcode ≠ Opcode.BRANCH then
          { s2 with
            reg_status := setAt s2.reg_status decode_packet.rd
              { busy := true, rob_entry := (rob_index % 256).toNat } }
        else s2

/-- Translation of `ExecutionUnit::execute_alu_op`; `result` is the packet passed by
reference. -/
def execute_alu_op (entry : RSEntry) (result : ExecutePacket) : ExecutePacket :=
  let result := { result with
    instruction := 0, pc := entry.pc, rd := entry.rd, mem_access := false, mem_write := false,
    branch_taken := false }
  let op1 : Nat := entry.Vj
  let op2 : Nat := if entry.opcode = Opcode.OP_IMM then sext64 entry.imm else entry.Vk
  match entry.opcode with
  | .LUI => { result with result := sext64 entry.imm }
  | .AUIPC => { result with result := (entry.pc + sext64 entry.imm) % W64 }
  | .OP | .OP_IMM =>
    if entry.funct3 = Funct3.ADD then
      if entry.opcode = Opcode.OP ∧ entry.funct7 &&& 0x20 ≠ 0 then
        { result with result := sext64 ((op1 : Int) - (op2 : Int)) }
      else
        { result with result := (op1 + op2) % W64 }
    else if entry.funct3 = Funct3.SLT then
      { result with result := if toInt64 op1 < toInt64 op2 then 1 else 0 }
    else if entry.funct3 = Funct3.SLTU then
      { result with result := if op1 < op2 then 1 else 0 }
    else if entry.funct3 = Funct3.XOR then
      { result with result := op1 ^^^ op2 }
    else if entry.funct3 = Funct3.OR then
      { result with result := op1 ||| op2 }
    else if entry.funct3 = Funct3.AND then
      { result with result := op1 &&& op2 }
    else if entry.funct3 = Funct3.SLL then
      { result with result := (op1 <<< (op2 &&& 0x3F)) % W64 }
    else if entry.funct3 = Funct3.SRL then
      if entry.opcode = Opcode.OP ∧ entry.funct7 &&& 0x20 ≠ 0 then
        { result with result := sext64 (Int.shiftRight (toInt64 op1) (op2 &&& 0x3F)) }
      else
        { result with result := op1 >>> (op2 &&& 0x3F) }
    else
      { result with result := 0 }
  | _ => { result with result := 0 }

/-- Translation of `ExecutionUnit::execute_mem_op`; `mem` is the memory behind
`mem_interface`, which the function only reads. -/
def execute_mem_op (entry : RSEntry) (result : ExecutePacket) (mem : MemorySystem) :
    ExecutePacket :=
  let result := { result with
    instruction := 0, pc := entry.pc, rd := entry.rd, mem_access := true,
    mem_write := decide (entry.opcode = Opcode.STORE), branch_taken := false }
  let addr : Nat := (entry.Vj + sext64 entry.imm) % W64
  let result := { result with mem_addr := addr }
  if entry.opcode = Opcode.LOAD then
    let size : Nat :=
      if entry.funct3 = Funct3.LB ∨ entry.funct3 = Funct3.LBU then 1
      else if entry.funct3 = Funct3.LH ∨ entry.funct3 = Funct3.LHU then 2 else 4
    let data := mem.read_data addr size
    let data :=
      if entry.funct3 = Funct3.LB then
        if data &&& 0x80 ≠ 0 then data ||| 0xFFFFFFFFFFFFFF00 else data
      else if entry.funct3 = Funct3.LH then
        if data &&& 0x8000 ≠ 0 then data ||| 0xFFFFFFFFFFFF0000 else data
      else if entry.funct3 = Funct3.LW then
        if data &&& 0x80000000 ≠ 0 then data ||| 0xFFFFFFFF00000000 else data
      else data
    { result with result := data }
  else if entry.opcode = Opcode.STORE then
    { result with mem_data := entry.Vk, result := 0 }
  else result

/-- Translation of `ExecutionUnit::execute_branch_op`. -/
def execute_branch_op (entry : RSEntry) (result : ExecutePacket) : ExecutePacket :=
  let result := { result with
    instruction := 0, pc := entry.pc, rd := entry.rd, mem_access := false, mem_write := false }
  let result := { result with branch_taken := false, branch_target := (entry.pc + 4) % W64 }
  match entry.opcode with
  | .JAL =>
    { result with
      result := (entry.pc + 4) % W64
      branch_taken := true
      branch_target := (entry.pc + sext64 entry.imm) % W64 }
  | .JALR =>
    { result with
      result := (entry.pc + 4) % W64
      branch_taken := true
      branch_target := ((entry.Vj + sext64 entry.imm) % W64) &&& 0xFFFFFFFFFFFFFFFE }
  | .BRANCH =>
    let taken : Bool :=
      if entry.funct3 = Funct3.BEQ then decide (entry.Vj = entry.Vk)
      else if entry.funct3 = Funct3.BNE then decide (entry.Vj ≠ entry.Vk)
      else if entry.funct3 = Funct3.BLT then decide (toInt64 entry.Vj < toInt64 entry.Vk)
      else if entry.funct3 = Funct3.BGE then decide (toInt64 entry.Vj ≥ toInt64 entry.Vk)
      else if entry.funct3 = Funct3.BLTU then decide (entry.Vj < entry.Vk)
      else if entry.funct3 = Funct3.BGEU then decide (entry.Vj ≥ entry.Vk)
      else false
    let result := { result with branch_taken := taken }
    let result :=
      if result.branch_taken then
        { result with branch_target := (entry.pc + sext64 entry.imm) % W64 }
      else result
    { result with result := 0 }
  | _ => { result with result := 0 }

/-- Translation of `ExecutionUnit::execute_proc`. The three loops run over the
snapshots returned by `get_ready_entries`. -/
def execute_proc (s : ExecutionUnit) (reset : Bool) (u : Uninit) : ExecutionUnit :=
  if reset then s
  else
    let alu_ready := s.rs_alu.get_ready_entries
    let s := alu_ready.foldl
      (fun (s : ExecutionUnit) entry_pair =>
        let result := execute_alu_op entry_pair.1 { u.result with valid := true }
        let s := { s with rob := s.rob.complete_entry entry_pair.2 result.result }
        { s with rs_alu := (s.rs_alu.remove_entry entry_pair.2).1 })
      s
    let mem_ready := s.rs_mem.get_ready_entries
    let s := mem_ready.foldl
      (fun (s : ExecutionUnit) entry_pair =>
        let result := execute_mem_op entry_pair.1 { u.result with valid := true } s.mem
        let s :=
          if entry_pair.1.opcode = Opcode.LOAD then
            { s with rob := s.rob.complete_entry entry_pair.2 result.result }
          else if entry_pair.1.opcode = Opcode.STORE then
            { s with rob := s.rob.update_store_entry entry_pair.2 result.mem_addr result.mem_data }
          else s
        { s with rs_mem := (s.rs_mem.remove_entry entry_pair.2).1 })
      s
    let branch_ready := s.rs_branch.get_ready_entries
    branch_ready.foldl
      (fun (s : ExecutionUnit) entry_pair =>
        let result := execute_branch_op entry_pair.1 { u.result with valid := true }
        let s := { s with
          rob := s.rob.complete_branch_entry entry_pair.2 result.result result.branch_taken
            result.branch_target }
        let s := { s with execute_out := result }
        { s with rs_branch := (s.rs_branch.remove_entry entry_pair.2).1 })
      s

/-- Translation of `ExecutionUnit::complete_proc`. -/
def complete_proc (s : ExecutionUnit) (reset : Bool) : ExecutionUnit :=
  if reset then s
  else
    let got := s.rob.get_newly_completed
    got.2.foldl
      (fun (s : ExecutionUnit) completion =>
        let rob_index := completion.1
        let value := completion.2
        let s := { s with rs_alu := s.rs_alu.update_waiting_entries (rob_index + 1) value }
        let s := { s with rs_mem := s.rs_mem.update_waiting_entries (rob_index + 1) value }
        { s with rs_branch := s.rs_branch.update_waiting_entries (rob_index + 1) value })
      { s with rob := got.1 }

/-- The size argument that `commit_proc` passes to `write_data`. -/
def store_size (funct3 : Nat) : Nat :=
  if funct3 = Funct3.SB then 1 else if funct3 = Funct3.SH then 2 else 4

/-- The body of the `while` loop of `commit_proc`. -/
def commit_step (s : ExecutionUnit) (u : Uninit) : ExecutionUnit :=
  let entry := s.rob.get_head_entry u.rob_entry
  let s :=
    if entry.is_store then
      { s with mem := s.mem.write_data entry.mem_addr entry.mem_data (store_size entry.funct3) }
    else if entry.dest ≠ 0 then
      let s := { s with regfile := s.regfile.write (entry.dest : Int) entry.value }
      if ((s.reg_status entry.dest).rob_entry : Int) = s.rob.get_head_index then
        { s with
          reg_status := setAt s.reg_status entry.dest
            { s.reg_status entry.dest with busy := false } }
      else s
    else s
  { s with rob := s.rob.remove_head }

/-- The `while (!rob->is_empty() && rob->is_head_completed())` loop of `commit_proc`,
with a bound on the number of iterations. -/
def commit_loop : Nat → ExecutionUnit → Uninit → ExecutionUnit
  | 0, s, _ => s
  | fuel + 1, s, u =>
    if !s.rob.is_empty && s.rob.is_head_completed then commit_loop fuel (commit_step s u) u
    else s

/-- Translation of `ExecutionUnit::commit_proc`. Every iteration of the loop removes
the head of a non-empty buffer, so `count` iterations are all the loop can make. -/
def commit_proc (s : ExecutionUnit) (reset : Bool) (u : Uninit) : ExecutionUnit :=
  if reset then s else commit_loop s.rob.count s u

/-- One clock tick of the engine: the four processes in the order in which the
constructor registers them (issue, execute, complete, commit). -/
def clock_tick (s : ExecutionUnit) (reset : Bool) (decode_in : DecodePacket) (u : Uninit) :
    ExecutionUnit :=
  commit_proc (complete_proc (execute_proc (issue_proc s reset decode_in u) reset u) reset) reset u

/-- The engine after the ticks that consume the given decode packets, one per tick,
without reset. -/
def run (s : ExecutionUnit) : List (DecodePacket × Uninit) → ExecutionUnit
  | [] => s
  | (p, u) :: rest => run (s.clock_tick false p u) rest

/-- The engine between two ticks of a run from reset: the vectors have the sizes the
constructor gives them, the reorder buffer is empty with no busy slot, no
reservation-station slot is busy and no register is marked busy. -/
def Quiescent (s : ExecutionUnit) : Prop :=
  s.rs_alu.max_entries = 8 ∧ s.rs_mem.max_entries = 4 ∧ s.rs_branch.max_entries = 2 ∧
  s.rob.max_entries = 16 ∧ s.regfile.size = 32 ∧
  s.rs_alu.Idle ∧ s.rs_mem.Idle ∧ s.rs_branch.Idle ∧
  s.rob.count = 0 ∧ s.rob.head = s.rob.tail ∧ s.rob.head < 16 ∧
  (∀ i, i < 16 → (s.rob.entries i).busy = false) ∧
  (∀ r, r < 32 → (s.reg_status r).busy = false)

end ExecutionUnit

/-! ## Notions used in the statements about the engine -/

namespace DecodePacket

/-- The register fields of the packet are register numbers, as for every packet the
decoder builds from five-bit fields. -/
def InRange (p : DecodePacket) : Prop := p.rs1 < 32 ∧ p.rs2 < 32 ∧ p.rd < 32

instance (p : DecodePacket) : Decidable p.InRange := by
  unfold InRange
  infer_instance

end DecodePacket

namespace ExecutionUnit

/-- The reservation-station entry of a packet all of whose operands are read from the
register file at issue: both tags are 0 and the entry is ready. -/
def ready_entry (s : ExecutionUnit) (p : DecodePacket) (u : Uninit) : RSEntry :=
  { u.rs_entry with
    busy := true
    opcode := p.opcode
    funct3 := p.funct3
    funct7 := p.funct7
    rd := p.rd
    imm := p.imm
    pc := p.pc
    ready := true
    Vj := if p.rs1 ≠ 0 ∧ p.type ≠ InstructionType.U_TYPE ∧ p.type ≠ InstructionType.J_TYPE then
        s.regfile.read (p.rs1 : Int) else 0
    Qj := 0
    Vk := if p.rs2 ≠ 0 ∧ (p.type = InstructionType.R_TYPE ∨ p.type = InstructionType.S_TYPE ∨
        p.type = InstructionType.B_TYPE) then s.regfile.read (p.rs2 : Int) else 0
    Qk := 0 }

/-- The packet that `execute_proc` computes for an entry, by the pool it sits in. -/
def executed (e : RSEntry) (mem : MemorySystem) (u : Uninit) : ExecutePacket :=
  match select_pool e.opcode with
  | .alu => execute_alu_op e { u.result with valid := true }
  | .mem => execute_mem_op e { u.result with valid := true } mem
  | .branch => execute_branch_op e { u.result with valid := true }

end ExecutionUnit

/-! ## branch_predictor.cpp -/

inductive PredictorType where
  | ALWAYS_NOT_TAKEN | ALWAYS_TAKEN | STATIC_BTFN | ONE_BIT | TWO_BIT | GSHARE | TOURNAMENT
  deriving DecidableEq

/-! The values of `enum class TwoBitState`. -/

namespace TwoBitState
abbrev STRONGLY_NOT_TAKEN : Nat := 0
abbrev WEAKLY_NOT_TAKEN : Nat := 1
abbrev WEAKLY_TAKEN : Nat := 2
abbrev STRONGLY_TAKEN : Nat := 3
end TwoBitState

/-- The members of `BranchPredictor`; the three tables are the arrays of `bht_size`
elements (a table that `init_predictor` does not allocate is never accessed). The
`unsigned int` members wrap modulo `2^32`. -/
structure BranchPredictor where
  predictor_type : PredictorType
  bht_size : Nat
  ghr_bits : Nat
  bht_one_bit : Nat → Nat
  bht_two_bit : Nat → Nat
  pht : Nat → Nat
  ghr : Nat
  total_predictions : Nat
  correct_predictions : Nat

namespace BranchPredictor

/-- The state the constructor builds (`init_predictor`). -/
def init (type : PredictorType) (table_size : Nat) (history_bits : Nat) : BranchPredictor :=
  { predictor_type := type
    bht_size := table_size
    ghr_bits := history_bits
    bht_one_bit := fun _ => 0
    bht_two_bit := fun _ => TwoBitState.WEAKLY_NOT_TAKEN
    pht := fun _ => TwoBitState.WEAKLY_NOT_TAKEN
    ghr := 0
    total_predictions := 0
    correct_predictions := 0 }

/-- The `int32_t` that `static_predict` and `predict_next_pc` assemble from a B-type
word: the sign in bits 31..12, then bits 11..1. -/
def b_offset (inst : Nat) : Int :=
  let imm : Nat := if (inst >>> 31) &&& 0x1 ≠ 0 then 0xFFFFFFFF else 0
  toInt32 ((imm &&& 0xFFFFF000) ||| (((inst >>> 7) &&& 0x1) <<< 11) |||
    (((inst >>> 25) &&& 0x3F) <<< 5) ||| (((inst >>> 8) &&& 0xF) <<< 1))

/-- Translation of `BranchPredictor::static_predict`. -/
def static_predict (inst : Nat) : Bool := decide (b_offset inst < 0)

/-- Translation of `BranchPredictor::compute_bht_index`. -/
def compute_bht_index (bp : BranchPredictor) (pc : Nat) : Nat :=
  ((pc >>> 2) &&& ((bp.bht_size + W32 - 1) % W32)) % W32

/-- Translation of `BranchPredictor::compute_pht_index`. -/
def compute_pht_index (bp : BranchPredictor) (pc : Nat) : Nat :=
  (((pc >>> 2) ^^^ bp.ghr) &&& ((bp.bht_size + W32 - 1) % W32)) % W32

/-- Translation of `BranchPredictor::predict`: the new state and the prediction. -/
def predict (bp : BranchPredictor) (pc : Nat) (inst : Nat) : BranchPredictor × Bool :=
  let opcode := inst &&& 0x7F
  if opcode ≠ Opcode.BRANCH.toNat ∧ opcode ≠ Opcode.JAL.toNat ∧ opcode ≠ Opcode.JALR.toNat then
    (bp, false)
  else
    let prediction : Bool :=
      match bp.predictor_type with
      | .ALWAYS_NOT_TAKEN => false
      | .ALWAYS_TAKEN => true
      | .STATIC_BTFN => static_predict inst
      | .ONE_BIT => decide (bp.bht_one_bit (bp.compute_bht_index pc) = 1)
      | .TWO_BIT => decide (bp.bht_two_bit (bp.compute_bht_index pc) ≥ TwoBitState.WEAKLY_TAKEN)
      | .GSHARE => decide (bp.pht (bp.compute_pht_index pc) ≥ TwoBitState.WEAKLY_TAKEN)
      | .TOURNAMENT =>
        let bimodal_pred : Bool :=
          decide (bp.bht_two_bit (bp.compute_bht_index pc) ≥ TwoBitState.WEAKLY_TAKEN)
        let global_pred : Bool :=
          decide (bp.pht (bp.compute_pht_index pc) ≥ TwoBitState.WEAKLY_TAKEN)
        if pc &&& 0x100 ≠ 0 then global_pred else bimodal_pred
    ({ bp with total_predictions := (bp.total_predictions + 1) % W32 }, prediction)

/-- The new value of `ghr` in `update`. -/
def shift_ghr (bp : BranchPredictor) (taken : Bool) : Nat :=
  ((((bp.ghr <<< 1) % W32) ||| (if taken then 1 else 0)) &&& ((1 <<< bp.ghr_bits) - 1)) % W32

/-- The saturating step of a two-bit counter in `update`. -/
def step_counter (state : Nat) (taken : Bool) : Nat :=
  if taken then
    if state ≠ TwoBitState.STRONGLY_TAKEN then state + 1 else state
  else
    if state ≠ TwoBitState.STRONGLY_NOT_TAKEN then state - 1 else state

/-- The saturating step of a pattern-history counter in `update`. -/
def step_pht (state : Nat) (taken : Bool) : Nat :=
  if taken then
    if state < TwoBitState.STRONGLY_TAKEN then state + 1 else state
  else
    if state > TwoBitState.STRONGLY_NOT_TAKEN then state - 1 else state

/-- Translation of `BranchPredictor::update`. -/
def update (bp : BranchPredictor) (pc : Nat) (taken : Bool) : BranchPredictor :=
  match bp.predictor_type with
  | .ONE_BIT =>
    let index := bp.compute_bht_index pc
    let bp := { bp with bht_one_bit := setAt bp.bht_one_bit index (if taken then 1 else 0) }
    if (bp.bht_one_bit index = 1 ∧ taken = true) ∨ (bp.bht_one_bit index = 0 ∧ taken = false) then
      { bp with correct_predictions := (bp.correct_predictions + 1) % W32 }
    else bp
  | .TWO_BIT =>
    let index := bp.compute_bht_index pc
    let current_state := bp.bht_two_bit index
    let prediction : Bool := decide (current_state ≥ TwoBitState.WEAKLY_TAKEN)
    let bp :=
      if prediction = taken then
        { bp with correct_predictions := (bp.correct_predictions + 1) % W32 }
      else bp
    { bp with bht_two_bit := setAt bp.bht_two_bit index (step_counter current_state taken) }
  | .GSHARE =>
    let index := bp.compute_pht_index pc
    let current_state := bp.pht index
    let prediction : Bool := decide (current_state ≥ TwoBitState.WEAKLY_TAKEN)
    let bp :=
      if prediction = taken then
        { bp with correct_predictions := (bp.correct_predictions + 1) % W32 }
      else bp
    let bp := { bp with pht := setAt bp.pht index (step_pht current_state taken) }
    { bp with ghr := bp.shift_ghr taken }
  | .TOURNAMENT =>
    let bimodal_index := bp.compute_bht_index pc
    let global_index := bp.compute_pht_index pc
    let bimodal_state := bp.bht_two_bit bimodal_index
    let bp := { bp with
      bht_two_bit := setAt bp.bht_two_bit bimodal_index (step_counter bimodal_state taken) }
    let global_state := bp.pht global_index
    let bp := { bp with pht := setAt bp.pht global_index (step_pht global_state taken) }
    let bimodal_pred : Bool := decide (bimodal_state ≥ TwoBitState.WEAKLY_TAKEN)
    let global_pred : Bool := decide (global_state ≥ TwoBitState.WEAKLY_TAKEN)
    let bp :=
      if bimodal_pred = taken ∨ global_pred = taken then
        { bp with correct_predictions := (bp.correct_predictions + 1) % W32 }
      else bp
    { bp with ghr := bp.shift_ghr taken }
  | _ =>
    if (bp.predictor_type = PredictorType.ALWAYS_NOT_TAKEN ∧ taken = false) ∨
        (bp.predictor_type = PredictorType.ALWAYS_TAKEN ∧ taken = true) ∨
        (bp.predictor_type = PredictorType.STATIC_BTFN ∧ static_predict 0 = taken) then
      { bp with correct_predictions := (bp.correct_predictions + 1) % W32 }
    else bp

end BranchPredictor

/-! ## fetch_unit.cpp -/

/-- The members of `FetchUnit`. -/
structure FetchUnit where
  pc : Nat
  branch_predictor : BranchPredictor

namespace FetchUnit

/-- The state the constructor builds. -/
def init (predictor_type : PredictorType) : FetchUnit :=
  { pc := 0, branch_predictor := BranchPredictor.init predictor_type 1024 8 }

/-- The `int32_t` that `predict_next_pc` assembles from a J-type word: the sign in
bits 31..20, then bits 19..1. -/
def j_offset (inst : Nat) : Int :=
  let imm : Nat := if (inst >>> 31) &&& 0x1 ≠ 0 then 0xFFFFFFFF else 0
  toInt32 ((imm &&& 0xFFF00000) ||| (((inst >>> 12) &&& 0xFF) <<< 12) |||
    (((inst >>> 20) &&& 0x1) <<< 11) ||| (((inst >>> 21) &&& 0x3FF) <<< 1))

/-- Translation of `FetchUnit::predict_next_pc`: the new state (the predictor counts
the call) and the address returned. -/
def predict_next_pc (f : FetchUnit) (current_pc : Nat) (inst : Nat) :
    FetchUnit × Nat :=
  let opcode := inst &&& 0x7F
  if opcode = Opcode.JAL.toNat ∨ opcode = Opcode.JALR.toNat ∨ opcode = Opcode.BRANCH.toNat then
    let pred := f.branch_predictor.predict current_pc inst
    let f := { f with branch_predictor := pred.1 }
    let taken := pred.2
    if taken then
      if opcode = Opcode.JAL.toNat then
        (f, (current_pc + sext64 (j_offset inst)) % W64)
      else if opcode = Opcode.BRANCH.toNat then
        (f, (current_pc + sext64 (BranchPredictor.b_offset inst)) % W64)
      else (f, (current_pc + 4) % W64)
    else (f, (current_pc + 4) % W64)
  else (f, (current_pc + 4) % W64)

/-- Translation of `FetchUnit::fetch_proc`: the new state and the new value of
`fetch_out`, given its value so far (kept when the stage is stalled). -/
def fetch_proc (f : FetchUnit) (reset stall branch_taken : Bool) (branch_target : Nat)
    (mem : MemorySystem) (fetch_out : FetchPacket) (u : Uninit) : FetchUnit × FetchPacket :=
  if reset then
    ({ f with pc := 0 }, { u.fetch_packet with valid := false })
  else if !stall then
    let f := if branch_taken then { f with pc := branch_target } else f
    let inst := mem.read_instruction f.pc
    let packet : FetchPacket := { instruction := inst, pc := f.pc, valid := true }
    let next := f.predict_next_pc f.pc inst
    ({ next.1 with pc := next.2 }, packet)
  else (f, fetch_out)

/-- Translation of `FetchUnit::update_branch_prediction`. -/
def update_branch_prediction (f : FetchUnit) (pc : Nat) (taken : Bool) : FetchUnit :=
  { f with branch_predictor := f.branch_predictor.update pc taken }

end FetchUnit

/-! ## processor.cpp -/

/-- The members of `Processor` that the pipeline reads: the stages, the signals and the
two counters of `clock_proc`. The memory system is the field `mem` of the execution
unit (the fetch stage reads the same object), and the signal
`exec_writeback_channel` is its field `execute_out`. -/
structure Processor where
  fetchUnit : FetchUnit
  executionUnit : ExecutionUnit
  fetch_decode_channel : FetchPacket
  decode_exec_channel : DecodePacket
  stall_fetch : Bool
  stall_decode : Bool
  branch_taken : Bool
  branch_target : Nat
  total_instructions : Nat
  total_cycles : Nat

namespace Processor

/-- The signal between the execution unit and the write-back stage. -/
def exec_writeback_channel (p : Processor) : ExecutePacket := p.executionUnit.execute_out

/-- The state the constructor builds around a memory image; the three `empty_*`
packets of the constructor are indeterminate locals with `valid` cleared. -/
def init (predictor_type : PredictorType) (mem : MemorySystem) (u : Uninit) : Processor :=
  { fetchUnit := FetchUnit.init predictor_type
    executionUnit := ExecutionUnit.init mem { u.result with valid := false }
    fetch_decode_channel := { u.fetch_packet with valid := false }
    decode_exec_channel := { u.decode_packet with valid := false }
    stall_fetch := false
    stall_decode := false
    branch_taken := false
    branch_target := 0
    total_instructions := 0
    total_cycles := 0 }

/-- Translation of `Processor::clock_proc` (the calls into the performance analyzer
left out). It reads the signals at their values `p` from before the tick; `q` is the
state being built for after the tick, in which the fetch stage has already run. -/
def clock_proc (p q : Processor) : Processor :=
  let q := { q with total_cycles := (q.total_cycles + 1) % W64 }
  let exec_packet := p.exec_writeback_channel
  if exec_packet.valid then
    let q := { q with total_instructions := (q.total_instructions + 1) % W64 }
    if exec_packet.branch_taken then
      { q with
        branch_taken := true
        branch_target := exec_packet.branch_target
        fetchUnit := q.fetchUnit.update_branch_prediction exec_packet.pc exec_packet.branch_taken }
    else q
  else q

/-- One clock tick of the processor. The processes run in the order in which the
constructors register them: fetch, decode, the four processes of the execution unit,
(write-back and memory, which do nothing), `clock_proc`. Every process reads the
signals at their values from before the tick. -/
def clock_tick (p : Processor) (reset : Bool) (u : Uninit) : Processor :=
  let fetched := p.fetchUnit.fetch_proc reset p.stall_fetch p.branch_taken p.branch_target
    p.executionUnit.mem p.fetch_decode_channel u
  let decoded := DecodeUnit.decode_proc reset p.stall_decode p.fetch_decode_channel
    p.decode_exec_channel u
  let engine := p.executionUnit.clock_tick reset p.decode_exec_channel u
  clock_proc p
    { p with
      fetchUnit := fetched.1
      fetch_decode_channel := fetched.2
      decode_exec_channel := decoded
      executionUnit := engine }

/-- The processor after `n` ticks without reset; `us i` is the indeterminate stack
contents of tick `i` (the first tick being tick 0). -/
def run (p : Processor) (us : Nat → Uninit) : Nat → Processor
  | 0 => p
  | n + 1 => (run p us n).clock_tick false (us n)

end Processor

/-! ## Reference definitions, written from the specification -/

namespace Spec

/-- The bit field `inst[hi:lo]`, as an unsigned number. -/
def bits (inst hi lo : Nat) : Nat := (inst / 2 ^ lo) % 2 ^ (hi + 1 - lo)

/-- Sign extension of a `w`-bit field: the value of the field read as two's complement. -/
def sext (w : Nat) (x : Nat) : Int := if x < 2 ^ (w - 1) then (x : Int) else (x : Int) - 2 ^ w

/-- I-type immediate: `sext12(inst[31:20])`. -/
def imm_I (inst : Nat) : Int := sext 12 (bits inst 31 20)

/-- S-type immediate: `sext12(inst[31:25] ++ inst[11:7])`. -/
def imm_S (inst : Nat) : Int := sext 12 (bits inst 31 25 * 2 ^ 5 + bits inst 11 7)

/-- B-type immediate: `sext13(inst[31] ++ inst[7] ++ inst[30:25] ++ inst[11:8] ++ 0)`. -/
def imm_B (inst : Nat) : Int :=
  sext 13 (bits inst 31 31 * 2 ^ 12 + bits inst 7 7 * 2 ^ 11 + bits inst 30 25 * 2 ^ 5 +
    bits inst 11 8 * 2)

/-- U-type immediate: `inst[31:12]` shifted left by 12, as a signed 32-bit value. -/
def imm_U (inst : Nat) : Int := sext 32 (bits inst 31 12 * 2 ^ 12)

/-- J-type immediate: `sext21(inst[31] ++ inst[19:12] ++ inst[20] ++ inst[30:21] ++ 0)`. -/
def imm_J (inst : Nat) : Int :=
  sext 21 (bits inst 31 31 * 2 ^ 20 + bits inst 19 12 * 2 ^ 12 + bits inst 20 20 * 2 ^ 11 +
    bits inst 30 21 * 2)

/-- The two's-complement pattern of a signed 32-bit immediate. -/
def pattern (imm : Int) : Nat := (imm % 2 ^ 32).toNat

/-- The standard R-type encoding: funct7, rs2, rs1, funct3, rd, opcode. -/
def encode_R (opcode funct3 funct7 rd rs1 rs2 : Nat) : Nat :=
  funct7 * 2 ^ 25 + rs2 * 2 ^ 20 + rs1 * 2 ^ 15 + funct3 * 2 ^ 12 + rd * 2 ^ 7 + opcode

/-- The standard I-type encoding: imm[11:0], rs1, funct3, rd, opcode. -/
def encode_I (opcode funct3 rd rs1 : Nat) (imm : Int) : Nat :=
  bits (pattern imm) 11 0 * 2 ^ 20 + rs1 * 2 ^ 15 + funct3 * 2 ^ 12 + rd * 2 ^ 7 + opcode

/-- The standard S-type encoding: imm[11:5], rs2, rs1, funct3, imm[4:0], opcode. -/
def encode_S (opcode funct3 rs1 rs2 : Nat) (imm : Int) : Nat :=
  bits (pattern imm) 11 5 * 2 ^ 25 + rs2 * 2 ^ 20 + rs1 * 2 ^ 15 + funct3 * 2 ^ 12 +
    bits (pattern imm) 4 0 * 2 ^ 7 + opcode

/-- The standard B-type encoding: imm[12], imm[10:5], rs2, rs1, funct3, imm[4:1],
imm[11], opcode. -/
def encode_B (opcode funct3 rs1 rs2 : Nat) (imm : Int) : Nat :=
  bits (pattern imm) 12 12 * 2 ^ 31 + bits (pattern imm) 10 5 * 2 ^ 25 + rs2 * 2 ^ 20 +
    rs1 * 2 ^ 15 + funct3 * 2 ^ 12 + bits (pattern imm) 4 1 * 2 ^ 8 +
    bits (pattern imm) 11 11 * 2 ^ 7 + opcode

/-- The standard U-type encoding: imm[31:12], rd, opcode. -/
def encode_U (opcode rd : Nat) (imm : Int) : Nat :=
  bits (pattern imm) 31 12 * 2 ^ 12 + rd * 2 ^ 7 + opcode

/-- The standard J-type encoding: imm[20], imm[10:1], imm[11], imm[19:12], rd, opcode. -/
def encode_J (opcode rd : Nat) (imm : Int) : Nat :=
  bits (pattern imm) 20 20 * 2 ^ 31 + bits (pattern imm) 10 1 * 2 ^ 21 +
    bits (pattern imm) 11 11 * 2 ^ 20 + bits (pattern imm) 19 12 * 2 ^ 12 + rd * 2 ^ 7 + opcode

/-- A signed 32-bit immediate sign-extended to a 64-bit pattern. -/
def sext64 (imm : Int) : Nat := if 0 ≤ imm then imm.toNat else (2 ^ 64 + imm).toNat

/-- The value of a 64-bit pattern read as a signed number. -/
def signed64 (x : Nat) : Int := sext 64 x

/-- The reference ALU of the specification for the operations other than the shifts:
`op1 = Vj`; `op2` is the sign-extended immediate for OP_IMM and `Vk` otherwise; LUI and
AUIPC; ADD/SUB, SLT, SLTU, XOR, OR, AND by funct3; 0 for any other opcode. The shifts
(funct3 001 and 101) are not described here (`none`). -/
def alu (opcode : Opcode) (funct3 funct7 : Nat) (Vj Vk : Nat) (imm : Int) (pc : Nat) :
    Option Nat :=
  let op1 := Vj
  let op2 := if opcode = Opcode.OP_IMM then sext64 imm else Vk
  match opcode with
  | .LUI => some (sext64 imm)
  | .AUIPC => some ((pc + sext64 imm) % 2 ^ 64)
  | .OP | .OP_IMM =>
    match funct3 with
    | 0 =>
      if opcode = Opcode.OP ∧ funct7 / 32 % 2 = 1 then some ((op1 + (2 ^ 64 - op2)) % 2 ^ 64)
      else some ((op1 + op2) % 2 ^ 64)
    | 2 => some (if signed64 op1 < signed64 op2 then 1 else 0)
    | 3 => some (if op1 < op2 then 1 else 0)
    | 4 => some (op1 ^^^ op2)
    | 6 => some (op1 ||| op2)
    | 7 => some (op1 &&& op2)
    | 1 => none
    | 5 => none
    | _ => some 0
  | _ => some 0

end Spec


/-! ## Inputs of the scenarios -/

namespace ExecutePacket

/-- The packet with every field zero. -/
def zero : ExecutePacket :=
  { instruction := 0, pc := 0, rd := 0, result := 0, mem_access := false, mem_write := false,
    mem_addr := 0, mem_data := 0, branch_taken := false, branch_target := 0, valid := false }

end ExecutePacket

namespace Uninit

/-- Stack contents that are all zero. -/
def zero : Uninit :=
  { rob_entry := ReorderBuffer.zero_entry
    rs_entry := ReservationStation.zero_entry
    result := ExecutePacket.zero
    fetch_packet := { instruction := 0, pc := 0, valid := false }
    decode_packet :=
      { instruction := 0, pc := 0, type := InstructionType.UNKNOWN, opcode := Opcode.UNKNOWN,
        funct3 := 0, funct7 := 0, rs1 := 0, rs2 := 0, rd := 0, imm := 0, valid := false } }

end Uninit

namespace DecodeUnit

/-- The packet the decoder passes to the engine for the word `inst` fetched at `pc`. -/
def decode_word (inst pc : Nat) : DecodePacket :=
  decode { instruction := inst, pc := pc, valid := true }

end DecodeUnit

namespace ExecutionUnit

/-- The engine as the constructor leaves it, around an all-zero memory. -/
def fresh : ExecutionUnit := init MemorySystem.init ExecutePacket.zero

end ExecutionUnit

namespace Processor

/-- The processor between two ticks of a run from the constructor: the stall signals
are low (no process writes them), the engine is quiescent and a valid packet in the
decode channel carries register numbers. -/
def Steady (p : Processor) : Prop :=
  p.stall_fetch = false ∧ p.stall_decode = false ∧ p.executionUnit.Quiescent ∧
  (p.decode_exec_channel.valid = true → p.decode_exec_channel.InRange)

end Processor

namespace Processor

/-- The processor at the end of the reset phase of `sc_main`: built with the default
predictor (two_bit) around a memory image, then one tick with `reset` high. -/
def boot (mem : MemorySystem) (u : Uninit) : Processor :=
  (init PredictorType.TWO_BIT mem u).clock_tick true u

/-- The image of the loop scenario: `addi x1,x0,3` at 0, `addi x1,x1,-1` at 4,
`bne x1,x0,-4` at 8, zeros elsewhere. -/
def loop_image : MemorySystem :=
  MemorySystem.init.load_program
    [0x93, 0x00, 0x30, 0x00, 0x93, 0x80, 0xF0, 0xFF, 0xE3, 0x9E, 0x00, 0xFE]

/-- An image with `jal x0,+64` at 0 and zeros elsewhere. -/
def jump_image : MemorySystem :=
  MemorySystem.init.load_program [0x6F, 0x00, 0x00, 0x04]

/-- A processor whose reorder buffer is full (16 busy entries, none completed) while
the decode channel holds `addi x1,x0,7` and the fetch channel the younger
`addi x2,x0,5`. -/
def full_rob_example : Processor :=
  let p := init PredictorType.TWO_BIT MemorySystem.init Uninit.zero
  { p with
    executionUnit :=
      { p.executionUnit with
        rob :=
          { p.executionUnit.rob with
            count := 16
            entries := fun _ => { ReorderBuffer.zero_entry with busy := true } } }
    fetch_decode_channel := { instruction := 0x00500113, pc := 4, valid := true }
    decode_exec_channel := DecodeUnit.decode_word 0x00700093 0 }

end Processor


/-! ## Reference definitions for the shifts, the loads and the branches -/

namespace Spec

/-- Logical right shift: zeros are shifted in. -/
def srl (x n : Nat) : Nat := x / 2 ^ n

/-- Arithmetic right shift of a 64-bit pattern: bit 63 is replicated into the `n`
vacated positions. -/
def sra (x n : Nat) : Nat := x / 2 ^ n + (if x / 2 ^ 63 % 2 = 1 then 2 ^ 64 - 2 ^ (64 - n) else 0)

/-- Left shift of a 64-bit pattern. -/
def sll (x n : Nat) : Nat := (x * 2 ^ n) % 2 ^ 64

/-- The little-endian value of the `size` bytes of `mem` from `addr`. -/
def le_bytes (mem : Nat → Nat) (addr : Nat) : Nat → Nat
  | 0 => 0
  | size + 1 => le_bytes mem addr size + mem (addr + size) * 256 ^ size

/-- Sign extension of a `w`-bit value to a 64-bit pattern. -/
def sext_to64 (w : Nat) (x : Nat) : Nat := if x < 2 ^ (w - 1) then x else x + (2 ^ 64 - 2 ^ w)

/-- The number of bytes a load reads: 1 for LB/LBU, 2 for LH/LHU, else 4. -/
def load_size (funct3 : Nat) : Nat :=
  if funct3 = 0 ∨ funct3 = 4 then 1 else if funct3 = 1 ∨ funct3 = 5 then 2 else 4

/-- The value a load returns: LB, LH and LW sign-extended, every other funct3
zero-extended. -/
def load (funct3 : Nat) (mem : Nat → Nat) (addr : Nat) : Nat :=
  match funct3 with
  | 0 => sext_to64 8 (le_bytes mem addr 1)
  | 1 => sext_to64 16 (le_bytes mem addr 2)
  | 2 => sext_to64 32 (le_bytes mem addr 4)
  | 4 => le_bytes mem addr 1
  | 5 => le_bytes mem addr 2
  | _ => le_bytes mem addr 4

/-- The outcome of a conditional branch, by funct3. -/
def branch_taken (funct3 : Nat) (Vj Vk : Nat) : Bool :=
  match funct3 with
  | 0 => decide (Vj = Vk)
  | 1 => decide (Vj ≠ Vk)
  | 4 => decide (signed64 Vj < signed64 Vk)
  | 5 => decide (signed64 Vj ≥ signed64 Vk)
  | 6 => decide (Vj < Vk)
  | 7 => decide (Vj ≥ Vk)
  | _ => false

/-- The nine opcodes that the decoder maps to an instruction format or executes. -/
def known_opcodes : List Nat :=
  [0b0110111, 0b0010111, 0b1101111, 0b1100111, 0b1100011, 0b0000011, 0b0100011, 0b0010011,
   0b0110011]

end Spec

/-! ## Sequences of calls -/

namespace RegisterFile

/-- A call of one of the two mutating member functions of `RegisterFile`. -/
inductive Call where
  | write (index : Int) (value : Nat)
  | reset

/-- The register file after a call. -/
def call (rf : RegisterFile) : Call → RegisterFile
  | .write index value => rf.write index value
  | .reset => rf.reset

/-- The register file after a sequence of calls. -/
def calls (rf : RegisterFile) (cs : List Call) : RegisterFile := cs.foldl call rf

end RegisterFile

namespace ReorderBuffer

/-- A call of one of the member functions of `ReorderBuffer` that can change it,
`reset` apart. -/
inductive Call where
  | allocate_entry
  | update_entry (index : Int) (entry : ROBEntry)
  | update_store_entry (index : Int) (addr data : Nat)
  | complete_entry (index : Int) (value : Nat)
  | complete_branch_entry (index : Int) (value : Nat) (taken : Bool) (target : Nat)
  | remove_head
  | get_newly_completed

/-- The buffer after a call. -/
def call (rob : ReorderBuffer) : Call → ReorderBuffer
  | .allocate_entry => rob.allocate_entry.1
  | .update_entry index entry => rob.update_entry index entry
  | .update_store_entry index addr data => rob.update_store_entry index addr data
  | .complete_entry index value => rob.complete_entry index value
  | .complete_branch_entry index value taken target =>
    rob.complete_branch_entry index value taken target
  | .remove_head => rob.remove_head
  | .get_newly_completed => rob.get_newly_completed.1

/-- The buffer after a sequence of calls. -/
def calls (rob : ReorderBuffer) (cs : List Call) : ReorderBuffer := cs.foldl call rob

/-- The ring invariant: head and tail are positions of the ring, `count` is at most
the capacity, `count = (tail - head) mod capacity` when the buffer is not full and
`tail = head` when `count` is the capacity. -/
def Ring (rob : ReorderBuffer) : Prop :=
  rob.head < rob.max_entries ∧ rob.tail < rob.max_entries ∧ rob.count ≤ rob.max_entries ∧
  (rob.count ≠ rob.max_entries →
    (rob.count : Int) = ((rob.tail : Int) - (rob.head : Int)) % (rob.max_entries : Int)) ∧
  (rob.count = rob.max_entries → rob.tail = rob.head)

end ReorderBuffer

namespace ExecutionUnit

/-- The engine after a sequence of ticks, each with its value of `reset`, its decode
packet and its indeterminate stack contents. -/
def run_ticks (s : ExecutionUnit) : List (Bool × DecodePacket × Uninit) → ExecutionUnit
  | [] => s
  | (reset, p, u) :: rest => run_ticks (s.clock_tick reset p u) rest

end ExecutionUnit

namespace ExecutionUnit

/-- The value of the local `taken` in the BRANCH case of `execute_branch_op`: the
inner `switch` on funct3. -/
def branch_cond (entry : RSEntry) : Bool :=
  if entry.funct3 = Funct3.BEQ then decide (entry.Vj = entry.Vk)
  else if entry.funct3 = Funct3.BNE then decide (entry.Vj ≠ entry.Vk)
  else if entry.funct3 = Funct3.BLT then decide (toInt64 entry.Vj < toInt64 entry.Vk)
  else if entry.funct3 = Funct3.BGE then decide (toInt64 entry.Vj ≥ toInt64 entry.Vk)
  else if entry.funct3 = Funct3.BLTU then decide (entry.Vj < entry.Vk)
  else if entry.funct3 = Funct3.BGEU then decide (entry.Vj ≥ entry.Vk)
  else false

end ExecutionUnit


/-! ## Predicates on reservation-station entries -/

namespace RSEntry

/-- The entry is ready exactly when both tags are 0. -/
def ReadyIff (e : RSEntry) : Prop := e.ready = true ↔ (e.Qj = 0 ∧ e.Qk = 0)

end RSEntry

namespace ReservationStation

/-- Every busy slot of the pool is ready exactly when both its tags are 0. -/
def ReadyInv (rs : ReservationStation) : Prop :=
  ∀ i, i < rs.max_entries → (rs.entries i).busy = true → (rs.entries i).ReadyIff

end ReservationStation

namespace ExecutionUnit

/-- The loop body of `commit_proc` run `k` times. -/
def commit_steps : Nat → ExecutionUnit → Uninit → ExecutionUnit
  | 0, s, _ => s
  | k + 1, s, u => commit_steps k (commit_step s u) u

/-- An engine whose reorder buffer holds three entries, of which the first and the
third are completed. -/
def commit_example : ExecutionUnit :=
  { fresh with
    rob := fresh.rob.calls
      [.allocate_entry, .allocate_entry, .allocate_entry, .complete_entry 0 5,
        .complete_entry 2 7] }

/-- An engine that has issued `addi x1, x0, 7` twice and completed the first of the
two: the register status of x1 names the second one. -/
def rename_example : ExecutionUnit :=
  let s := (fresh.issue_proc false (DecodeUnit.decode_word 0x00700093 0) Uninit.zero).issue_proc
    false (DecodeUnit.decode_word 0x00700093 4) Uninit.zero
  { s with rob := s.rob.complete_entry 0 7 }

end ExecutionUnit

namespace BranchPredictor

/-- The predictor after `n` consecutive calls `update(pc, taken)`. -/
def update_n (bp : BranchPredictor) (pc : Nat) (taken : Bool) : Nat → BranchPredictor
  | 0 => bp
  | n + 1 => (update_n bp pc taken n).update pc taken

/-- The counters of the tables are two-bit values. -/
def CountersInRange (bp : BranchPredictor) : Prop :=
  ∀ i, bp.bht_two_bit i ≤ 3 ∧ bp.pht i ≤ 3

/-- The history register once `history_bits` outcomes in direction `d` have been
shifted in: all ones or all zeros. -/
def settled_ghr (history_bits : Nat) (d : Bool) : Nat :=
  if d then 2 ^ history_bits - 1 else 0

/-- A two-bit counter in range that is at least `m` steps away from the end opposite
to direction `d`. -/
def Toward (d : Bool) (m : Nat) (c : Nat) : Prop :=
  if d then m ≤ c ∧ c ≤ 3 else c + m ≤ 3

/-- A gshare predictor built with no history bits whose members hold a history
register of 1 and pattern counters of 0 (strongly not taken). -/
def stale_history : BranchPredictor :=
  { init PredictorType.GSHARE 1024 0 with ghr := 1, pht := fun _ => 0 }

end BranchPredictor


/-! ## Calls of the memory system and of the branch predictor -/

namespace MemorySystem

/-- A call of one of the three access functions of `MemorySystem`. -/
inductive Call where
  | read_instruction (addr : Nat)
  | read_data (addr size : Nat)
  | write_data (addr data size : Nat)

/-- The memory after a call, and the value the call returns (0 for `write_data`,
which returns nothing). The two read functions assign no member. -/
def call (m : MemorySystem) : Call → MemorySystem × Nat
  | .read_instruction addr => (m, m.read_instruction addr)
  | .read_data addr size => (m, m.read_data addr size)
  | .write_data addr data size => (m.write_data addr data size, 0)

end MemorySystem

namespace Spec

/-- A saturating two-bit counter: up by one when taken unless it is 3, down by one when
not taken unless it is 0. -/
def saturating_step (c : Nat) (taken : Bool) : Nat :=
  if taken then (if c = 3 then 3 else c + 1) else (if c = 0 then 0 else c - 1)

end Spec

namespace BranchPredictor

/-- A call of one of the two member functions of `BranchPredictor` that the fetch
stage uses. -/
inductive Call where
  | predict (pc inst : Nat)
  | update (pc : Nat) (taken : Bool)

/-- The predictor after a call. -/
def call (bp : BranchPredictor) : Call → BranchPredictor
  | .predict pc inst => (bp.predict pc inst).1
  | .update pc taken => bp.update pc taken

/-- The predictor after a sequence of calls. -/
def calls (bp : BranchPredictor) (cs : List Call) : BranchPredictor := cs.foldl call bp

/-- Two predictors with the same members whose tables agree below `bht_size`, the
length of the arrays. -/
def SameBelowSize (a b : BranchPredictor) : Prop :=
  a.predictor_type = b.predictor_type ∧ a.bht_size = b.bht_size ∧ a.ghr_bits = b.ghr_bits ∧
  a.ghr = b.ghr ∧
  ∀ i, i < a.bht_size →
    a.bht_one_bit i = b.bht_one_bit i ∧ a.bht_two_bit i = b.bht_two_bit i ∧ a.pht i = b.pht i

end BranchPredictor

namespace Processor

/-- The calls `update_branch_prediction(pc, taken)` that `clock_proc` makes in the tick
that starts in state `p`, as pairs of arguments. -/
def update_calls (p : Processor) : List (Nat × Bool) :=
  let exec_packet := p.exec_writeback_channel
  if exec_packet.valid then
    if exec_packet.branch_taken then [(exec_packet.pc, exec_packet.branch_taken)] else []
  else []

/-- The processor after `n` ticks; `resets i` is the value of the reset input in tick
`i` and `us i` the indeterminate stack contents of that tick. -/
def run_with (p : Processor) (resets : Nat → Bool) (us : Nat → Uninit) : Nat → Processor
  | 0 => p
  | n + 1 => (run_with p resets us n).clock_tick (resets n) (us n)

end Processor


/-! ## Well-formedness of the engine -/

namespace ReorderBuffer

/-- Slot `i` lies among the `count` slots starting at `head`, in ring order. -/
def InWindow (rob : ReorderBuffer) (i : Nat) : Prop :=
  (i + rob.max_entries - rob.head) % rob.max_entries < rob.count

/-- Slot `k` is a slot of the buffer that is busy and not completed. -/
def Pending (rob : ReorderBuffer) (k : Nat) : Prop :=
  k < rob.max_entries ∧ (rob.entries k).busy = true ∧ (rob.entries k).completed = false

/-- Slot `k` is a slot of the buffer that is busy and whose result has not been
broadcast: it is not completed, or it is completed with `newly_completed` still set. -/
def Unbroadcast (rob : ReorderBuffer) (k : Nat) : Prop :=
  k < rob.max_entries ∧ (rob.entries k).busy = true ∧
    ((rob.entries k).completed = false ∨ rob.newly_completed k = true)

/-- What a completion call for slot `k` can do to the buffer: the ring and the `busy`,
`dest` and `is_store` fields stay, the slots other than `k` stay, and a slot that was
not completed or was flagged is afterwards not completed or flagged. -/
def CompletionOf (rob rob' : ReorderBuffer) (k : Nat) : Prop :=
  rob'.max_entries = rob.max_entries ∧ rob'.head = rob.head ∧ rob'.tail = rob.tail ∧
  rob'.count = rob.count ∧
  (∀ i, (rob'.entries i).busy = (rob.entries i).busy ∧ (rob'.entries i).dest = (rob.entries i).dest ∧
    (rob'.entries i).is_store = (rob.entries i).is_store) ∧
  (∀ i, i ≠ k → (rob'.entries i).completed = (rob.entries i).completed ∧
    rob'.newly_completed i = rob.newly_completed i) ∧
  (((rob.entries k).completed = false ∨ rob.newly_completed k = true) →
    ((rob'.entries k).completed = false ∨ rob'.newly_completed k = true))

end ReorderBuffer

namespace ExecutionUnit

/-- The vectors have the lengths the constructor gives them. -/
def Sized (s : ExecutionUnit) : Prop :=
  s.rs_alu.max_entries = 8 ∧ s.rs_mem.max_entries = 4 ∧ s.rs_branch.max_entries = 2 ∧
  s.rob.max_entries = 16 ∧ s.regfile.size = 32

/-- (a) A ROB slot is busy exactly when it lies among the `count` slots starting at
head. -/
def WindowBusy (s : ExecutionUnit) : Prop :=
  ∀ i, i < s.rob.max_entries → ((s.rob.entries i).busy = true ↔ s.rob.InWindow i)

/-- (b) Whenever `reg_status[r].busy`, r is not 0 and `rob_entry` names a busy,
non-store ROB slot whose dest is r. -/
def StatusNamed (s : ExecutionUnit) : Prop :=
  ∀ r, r < 32 → (s.reg_status r).busy = true →
    r ≠ 0 ∧ (s.reg_status r).rob_entry < s.rob.max_entries ∧
    (s.rob.entries (s.reg_status r).rob_entry).busy = true ∧
    (s.rob.entries (s.reg_status r).rob_entry).is_store = false ∧
    (s.rob.entries (s.reg_status r).rob_entry).dest = r

/-- (c), first part: every busy reservation-station entry is paired with a busy,
not-completed ROB slot. -/
def Paired (s : ExecutionUnit) : Prop :=
  ∀ q i, i < (s.pool q).max_entries → ((s.pool q).entries i).busy = true →
    ∃ k : Nat, (s.pool q).rob_indices i = (k : Int) ∧ s.rob.Pending k

/-- (c), second part: two different busy reservation-station entries, of the same pool
or not, are paired with different ROB slots. -/
def Distinct (s : ExecutionUnit) : Prop :=
  ∀ q i q' i', i < (s.pool q).max_entries → i' < (s.pool q').max_entries →
    ((s.pool q).entries i).busy = true → ((s.pool q').entries i').busy = true →
    (s.pool q).rob_indices i = (s.pool q').rob_indices i' → q = q' ∧ i = i'

/-- (c), third part: each non-zero tag of a busy reservation-station entry names, as
index + 1, a ROB slot with the property `ok`. -/
def Tagged (s : ExecutionUnit) (ok : Nat → Prop) : Prop :=
  ∀ q i, i < (s.pool q).max_entries → ((s.pool q).entries i).busy = true →
    (((s.pool q).entries i).Qj ≠ 0 → ok (((s.pool q).entries i).Qj - 1)) ∧
    (((s.pool q).entries i).Qk ≠ 0 → ok (((s.pool q).entries i).Qk - 1))

/-- (d) No busy ROB slot has `newly_completed` set. -/
def Unflagged (s : ExecutionUnit) : Prop :=
  ∀ i, i < s.rob.max_entries → (s.rob.entries i).busy = true → s.rob.newly_completed i = false

/-- The engine is well formed: the vectors have the constructor's lengths, the reorder
buffer is a ring, and (a), (b), (c) and (d) hold, the tags of (c) naming busy,
not-completed slots. -/
def WellFormed (s : ExecutionUnit) : Prop :=
  s.Sized ∧ s.rob.Ring ∧ s.WindowBusy ∧ s.StatusNamed ∧ s.Paired ∧ s.Distinct ∧
  s.Tagged s.rob.Pending ∧ s.Unflagged

/-- The engine between `issue_proc` and the end of `execute_proc`: as `WellFormed`,
except that a tag may name a slot that has completed in this tick and is still to be
broadcast, and that such slots are flagged. -/
def MidFormed (s : ExecutionUnit) : Prop :=
  s.Sized ∧ s.rob.Ring ∧ s.WindowBusy ∧ s.StatusNamed ∧ s.Paired ∧ s.Distinct ∧
  s.Tagged s.rob.Unbroadcast

/-- What one iteration of a loop of `execute_proc` over pool `q` does for the entry
paired with ROB slot `k`: a completion call for `k`, the removal of the entry from
the pool, and nothing to the other pools, the register status and the register file
size. -/
def ExecStep (q : Pool) (k : Nat) (s t : ExecutionUnit) : Prop :=
  s.rob.CompletionOf t.rob k ∧
  t.pool q = ((s.pool q).remove_entry (k : Int)).1 ∧
  (∀ q', q' ≠ q → t.pool q' = s.pool q') ∧
  t.reg_status = s.reg_status ∧ t.regfile = s.regfile

/-- The body of the first loop of `execute_proc` (ALU pool). -/
def alu_step (u : Uninit) (s : ExecutionUnit) (entry_pair : RSEntry × Int) : ExecutionUnit :=
  let result := execute_alu_op entry_pair.1 { u.result with valid := true }
  let s := { s with rob := s.rob.complete_entry entry_pair.2 result.result }
  { s with rs_alu := (s.rs_alu.remove_entry entry_pair.2).1 }

/-- The body of the second loop of `execute_proc` (memory pool). -/
def mem_step (u : Uninit) (s : ExecutionUnit) (entry_pair : RSEntry × Int) : ExecutionUnit :=
  let result := execute_mem_op entry_pair.1 { u.result with valid := true } s.mem
  let s :=
    if entry_pair.1.opcode = Opcode.LOAD then
      { s with rob := s.rob.complete_entry entry_pair.2 result.result }
    else if entry_pair.1.opcode = Opcode.STORE then
      { s with rob := s.rob.update_store_entry entry_pair.2 result.mem_addr result.mem_data }
    else s
  { s with rs_mem := (s.rs_mem.remove_entry entry_pair.2).1 }

/-- The body of the third loop of `execute_proc` (branch pool). -/
def branch_step (u : Uninit) (s : ExecutionUnit) (entry_pair : RSEntry × Int) : ExecutionUnit :=
  let result := execute_branch_op entry_pair.1 { u.result with valid := true }
  let s := { s with
    rob := s.rob.complete_branch_entry entry_pair.2 result.result result.branch_taken
      result.branch_target }
  let s := { s with execute_out := result }
  { s with rs_branch := (s.rs_branch.remove_entry entry_pair.2).1 }

/-- The body of the loop of `complete_proc`: the broadcast of one completion to the
three pools. -/
def broadcast (s : ExecutionUnit) (completion : Int × Nat) : ExecutionUnit :=
  let rob_index := completion.1
  let value := completion.2
  let s := { s with rs_alu := s.rs_alu.update_waiting_entries (rob_index + 1) value }
  let s := { s with rs_mem := s.rs_mem.update_waiting_entries (rob_index + 1) value }
  { s with rs_branch := s.rs_branch.update_waiting_entries (rob_index + 1) value }

/-- An engine that has issued `addi x1, x0, 7` and not yet executed it. -/
def issued_example : ExecutionUnit :=
  fresh.issue_proc false (DecodeUnit.decode_word 0x00700093 0) Uninit.zero

/-- An engine whose ROB members hold one busy, not-completed slot at head 0 (count 1)
while `tail` is still 0; the pools are empty and no register is marked busy. -/
def stale_tail_example : ExecutionUnit :=
  { fresh with
    rob :=
      { fresh.rob with
        count := 1
        entries := setAt fresh.rob.entries 0 { ReorderBuffer.zero_entry with busy := true } } }

end ExecutionUnit

/-! # Lemmas and theorems -/

/-! ## Loops -/

theorem forRange_zero {σ : Type} (body : Nat → σ → σ) (s : σ) : forRange 0 body s = s := rfl

theorem forRange_succ {σ : Type} (n : Nat) (body : Nat → σ → σ) (s : σ) :
    forRange (n + 1) body s = body n (forRange n body s) := by
  simp [forRange, List.range_succ, List.foldl_append]

theorem setAt_same {α : Type} (v : Nat → α) (i : Nat) (x : α) : setAt v i x i = x := by
  simp [setAt]

theorem setAt_other {α : Type} (v : Nat → α) (i j : Nat) (x : α) (h : j ≠ i) :
    setAt v i x j = v j := by
  simp [setAt, h]

theorem find_range_none (p : Nat → Bool) (n : Nat) (h : ∀ i, i < n → p i = false) :
    (List.range n).find? p = none := by
  rw [List.find?_eq_none]
  intro x hx
  simp [h x (List.mem_range.mp hx)]

theorem find_range_some (p : Nat → Bool) (n k : Nat) (hk : k < n) (hp : p k = true)
    (hlt : ∀ i, i < k → p i = false) : (List.range n).find? p = some k := by
  induction n with
  | zero => omega
  | succ m ih =>
    rw [List.range_succ, List.find?_append]
    by_cases hkm : k < m
    · rw [ih hkm]; rfl
    · have : k = m := by omega
      subst this
      rw [find_range_none p k hlt]
      simp [List.find?, hp]

theorem find_range_spec (p : Nat → Bool) (n k : Nat) (h : (List.range n).find? p = some k) :
    k < n ∧ p k = true ∧ ∀ i, i < k → p i = false := by
  induction n with
  | zero => simp at h
  | succ m ih =>
    rw [List.range_succ, List.find?_append] at h
    cases hm : (List.range m).find? p with
    | some j =>
      rw [hm] at h
      simp at h
      subst h
      have := ih hm
      exact ⟨by omega, this.2⟩
    | none =>
      rw [hm] at h
      simp [List.find?] at h
      split at h
      · simp at h
        subst h
        refine ⟨by omega, by assumption, ?_⟩
        intro i hi
        rw [List.find?_eq_none] at hm
        have := hm i (List.mem_range.mpr hi)
        simpa using this
      · simp at h

theorem filter_range_none (p : Nat → Bool) (n : Nat) (h : ∀ i, i < n → p i = false) :
    (List.range n).filter p = [] := by
  rw [List.filter_eq_nil_iff]
  intro x hx
  simp [h x (List.mem_range.mp hx)]

theorem filter_range_single (p : Nat → Bool) (n k : Nat) (hk : k < n) (hp : p k = true)
    (hne : ∀ i, i < n → i ≠ k → p i = false) : (List.range n).filter p = [k] := by
  induction n with
  | zero => omega
  | succ m ih =>
    rw [List.range_succ, List.filter_append]
    by_cases hkm : k < m
    · rw [ih hkm (fun i hi hik => hne i (by omega) hik)]
      have : p m = false := hne m (by omega) (by omega)
      simp [List.filter, this]
    · have : k = m := by omega
      subst this
      rw [filter_range_none p k (fun i hi => hne i (by omega) (by omega))]
      simp [List.filter, hp]

/-! ## Reservation stations -/

namespace ReservationStation

theorem is_full_eq_false (rs : ReservationStation) (k : Nat) (hk : k < rs.max_entries)
    (h : (rs.entries k).busy = false) : rs.is_full = false := by
  unfold is_full
  cases hf : (List.range rs.max_entries).find? (fun i => !(rs.entries i).busy) with
  | some j => rfl
  | none =>
    rw [List.find?_eq_none] at hf
    have := hf k (List.mem_range.mpr hk)
    simp [h] at this

theorem is_full_eq_true (rs : ReservationStation)
    (h : ∀ i, i < rs.max_entries → (rs.entries i).busy = true) : rs.is_full = true := by
  unfold is_full
  rw [find_range_none _ _ (fun i hi => by simp [h i hi])]

theorem add_entry_at (rs : ReservationStation) (entry : RSEntry) (rob_index : Int) (k : Nat)
    (hk : k < rs.max_entries) (hfree : (rs.entries k).busy = false)
    (hlt : ∀ i, i < k → (rs.entries i).busy = true) :
    rs.add_entry entry rob_index =
      ({ rs with entries := setAt rs.entries k entry,
                 rob_indices := setAt rs.rob_indices k rob_index }, true) := by
  unfold add_entry
  rw [find_range_some _ _ k hk (by simp [hfree]) (fun i hi => by simp [hlt i hi])]

theorem remove_entry_at (rs : ReservationStation) (rob_index : Int) (k : Nat)
    (hk : k < rs.max_entries) (hb : (rs.entries k).busy = true) (hi : rs.rob_indices k = rob_index)
    (hlt : ∀ i, i < k → ¬ ((rs.entries i).busy = true ∧ rs.rob_indices i = rob_index)) :
    rs.remove_entry rob_index =
      ({ rs with entries := setAt rs.entries k { rs.entries k with busy := false },
                 rob_indices := setAt rs.rob_indices k (-1) }, true) := by
  unfold remove_entry
  rw [find_range_some _ _ k hk (by simp [hb, hi]) (fun i hi' => by
    have := hlt i hi'
    simp only [not_and] at this
    simp only [Bool.and_eq_false_imp, decide_eq_false_iff_not]
    exact this)]

theorem get_ready_entries_eq (rs : ReservationStation) :
    rs.get_ready_entries =
      ((List.range rs.max_entries).filter (fun i => (rs.entries i).busy && (rs.entries i).ready)).map
        (fun i => (rs.entries i, rs.rob_indices i)) := by
  unfold get_ready_entries
  generalize rs.max_entries = n
  induction n with
  | zero => rfl
  | succ m ih =>
    rw [forRange_succ, ih, List.range_succ, List.filter_append, List.map_append]
    by_cases h : ((rs.entries m).busy && (rs.entries m).ready) = true
    · simp [List.filter, h]
    · simp only [Bool.not_eq_true] at h
      simp [List.filter, h]

theorem get_ready_entries_idle (rs : ReservationStation) (h : rs.Idle) :
    rs.get_ready_entries = [] := by
  rw [get_ready_entries_eq, filter_range_none _ _ (fun i hi => by simp [h i hi])]
  rfl

theorem update_loop (rs : ReservationStation) (tag : Int) (value : Nat) (n : Nat) :
    forRange n
      (fun i (r : ReservationStation) =>
        if (r.entries i).busy then
          { r with entries := setAt r.entries i (capture (r.entries i) tag value) }
        else r)
      rs =
      { rs with entries := fun i =>
          if i < n ∧ (rs.entries i).busy = true then capture (rs.entries i) tag value
          else rs.entries i } := by
  induction n with
  | zero => simp [forRange_zero]
  | succ m ih =>
    rw [forRange_succ, ih]
    simp only [Nat.lt_irrefl, false_and, if_false]
    by_cases hb : (rs.entries m).busy = true
    · simp only [hb, if_true]
      congr 1
      funext i
      simp only [setAt]
      by_cases him : i = m
      · subst him; simp [hb]
      · by_cases hlt : i < m
        · simp [him, hlt, Nat.lt_succ_of_lt hlt]
        · have : ¬ i < m + 1 := by omega
          simp [him, hlt, this]
    · simp only [hb]
      simp only [Bool.false_eq_true, if_false]
      congr 1
      funext i
      by_cases him : i = m
      · subst him; simp [hb]
      · by_cases hlt : i < m
        · simp [hlt, Nat.lt_succ_of_lt hlt]
        · have : ¬ i < m + 1 := by omega
          simp [hlt, this]

theorem update_waiting_entries_eq (rs : ReservationStation) (tag : Int) (value : Nat)
    (ht : tag ≠ 0) :
    rs.update_waiting_entries tag value =
      { rs with entries := fun i =>
          if i < rs.max_entries ∧ (rs.entries i).busy = true then capture (rs.entries i) tag value
          else rs.entries i } := by
  unfold update_waiting_entries
  rw [if_neg ht]
  exact update_loop rs tag value rs.max_entries

theorem update_waiting_entries_idle (rs : ReservationStation) (h : rs.Idle) (tag : Int)
    (value : Nat) : rs.update_waiting_entries tag value = rs := by
  by_cases ht : tag = 0
  · simp [update_waiting_entries, ht]
  · rw [update_waiting_entries_eq rs tag value ht]
    cases rs with
    | mk n es idx =>
      congr 1
      funext i
      by_cases hi : i < n
      · have := h i hi
        simp only at this
        simp [this]
      · simp [hi]

end ReservationStation

/-! ## Reorder buffer -/

namespace ReorderBuffer

theorem newly_loop (rob : ReorderBuffer) (n : Nat) :
    forRange n
      (fun i (acc : ReorderBuffer × List (Int × Nat)) =>
        if (acc.1.entries i).busy && acc.1.newly_completed i then
          ({ acc.1 with newly_completed := setAt acc.1.newly_completed i false },
           acc.2 ++ [((i : Int), (acc.1.entries i).value)])
        else acc)
      (rob, []) =
      ({ rob with newly_completed := fun i =>
          if i < n ∧ (rob.entries i).busy = true ∧ rob.newly_completed i = true then false
          else rob.newly_completed i },
       ((List.range n).filter (fun i => (rob.entries i).busy && rob.newly_completed i)).map
         (fun (i : Nat) => ((i : Int), (rob.entries i).value))) := by
  induction n with
  | zero => simp [forRange_zero]
  | succ m ih =>
    rw [forRange_succ, ih, List.range_succ, List.filter_append, List.map_append]
    simp only [Nat.lt_irrefl, false_and, if_false]
    by_cases hb : ((rob.entries m).busy && rob.newly_completed m) = true
    · simp only [hb, if_true]
      have hb' := hb
      simp only [Bool.and_eq_true] at hb'
      refine Prod.ext ?_ ?_
      · simp only
        congr 1
        funext i
        simp only [setAt]
        by_cases him : i = m
        · subst him; simp [hb'.1, hb'.2]
        · by_cases hlt : i < m
          · simp [him, hlt, Nat.lt_succ_of_lt hlt]
          · have : ¬ i < m + 1 := by omega
            simp [him, hlt, this]
      · simp [List.filter, hb]
    · simp only [hb]
      simp only [Bool.false_eq_true, if_false]
      have hb' : ¬ ((rob.entries m).busy = true ∧ rob.newly_completed m = true) := by
        simpa using hb
      refine Prod.ext ?_ ?_
      · simp only
        congr 1
        funext i
        by_cases him : i = m
        · subst him; simp [hb']
        · by_cases hlt : i < m
          · simp [hlt, Nat.lt_succ_of_lt hlt]
          · have : ¬ i < m + 1 := by omega
            simp [hlt, this]
      · simp only [Bool.not_eq_true] at hb
        simp [List.filter, hb]

theorem get_newly_completed_eq (rob : ReorderBuffer) :
    rob.get_newly_completed =
      ({ rob with newly_completed := fun i =>
          if i < rob.max_entries ∧ (rob.entries i).busy = true ∧ rob.newly_completed i = true
          then false else rob.newly_completed i },
       ((List.range rob.max_entries).filter
          (fun i => (rob.entries i).busy && rob.newly_completed i)).map
         (fun (i : Nat) => ((i : Int), (rob.entries i).value))) :=
  newly_loop rob rob.max_entries

theorem get_newly_completed_none (rob : ReorderBuffer)
    (h : ∀ i, i < rob.max_entries → (rob.entries i).busy = false) :
    rob.get_newly_completed = (rob, []) := by
  rw [get_newly_completed_eq, filter_range_none _ _ (fun i hi => by simp [h i hi])]
  refine Prod.ext ?_ rfl
  cases rob with
  | mk n hd tl c es nc =>
    simp only
    congr 1
    funext i
    by_cases hi : i < n
    · have := h i hi
      simp only at this
      simp [this]
    · simp [hi]

end ReorderBuffer

namespace ExecutionUnit

theorem new_rs_entry_quiescent (s : ExecutionUnit) (rob : ReorderBuffer) (p : DecodePacket)
    (u : Uninit) (hs : ∀ r, r < 32 → (s.reg_status r).busy = false) (hp : p.InRange) :
    new_rs_entry s rob p u = ready_entry s p u := by
  obtain ⟨h1, h2, _⟩ := hp
  simp only [new_rs_entry, capture_rs1, capture_rs2, ready_entry, hs p.rs1 h1, hs p.rs2 h2]
  by_cases c1 : p.rs1 ≠ 0 ∧ p.type ≠ InstructionType.U_TYPE ∧ p.type ≠ InstructionType.J_TYPE <;>
  by_cases c2 : p.rs2 ≠ 0 ∧ (p.type = InstructionType.R_TYPE ∨ p.type = InstructionType.S_TYPE ∨
        p.type = InstructionType.B_TYPE) <;>
  simp [c1, c2]

/-- The reorder buffer after the issue of a packet into a quiescent engine. -/
theorem issue_quiescent (s : ExecutionUnit) (p : DecodePacket) (u : Uninit)
    (hq : s.Quiescent) (hv : p.valid = true) (hp : p.InRange) :
    issue_proc s false p u =
      ({ s with
          rob :=
            { s.rob with
              tail := (s.rob.tail + 1) % 16
              count := 1
              entries := setAt s.rob.entries s.rob.tail (new_rob_entry p u)
              newly_completed := setAt s.rob.newly_completed s.rob.tail false }
          reg_status :=
            if p.rd ≠ 0 ∧ p.opcode ≠ Opcode.STORE ∧ p.opcode ≠ Opcode.BRANCH then
              setAt s.reg_status p.rd { busy := true, rob_entry := s.rob.tail }
            else s.reg_status } : ExecutionUnit).set_pool (select_pool p.opcode)
        { s.pool (select_pool p.opcode) with
          entries := setAt (s.pool (select_pool p.opcode)).entries 0 (ready_entry s p u)
          rob_indices := setAt (s.pool (select_pool p.opcode)).rob_indices 0 (s.rob.tail : Int) } := by
  obtain ⟨ha, hm, hb, hr, hf, ia, im, ib, hc, hht, hh, he, hst⟩ := hq
  have hfull : s.rob.is_full = false := by simp [ReorderBuffer.is_full, hc, hr]
  have hpool : (s.pool (select_pool p.opcode)).is_full = false := by
    cases select_pool p.opcode
    · exact ReservationStation.is_full_eq_false _ 0 (by simp [pool, ha]) (ia 0 (by omega))
    · exact ReservationStation.is_full_eq_false _ 0 (by simp [pool, hm]) (im 0 (by omega))
    · exact ReservationStation.is_full_eq_false _ 0 (by simp [pool, hb]) (ib 0 (by omega))
  have htl : s.rob.tail < 16 := by omega
  have hal : s.rob.allocate_entry =
      ({ s.rob with
          tail := (s.rob.tail + 1) % 16
          count := 1
          entries := setAt s.rob.entries s.rob.tail
            { s.rob.entries s.rob.tail with busy := true, completed := false }
          newly_completed := setAt s.rob.newly_completed s.rob.tail false }, (s.rob.tail : Int)) := by
    simp [ReorderBuffer.allocate_entry, hfull, hr, hc]
  have hidx : ¬ ((s.rob.tail : Int) < 0) := by omega
  have hidx2 : ¬ ((s.rob.tail : Int) < 0 ∨ (s.rob.tail : Int) ≥ 16) := by omega
  have hge : ¬ ((s.rob.tail : Int) ≥ 16) := by omega
  have hmod : ((s.rob.tail : Int) % 256).toNat = s.rob.tail := by omega
  have hadd : ∀ (rs : ReservationStation) (e : RSEntry) (i : Int), 0 < rs.max_entries → rs.Idle →
      (rs.add_entry e i).1 =
        { rs with entries := setAt rs.entries 0 e, rob_indices := setAt rs.rob_indices 0 i } := by
    intro rs e i h0 hid
    rw [ReservationStation.add_entry_at rs e i 0 h0 (hid 0 h0) (fun j hj => by omega)]
  simp only [issue_proc, hv, hfull, hpool, hal, hidx, hmod, Bool.false_eq_true, if_false,
    Bool.not_true, ReorderBuffer.update_entry, hr, Nat.cast_ofNat, hidx2, Int.toNat_ofNat]
  rw [new_rs_entry_quiescent s _ p u hst hp]
  have hsetset : setAt (setAt s.rob.entries s.rob.tail
      { s.rob.entries s.rob.tail with busy := true, completed := false }) s.rob.tail
      (new_rob_entry p u) = setAt s.rob.entries s.rob.tail (new_rob_entry p u) := by
    funext i; simp only [setAt]; split <;> rfl
  rw [hsetset]
  cases hsel : select_pool p.opcode
  · simp only [pool, set_pool]
    rw [hadd s.rs_alu _ _ (by omega) ia]
    simp only [hge, false_or, if_false, hr]
    split <;> rfl
  · simp only [pool, set_pool]
    rw [hadd s.rs_mem _ _ (by omega) im]
    simp only [hge, false_or, if_false, hr]
    split <;> rfl
  · simp only [pool, set_pool]
    rw [hadd s.rs_branch _ _ (by omega) ib]
    simp only [hge, false_or, if_false, hr]
    split <;> rfl

end ExecutionUnit

theorem setAt_setAt {α : Type} (v : Nat → α) (i : Nat) (x y : α) :
    setAt (setAt v i x) i y = setAt v i y := by
  funext j; simp only [setAt]; split <;> rfl

namespace ReservationStation

/-- The pool that holds exactly the entry `e` in slot 0. -/
theorem ready_single (rs : ReservationStation) (e : RSEntry) (i : Int) (h0 : 0 < rs.max_entries)
    (hid : rs.Idle) (hb : e.busy = true) (hr : e.ready = true) :
    ({ rs with entries := setAt rs.entries 0 e, rob_indices := setAt rs.rob_indices 0 i } :
      ReservationStation).get_ready_entries = [(e, i)] := by
  rw [get_ready_entries_eq]
  simp only
  rw [filter_range_single _ _ 0 h0 (by simp [setAt, hb, hr])
    (fun j hj hne => by simp [setAt, hne, hid j hj])]
  simp [setAt]

theorem remove_single (rs : ReservationStation) (e : RSEntry) (i : Int) (h0 : 0 < rs.max_entries)
    (hb : e.busy = true) :
    (({ rs with entries := setAt rs.entries 0 e, rob_indices := setAt rs.rob_indices 0 i } :
      ReservationStation).remove_entry i).1 =
      { rs with entries := setAt rs.entries 0 { e with busy := false },
                rob_indices := setAt rs.rob_indices 0 (-1) } := by
  rw [remove_entry_at
    ({ rs with entries := setAt rs.entries 0 e, rob_indices := setAt rs.rob_indices 0 i })
    i 0 h0 (by simp [setAt, hb]) (by simp [setAt]) (fun j hj => by omega)]
  simp only [setAt_setAt]
  simp [setAt]

theorem idle_after_remove (rs : ReservationStation) (e : RSEntry) (hid : rs.Idle) :
    ({ rs with entries := setAt rs.entries 0 { e with busy := false },
               rob_indices := setAt rs.rob_indices 0 (-1) } : ReservationStation).Idle := by
  intro j hj
  simp only [setAt]
  split
  · rfl
  · exact hid j hj

theorem idle_setAt (rs : ReservationStation) (ent : RSEntry) (idx : Nat → Int)
    (hid : rs.Idle) (h : ent.busy = false) :
    ({ max_entries := rs.max_entries, entries := setAt rs.entries 0 ent,
       rob_indices := idx } : ReservationStation).Idle := by
  intro j hj
  simp only [setAt]
  split
  · exact h
  · exact hid j hj

theorem update_idle_setAt (rs : ReservationStation) (ent : RSEntry) (idx : Nat → Int)
    (hid : rs.Idle) (tag : Int) (value : Nat) (h : ent.busy = false) :
    ({ max_entries := rs.max_entries, entries := setAt rs.entries 0 ent,
       rob_indices := idx } : ReservationStation).update_waiting_entries tag value =
      { max_entries := rs.max_entries, entries := setAt rs.entries 0 ent, rob_indices := idx } :=
  update_waiting_entries_idle _ (idle_setAt rs ent idx hid h) tag value

end ReservationStation

namespace ReorderBuffer

theorem newly_single (rob : ReorderBuffer) (k : Nat) (hk : k < rob.max_entries)
    (hb : (rob.entries k).busy = true) (hn : rob.newly_completed k = true)
    (ho : ∀ i, i < rob.max_entries → i ≠ k → (rob.entries i).busy = false) :
    rob.get_newly_completed =
      ({ rob with newly_completed := setAt rob.newly_completed k false },
       [((k : Int), (rob.entries k).value)]) := by
  rw [get_newly_completed_eq,
    filter_range_single _ _ k hk (by simp [hb, hn]) (fun j hj hne => by simp [ho j hj hne])]
  refine Prod.ext ?_ (by simp)
  simp only
  congr 1
  funext i
  simp only [setAt]
  by_cases hik : i = k
  · subst hik; simp [hk, hb, hn]
  · simp only [hik, if_false]
    by_cases hi : i < rob.max_entries
    · simp [ho i hi hik]
    · simp [hi]

end ReorderBuffer

namespace ReorderBuffer

/-- The broadcast list of a buffer whose only busy slot is `k`, newly completed. -/
theorem newly_lit (n hd tl c : Nat) (es : Nat → ROBEntry) (nc : Nat → Bool) (k : Nat)
    (ent : ROBEntry) (hk : k < n) (hb : ent.busy = true)
    (ho : ∀ i, i < n → (es i).busy = false) :
    ({ max_entries := n, head := hd, tail := tl, count := c, entries := setAt es k ent,
       newly_completed := setAt nc k true } : ReorderBuffer).get_newly_completed =
      ({ max_entries := n, head := hd, tail := tl, count := c, entries := setAt es k ent,
         newly_completed := setAt nc k false }, [((k : Int), ent.value)]) := by
  rw [newly_single _ k hk (by simp [setAt, hb]) (by simp [setAt])
    (fun i hi hne => by simp [setAt, hne, ho i hi])]
  simp [setAt_setAt, setAt]

end ReorderBuffer

theorem RegisterFile.write_size (rf : RegisterFile) (i : Int) (v : Nat) :
    (rf.write i v).size = rf.size := by
  unfold RegisterFile.write
  split
  · rfl
  · split <;> rfl

namespace ExecutionUnit

theorem ready_entry_busy (s : ExecutionUnit) (p : DecodePacket) (u : Uninit) :
    (s.ready_entry p u).busy = true := rfl

theorem ready_entry_ready (s : ExecutionUnit) (p : DecodePacket) (u : Uninit) :
    (s.ready_entry p u).ready = true := rfl

theorem ready_entry_opcode (s : ExecutionUnit) (p : DecodePacket) (u : Uninit) :
    (s.ready_entry p u).opcode = p.opcode := rfl

theorem new_rob_entry_busy (p : DecodePacket) (u : Uninit) : (new_rob_entry p u).busy = true := rfl

set_option maxHeartbeats 1000000 in
theorem tick_quiescent_aux (s : ExecutionUnit) (p : DecodePacket) (u : Uninit)
    (hq : s.Quiescent) (hv : p.valid = true) (hp : p.InRange) :
    (s.clock_tick false p u).Quiescent ∧
    (s.clock_tick false p u).rob.head = (s.rob.head + 1) % 16 ∧
    (s.clock_tick false p u).regfile =
      (if p.opcode ≠ Opcode.STORE ∧ p.rd ≠ 0 then
        s.regfile.write (p.rd : Int) (executed (s.ready_entry p u) s.mem u).result
       else s.regfile) ∧
    (s.clock_tick false p u).mem =
      (if p.opcode = Opcode.STORE then
        s.mem.write_data (executed (s.ready_entry p u) s.mem u).mem_addr
          (executed (s.ready_entry p u) s.mem u).mem_data (store_size u.rob_entry.funct3)
       else s.mem) ∧
    (s.clock_tick false p u).execute_out =
      (if select_pool p.opcode = Pool.branch then executed (s.ready_entry p u) s.mem u
       else s.execute_out) := by
  suffices h : ∀ t, t = s.clock_tick false p u →
      (t.Quiescent ∧ t.rob.head = (s.rob.head + 1) % 16 ∧
      t.regfile = (if p.opcode ≠ Opcode.STORE ∧ p.rd ≠ 0 then
          s.regfile.write (p.rd : Int) (executed (s.ready_entry p u) s.mem u).result
        else s.regfile) ∧
      t.mem = (if p.opcode = Opcode.STORE then
          s.mem.write_data (executed (s.ready_entry p u) s.mem u).mem_addr
            (executed (s.ready_entry p u) s.mem u).mem_data (store_size u.rob_entry.funct3)
        else s.mem) ∧
      t.execute_out = (if select_pool p.opcode = Pool.branch then
          executed (s.ready_entry p u) s.mem u else s.execute_out)) from h _ rfl
  intro t ht
  have hiss := issue_quiescent s p u hq hv hp
  obtain ⟨ha, hm, hb, hr, hf, ia, im, ib, hc, hht, hh, he, hst⟩ := hq
  have htl : s.rob.tail < 16 := by omega
  have hidx2 : ¬ ((s.rob.tail : Int) < 0 ∨ (s.rob.tail : Int) ≥ 16) := by omega
  have ha0 : 0 < s.rs_alu.max_entries := by omega
  have hm0 : 0 < s.rs_mem.max_entries := by omega
  have hb0 : 0 < s.rs_branch.max_entries := by omega
  have e1 := ReservationStation.get_ready_entries_idle s.rs_alu ia
  have e2 := ReservationStation.get_ready_entries_idle s.rs_mem im
  have e3 := ReservationStation.get_ready_entries_idle s.rs_branch ib
  have hn := fun (hd : Nat) (ent : ROBEntry) (hb : ent.busy = true) =>
    ReorderBuffer.newly_lit 16 hd ((s.rob.tail + 1) % 16) 1 s.rob.entries
      s.rob.newly_completed s.rob.tail ent htl hb he
  have u1 := fun (ent : RSEntry) (idx : Nat → Int) (tag : Int) (v : Nat) =>
    ReservationStation.update_idle_setAt s.rs_alu ent idx ia tag v
  have u2 := fun (ent : RSEntry) (idx : Nat → Int) (tag : Int) (v : Nat) =>
    ReservationStation.update_idle_setAt s.rs_mem ent idx im tag v
  have u3 := fun (ent : RSEntry) (idx : Nat → Int) (tag : Int) (v : Nat) =>
    ReservationStation.update_idle_setAt s.rs_branch ent idx ib tag v
  have v1 := ReservationStation.update_waiting_entries_idle s.rs_alu ia
  have v2 := ReservationStation.update_waiting_entries_idle s.rs_mem im
  have v3 := ReservationStation.update_waiting_entries_idle s.rs_branch ib
  have hd : (new_rob_entry p u).dest = p.rd := rfl
  have hst2 : (new_rob_entry p u).is_store = decide (p.opcode = Opcode.STORE) := rfl
  have hval : (new_rob_entry p u).value = 0 := rfl
  have hro : (s.ready_entry p u).opcode = p.opcode := rfl
  have hfn : (new_rob_entry p u).funct3 = u.rob_entry.funct3 := rfl
  unfold clock_tick at ht
  rw [hiss] at ht
  by_cases hrd : p.rd = 0 <;>
  by_cases hcs : ((s.reg_status p.rd).rob_entry : Int) = (s.rob.tail : Int) <;>
  cases hop : p.opcode <;> rw [hop] at ht hst2 hro <;>
    simp only [select_pool, set_pool, pool, execute_proc, Bool.false_eq_true, if_false,
      ReservationStation.ready_single s.rs_alu _ _ ha0 ia (ready_entry_busy s p u)
        (ready_entry_ready s p u),
      ReservationStation.ready_single s.rs_mem _ _ hm0 im (ready_entry_busy s p u)
        (ready_entry_ready s p u),
      ReservationStation.ready_single s.rs_branch _ _ hb0 ib (ready_entry_busy s p u)
        (ready_entry_ready s p u),
      List.foldl_cons, List.foldl_nil, e1, e2, e3,
      ReservationStation.remove_single s.rs_alu _ _ ha0 (ready_entry_busy s p u),
      ReservationStation.remove_single s.rs_mem _ _ hm0 (ready_entry_busy s p u),
      ReservationStation.remove_single s.rs_branch _ _ hb0 (ready_entry_busy s p u),
      ReorderBuffer.complete_entry, ReorderBuffer.complete_branch_entry,
      ReorderBuffer.update_store_entry, hidx2, hr, Nat.cast_ofNat, Int.toNat_ofNat, setAt_same,
      setAt_setAt, reduceCtorEq, not_false_eq_true, and_true, ne_eq, hro, if_true, hrd,
      not_true_eq_false, false_and, and_false] at ht <;>
    simp only [complete_proc, Bool.false_eq_true, if_false, hn, new_rob_entry_busy,
      List.foldl_cons, List.foldl_nil, u1, u2, u3, v1, v2, v3] at ht <;>
    simp only [commit_proc, Bool.false_eq_true, if_false, commit_loop, commit_step,
      ReorderBuffer.is_empty, ReorderBuffer.is_head_completed, ReorderBuffer.get_head_entry,
      ReorderBuffer.get_head_index, ReorderBuffer.remove_head, hht, setAt_same,
      Nat.one_ne_zero, decide_False, decide_True, Bool.not_false, Bool.true_and, if_true,
      Bool.and_self, Nat.sub_self, Nat.reduceSub, hd, hst2, hrd, hcs, reduceCtorEq, ne_eq,
      not_true_eq_false, not_false_eq_true, setAt_setAt] at ht
  all_goals
    subst ht
    refine ⟨⟨ha, hm, hb, rfl, ?_, ?_, ?_, ?_, rfl, rfl, Nat.mod_lt _ (by norm_num), ?_, ?_⟩,
      ?_, ?_, ?_, ?_⟩
    · first
        | exact hf
        | exact (RegisterFile.write_size _ _ _).trans hf
    · first
        | exact ia
        | exact ReservationStation.idle_setAt _ _ _ ia rfl
    · first
        | exact im
        | exact ReservationStation.idle_setAt _ _ _ im rfl
    · first
        | exact ib
        | exact ReservationStation.idle_setAt _ _ _ ib rfl
    · intro i hi
      simp only [setAt]
      split
      · rfl
      · exact he i hi
    · first
        | exact hst
        | (intro i hi
           simp only [setAt]
           split
           · rfl
           · exact hst i hi)
    · simp only [hht]
    · simp only [executed, select_pool, hro, hrd, reduceCtorEq, ne_eq, not_true_eq_false,
        not_false_eq_true, and_true, and_false, false_and, true_and, if_true, if_false]
    · simp only [executed, select_pool, hro, hfn, reduceCtorEq, if_true, if_false]
    · simp only [executed, select_pool, hro, reduceCtorEq, if_true, if_false]

end ExecutionUnit

namespace ExecutionUnit

/-- A tick that is offered no valid packet leaves a quiescent engine as it is. -/
theorem tick_invalid (s : ExecutionUnit) (p : DecodePacket) (u : Uninit)
    (hq : s.Quiescent) (hv : p.valid = false) : s.clock_tick false p u = s := by
  obtain ⟨ha, hm, hb, hr, hf, ia, im, ib, hc, hht, hh, he, hst⟩ := hq
  have e1 := ReservationStation.get_ready_entries_idle s.rs_alu ia
  have e2 := ReservationStation.get_ready_entries_idle s.rs_mem im
  have e3 := ReservationStation.get_ready_entries_idle s.rs_branch ib
  have hn := ReorderBuffer.get_newly_completed_none s.rob (by rw [hr]; exact he)
  have h1 : issue_proc s false p u = s := by
    simp only [issue_proc, hv, Bool.false_eq_true, if_false, Bool.not_false, if_true]
  have h2 : execute_proc s false u = s := by
    simp only [execute_proc, e1, e2, e3, List.foldl_nil, Bool.false_eq_true, if_false]
  have h3 : complete_proc s false = s := by
    simp only [complete_proc, hn, List.foldl_nil, Bool.false_eq_true, if_false]
  have h4 : commit_proc s false u = s := by
    simp only [commit_proc, hc, commit_loop, Bool.false_eq_true, if_false]
  rw [clock_tick, h1, h2, h3, h4]

end ExecutionUnit

namespace ReservationStation

theorem reset_loop (rs : ReservationStation) (n : Nat) :
    forRange n
      (fun i (r : ReservationStation) =>
        { r with
          entries := setAt r.entries i { r.entries i with busy := false }
          rob_indices := setAt r.rob_indices i (-1) })
      rs =
      { rs with
        entries := fun i => if i < n then { rs.entries i with busy := false } else rs.entries i
        rob_indices := fun i => if i < n then -1 else rs.rob_indices i } := by
  induction n with
  | zero => simp [forRange_zero]
  | succ m ih =>
    rw [forRange_succ, ih]
    simp only [Nat.lt_irrefl, if_false]
    congr 1
    · funext i
      simp only [setAt]
      by_cases him : i = m
      · subst him; simp
      · by_cases hlt : i < m
        · simp [him, hlt, Nat.lt_succ_of_lt hlt]
        · have : ¬ i < m + 1 := by omega
          simp [him, hlt, this]
    · funext i
      simp only [setAt]
      by_cases him : i = m
      · subst him; simp
      · by_cases hlt : i < m
        · simp [him, hlt, Nat.lt_succ_of_lt hlt]
        · have : ¬ i < m + 1 := by omega
          simp [him, hlt, this]

theorem reset_eq (rs : ReservationStation) :
    rs.reset =
      { rs with
        entries := fun i =>
          if i < rs.max_entries then { rs.entries i with busy := false } else rs.entries i
        rob_indices := fun i => if i < rs.max_entries then -1 else rs.rob_indices i } :=
  reset_loop rs rs.max_entries

theorem reset_max_entries (rs : ReservationStation) : rs.reset.max_entries = rs.max_entries := by
  rw [reset_eq]

theorem reset_idle (rs : ReservationStation) : rs.reset.Idle := by
  rw [reset_eq]
  intro i hi
  simp only at hi
  simp [hi]

end ReservationStation

namespace ReorderBuffer

theorem rob_reset_loop (rob : ReorderBuffer) (n : Nat) :
    forRange n
      (fun i (r : ReorderBuffer) =>
        { r with
          entries := setAt r.entries i { r.entries i with busy := false }
          newly_completed := setAt r.newly_completed i false })
      rob =
      { rob with
        entries := fun i => if i < n then { rob.entries i with busy := false } else rob.entries i
        newly_completed := fun i => if i < n then false else rob.newly_completed i } := by
  induction n with
  | zero => simp [forRange_zero]
  | succ m ih =>
    rw [forRange_succ, ih]
    simp only [Nat.lt_irrefl, if_false]
    congr 1
    · funext i
      simp only [setAt]
      by_cases him : i = m
      · subst him; simp
      · by_cases hlt : i < m
        · simp [him, hlt, Nat.lt_succ_of_lt hlt]
        · have : ¬ i < m + 1 := by omega
          simp [him, hlt, this]
    · funext i
      simp only [setAt]
      by_cases him : i = m
      · subst him; simp
      · by_cases hlt : i < m
        · simp [him, hlt, Nat.lt_succ_of_lt hlt]
        · have : ¬ i < m + 1 := by omega
          simp [him, hlt, this]

theorem rob_reset_eq (rob : ReorderBuffer) :
    rob.reset =
      { rob with
        head := 0
        tail := 0
        count := 0
        entries := fun i =>
          if i < rob.max_entries then { rob.entries i with busy := false } else rob.entries i
        newly_completed := fun i => if i < rob.max_entries then false else rob.newly_completed i } := by
  unfold reset
  exact rob_reset_loop { rob with head := 0, tail := 0, count := 0 } rob.max_entries

end ReorderBuffer

namespace ExecutionUnit

theorem reg_status_reset_loop (st : Nat → RegisterStatus) (n : Nat) (r : Nat) (hr : r < n) :
    (forRange n (fun i (st : Nat → RegisterStatus) => setAt st i { busy := false, rob_entry := 0 })
      st r).busy = false := by
  induction n with
  | zero => omega
  | succ m ih =>
    rw [forRange_succ]
    simp only [setAt]
    split
    · rfl
    · exact ih (by omega)

/-- The engine the constructor builds is quiescent. -/
theorem init_quiescent (mem : MemorySystem) (x : ExecutePacket) : (init mem x).Quiescent := by
  refine ⟨?_, ?_, ?_, ?_, rfl, ?_, ?_, ?_, ?_, ?_, ?_, ?_, ?_⟩
  · exact ReservationStation.reset_max_entries _
  · exact ReservationStation.reset_max_entries _
  · exact ReservationStation.reset_max_entries _
  · simp only [init, ReorderBuffer.init, ReorderBuffer.rob_reset_eq]
  · exact ReservationStation.reset_idle _
  · exact ReservationStation.reset_idle _
  · exact ReservationStation.reset_idle _
  · simp only [init, ReorderBuffer.init, ReorderBuffer.rob_reset_eq]
  · simp only [init, ReorderBuffer.init, ReorderBuffer.rob_reset_eq]
  · simp only [init, ReorderBuffer.init, ReorderBuffer.rob_reset_eq]; norm_num
  · intro i hi
    simp only [init, ReorderBuffer.init, ReorderBuffer.rob_reset_eq]
    simp [hi]
  · intro r hr
    exact reg_status_reset_loop _ 32 r hr

/-- A reset tick makes any engine with the constructor's sizes quiescent. -/
theorem reset_quiescent (s : ExecutionUnit) (p : DecodePacket) (u : Uninit)
    (ha : s.rs_alu.max_entries = 8) (hm : s.rs_mem.max_entries = 4)
    (hb : s.rs_branch.max_entries = 2) (hr : s.rob.max_entries = 16) (hf : s.regfile.size = 32) :
    (s.clock_tick true p u).Quiescent := by
  simp only [clock_tick, issue_proc, execute_proc, complete_proc, commit_proc, if_true]
  refine ⟨?_, ?_, ?_, ?_, hf, ?_, ?_, ?_, ?_, ?_, ?_, ?_, ?_⟩
  · exact (ReservationStation.reset_max_entries _).trans ha
  · exact (ReservationStation.reset_max_entries _).trans hm
  · exact (ReservationStation.reset_max_entries _).trans hb
  · simp only [ReorderBuffer.rob_reset_eq, hr]
  · exact ReservationStation.reset_idle _
  · exact ReservationStation.reset_idle _
  · exact ReservationStation.reset_idle _
  · simp only [ReorderBuffer.rob_reset_eq]
  · simp only [ReorderBuffer.rob_reset_eq]
  · simp only [ReorderBuffer.rob_reset_eq]; norm_num
  · intro i hi
    simp only [ReorderBuffer.rob_reset_eq, hr]
    simp [hi]
  · intro r hr'
    exact reg_status_reset_loop _ 32 r hr'

end ExecutionUnit

namespace RegisterFile

theorem read_write_same (rf : RegisterFile) (r v : Nat) (hs : rf.size = 32) (h0 : r ≠ 0)
    (h1 : r < 32) : (rf.write (r : Int) v).read (r : Int) = v := by
  have a : ¬ ((r : Int) ≤ 0 ∨ (r : Int) ≥ ((32 : Nat) : Int)) := by omega
  have b : ¬ ((r : Int) < 0 ∨ (r : Int) ≥ ((32 : Nat) : Int)) := by omega
  have c : (r : Int) ≠ 0 := by omega
  simp only [write, read, hs, a, b, c, if_false, ne_eq, not_false_eq_true, if_true, setAt,
    Int.toNat_ofNat]

theorem read_write_other (rf : RegisterFile) (r r' v : Nat) (h : r ≠ r') :
    (rf.write (r' : Int) v).read (r : Int) = rf.read (r : Int) := by
  simp only [write, read]
  split
  · rfl
  · split
    · simp only [setAt, Int.toNat_ofNat, h, if_false]
    · rfl

end RegisterFile

namespace DecodeUnit

theorem decode_lui_x2 (pc : Nat) : decode_word 0x12345137 pc =
    { instruction := 305418551, pc := pc, type := InstructionType.U_TYPE, opcode := Opcode.LUI,
      funct3 := 5, funct7 := 9, rs1 := 8, rs2 := 3, rd := 2, imm := 305418240, valid := true } := by
  simp only [decode_word, decode, DecodePacket.mk.injEq, true_and, and_true]
  decide

theorem decode_sw_x2 (pc : Nat) : decode_word 0x00202023 pc =
    { instruction := 2105379, pc := pc, type := InstructionType.S_TYPE, opcode := Opcode.STORE,
      funct3 := 2, funct7 := 0, rs1 := 0, rs2 := 2, rd := 0, imm := 0, valid := true } := by
  simp only [decode_word, decode, DecodePacket.mk.injEq, true_and, and_true]
  decide

theorem decode_lui_x1 (pc : Nat) : decode_word 0x001000B7 pc =
    { instruction := 1048759, pc := pc, type := InstructionType.U_TYPE, opcode := Opcode.LUI,
      funct3 := 0, funct7 := 0, rs1 := 0, rs2 := 1, rd := 1, imm := 1048576, valid := true } := by
  simp only [decode_word, decode, DecodePacket.mk.injEq, true_and, and_true]
  decide

theorem decode_addi_x2 (pc : Nat) : decode_word 0x05500113 pc =
    { instruction := 89129235, pc := pc, type := InstructionType.I_TYPE, opcode := Opcode.OP_IMM,
      funct3 := 0, funct7 := 2, rs1 := 0, rs2 := 21, rd := 2, imm := 85, valid := true } := by
  simp only [decode_word, decode, DecodePacket.mk.injEq, true_and, and_true]
  decide

theorem decode_sb_x2 (pc : Nat) : decode_word 0xFE208FA3 pc =
    { instruction := 4263546787, pc := pc, type := InstructionType.S_TYPE, opcode := Opcode.STORE,
      funct3 := 0, funct7 := 127, rs1 := 1, rs2 := 2, rd := 31, imm := -1, valid := true } := by
  simp only [decode_word, decode, DecodePacket.mk.injEq, true_and, and_true]
  decide

end DecodeUnit

namespace ExecutionUnit

/-- The memory after the tick that takes a STORE packet into a quiescent engine. -/
theorem store_tick_mem (s : ExecutionUnit) (p : DecodePacket) (u : Uninit)
    (hq : s.Quiescent) (hv : p.valid = true) (hp : p.InRange) (hop : p.opcode = Opcode.STORE) :
    (s.clock_tick false p u).mem =
      s.mem.write_data (((s.ready_entry p u).Vj + sext64 p.imm) % W64) (s.ready_entry p u).Vk
        (store_size u.rob_entry.funct3) := by
  obtain ⟨_, _, _, hm, _⟩ := tick_quiescent_aux s p u hq hv hp
  rw [hm, if_pos hop]
  have h1 : (executed (s.ready_entry p u) s.mem u).mem_addr =
      ((s.ready_entry p u).Vj + sext64 p.imm) % W64 := by
    simp only [executed, ready_entry, hop, select_pool, execute_mem_op, reduceCtorEq, if_false,
      if_true]
  have h2 : (executed (s.ready_entry p u) s.mem u).mem_data = (s.ready_entry p u).Vk := by
    simp only [executed, ready_entry, hop, select_pool, execute_mem_op, reduceCtorEq, if_false,
      if_true]
  rw [h1, h2]

/-- The state after the tick that takes a packet of the ALU pool into a quiescent
engine: the result is written to `rd` and the memory is unchanged. -/
theorem alu_tick (s : ExecutionUnit) (p : DecodePacket) (u : Uninit)
    (hq : s.Quiescent) (hv : p.valid = true) (hp : p.InRange)
    (hop : select_pool p.opcode = Pool.alu) :
    (s.clock_tick false p u).Quiescent ∧
    (s.clock_tick false p u).regfile =
      (if p.rd ≠ 0 then
        s.regfile.write (p.rd : Int)
          (execute_alu_op (s.ready_entry p u) { u.result with valid := true }).result
       else s.regfile) ∧
    (s.clock_tick false p u).mem = s.mem ∧
    (s.clock_tick false p u).execute_out = s.execute_out := by
  obtain ⟨h1, _, hr, hm, he⟩ := tick_quiescent_aux s p u hq hv hp
  have hns : p.opcode ≠ Opcode.STORE := by
    intro h; rw [h] at hop; simp [select_pool] at hop
  have hx : executed (s.ready_entry p u) s.mem u =
      execute_alu_op (s.ready_entry p u) { u.result with valid := true } := by
    simp only [executed, ready_entry_opcode, hop]
  refine ⟨h1, ?_, ?_, ?_⟩
  · rw [hr, hx]; simp only [hns, ne_eq, not_false_eq_true, true_and]
  · rw [hm, if_neg hns]
  · rw [he, hop]; simp

set_option maxRecDepth 100000 in
/-- Whatever the unassigned `funct3` holds, a store of the instruction stream is
committed wrongly. After `lui x2,0x12345`, the store `sw x2,0(x0)` leaves byte 3 at 0
(instead of 0x12) when the field holds 0 or 1. After `lui x1,0x100; addi x2,x0,0x55`, the
store `sb x2,-1(x1)` to the last byte of the memory is dropped when the field holds
anything but 0. -/
theorem store_diverges_for_every_funct3 (u1 u2 u3 u4 u5 : Uninit) :
    ((u2.rob_entry.funct3 = 0 ∨ u2.rob_entry.funct3 = 1) →
      ((fresh.clock_tick false (DecodeUnit.decode_word 0x12345137 0) u1).clock_tick false
        (DecodeUnit.decode_word 0x00202023 4) u2).mem.memory 3 = 0) ∧
    (u5.rob_entry.funct3 ≠ 0 →
      (((fresh.clock_tick false (DecodeUnit.decode_word 0x001000B7 0) u3).clock_tick false
        (DecodeUnit.decode_word 0x05500113 4) u4).clock_tick false
        (DecodeUnit.decode_word 0xFE208FA3 8) u5).mem.memory 0xFFFFF = 0) := by
  have q0 : fresh.Quiescent := init_quiescent _ _
  simp only [DecodeUnit.decode_lui_x2, DecodeUnit.decode_sw_x2, DecodeUnit.decode_lui_x1,
    DecodeUnit.decode_addi_x2, DecodeUnit.decode_sb_x2]
  constructor
  · intro hf
    obtain ⟨q1, r1, m1, _⟩ := alu_tick fresh _ u1 q0 rfl
      (by decide : DecodePacket.InRange
        { instruction := 305418551, pc := 0, type := InstructionType.U_TYPE, opcode := Opcode.LUI,
          funct3 := 5, funct7 := 9, rs1 := 8, rs2 := 3, rd := 2, imm := 305418240,
          valid := true }) rfl
    rw [store_tick_mem _ _ u2 q1 rfl (by decide) rfl, m1]
    simp only [ready_entry, ne_eq, not_true_eq_false, false_and, if_false]
    rcases hf with hf | hf <;> rw [hf] <;>
      simp [store_size, Funct3.SB, Funct3.SH, MemorySystem.write_data, MemorySystem.limit,
        MemorySystem.MEMORY_SIZE, forRange, List.range_succ, setAt, fresh, init,
        MemorySystem.init, sext64, W64]
  · intro hf
    obtain ⟨q1, r1, m1, _⟩ := alu_tick fresh _ u3 q0 rfl
      (by decide : DecodePacket.InRange
        { instruction := 1048759, pc := 0, type := InstructionType.U_TYPE, opcode := Opcode.LUI,
          funct3 := 0, funct7 := 0, rs1 := 0, rs2 := 1, rd := 1, imm := 1048576,
          valid := true }) rfl
    obtain ⟨q2, r2, m2, _⟩ := alu_tick _
      { instruction := 89129235, pc := 4, type := InstructionType.I_TYPE, opcode := Opcode.OP_IMM,
        funct3 := 0, funct7 := 2, rs1 := 0, rs2 := 21, rd := 2, imm := 85, valid := true }
      u4 q1 rfl (by decide) rfl
    rw [store_tick_mem _ _ u5 q2 rfl (by decide) rfl, m2, m1]
    have ha : ∀ x : Nat, x = 0x100000 → (x + sext64 (-1)) % W64 = 0xFFFFF := by
      intro x hx; subst hx; decide
    simp only [ready_entry, r2, r1, ne_eq, OfNat.ofNat_ne_zero, not_false_eq_true, if_true,
      reduceCtorEq, and_self, OfNat.one_ne_ofNat, one_ne_zero, execute_alu_op]
    rw [RegisterFile.read_write_other _ 1 2 _ (by decide),
      RegisterFile.read_write_same _ 1 _ rfl (by decide) (by decide)]
    rw [ha _ (by decide)]
    have hsz : store_size u5.rob_entry.funct3 = 2 ∨ store_size u5.rob_entry.funct3 = 4 := by
      simp only [store_size, Funct3.SB, Funct3.SH, hf, if_false]
      split <;> simp
    rcases hsz with h | h <;> rw [h] <;>
      simp [MemorySystem.write_data, MemorySystem.limit, MemorySystem.MEMORY_SIZE, fresh, init,
        MemorySystem.init]

end ExecutionUnit

namespace DecodeUnit

theorem decode_zero_word (pc : Nat) : decode_word 0 pc =
    { instruction := 0, pc := pc, type := InstructionType.UNKNOWN, opcode := Opcode.UNKNOWN,
      funct3 := 0, funct7 := 0, rs1 := 0, rs2 := 0, rd := 0, imm := 0, valid := true } := by
  simp only [decode_word, decode, DecodePacket.mk.injEq, true_and, and_true]
  decide

theorem decode_addi_x1_7 (pc : Nat) : decode_word 0x00700093 pc =
    { instruction := 7340179, pc := pc, type := InstructionType.I_TYPE, opcode := Opcode.OP_IMM,
      funct3 := 0, funct7 := 0, rs1 := 0, rs2 := 7, rd := 1, imm := 7, valid := true } := by
  simp only [decode_word, decode, DecodePacket.mk.injEq, true_and, and_true]
  decide

theorem decode_addi_x2_5 (pc : Nat) : decode_word 0x00500113 pc =
    { instruction := 5243155, pc := pc, type := InstructionType.I_TYPE, opcode := Opcode.OP_IMM,
      funct3 := 0, funct7 := 0, rs1 := 0, rs2 := 5, rd := 2, imm := 5, valid := true } := by
  simp only [decode_word, decode, DecodePacket.mk.injEq, true_and, and_true]
  decide

theorem decode_add_x3 (pc : Nat) : decode_word 0x002081B3 pc =
    { instruction := 2130355, pc := pc, type := InstructionType.R_TYPE, opcode := Opcode.OP,
      funct3 := 0, funct7 := 0, rs1 := 1, rs2 := 2, rd := 3, imm := 0, valid := true } := by
  simp only [decode_word, decode, DecodePacket.mk.injEq, true_and, and_true]
  decide

end DecodeUnit

namespace ExecutionUnit

theorem run_append (s : ExecutionUnit) (a b : List (DecodePacket × Uninit)) :
    s.run (a ++ b) = (s.run a).run b := by
  induction a generalizing s with
  | nil => rfl
  | cons x xs ih =>
    obtain ⟨p, u⟩ := x
    simp only [List.cons_append, run]
    exact ih _

/-- An all-zero word passes through a quiescent engine without a trace in the
register file. -/
theorem zero_word_tick (s : ExecutionUnit) (pc : Nat) (u : Uninit) (hq : s.Quiescent) :
    (s.clock_tick false (DecodeUnit.decode_word 0 pc) u).Quiescent ∧
    (s.clock_tick false (DecodeUnit.decode_word 0 pc) u).regfile = s.regfile := by
  rw [DecodeUnit.decode_zero_word]
  obtain ⟨q, r, _, _⟩ := alu_tick s
    { instruction := 0, pc := pc, type := InstructionType.UNKNOWN, opcode := Opcode.UNKNOWN,
      funct3 := 0, funct7 := 0, rs1 := 0, rs2 := 0, rd := 0, imm := 0, valid := true }
    u hq rfl (by simp [DecodePacket.InRange]) rfl
  exact ⟨q, by rw [r]; simp⟩

theorem run_zero_words (later : List (Nat × Uninit)) (s : ExecutionUnit) (hq : s.Quiescent) :
    (s.run (later.map (fun a => (DecodeUnit.decode_word 0 a.1, a.2)))).Quiescent ∧
    (s.run (later.map (fun a => (DecodeUnit.decode_word 0 a.1, a.2)))).regfile = s.regfile := by
  induction later generalizing s with
  | nil => exact ⟨hq, rfl⟩
  | cons a rest ih =>
    simp only [List.map_cons, run]
    obtain ⟨q, r⟩ := zero_word_tick s a.1 a.2 hq
    obtain ⟨q2, r2⟩ := ih _ q
    exact ⟨q2, r2.trans r⟩

/-- The tick of `alu_tick` for a packet with `rd` not zero whose result is known. -/
theorem alu_tick_write (s : ExecutionUnit) (p : DecodePacket) (u : Uninit)
    (hq : s.Quiescent) (hv : p.valid = true) (hp : p.InRange)
    (hop : select_pool p.opcode = Pool.alu) (r v : Nat) (hr : p.rd = r) (h0 : r ≠ 0)
    (hres : (execute_alu_op (s.ready_entry p u) { u.result with valid := true }).result = v) :
    (s.clock_tick false p u).Quiescent ∧
    (s.clock_tick false p u).regfile = s.regfile.write (r : Int) v ∧
    (s.clock_tick false p u).mem = s.mem ∧
    (s.clock_tick false p u).execute_out = s.execute_out := by
  obtain ⟨q, hreg, hm, he⟩ := alu_tick s p u hq hv hp hop
  refine ⟨q, ?_, hm, he⟩
  rw [hreg, hres, hr, if_pos h0]

/-- The three instructions of the ADD scenario, taken one per tick by a quiescent
engine. -/
theorem add_scenario_ticks (s : ExecutionUnit) (u1 u2 u3 : Uninit) (hq : s.Quiescent) :
    (s.run [(DecodeUnit.decode_word 0x00700093 0, u1), (DecodeUnit.decode_word 0x00500113 4, u2),
      (DecodeUnit.decode_word 0x002081B3 8, u3)]).Quiescent ∧
    (s.run [(DecodeUnit.decode_word 0x00700093 0, u1), (DecodeUnit.decode_word 0x00500113 4, u2),
      (DecodeUnit.decode_word 0x002081B3 8, u3)]).regfile =
      ((s.regfile.write ((1 : Nat) : Int) 7).write ((2 : Nat) : Int) 5).write ((3 : Nat) : Int) 12 := by
  simp only [run, DecodeUnit.decode_addi_x1_7, DecodeUnit.decode_addi_x2_5,
    DecodeUnit.decode_add_x3]
  have hsz : s.regfile.size = 32 := hq.2.2.2.2.1
  obtain ⟨q1, r1, _, _⟩ := alu_tick_write s
    { instruction := 7340179, pc := 0, type := InstructionType.I_TYPE, opcode := Opcode.OP_IMM,
      funct3 := 0, funct7 := 0, rs1 := 0, rs2 := 7, rd := 1, imm := 7, valid := true }
    u1 hq rfl (by decide) rfl 1 7 rfl (by decide)
    (by
      simp only [execute_alu_op, ready_entry, Funct3.ADD, if_true, reduceCtorEq, false_and,
        if_false, ne_eq, not_true_eq_false]
      decide)
  obtain ⟨q2, r2, _, _⟩ := alu_tick_write _
    { instruction := 5243155, pc := 4, type := InstructionType.I_TYPE, opcode := Opcode.OP_IMM,
      funct3 := 0, funct7 := 0, rs1 := 0, rs2 := 5, rd := 2, imm := 5, valid := true }
    u2 q1 rfl (by decide) rfl 2 5 rfl (by decide)
    (by
      simp only [execute_alu_op, ready_entry, Funct3.ADD, if_true, reduceCtorEq, false_and,
        if_false, ne_eq, not_true_eq_false]
      decide)
  have s1 : (s.regfile.write ((1 : Nat) : Int) 7).size = 32 := by
    rw [RegisterFile.write_size]; exact hsz
  obtain ⟨q3, r3, _, _⟩ := alu_tick_write _
    { instruction := 2130355, pc := 8, type := InstructionType.R_TYPE, opcode := Opcode.OP,
      funct3 := 0, funct7 := 0, rs1 := 1, rs2 := 2, rd := 3, imm := 0, valid := true }
    u3 q2 rfl (by decide) rfl 3 12 rfl (by decide)
    (by
      have h1 : ∀ rf : RegisterFile, rf.read ((1 : Nat) : Int) = 7 →
          rf.read ((2 : Nat) : Int) = 5 →
          (execute_alu_op
            { u3.rs_entry with
              busy := true, opcode := Opcode.OP, funct3 := 0, funct7 := 0, rd := 3, imm := 0,
              pc := 8, ready := true, Vj := rf.read ((1 : Nat) : Int), Qj := 0,
              Vk := rf.read ((2 : Nat) : Int), Qk := 0 }
            { u3.result with valid := true }).result = 12 := by
        intro rf h1 h2
        simp only [execute_alu_op, Funct3.ADD, if_true, reduceCtorEq, false_and, if_false,
          ne_eq, not_true_eq_false, h1, h2, Nat.zero_and, true_and, and_false]
        decide
      simp only [ready_entry, ne_eq, one_ne_zero, not_false_eq_true, reduceCtorEq, and_self,
        if_true, OfNat.ofNat_ne_zero, true_or, true_and]
      refine h1 _ ?_ ?_
      · rw [r2, r1, RegisterFile.read_write_other _ 1 2 _ (by decide),
          RegisterFile.read_write_same _ 1 _ hsz (by decide) (by decide)]
      · rw [r2, r1, RegisterFile.read_write_same _ 2 _ s1 (by decide) (by decide)])
  exact ⟨q3, by rw [r3, r2, r1]⟩

end ExecutionUnit

namespace ExecutionUnit

/-- What `issue_proc` allocates for a packet in a quiescent engine: slot 0 of the pool,
tagged with the tail of the reorder buffer, and the entry at the tail. -/
theorem issue_allocates (s : ExecutionUnit) (p : DecodePacket) (u : Uninit)
    (hq : s.Quiescent) (hv : p.valid = true) (hp : p.InRange) :
    (((s.issue_proc false p u).pool (select_pool p.opcode)).entries 0).busy = true ∧
    ((s.issue_proc false p u).pool (select_pool p.opcode)).rob_indices 0 = (s.rob.tail : Int) ∧
    ((s.issue_proc false p u).rob.entries s.rob.tail).busy = true ∧
    ((s.issue_proc false p u).rob.entries s.rob.tail).completed = false ∧
    (s.issue_proc false p u).rob.count = 1 := by
  rw [issue_quiescent s p u hq hv hp]
  cases select_pool p.opcode <;>
    simp [set_pool, pool, setAt, ready_entry, new_rob_entry]

/-- A tick of the engine keeps it quiescent, whether the decode channel holds a
valid packet or not. -/
theorem tick_quiescent (s : ExecutionUnit) (p : DecodePacket) (u : Uninit)
    (hq : s.Quiescent) (hp : p.valid = true → p.InRange) :
    (s.clock_tick false p u).Quiescent := by
  cases hv : p.valid
  · rw [tick_invalid s p u hq hv]; exact hq
  · exact (tick_quiescent_aux s p u hq hv (hp hv)).1

/-- Every engine state of a run from a quiescent state is quiescent. -/
theorem run_quiescent (ps : List (DecodePacket × Uninit)) (s : ExecutionUnit)
    (hq : s.Quiescent) (hp : ∀ a ∈ ps, a.1.valid = true → a.1.InRange) :
    (s.run ps).Quiescent := by
  induction ps generalizing s with
  | nil => exact hq
  | cons a rest ih =>
    obtain ⟨p, u⟩ := a
    simp only [run]
    exact ih _ (tick_quiescent s p u hq (hp (p, u) (List.mem_cons_self _ _)))
      (fun b hb => hp b (List.mem_cons_of_mem _ hb))

end ExecutionUnit

namespace ExecutionUnit

/-- The packet of a branch-pool instruction is valid. -/
theorem executed_branch_valid (e : RSEntry) (mem : MemorySystem) (u : Uninit)
    (h : select_pool e.opcode = Pool.branch) : (executed e mem u).valid = true := by
  simp only [executed, h, execute_branch_op]
  cases e.opcode <;>
    first
      | rfl
      | (simp only []; rw [apply_ite ExecutePacket.valid]; exact ite_self _)

end ExecutionUnit

theorem and_two_pow_eq (x k : Nat) : x &&& 2 ^ k = (x / 2 ^ k % 2) * 2 ^ k := by
  apply Nat.eq_of_testBit_eq
  intro i
  rw [Nat.mul_comm, Nat.testBit_and, Nat.testBit_two_pow, Nat.testBit_mul_pow_two]
  by_cases h : k = i
  · subst h
    simp [Nat.testBit_to_div_mod]
  · have : ¬ (i - k = 0 ∧ k ≤ i) := by omega
    by_cases h2 : k ≤ i
    · have h3 : 0 < i - k := by omega
      have : (x / 2 ^ k % 2).testBit (i - k) = false := by
        apply Nat.testBit_lt_two_pow
        calc x / 2 ^ k % 2 < 2 := Nat.mod_lt _ (by decide)
          _ = 2 ^ 1 := by norm_num
          _ ≤ 2 ^ (i - k) := Nat.pow_le_pow_right (by decide) h3
      simp [h, this]
    · simp [h, h2]

theorem or_eq_add_of_dvd (a b k : Nat) (h1 : 2 ^ k ∣ a) (h2 : b < 2 ^ k) : a ||| b = a + b := by
  obtain ⟨c, rfl⟩ := h1
  exact (Nat.mul_add_lt_is_or h2 c).symm

theorem and_high_mask (x lo w : Nat) :
    x &&& ((2 ^ w - 1) * 2 ^ lo) = (x / 2 ^ lo % 2 ^ w) * 2 ^ lo := by
  apply Nat.eq_of_testBit_eq
  intro i
  rw [Nat.testBit_and, Nat.mul_comm _ (2 ^ lo), Nat.mul_comm _ (2 ^ lo), Nat.testBit_mul_pow_two,
    Nat.testBit_mul_pow_two, Nat.testBit_two_pow_sub_one, Nat.testBit_mod_two_pow,
    ← Nat.shiftRight_eq_div_pow, Nat.testBit_shiftRight]
  by_cases h : lo ≤ i
  · have : lo + (i - lo) = i := by omega
    simp [h, this]
    exact Bool.and_comm _ _
  · simp [h]

theorem shr_and (x k w : Nat) : (x >>> k) &&& (2 ^ w - 1) = x / 2 ^ k % 2 ^ w := by
  rw [Nat.and_pow_two_sub_one_eq_mod, Nat.shiftRight_eq_div_pow]

theorem imm_I_bits (inst : Nat) :
    DecodeUnit.immediate_bits inst .I_TYPE =
      (if inst / 2 ^ 20 % 4096 < 2048 then inst / 2 ^ 20 % 4096 else inst / 2 ^ 20 % 4096 + 0xFFFFF000) := by
  have e1 : (inst >>> 20) &&& 0xFFF = inst / 2 ^ 20 % 4096 := shr_and inst 20 12
  have e2 : ∀ x, x &&& 0x800 = (x / 2048 % 2) * 2048 := fun x => and_two_pow_eq x 11
  have e3 : ∀ x, x < 4096 → x ||| 0xFFFFF000 = x + 0xFFFFF000 := by
    intro x hx
    rw [Nat.or_comm, or_eq_add_of_dvd 0xFFFFF000 x 12 (by norm_num) (by norm_num; omega)]
    omega
  simp only [DecodeUnit.immediate_bits, e1, e2]
  have hx : inst / 2 ^ 20 % 4096 < 4096 := Nat.mod_lt _ (by norm_num)
  rw [e3 _ hx]
  simp only [Nat.reducePow] at *
  split <;> split
  all_goals omega

theorem or_add (a b k : Nat) (h1 : a % 2 ^ k = 0) (h2 : b < 2 ^ k) : a ||| b = a + b :=
  or_eq_add_of_dvd a b k (Nat.dvd_of_mod_eq_zero h1) h2

theorem imm_S_bits (inst : Nat) :
    DecodeUnit.immediate_bits inst .S_TYPE =
      (if inst / 2 ^ 25 % 128 < 64 then inst / 2 ^ 25 % 128 * 32 + inst / 128 % 32
       else inst / 2 ^ 25 % 128 * 32 + inst / 128 % 32 + 0xFFFFF000) := by
  have e1 : (inst >>> 25) &&& 0x7F = inst / 2 ^ 25 % 128 := shr_and inst 25 7
  have e2 : (inst >>> 7) &&& 0x1F = inst / 128 % 32 := shr_and inst 7 5
  have e3 : ∀ x, x &&& 0x800 = (x / 2048 % 2) * 2048 := fun x => and_two_pow_eq x 11
  simp only [DecodeUnit.immediate_bits, e1, e2, e3, Nat.shiftLeft_eq]
  simp only [Nat.reducePow]
  rw [or_add (inst / 33554432 % 128 * 32) (inst / 128 % 32) 5 (by simp only [Nat.reducePow]; omega)
    (by simp only [Nat.reducePow]; omega)]
  split
  · rw [Nat.or_comm, or_add 0xFFFFF000 _ 12 (by norm_num) (by simp only [Nat.reducePow]; omega)]
    split <;> omega
  · split <;> omega

theorem imm_B_bits (inst : Nat) :
    DecodeUnit.immediate_bits inst .B_TYPE =
      (if inst / 2147483648 % 2 = 0 then
        inst / 128 % 2 * 2048 + inst / 33554432 % 64 * 32 + inst / 256 % 16 * 2
       else
        4096 + inst / 128 % 2 * 2048 + inst / 33554432 % 64 * 32 + inst / 256 % 16 * 2
          + 0xFFFFE000) := by
  have e1 : (inst >>> 31) &&& 0x1 = inst / 2147483648 % 2 := shr_and inst 31 1
  have e2 : (inst >>> 7) &&& 0x1 = inst / 128 % 2 := shr_and inst 7 1
  have e3 : (inst >>> 25) &&& 0x3F = inst / 33554432 % 64 := shr_and inst 25 6
  have e4 : (inst >>> 8) &&& 0xF = inst / 256 % 16 := shr_and inst 8 4
  have e5 : ∀ x, x &&& 0x1000 = (x / 4096 % 2) * 4096 := fun x => and_two_pow_eq x 12
  simp only [DecodeUnit.immediate_bits, e1, e2, e3, e4, e5, Nat.shiftLeft_eq]
  simp only [Nat.reducePow]
  clear e1 e2 e3 e4 e5
  have h1 : inst / 2147483648 % 2 < 2 := Nat.mod_lt _ (by norm_num)
  have h2 : inst / 128 % 2 < 2 := Nat.mod_lt _ (by norm_num)
  have h3 : inst / 33554432 % 64 < 64 := Nat.mod_lt _ (by norm_num)
  have h4 : inst / 256 % 16 < 16 := Nat.mod_lt _ (by norm_num)
  generalize inst / 2147483648 % 2 = b31 at h1 ⊢
  generalize inst / 128 % 2 = b7 at h2 ⊢
  generalize inst / 33554432 % 64 = f6 at h3 ⊢
  generalize inst / 256 % 16 = f4 at h4 ⊢
  rw [or_add (b31 * 4096) (b7 * 2048) 12
    (by simp only [Nat.reducePow]; omega) (by simp only [Nat.reducePow]; omega)]
  rw [or_add _ (f6 * 32) 11
    (by simp only [Nat.reducePow]; omega) (by simp only [Nat.reducePow]; omega)]
  rw [or_add _ (f4 * 2) 5
    (by simp only [Nat.reducePow]; omega) (by simp only [Nat.reducePow]; omega)]
  split
  · rw [Nat.or_comm, or_add 0xFFFFE000 _ 13 (by norm_num) (by simp only [Nat.reducePow]; omega)]
    split <;> omega
  · split <;> omega

theorem imm_U_bits (inst : Nat) :
    DecodeUnit.immediate_bits inst .U_TYPE = inst / 4096 % 2 ^ 20 * 4096 := by
  have := and_high_mask inst 12 20
  simp only [Nat.reducePow, Nat.reduceSub, Nat.reduceMul] at this
  simp only [DecodeUnit.immediate_bits, Nat.reducePow]
  exact this

theorem imm_J_bits (inst : Nat) :
    DecodeUnit.immediate_bits inst .J_TYPE =
      (if inst / 2147483648 % 2 = 0 then
        inst / 4096 % 256 * 4096 + inst / 1048576 % 2 * 2048 + inst / 2097152 % 1024 * 2
       else
        inst / 4096 % 256 * 4096 + inst / 1048576 % 2 * 2048 + inst / 2097152 % 1024 * 2
          + 0xFFF00000) := by
  have e1 : (inst >>> 31) &&& 0x1 = inst / 2147483648 % 2 := shr_and inst 31 1
  have e2 : (inst >>> 12) &&& 0xFF = inst / 4096 % 256 := shr_and inst 12 8
  have e3 : (inst >>> 20) &&& 0x1 = inst / 1048576 % 2 := shr_and inst 20 1
  have e4 : (inst >>> 21) &&& 0x3FF = inst / 2097152 % 1024 := shr_and inst 21 10
  have e5 : ∀ x, x &&& 0x100000 = (x / 1048576 % 2) * 1048576 := fun x => and_two_pow_eq x 20
  simp only [DecodeUnit.immediate_bits, e1, e2, e3, e4, e5, Nat.shiftLeft_eq]
  simp only [Nat.reducePow]
  clear e1 e2 e3 e4 e5
  have h1 : inst / 2147483648 % 2 < 2 := Nat.mod_lt _ (by norm_num)
  have h2 : inst / 4096 % 256 < 256 := Nat.mod_lt _ (by norm_num)
  have h3 : inst / 1048576 % 2 < 2 := Nat.mod_lt _ (by norm_num)
  have h4 : inst / 2097152 % 1024 < 1024 := Nat.mod_lt _ (by norm_num)
  generalize inst / 2147483648 % 2 = b31 at h1 ⊢
  generalize inst / 4096 % 256 = f8 at h2 ⊢
  generalize inst / 1048576 % 2 = b20 at h3 ⊢
  generalize inst / 2097152 % 1024 = f10 at h4 ⊢
  rw [or_add (b31 * 1048576) (f8 * 4096) 20
    (by simp only [Nat.reducePow]; omega) (by simp only [Nat.reducePow]; omega)]
  rw [or_add _ (b20 * 2048) 12
    (by simp only [Nat.reducePow]; omega) (by simp only [Nat.reducePow]; omega)]
  rw [or_add _ (f10 * 2) 11
    (by simp only [Nat.reducePow]; omega) (by simp only [Nat.reducePow]; omega)]
  split
  · rename_i hs
    have hb : b31 = 1 := by omega
    subst hb
    have e : 1 * 1048576 + f8 * 4096 + b20 * 2048 + f10 * 2 =
        1048576 ||| (f8 * 4096 + b20 * 2048 + f10 * 2) := by
      rw [or_add 1048576 _ 20 (by norm_num) (by simp only [Nat.reducePow]; omega)]
      omega
    have e2 : (4293918720 ||| 1048576 : Nat) = 4293918720 := by decide
    rw [e, Nat.or_comm, ← Nat.or_assoc, e2, or_add 4293918720 _ 20 (by norm_num) (by simp only [Nat.reducePow]; omega)]
    split <;> omega
  · split <;> omega

theorem get_immediate_R (inst : Nat) : DecodeUnit.get_immediate inst .R_TYPE = 0 := by
  simp [DecodeUnit.get_immediate, DecodeUnit.immediate_bits, toInt32]

theorem get_immediate_UNKNOWN (inst : Nat) : DecodeUnit.get_immediate inst .UNKNOWN = 0 := by
  simp [DecodeUnit.get_immediate, DecodeUnit.immediate_bits, toInt32]

theorem get_immediate_I (inst : Nat) :
    DecodeUnit.get_immediate inst .I_TYPE = Spec.imm_I inst := by
  simp only [DecodeUnit.get_immediate, imm_I_bits, Spec.imm_I, Spec.bits, Spec.sext, toInt32, W32]
  simp only [Nat.reducePow, Nat.reduceAdd, Nat.reduceSub]
  have h := Nat.mod_lt (inst / 1048576) (show 0 < 4096 by norm_num)
  generalize inst / 1048576 % 4096 = x at h ⊢
  repeat' split
  all_goals omega

theorem get_immediate_S (inst : Nat) :
    DecodeUnit.get_immediate inst .S_TYPE = Spec.imm_S inst := by
  simp only [DecodeUnit.get_immediate, imm_S_bits, Spec.imm_S, Spec.bits, Spec.sext, toInt32, W32]
  simp only [Nat.reducePow, Nat.reduceAdd, Nat.reduceSub]
  have h1 := Nat.mod_lt (inst / 33554432) (show 0 < 128 by norm_num)
  have h2 := Nat.mod_lt (inst / 128) (show 0 < 32 by norm_num)
  generalize inst / 33554432 % 128 = x at h1 ⊢
  generalize inst / 128 % 32 = y at h2 ⊢
  repeat' split
  all_goals omega

theorem get_immediate_B (inst : Nat) :
    DecodeUnit.get_immediate inst .B_TYPE = Spec.imm_B inst := by
  simp only [DecodeUnit.get_immediate, imm_B_bits, Spec.imm_B, Spec.bits, Spec.sext, toInt32, W32]
  simp only [Nat.reducePow, Nat.reduceAdd, Nat.reduceSub]
  have h1 := Nat.mod_lt (inst / 2147483648) (show 0 < 2 by norm_num)
  have h2 := Nat.mod_lt (inst / 128) (show 0 < 2 by norm_num)
  have h3 := Nat.mod_lt (inst / 33554432) (show 0 < 64 by norm_num)
  have h4 := Nat.mod_lt (inst / 256) (show 0 < 16 by norm_num)
  generalize inst / 2147483648 % 2 = b31 at h1 ⊢
  generalize inst / 128 % 2 = b7 at h2 ⊢
  generalize inst / 33554432 % 64 = f6 at h3 ⊢
  generalize inst / 256 % 16 = f4 at h4 ⊢
  repeat' split
  all_goals omega

theorem get_immediate_U (inst : Nat) :
    DecodeUnit.get_immediate inst .U_TYPE = Spec.imm_U inst := by
  simp only [DecodeUnit.get_immediate, imm_U_bits, Spec.imm_U, Spec.bits, Spec.sext, toInt32, W32]
  simp only [Nat.reducePow, Nat.reduceAdd, Nat.reduceSub]
  have h1 := Nat.mod_lt (inst / 4096) (show 0 < 1048576 by norm_num)
  generalize inst / 4096 % 1048576 = x at h1 ⊢
  repeat' split
  all_goals omega

theorem get_immediate_J (inst : Nat) :
    DecodeUnit.get_immediate inst .J_TYPE = Spec.imm_J inst := by
  simp only [DecodeUnit.get_immediate, imm_J_bits, Spec.imm_J, Spec.bits, Spec.sext, toInt32, W32]
  simp only [Nat.reducePow, Nat.reduceAdd, Nat.reduceSub]
  have h1 := Nat.mod_lt (inst / 2147483648) (show 0 < 2 by norm_num)
  have h2 := Nat.mod_lt (inst / 4096) (show 0 < 256 by norm_num)
  have h3 := Nat.mod_lt (inst / 1048576) (show 0 < 2 by norm_num)
  have h4 := Nat.mod_lt (inst / 2097152) (show 0 < 1024 by norm_num)
  generalize inst / 2147483648 % 2 = b31 at h1 ⊢
  generalize inst / 4096 % 256 = f8 at h2 ⊢
  generalize inst / 1048576 % 2 = b20 at h3 ⊢
  generalize inst / 2097152 % 1024 = f10 at h4 ⊢
  repeat' split
  all_goals omega

/-- C9. For every instruction word, `get_immediate` returns the RISC-V immediate of the
given type as a signed 32-bit value: the sign-extended I, S, B and J fields, the U
field shifted left by 12, and 0 for the R and UNKNOWN types; so I and S immediates lie
in -2048..2047, B and J immediates are even, and the low 12 bits of a U immediate
are zero. -/
theorem C9_get_immediate_spec (inst : Nat) :
    DecodeUnit.get_immediate inst .I_TYPE = Spec.imm_I inst ∧
    DecodeUnit.get_immediate inst .S_TYPE = Spec.imm_S inst ∧
    DecodeUnit.get_immediate inst .B_TYPE = Spec.imm_B inst ∧
    DecodeUnit.get_immediate inst .U_TYPE = Spec.imm_U inst ∧
    DecodeUnit.get_immediate inst .J_TYPE = Spec.imm_J inst ∧
    DecodeUnit.get_immediate inst .R_TYPE = 0 ∧
    DecodeUnit.get_immediate inst .UNKNOWN = 0 ∧
    (-2048 ≤ DecodeUnit.get_immediate inst .I_TYPE ∧ DecodeUnit.get_immediate inst .I_TYPE ≤ 2047) ∧
    (-2048 ≤ DecodeUnit.get_immediate inst .S_TYPE ∧ DecodeUnit.get_immediate inst .S_TYPE ≤ 2047) ∧
    DecodeUnit.get_immediate inst .B_TYPE % 2 = 0 ∧
    DecodeUnit.get_immediate inst .J_TYPE % 2 = 0 ∧
    DecodeUnit.get_immediate inst .U_TYPE % 4096 = 0 := by
  refine ⟨get_immediate_I inst, get_immediate_S inst, get_immediate_B inst, get_immediate_U inst,
    get_immediate_J inst, get_immediate_R inst, get_immediate_UNKNOWN inst, ?_, ?_, ?_, ?_, ?_⟩
  · rw [get_immediate_I]
    simp only [Spec.imm_I, Spec.bits, Spec.sext, Nat.reducePow, Nat.reduceAdd, Nat.reduceSub]
    have h := Nat.mod_lt (inst / 1048576) (show 0 < 4096 by norm_num)
    generalize inst / 1048576 % 4096 = x at h ⊢
    split <;> omega
  · rw [get_immediate_S]
    simp only [Spec.imm_S, Spec.bits, Spec.sext, Nat.reducePow, Nat.reduceAdd, Nat.reduceSub]
    have h1 := Nat.mod_lt (inst / 33554432) (show 0 < 128 by norm_num)
    have h2 := Nat.mod_lt (inst / 128) (show 0 < 32 by norm_num)
    generalize inst / 33554432 % 128 = x at h1 ⊢
    generalize inst / 128 % 32 = y at h2 ⊢
    split <;> omega
  · rw [get_immediate_B]
    simp only [Spec.imm_B, Spec.bits, Spec.sext, Nat.reducePow, Nat.reduceAdd, Nat.reduceSub]
    split <;> omega
  · rw [get_immediate_J]
    simp only [Spec.imm_J, Spec.bits, Spec.sext, Nat.reducePow, Nat.reduceAdd, Nat.reduceSub]
    split <;> omega
  · rw [get_immediate_U]
    simp only [Spec.imm_U, Spec.bits, Spec.sext, Nat.reducePow, Nat.reduceAdd, Nat.reduceSub]
    split <;> omega

theorem get_rd_eq (w : Nat) : DecodeUnit.get_rd w = w / 128 % 32 := shr_and w 7 5
theorem get_rs1_eq (w : Nat) : DecodeUnit.get_rs1 w = w / 32768 % 32 := shr_and w 15 5
theorem get_rs2_eq (w : Nat) : DecodeUnit.get_rs2 w = w / 1048576 % 32 := shr_and w 20 5
theorem get_funct3_eq (w : Nat) : DecodeUnit.get_funct3 w = w / 4096 % 8 := shr_and w 12 3
theorem get_funct7_eq (w : Nat) : DecodeUnit.get_funct7 w = w / 33554432 % 128 := shr_and w 25 7
theorem and_7F (w : Nat) : w &&& 0x7F = w % 128 := Nat.and_pow_two_sub_one_eq_mod w 7

theorem get_opcode_of_mod (w : Nat) (op : Opcode) (hop : op ≠ Opcode.UNKNOWN)
    (h : w % 128 = op.toNat) : DecodeUnit.get_opcode w = op := by
  simp only [DecodeUnit.get_opcode, and_7F, h]
  cases op <;> simp [Opcode.toNat] at hop ⊢

theorem roundtrip_R (funct3 funct7 rd rs1 rs2 : Nat)
    (hrd : rd < 32) (hrs1 : rs1 < 32) (hrs2 : rs2 < 32) (hf3 : funct3 < 8) (hf7 : funct7 < 128) :
    let w := Spec.encode_R Opcode.OP.toNat funct3 funct7 rd rs1 rs2
    DecodeUnit.get_opcode w = Opcode.OP ∧ DecodeUnit.get_instruction_type w = .R_TYPE ∧
    DecodeUnit.get_funct3 w = funct3 ∧ DecodeUnit.get_funct7 w = funct7 ∧
    DecodeUnit.get_rd w = rd ∧ DecodeUnit.get_rs1 w = rs1 ∧ DecodeUnit.get_rs2 w = rs2 := by
  intro w
  have hw : w = funct7 * 33554432 + rs2 * 1048576 + rs1 * 32768 + funct3 * 4096 + rd * 128 + 51 := by
    simp only [w, Spec.encode_R, Opcode.toNat, Nat.reducePow]
  have hm : w % 128 = 51 := by omega
  refine ⟨get_opcode_of_mod w _ (by decide) hm, ?_, ?_, ?_, ?_, ?_, ?_⟩
  · simp [DecodeUnit.get_instruction_type, and_7F, hm, Opcode.toNat]
  · rw [get_funct3_eq]; omega
  · rw [get_funct7_eq]; omega
  · rw [get_rd_eq]; omega
  · rw [get_rs1_eq]; omega
  · rw [get_rs2_eq]; omega

theorem roundtrip_I (op : Opcode) (funct3 rd rs1 : Nat) (imm : Int)
    (hop : op = Opcode.OP_IMM ∨ op = Opcode.LOAD ∨ op = Opcode.JALR)
    (hrd : rd < 32) (hrs1 : rs1 < 32) (hf3 : funct3 < 8) (hlo : -2048 ≤ imm) (hhi : imm ≤ 2047) :
    let w := Spec.encode_I op.toNat funct3 rd rs1 imm
    DecodeUnit.get_opcode w = op ∧ DecodeUnit.get_instruction_type w = .I_TYPE ∧
    DecodeUnit.get_funct3 w = funct3 ∧ DecodeUnit.get_rd w = rd ∧ DecodeUnit.get_rs1 w = rs1 ∧
    DecodeUnit.get_immediate w (DecodeUnit.get_instruction_type w) = imm := by
  intro w
  have hw : w = (imm % 4294967296).toNat % 4096 * 1048576 + rs1 * 32768 + funct3 * 4096 + rd * 128
      + op.toNat := by
    simp only [w, Spec.encode_I, Spec.bits, Spec.pattern, Nat.reducePow, Nat.reduceAdd,
      Nat.reduceSub, Nat.div_one]
    norm_num
  have hm : w % 128 = op.toNat := by
    rcases hop with h | h | h <;> subst h <;> simp only [Opcode.toNat] at hw ⊢ <;> omega
  have ht : DecodeUnit.get_instruction_type w = .I_TYPE := by
    rcases hop with h | h | h <;> subst h <;>
      simp [DecodeUnit.get_instruction_type, and_7F, hm, Opcode.toNat]
  have ho : op.toNat < 128 := by rcases hop with h | h | h <;> subst h <;> decide
  refine ⟨get_opcode_of_mod w _ (by rcases hop with h | h | h <;> subst h <;> decide) hm, ht,
    ?_, ?_, ?_, ?_⟩
  · rw [get_funct3_eq]; omega
  · rw [get_rd_eq]; omega
  · rw [get_rs1_eq]; omega
  · rw [ht, get_immediate_I]
    simp only [Spec.imm_I, Spec.bits, Spec.sext, Nat.reducePow, Nat.reduceAdd, Nat.reduceSub]
    generalize op.toNat = o at *
    split <;> omega

theorem pattern_cases (imm : Int) (hlo : -2147483648 ≤ imm) (hhi : imm < 2147483648) :
    (0 ≤ imm ∧ ((Spec.pattern imm : Nat) : Int) = imm) ∨
    (imm < 0 ∧ ((Spec.pattern imm : Nat) : Int) = imm + 4294967296) := by
  simp only [Spec.pattern, Int.reducePow]
  omega

theorem roundtrip_S (funct3 rs1 rs2 : Nat) (imm : Int)
    (hrs1 : rs1 < 32) (hrs2 : rs2 < 32) (hf3 : funct3 < 8) (hlo : -2048 ≤ imm) (hhi : imm ≤ 2047) :
    let w := Spec.encode_S Opcode.STORE.toNat funct3 rs1 rs2 imm
    DecodeUnit.get_opcode w = Opcode.STORE ∧ DecodeUnit.get_instruction_type w = .S_TYPE ∧
    DecodeUnit.get_funct3 w = funct3 ∧ DecodeUnit.get_rs1 w = rs1 ∧ DecodeUnit.get_rs2 w = rs2 ∧
    DecodeUnit.get_immediate w (DecodeUnit.get_instruction_type w) = imm := by
  intro w
  have hw : w = Spec.pattern imm / 32 % 128 * 33554432 + rs2 * 1048576 + rs1 * 32768
      + funct3 * 4096 + Spec.pattern imm % 32 * 128 + 35 := by
    simp only [w, Spec.encode_S, Spec.bits, Nat.reducePow, Nat.reduceAdd,
      Nat.reduceSub, Nat.div_one, Opcode.toNat, Nat.pow_zero]
  have hx : Spec.pattern imm / 32 % 128 < 128 := Nat.mod_lt _ (by norm_num)
  have hy : Spec.pattern imm % 32 < 32 := Nat.mod_lt _ (by norm_num)
  have key : (Spec.pattern imm / 32 % 128 < 64 ∧
        ((Spec.pattern imm / 32 % 128 * 32 + Spec.pattern imm % 32 : Nat) : Int) = imm) ∨
      (64 ≤ Spec.pattern imm / 32 % 128 ∧
        ((Spec.pattern imm / 32 % 128 * 32 + Spec.pattern imm % 32 : Nat) : Int) = imm + 4096) := by
    rcases pattern_cases imm (by omega) (by omega) with ⟨h0, h⟩ | ⟨h0, h⟩ <;> omega
  generalize Spec.pattern imm / 32 % 128 = x at hw hx key
  generalize Spec.pattern imm % 32 = y at hw hy key
  clear_value w
  have hm : w % 128 = 35 := by omega
  have d1 : w / 33554432 % 128 = x := by omega
  have d2 : w / 128 % 32 = y := by omega
  have ht : DecodeUnit.get_instruction_type w = .S_TYPE := by
    simp [DecodeUnit.get_instruction_type, and_7F, hm, Opcode.toNat]
  refine ⟨get_opcode_of_mod w _ (by decide) hm, ht, ?_, ?_, ?_, ?_⟩
  · rw [get_funct3_eq]; omega
  · rw [get_rs1_eq]; omega
  · rw [get_rs2_eq]; omega
  · rw [ht, get_immediate_S]
    simp only [Spec.imm_S, Spec.bits, Spec.sext, Nat.reducePow, Nat.reduceAdd, Nat.reduceSub, d1, d2]
    clear hw
    split <;> omega

theorem digit (w hi f lo K N : Nat) (hw : w = hi * (K * N) + f * K + lo) (hf : f < N)
    (hlo : lo < K) : w / K % N = f := by
  have hK : 0 < K := by omega
  have e : w = lo + K * (hi * N + f) := by rw [hw]; ring
  rw [e, Nat.add_mul_div_left _ _ hK, Nat.div_eq_of_lt hlo, Nat.zero_add, Nat.add_comm,
    Nat.add_mul_mod_self_right, Nat.mod_eq_of_lt hf]

theorem roundtrip_B (funct3 rs1 rs2 : Nat) (imm : Int)
    (hrs1 : rs1 < 32) (hrs2 : rs2 < 32) (hf3 : funct3 < 8)
    (hev : imm % 2 = 0) (hlo : -4096 ≤ imm) (hhi : imm ≤ 4094) :
    let w := Spec.encode_B Opcode.BRANCH.toNat funct3 rs1 rs2 imm
    DecodeUnit.get_opcode w = Opcode.BRANCH ∧ DecodeUnit.get_instruction_type w = .B_TYPE ∧
    DecodeUnit.get_funct3 w = funct3 ∧ DecodeUnit.get_rs1 w = rs1 ∧ DecodeUnit.get_rs2 w = rs2 ∧
    DecodeUnit.get_immediate w (DecodeUnit.get_instruction_type w) = imm := by
  intro w
  have hw : w = Spec.pattern imm / 4096 % 2 * 2147483648
      + Spec.pattern imm / 32 % 64 * 33554432 + rs2 * 1048576 + rs1 * 32768
      + funct3 * 4096 + Spec.pattern imm / 2 % 16 * 256
      + Spec.pattern imm / 2048 % 2 * 128 + 99 := by
    simp only [w, Spec.encode_B, Spec.bits, Nat.reducePow, Nat.reduceAdd,
      Nat.reduceSub, Nat.div_one, Opcode.toNat, Nat.pow_one]
  have h1 : Spec.pattern imm / 4096 % 2 < 2 := Nat.mod_lt _ (by norm_num)
  have h2 : Spec.pattern imm / 32 % 64 < 64 := Nat.mod_lt _ (by norm_num)
  have h3 : Spec.pattern imm / 2 % 16 < 16 := Nat.mod_lt _ (by norm_num)
  have h4 : Spec.pattern imm / 2048 % 2 < 2 := Nat.mod_lt _ (by norm_num)
  have key : ((Spec.pattern imm / 4096 % 2 * 4096 + Spec.pattern imm / 2048 % 2 * 2048
        + Spec.pattern imm / 32 % 64 * 32 + Spec.pattern imm / 2 % 16 * 2 : Nat) : Int)
      = imm + 8192 * ((Spec.pattern imm / 4096 % 2 : Nat) : Int) := by
    have dec : ∀ u : Nat, u % 8192 = u % 2 + (u / 2 % 16) * 2 + (u / 32 % 64) * 32
        + (u / 2048 % 2) * 2048 + (u / 4096 % 2) * 4096 := fun u => by omega
    have hd := dec (Spec.pattern imm)
    rcases pattern_cases imm (by omega) (by omega) with ⟨h0, h⟩ | ⟨h0, h⟩
    · have hu : Spec.pattern imm % 8192 = Spec.pattern imm ∧ Spec.pattern imm % 2 = 0
          ∧ Spec.pattern imm / 4096 % 2 = 0 := by omega
      omega
    · have hu : Spec.pattern imm % 8192 + 4294959104 = Spec.pattern imm
          ∧ Spec.pattern imm % 2 = 0 ∧ Spec.pattern imm / 4096 % 2 = 1 := by omega
      omega
  generalize Spec.pattern imm / 4096 % 2 = b12 at hw h1 key
  generalize Spec.pattern imm / 32 % 64 = f6 at hw h2 key
  generalize Spec.pattern imm / 2 % 16 = f4 at hw h3 key
  generalize Spec.pattern imm / 2048 % 2 = b11 at hw h4 key
  clear_value w
  have hm : w % 128 = 99 := by omega
  have d1 : w / 2147483648 % 2 = b12 :=
    digit w 0 b12 (f6 * 33554432 + rs2 * 1048576 + rs1 * 32768 + funct3 * 4096 + f4 * 256
      + b11 * 128 + 99) _ _ (by omega) h1 (by omega)
  have d2 : w / 128 % 2 = b11 :=
    digit w (b12 * 8388608 + f6 * 131072 + rs2 * 4096 + rs1 * 128 + funct3 * 16 + f4) b11 99
      _ _ (by omega) h4 (by omega)
  have d3 : w / 33554432 % 64 = f6 :=
    digit w b12 f6 (rs2 * 1048576 + rs1 * 32768 + funct3 * 4096 + f4 * 256 + b11 * 128 + 99)
      _ _ (by omega) h2 (by omega)
  have d4 : w / 256 % 16 = f4 :=
    digit w (b12 * 524288 + f6 * 8192 + rs2 * 256 + rs1 * 8 + funct3) f4 (b11 * 128 + 99)
      _ _ (by omega) h3 (by omega)
  have ht : DecodeUnit.get_instruction_type w = .B_TYPE := by
    simp [DecodeUnit.get_instruction_type, and_7F, hm, Opcode.toNat]
  refine ⟨get_opcode_of_mod w _ (by decide) hm, ht, ?_, ?_, ?_, ?_⟩
  · rw [get_funct3_eq]
    clear d1 d2 d3 d4 hm key ht
    exact digit w (b12 * 65536 + f6 * 1024 + rs2 * 32 + rs1) funct3 (f4 * 256 + b11 * 128 + 99)
      _ _ (by omega) hf3 (by omega)
  · rw [get_rs1_eq]
    clear d1 d2 d3 d4 hm key ht
    exact digit w (b12 * 2048 + f6 * 32 + rs2) rs1 (funct3 * 4096 + f4 * 256 + b11 * 128 + 99)
      _ _ (by omega) hrs1 (by omega)
  · rw [get_rs2_eq]
    clear d1 d2 d3 d4 hm key ht
    exact digit w (b12 * 64 + f6) rs2 (rs1 * 32768 + funct3 * 4096 + f4 * 256 + b11 * 128 + 99)
      _ _ (by omega) hrs2 (by omega)
  · rw [ht, get_immediate_B]
    simp only [Spec.imm_B, Spec.bits, Spec.sext, Nat.reducePow, Nat.reduceAdd, Nat.reduceSub,
      d1, d2, d3, d4]
    clear hw
    split <;> omega

theorem roundtrip_U (op : Opcode) (rd : Nat) (imm : Int)
    (hop : op = Opcode.LUI ∨ op = Opcode.AUIPC) (hrd : rd < 32)
    (hmul : imm % 4096 = 0) (hlo : -2147483648 ≤ imm) (hhi : imm < 2147483648) :
    let w := Spec.encode_U op.toNat rd imm
    DecodeUnit.get_opcode w = op ∧ DecodeUnit.get_instruction_type w = .U_TYPE ∧
    DecodeUnit.get_rd w = rd ∧
    DecodeUnit.get_immediate w (DecodeUnit.get_instruction_type w) = imm := by
  intro w
  have hw : w = Spec.pattern imm / 4096 % 1048576 * 4096 + rd * 128 + op.toNat := by
    simp only [w, Spec.encode_U, Spec.bits, Nat.reducePow, Nat.reduceAdd,
      Nat.reduceSub, Nat.div_one]
  have h1 : Spec.pattern imm / 4096 % 1048576 < 1048576 := Nat.mod_lt _ (by norm_num)
  have key : (Spec.pattern imm / 4096 % 1048576 < 524288 ∧
        ((Spec.pattern imm / 4096 % 1048576 * 4096 : Nat) : Int) = imm) ∨
      (524288 ≤ Spec.pattern imm / 4096 % 1048576 ∧
        ((Spec.pattern imm / 4096 % 1048576 * 4096 : Nat) : Int) = imm + 4294967296) := by
    rcases pattern_cases imm (by omega) (by omega) with ⟨h0, h⟩ | ⟨h0, h⟩ <;> omega
  generalize Spec.pattern imm / 4096 % 1048576 = x at hw h1 key
  have ho : op.toNat < 128 := by rcases hop with h | h <;> subst h <;> decide
  clear_value w
  have hm : w % 128 = op.toNat := by omega
  have d1 : w / 4096 % 1048576 = x := by omega
  have ht : DecodeUnit.get_instruction_type w = .U_TYPE := by
    rcases hop with h | h <;> subst h <;>
      simp [DecodeUnit.get_instruction_type, and_7F, hm, Opcode.toNat]
  refine ⟨get_opcode_of_mod w _ (by rcases hop with h | h <;> subst h <;> decide) hm, ht, ?_, ?_⟩
  · rw [get_rd_eq]; omega
  · rw [ht, get_immediate_U]
    simp only [Spec.imm_U, Spec.bits, Spec.sext, Nat.reducePow, Nat.reduceAdd, Nat.reduceSub, d1]
    clear hw hm
    split <;> omega

theorem roundtrip_J (rd : Nat) (imm : Int) (hrd : rd < 32)
    (hev : imm % 2 = 0) (hlo : -1048576 ≤ imm) (hhi : imm ≤ 1048574) :
    let w := Spec.encode_J Opcode.JAL.toNat rd imm
    DecodeUnit.get_opcode w = Opcode.JAL ∧ DecodeUnit.get_instruction_type w = .J_TYPE ∧
    DecodeUnit.get_rd w = rd ∧
    DecodeUnit.get_immediate w (DecodeUnit.get_instruction_type w) = imm := by
  intro w
  have hw : w = Spec.pattern imm / 1048576 % 2 * 2147483648
      + Spec.pattern imm / 2 % 1024 * 2097152
      + Spec.pattern imm / 2048 % 2 * 1048576
      + Spec.pattern imm / 4096 % 256 * 4096 + rd * 128 + 111 := by
    simp only [w, Spec.encode_J, Spec.bits, Nat.reducePow, Nat.reduceAdd,
      Nat.reduceSub, Nat.div_one, Opcode.toNat, Nat.pow_one]
  have h1 : Spec.pattern imm / 1048576 % 2 < 2 := Nat.mod_lt _ (by norm_num)
  have h2 : Spec.pattern imm / 2 % 1024 < 1024 := Nat.mod_lt _ (by norm_num)
  have h3 : Spec.pattern imm / 2048 % 2 < 2 := Nat.mod_lt _ (by norm_num)
  have h4 : Spec.pattern imm / 4096 % 256 < 256 := Nat.mod_lt _ (by norm_num)
  have key : ((Spec.pattern imm / 1048576 % 2 * 1048576 + Spec.pattern imm / 4096 % 256 * 4096
        + Spec.pattern imm / 2048 % 2 * 2048 + Spec.pattern imm / 2 % 1024 * 2 : Nat) : Int)
      = imm + 2097152 * ((Spec.pattern imm / 1048576 % 2 : Nat) : Int) := by
    have dec : ∀ u : Nat, u % 2097152 = u % 2 + (u / 2 % 1024) * 2 + (u / 2048 % 2) * 2048
        + (u / 4096 % 256) * 4096 + (u / 1048576 % 2) * 1048576 := fun u => by omega
    have hd := dec (Spec.pattern imm)
    rcases pattern_cases imm (by omega) (by omega) with ⟨h0, h⟩ | ⟨h0, h⟩
    · have hu : Spec.pattern imm % 2097152 = Spec.pattern imm ∧ Spec.pattern imm % 2 = 0
          ∧ Spec.pattern imm / 1048576 % 2 = 0 := by omega
      omega
    · have hu : Spec.pattern imm % 2097152 + 4292870144 = Spec.pattern imm
          ∧ Spec.pattern imm % 2 = 0 ∧ Spec.pattern imm / 1048576 % 2 = 1 := by omega
      omega
  generalize Spec.pattern imm / 1048576 % 2 = b20 at hw h1 key
  generalize Spec.pattern imm / 2 % 1024 = f10 at hw h2 key
  generalize Spec.pattern imm / 2048 % 2 = b11 at hw h3 key
  generalize Spec.pattern imm / 4096 % 256 = f8 at hw h4 key
  clear_value w
  have hm : w % 128 = 111 := by omega
  have d1 : w / 2147483648 % 2 = b20 :=
    digit w 0 b20 (f10 * 2097152 + b11 * 1048576 + f8 * 4096 + rd * 128 + 111) _ _
      (by omega) h1 (by omega)
  have d2 : w / 4096 % 256 = f8 :=
    digit w (b20 * 2048 + f10 * 2 + b11) f8 (rd * 128 + 111) _ _ (by omega) h4 (by omega)
  have d3 : w / 1048576 % 2 = b11 :=
    digit w (b20 * 1024 + f10) b11 (f8 * 4096 + rd * 128 + 111) _ _ (by omega) h3 (by omega)
  have d4 : w / 2097152 % 1024 = f10 :=
    digit w b20 f10 (b11 * 1048576 + f8 * 4096 + rd * 128 + 111) _ _ (by omega) h2 (by omega)
  have ht : DecodeUnit.get_instruction_type w = .J_TYPE := by
    simp [DecodeUnit.get_instruction_type, and_7F, hm, Opcode.toNat]
  refine ⟨get_opcode_of_mod w _ (by decide) hm, ht, ?_, ?_⟩
  · rw [get_rd_eq]
    clear d1 d2 d3 d4 hm key ht
    exact digit w (b20 * 524288 + f10 * 512 + b11 * 256 + f8) rd 111 _ _ (by omega) hrd
      (by omega)
  · rw [ht, get_immediate_J]
    simp only [Spec.imm_J, Spec.bits, Spec.sext, Nat.reducePow, Nat.reduceAdd, Nat.reduceSub,
      d1, d2, d3, d4]
    clear hw
    split <;> omega

namespace DecodeUnit

/-- The register fields that the decoder extracts are five-bit numbers. -/
theorem decode_in_range (f : FetchPacket) : (decode f).InRange := by
  refine ⟨?_, ?_, ?_⟩
  · show get_rs1 f.instruction < 32
    rw [get_rs1_eq]; omega
  · show get_rs2 f.instruction < 32
    rw [get_rs2_eq]; omega
  · show get_rd f.instruction < 32
    rw [get_rd_eq]; omega

theorem decode_valid (f : FetchPacket) : (decode f).valid = true := rfl

end DecodeUnit

namespace Processor

theorem tick_stall_fetch (p : Processor) (r : Bool) (u : Uninit) :
    (p.clock_tick r u).stall_fetch = p.stall_fetch := by
  simp only [clock_tick, clock_proc]
  split
  · split <;> rfl
  · rfl

theorem tick_stall_decode (p : Processor) (r : Bool) (u : Uninit) :
    (p.clock_tick r u).stall_decode = p.stall_decode := by
  simp only [clock_tick, clock_proc]
  split
  · split <;> rfl
  · rfl

theorem tick_executionUnit (p : Processor) (r : Bool) (u : Uninit) :
    (p.clock_tick r u).executionUnit = p.executionUnit.clock_tick r p.decode_exec_channel u := by
  simp only [clock_tick, clock_proc]
  split
  · split <;> rfl
  · rfl

theorem tick_decode_channel (p : Processor) (r : Bool) (u : Uninit) :
    (p.clock_tick r u).decode_exec_channel =
      DecodeUnit.decode_proc r p.stall_decode p.fetch_decode_channel p.decode_exec_channel u := by
  simp only [clock_tick, clock_proc]
  split
  · split <;> rfl
  · rfl

theorem tick_fetch_channel (p : Processor) (r : Bool) (u : Uninit) :
    (p.clock_tick r u).fetch_decode_channel =
      (p.fetchUnit.fetch_proc r p.stall_fetch p.branch_taken p.branch_target p.executionUnit.mem
        p.fetch_decode_channel u).2 := by
  simp only [clock_tick, clock_proc]
  split
  · split <;> rfl
  · rfl

/-- The redirect signals after a tick: `clock_proc` raises them when the packet that
the write-back channel showed before the tick is a valid taken branch, and no process
lowers them. -/
theorem tick_branch_signals (p : Processor) (r : Bool) (u : Uninit) :
    ((p.clock_tick r u).branch_taken, (p.clock_tick r u).branch_target) =
      if p.exec_writeback_channel.valid = true ∧ p.exec_writeback_channel.branch_taken = true then
        (true, p.exec_writeback_channel.branch_target)
      else (p.branch_taken, p.branch_target) := by
  simp only [clock_tick, clock_proc]
  cases h1 : p.exec_writeback_channel.valid <;> cases h2 : p.exec_writeback_channel.branch_taken <;>
    simp

/-- The processor the constructor builds is steady. -/
theorem init_steady (t : PredictorType) (mem : MemorySystem) (u : Uninit) :
    (init t mem u).Steady :=
  ⟨rfl, rfl, ExecutionUnit.init_quiescent _ _, fun h => by simp [init] at h⟩

/-- A tick, with or without reset, keeps the processor steady. -/
theorem tick_steady (p : Processor) (r : Bool) (u : Uninit) (hs : p.Steady) :
    (p.clock_tick r u).Steady := by
  obtain ⟨h1, h2, hq, hp⟩ := hs
  refine ⟨by rw [tick_stall_fetch, h1], by rw [tick_stall_decode, h2], ?_, ?_⟩
  · rw [tick_executionUnit]
    cases r
    · exact ExecutionUnit.tick_quiescent _ _ _ hq hp
    · exact ExecutionUnit.reset_quiescent _ _ _ hq.1 hq.2.1 hq.2.2.1 hq.2.2.2.1 hq.2.2.2.2.1
  · rw [tick_decode_channel, h2]
    cases r
    · cases hv : p.fetch_decode_channel.valid
      · simp [DecodeUnit.decode_proc, hv]
      · intro _
        simp only [DecodeUnit.decode_proc, hv, Bool.false_eq_true, if_false, Bool.not_false,
          if_true]
        exact DecodeUnit.decode_in_range _
    · simp [DecodeUnit.decode_proc]

/-- Every state of a run from a steady state is steady. -/
theorem run_steady (p : Processor) (us : Nat → Uninit) (n : Nat) (hs : p.Steady) :
    (p.run us n).Steady := by
  induction n with
  | zero => exact hs
  | succ k ih => exact tick_steady _ false _ ih

end Processor

namespace ExecutionUnit

/-- C1. A conditional branch that commits writes the register numbered by bits 11..7
of its word (a part of its immediate): in a quiescent engine, after the tick that
takes a valid BRANCH packet whose `rd` field is not zero, that register reads 0. -/
theorem C1_branch_commit_writes_register (s : ExecutionUnit) (p : DecodePacket) (u : Uninit)
    (hq : s.Quiescent) (hv : p.valid = true) (hp : p.InRange)
    (hop : p.opcode = Opcode.BRANCH) (hrd : p.rd ≠ 0) :
    (s.clock_tick false p u).regfile.read (p.rd : Int) = 0 := by
  obtain ⟨_, _, hr, _, _⟩ := tick_quiescent_aux s p u hq hv hp
  have hsz : s.regfile.size = 32 := hq.2.2.2.2.1
  have hres : (executed (s.ready_entry p u) s.mem u).result = 0 := by
    simp only [executed, ready_entry, hop, select_pool, execute_branch_op]
  rw [hr, hres, if_pos ⟨by rw [hop]; decide, hrd⟩]
  exact RegisterFile.read_write_same _ _ _ hsz hrd hp.2.2

set_option maxRecDepth 100000 in
/-- C1, at an input: after `addi x29,x0,5` register x29 reads 5, and the commit of
`bne x1,x0,-4` (word 0xFE009EE3, bits 11..7 = 29) in the next tick leaves it at 0. -/
theorem C1_branch_commit_writes_register_witness :
    ((fresh.clock_tick false (DecodeUnit.decode_word 0x00500E93 0) Uninit.zero).regfile.read 29
      = 5) ∧
    (((fresh.clock_tick false (DecodeUnit.decode_word 0x00500E93 0) Uninit.zero).clock_tick false
      (DecodeUnit.decode_word 0xFE009EE3 4) Uninit.zero).regfile.read 29 = 0) :=
  ⟨by decide!,
   C1_branch_commit_writes_register
    (fresh.clock_tick false (DecodeUnit.decode_word 0x00500E93 0) Uninit.zero)
    (DecodeUnit.decode_word 0xFE009EE3 4) Uninit.zero
    (tick_quiescent_aux fresh (DecodeUnit.decode_word 0x00500E93 0) Uninit.zero
      (init_quiescent _ _) rfl (by decide)).1
    rfl (by decide) (by decide) (by decide)⟩

end ExecutionUnit

namespace ExecutionUnit

/-- C2. The size of a committed store is read from a field that `issue_proc` never
assigns: in a quiescent engine, the tick that takes a valid STORE packet writes the
value of rs2 at the address rs1 + imm with the size given by the indeterminate
`funct3` of the local `rob_entry`, whatever the `funct3` of the instruction. -/
theorem C2_store_size_from_unassigned_funct3 (s : ExecutionUnit) (p : DecodePacket) (u : Uninit)
    (hq : s.Quiescent) (hv : p.valid = true) (hp : p.InRange) (hop : p.opcode = Opcode.STORE) :
    (s.clock_tick false p u).mem =
      s.mem.write_data (((s.ready_entry p u).Vj + sext64 p.imm) % W64) (s.ready_entry p u).Vk
        (store_size u.rob_entry.funct3) :=
  store_tick_mem s p u hq hv hp hop

set_option maxRecDepth 100000 in
/-- C2, at an input: after `lui x2,0x12345` the store `sw x2,0(x0)` (funct3 = 2), issued
with the unassigned field holding 0, is committed as a one-byte write: bytes 1 to 3
keep their old value 0 instead of 0x50, 0x34, 0x12. -/
theorem C2_store_size_from_unassigned_funct3_witness :
    ((fresh.clock_tick false (DecodeUnit.decode_word 0x12345137 0) Uninit.zero).regfile.read 2
      = 0x12345000) ∧
    (DecodeUnit.decode_word 0x00202023 4).funct3 = Funct3.SW ∧
    ((fresh.clock_tick false (DecodeUnit.decode_word 0x12345137 0) Uninit.zero).clock_tick false
      (DecodeUnit.decode_word 0x00202023 4) Uninit.zero).mem =
      (fresh.clock_tick false (DecodeUnit.decode_word 0x12345137 0) Uninit.zero).mem.write_data
        0 0x12345000 1 ∧
    (((fresh.clock_tick false (DecodeUnit.decode_word 0x12345137 0) Uninit.zero).clock_tick false
      (DecodeUnit.decode_word 0x00202023 4) Uninit.zero).mem.memory 1 = 0) :=
  ⟨by decide!, by decide!,
   C2_store_size_from_unassigned_funct3
    (fresh.clock_tick false (DecodeUnit.decode_word 0x12345137 0) Uninit.zero)
    (DecodeUnit.decode_word 0x00202023 4) Uninit.zero
    (tick_quiescent_aux fresh (DecodeUnit.decode_word 0x12345137 0) Uninit.zero
      (init_quiescent _ _) rfl (by decide)).1
    rfl (by decide) (by decide),
   by decide!⟩

end ExecutionUnit

namespace ExecutionUnit

/-- C3. From the engine the constructor builds (all registers 0), the ticks that take
`addi x1,x0,7; addi x2,x0,5; add x3,x1,x2` in program order commit all three (the
reorder buffer is empty again) and leave x1 = 7, x2 = 5, x3 = 12; after any number of
later ticks on all-zero instruction words the three registers still read the same. The
indeterminate stack contents of every tick are arbitrary. -/
theorem C3_add_scenario (mem : MemorySystem) (x : ExecutePacket) (u1 u2 u3 : Uninit)
    (later : List (Nat × Uninit)) :
    let s := (init mem x).run
      ([(DecodeUnit.decode_word 0x00700093 0, u1), (DecodeUnit.decode_word 0x00500113 4, u2),
        (DecodeUnit.decode_word 0x002081B3 8, u3)] ++
        later.map (fun a => (DecodeUnit.decode_word 0 a.1, a.2)))
    s.rob.is_empty = true ∧ s.regfile.read 1 = 7 ∧ s.regfile.read 2 = 5 ∧
      s.regfile.read 3 = 12 := by
  intro s
  have q0 : (init mem x).Quiescent := init_quiescent mem x
  obtain ⟨q3, r3⟩ := add_scenario_ticks (init mem x) u1 u2 u3 q0
  obtain ⟨q, r⟩ := run_zero_words later _ q3
  have hs : s = ((init mem x).run
      [(DecodeUnit.decode_word 0x00700093 0, u1), (DecodeUnit.decode_word 0x00500113 4, u2),
        (DecodeUnit.decode_word 0x002081B3 8, u3)]).run
      (later.map (fun a => (DecodeUnit.decode_word 0 a.1, a.2))) := run_append _ _ _
  rw [hs]
  refine ⟨?_, ?_, ?_, ?_⟩
  · simp only [ReorderBuffer.is_empty, q.2.2.2.2.2.2.2.2.1, decide_True]
  · rw [r, r3]
    simp [RegisterFile.write, RegisterFile.read, init, RegisterFile.init, setAt]
  · rw [r, r3]
    simp [RegisterFile.write, RegisterFile.read, init, RegisterFile.init, setAt]
  · rw [r, r3]
    simp [RegisterFile.write, RegisterFile.read, init, RegisterFile.init, setAt]

end ExecutionUnit

namespace Processor

set_option maxRecDepth 10000000 in
/-- C4. On the loop image, after 100 ticks from reset register x1 reads 2^64 - 90. -/
theorem C4_loop_x1_after_100_ticks :
    ((boot loop_image Uninit.zero).run (fun _ => Uninit.zero) 100).executionUnit.regfile.read 1
      = 18446744073709551526 := by
  decide!

end Processor

namespace ExecutionUnit

set_option maxRecDepth 100000 in
/-- C5, counterexample: in the engine as built, the tick that takes `addi x1,x0,7`
issues it (slot 0 of the ALU pool and ROB entry 0 are allocated by `issue_proc`), and
at the end of that same tick the slot is free, the ROB entry has completed and been
removed, and x1 already reads 7. -/
theorem C5_counterexample :
    ((fresh.issue_proc false (DecodeUnit.decode_word 0x00700093 0) Uninit.zero).rs_alu.entries
      0).busy = true ∧
    (fresh.issue_proc false (DecodeUnit.decode_word 0x00700093 0) Uninit.zero).rs_alu.rob_indices
      0 = 0 ∧
    ((fresh.issue_proc false (DecodeUnit.decode_word 0x00700093 0) Uninit.zero).rob.entries
      0).busy = true ∧
    ((fresh.clock_tick false (DecodeUnit.decode_word 0x00700093 0) Uninit.zero).rs_alu.entries
      0).busy = false ∧
    ((fresh.clock_tick false (DecodeUnit.decode_word 0x00700093 0) Uninit.zero).rob.entries
      0).completed = true ∧
    ((fresh.clock_tick false (DecodeUnit.decode_word 0x00700093 0) Uninit.zero).rob.entries
      0).busy = false ∧
    (fresh.clock_tick false (DecodeUnit.decode_word 0x00700093 0) Uninit.zero).rob.is_empty
      = true ∧
    (fresh.clock_tick false (DecodeUnit.decode_word 0x00700093 0) Uninit.zero).regfile.read 1
      = 7 := by
  decide!

/-- C5, amended. In a quiescent engine (the engine between any two ticks of a run from
reset), a valid packet is accepted by issue, which allocates slot 0 of its pool and the
ROB entry at the tail; the instruction is dispatched, completed and committed in the
same tick: at the end of the tick the slot is free again, the ROB entry is no longer
busy, the reorder buffer is empty and its head has moved past the entry. -/
theorem C5_issue_dispatch_commit_same_tick (s : ExecutionUnit) (p : DecodePacket) (u : Uninit)
    (hq : s.Quiescent) (hv : p.valid = true) (hp : p.InRange) :
    ((((s.issue_proc false p u).pool (select_pool p.opcode)).entries 0).busy = true ∧
      ((s.issue_proc false p u).pool (select_pool p.opcode)).rob_indices 0 = (s.rob.tail : Int) ∧
      ((s.issue_proc false p u).rob.entries s.rob.tail).busy = true ∧
      ((s.issue_proc false p u).rob.entries s.rob.tail).completed = false) ∧
    ((((s.clock_tick false p u).pool (select_pool p.opcode)).entries 0).busy = false ∧
      ((s.clock_tick false p u).rob.entries s.rob.tail).busy = false ∧
      (s.clock_tick false p u).rob.is_empty = true ∧
      (s.clock_tick false p u).rob.head = (s.rob.head + 1) % 16) := by
  obtain ⟨a1, a2, a3, a4, _⟩ := issue_allocates s p u hq hv hp
  obtain ⟨q, hh, _, _, _⟩ := tick_quiescent_aux s p u hq hv hp
  have htl : s.rob.tail < 16 := by
    have := hq.2.2.2.2.2.2.2.2.2.1
    have := hq.2.2.2.2.2.2.2.2.2.2.1
    omega
  refine ⟨⟨a1, a2, a3, a4⟩, ?_⟩
  generalize s.clock_tick false p u = t at q hh ⊢
  obtain ⟨ha, hm, hb, _, _, ia, im, ib, hc, _, _, he, _⟩ := q
  refine ⟨?_, he _ htl, ?_, hh⟩
  · cases select_pool p.opcode
    · exact ia 0 (by rw [ha]; decide)
    · exact im 0 (by rw [hm]; decide)
    · exact ib 0 (by rw [hb]; decide)
  · simp only [ReorderBuffer.is_empty, hc, decide_True]

/-- C5, amended, at an input: `addi x1,x0,7` in the engine as built. -/
theorem C5_issue_dispatch_commit_same_tick_witness :
    ((((fresh.issue_proc false (DecodeUnit.decode_word 0x00700093 0) Uninit.zero).pool
        (select_pool (DecodeUnit.decode_word 0x00700093 0).opcode)).entries 0).busy = true ∧
      ((fresh.issue_proc false (DecodeUnit.decode_word 0x00700093 0) Uninit.zero).pool
        (select_pool (DecodeUnit.decode_word 0x00700093 0).opcode)).rob_indices 0
        = (fresh.rob.tail : Int) ∧
      ((fresh.issue_proc false (DecodeUnit.decode_word 0x00700093 0) Uninit.zero).rob.entries
        fresh.rob.tail).busy = true ∧
      ((fresh.issue_proc false (DecodeUnit.decode_word 0x00700093 0) Uninit.zero).rob.entries
        fresh.rob.tail).completed = false) ∧
    ((((fresh.clock_tick false (DecodeUnit.decode_word 0x00700093 0) Uninit.zero).pool
        (select_pool (DecodeUnit.decode_word 0x00700093 0).opcode)).entries 0).busy = false ∧
      ((fresh.clock_tick false (DecodeUnit.decode_word 0x00700093 0) Uninit.zero).rob.entries
        fresh.rob.tail).busy = false ∧
      (fresh.clock_tick false (DecodeUnit.decode_word 0x00700093 0) Uninit.zero).rob.is_empty
        = true ∧
      (fresh.clock_tick false (DecodeUnit.decode_word 0x00700093 0) Uninit.zero).rob.head
        = (fresh.rob.head + 1) % 16) :=
  C5_issue_dispatch_commit_same_tick fresh (DecodeUnit.decode_word 0x00700093 0) Uninit.zero
    (init_quiescent _ _) rfl (by decide)

end ExecutionUnit

namespace Processor

set_option maxRecDepth 100000 in
/-- The stall signals are never asserted, so the steadiness of the state is what keeps a
packet from being refused: in a state with a full reorder buffer, which no run from
reset reaches, the valid packet `addi x1,x0,7` in the decode channel is not issued in
the tick (the buffer still holds its 16 entries, no slot of the ALU pool is taken, x1
stays 0), and after the tick the decode channel holds the younger `addi x2,x0,5`. -/
theorem full_rob_packet_overwritten :
    full_rob_example.decode_exec_channel.valid = true ∧
    full_rob_example.decode_exec_channel.instruction = 0x00700093 ∧
    full_rob_example.executionUnit.rob.is_full = true ∧
    (full_rob_example.clock_tick false Uninit.zero).executionUnit.rob.count = 16 ∧
    ((full_rob_example.clock_tick false Uninit.zero).executionUnit.rs_alu.entries 0).busy
      = false ∧
    (full_rob_example.clock_tick false Uninit.zero).executionUnit.regfile.read 1 = 0 ∧
    (full_rob_example.clock_tick false Uninit.zero).decode_exec_channel
      = DecodeUnit.decode_word 0x00500113 4 ∧
    (full_rob_example.clock_tick false Uninit.zero).decode_exec_channel
      ≠ full_rob_example.decode_exec_channel := by
  decide!

end Processor

namespace Processor

set_option maxRecDepth 100000 in
/-- C7, counterexample: on the image with `jal x0,+64` at 0, the jump executes in the
third tick after reset (the write-back channel, invalid before that tick, then shows a
taken branch with target 64); the fetch stage of the fourth tick emits the packet for
address 12, and only the fetch stage of the fifth tick emits the packet for address
64. -/
theorem C7_counterexample :
    ((boot jump_image Uninit.zero).run (fun _ => Uninit.zero) 2).decode_exec_channel
      = DecodeUnit.decode_word 0x0400006F 0 ∧
    ((boot jump_image Uninit.zero).run (fun _ => Uninit.zero) 2).exec_writeback_channel.valid
      = false ∧
    ((boot jump_image Uninit.zero).run (fun _ => Uninit.zero) 3).exec_writeback_channel.valid
      = true ∧
    ((boot jump_image Uninit.zero).run (fun _ => Uninit.zero) 3).exec_writeback_channel.branch_taken
      = true ∧
    ((boot jump_image Uninit.zero).run (fun _ => Uninit.zero) 3).exec_writeback_channel.branch_target
      = 64 ∧
    ((boot jump_image Uninit.zero).run (fun _ => Uninit.zero) 3).stall_fetch = false ∧
    ((boot jump_image Uninit.zero).run (fun _ => Uninit.zero) 4).fetch_decode_channel
      = { instruction := 0, pc := 12, valid := true } ∧
    ((boot jump_image Uninit.zero).run (fun _ => Uninit.zero) 4).fetchUnit.pc = 16 ∧
    ((boot jump_image Uninit.zero).run (fun _ => Uninit.zero) 5).fetch_decode_channel
      = { instruction := 0, pc := 64, valid := true } := by
  decide!

/-- C7, amended. Branch redirect latency is two ticks. If the decode channel of a
steady pipeline state holds a valid BRANCH/JAL/JALR packet whose execution is taken
with target T, then after this tick (tick t) the write-back channel shows the executed
packet; `clock_proc` of tick t+1 raises `branch_taken` with `branch_target = T`; and
the fetch stage of tick t+2 emits the fetch packet for address T. -/
theorem C7_redirect_after_two_ticks (p : Processor) (u1 u2 u3 : Uninit) (T : Nat)
    (hs : p.Steady) (hv : p.decode_exec_channel.valid = true)
    (hb : ExecutionUnit.select_pool p.decode_exec_channel.opcode = Pool.branch)
    (htaken : (ExecutionUnit.executed
      (p.executionUnit.ready_entry p.decode_exec_channel u1) p.executionUnit.mem u1).branch_taken
        = true)
    (htarget : (ExecutionUnit.executed
      (p.executionUnit.ready_entry p.decode_exec_channel u1) p.executionUnit.mem u1).branch_target
        = T) :
    (p.clock_tick false u1).exec_writeback_channel =
      ExecutionUnit.executed (p.executionUnit.ready_entry p.decode_exec_channel u1)
        p.executionUnit.mem u1 ∧
    ((p.clock_tick false u1).clock_tick false u2).branch_taken = true ∧
    ((p.clock_tick false u1).clock_tick false u2).branch_target = T ∧
    (((p.clock_tick false u1).clock_tick false u2).clock_tick false u3).fetch_decode_channel =
      { instruction :=
          ((p.clock_tick false u1).clock_tick false u2).executionUnit.mem.read_instruction T
        pc := T
        valid := true } := by
  have hs1 := tick_steady p false u1 hs
  have hs2 := tick_steady _ false u2 hs1
  obtain ⟨_, _, hq, hp⟩ := hs
  have hx : (p.clock_tick false u1).exec_writeback_channel =
      ExecutionUnit.executed (p.executionUnit.ready_entry p.decode_exec_channel u1)
        p.executionUnit.mem u1 := by
    simp only [exec_writeback_channel, tick_executionUnit]
    rw [(ExecutionUnit.tick_quiescent_aux _ _ u1 hq hv (hp hv)).2.2.2.2, if_pos hb]
  have hval : (p.clock_tick false u1).exec_writeback_channel.valid = true := by
    rw [hx]
    exact ExecutionUnit.executed_branch_valid _ _ _
      (by rw [ExecutionUnit.ready_entry_opcode]; exact hb)
  have hsig := tick_branch_signals (p.clock_tick false u1) false u2
  rw [if_pos ⟨hval, by rw [hx]; exact htaken⟩, hx, htarget] at hsig
  have hbt : ((p.clock_tick false u1).clock_tick false u2).branch_taken = true :=
    congrArg Prod.fst hsig
  have hbg : ((p.clock_tick false u1).clock_tick false u2).branch_target = T :=
    congrArg Prod.snd hsig
  refine ⟨hx, hbt, hbg, ?_⟩
  rw [tick_fetch_channel, hs2.1, hbt, hbg]
  simp only [FetchUnit.fetch_proc, Bool.false_eq_true, if_false, Bool.not_false, if_true]

set_option maxRecDepth 100000 in
/-- C7, amended, at an input: the state before the third tick of the run on the image
with `jal x0,+64` at 0. -/
theorem C7_redirect_after_two_ticks_witness :
    ((boot jump_image Uninit.zero).run (fun _ => Uninit.zero) 2).decode_exec_channel
      = DecodeUnit.decode_word 0x0400006F 0 ∧
    ((((boot jump_image Uninit.zero).run (fun _ => Uninit.zero) 2).clock_tick false
      Uninit.zero).clock_tick false Uninit.zero).branch_target = 64 ∧
    (((((boot jump_image Uninit.zero).run (fun _ => Uninit.zero) 2).clock_tick false
      Uninit.zero).clock_tick false Uninit.zero).clock_tick false
      Uninit.zero).fetch_decode_channel.pc = 64 :=
  ⟨by decide!,
   (C7_redirect_after_two_ticks ((boot jump_image Uninit.zero).run (fun _ => Uninit.zero) 2)
      Uninit.zero Uninit.zero Uninit.zero 64
      (run_steady _ _ 2 (tick_steady _ true _ (init_steady _ _ _)))
      (by decide!) (by decide!) (by decide!) (by decide!)).2.2.1,
   congrArg FetchPacket.pc
    (C7_redirect_after_two_ticks ((boot jump_image Uninit.zero).run (fun _ => Uninit.zero) 2)
      Uninit.zero Uninit.zero Uninit.zero 64
      (run_steady _ _ 2 (tick_steady _ true _ (init_steady _ _ _)))
      (by decide!) (by decide!) (by decide!) (by decide!)).2.2.2⟩

end Processor

/-- C8. Encode/decode round trip for the six formats: the decoder applied to the
standard encoding of in-range fields returns the opcode, the type of the format and
every field the format carries, the immediate included. The opcodes are all those the
decoder maps to the format: OP (R); OP_IMM, LOAD, JALR (I); STORE (S); BRANCH (B);
LUI, AUIPC (U); JAL (J). -/
theorem C8_encode_decode_round_trip (opI opU : Opcode) (funct3 funct7 rd rs1 rs2 : Nat)
    (immI immS immB immU immJ : Int)
    (hopI : opI = Opcode.OP_IMM ∨ opI = Opcode.LOAD ∨ opI = Opcode.JALR)
    (hopU : opU = Opcode.LUI ∨ opU = Opcode.AUIPC)
    (hrd : rd < 32) (hrs1 : rs1 < 32) (hrs2 : rs2 < 32) (hf3 : funct3 < 8) (hf7 : funct7 < 128)
    (hI : -2048 ≤ immI ∧ immI ≤ 2047) (hS : -2048 ≤ immS ∧ immS ≤ 2047)
    (hB : immB % 2 = 0 ∧ -4096 ≤ immB ∧ immB ≤ 4094)
    (hU : immU % 4096 = 0 ∧ -2147483648 ≤ immU ∧ immU < 2147483648)
    (hJ : immJ % 2 = 0 ∧ -1048576 ≤ immJ ∧ immJ ≤ 1048574) :
    (let w := Spec.encode_R Opcode.OP.toNat funct3 funct7 rd rs1 rs2
     DecodeUnit.get_opcode w = Opcode.OP ∧ DecodeUnit.get_instruction_type w = .R_TYPE ∧
     DecodeUnit.get_funct3 w = funct3 ∧ DecodeUnit.get_funct7 w = funct7 ∧
     DecodeUnit.get_rd w = rd ∧ DecodeUnit.get_rs1 w = rs1 ∧ DecodeUnit.get_rs2 w = rs2) ∧
    (let w := Spec.encode_I opI.toNat funct3 rd rs1 immI
     DecodeUnit.get_opcode w = opI ∧ DecodeUnit.get_instruction_type w = .I_TYPE ∧
     DecodeUnit.get_funct3 w = funct3 ∧ DecodeUnit.get_rd w = rd ∧ DecodeUnit.get_rs1 w = rs1 ∧
     DecodeUnit.get_immediate w (DecodeUnit.get_instruction_type w) = immI) ∧
    (let w := Spec.encode_S Opcode.STORE.toNat funct3 rs1 rs2 immS
     DecodeUnit.get_opcode w = Opcode.STORE ∧ DecodeUnit.get_instruction_type w = .S_TYPE ∧
     DecodeUnit.get_funct3 w = funct3 ∧ DecodeUnit.get_rs1 w = rs1 ∧ DecodeUnit.get_rs2 w = rs2 ∧
     DecodeUnit.get_immediate w (DecodeUnit.get_instruction_type w) = immS) ∧
    (let w := Spec.encode_B Opcode.BRANCH.toNat funct3 rs1 rs2 immB
     DecodeUnit.get_opcode w = Opcode.BRANCH ∧ DecodeUnit.get_instruction_type w = .B_TYPE ∧
     DecodeUnit.get_funct3 w = funct3 ∧ DecodeUnit.get_rs1 w = rs1 ∧ DecodeUnit.get_rs2 w = rs2 ∧
     DecodeUnit.get_immediate w (DecodeUnit.get_instruction_type w) = immB) ∧
    (let w := Spec.encode_U opU.toNat rd immU
     DecodeUnit.get_opcode w = opU ∧ DecodeUnit.get_instruction_type w = .U_TYPE ∧
     DecodeUnit.get_rd w = rd ∧
     DecodeUnit.get_immediate w (DecodeUnit.get_instruction_type w) = immU) ∧
    (let w := Spec.encode_J Opcode.JAL.toNat rd immJ
     DecodeUnit.get_opcode w = Opcode.JAL ∧ DecodeUnit.get_instruction_type w = .J_TYPE ∧
     DecodeUnit.get_rd w = rd ∧
     DecodeUnit.get_immediate w (DecodeUnit.get_instruction_type w) = immJ) :=
  ⟨roundtrip_R funct3 funct7 rd rs1 rs2 hrd hrs1 hrs2 hf3 hf7,
   roundtrip_I opI funct3 rd rs1 immI hopI hrd hrs1 hf3 hI.1 hI.2,
   roundtrip_S funct3 rs1 rs2 immS hrs1 hrs2 hf3 hS.1 hS.2,
   roundtrip_B funct3 rs1 rs2 immB hrs1 hrs2 hf3 hB.1 hB.2.1 hB.2.2,
   roundtrip_U opU rd immU hopU hrd hU.1 hU.2.1 hU.2.2,
   roundtrip_J rd immJ hrd hJ.1 hJ.2.1 hJ.2.2⟩

/-- C8, at an input: `bne x1,x0,-4` is the word 0xFE009EE3, and the decoder returns the
immediate -4 from it. -/
theorem C8_encode_decode_round_trip_witness :
    Spec.encode_B Opcode.BRANCH.toNat 1 1 0 (-4) = 0xFE009EE3 ∧
    DecodeUnit.get_immediate (Spec.encode_B Opcode.BRANCH.toNat 1 1 0 (-4))
      (DecodeUnit.get_instruction_type (Spec.encode_B Opcode.BRANCH.toNat 1 1 0 (-4))) = -4 :=
  ⟨by decide,
   (C8_encode_decode_round_trip Opcode.JALR Opcode.LUI 1 32 29 1 0 (-1) 2047 (-4) (-4096) 64
      (by decide) (by decide) (by decide) (by decide) (by decide) (by decide) (by decide)
      (by decide) (by decide) (by decide) (by decide) (by decide)).2.2.2.1.2.2.2.2.2⟩

theorem sext64_eq_spec (imm : Int) (hlo : -2147483648 ≤ imm) (hhi : imm < 2147483648) :
    sext64 imm = Spec.sext64 imm := by
  simp only [sext64, Spec.sext64, Int.reducePow]
  split <;> omega

theorem toInt64_eq_signed (x : Nat) (hx : x < W64) : toInt64 x = Spec.signed64 x := by
  simp only [W64] at hx
  simp only [toInt64, Spec.signed64, Spec.sext, W64, Nat.reducePow, Nat.reduceSub]
  rw [Nat.mod_eq_of_lt hx]
  split <;> simp

theorem funct7_bit5 (funct7 : Nat) : (funct7 &&& 0x20 ≠ 0) ↔ funct7 / 32 % 2 = 1 := by
  have := and_two_pow_eq funct7 5
  simp only [Nat.reducePow] at this
  rw [this]
  omega

/-- C10. On 64-bit operands `execute_alu_op` computes the reference ALU: LUI, AUIPC,
and for OP/OP_IMM with funct3 000, 010, 011, 100, 110, 111 the ADD/SUB, SLT, SLTU, XOR,
OR, AND of `op1 = Vj` and `op2` (the sign-extended immediate for OP_IMM, `Vk` otherwise),
SUB being taken exactly for opcode OP with funct7 bit 5 set; every other opcode gives 0. -/
theorem C10_execute_alu_op_reference (entry : RSEntry) (result : ExecutePacket) (r : Nat)
    (hVj : entry.Vj < W64) (hVk : entry.Vk < W64)
    (hlo : -2147483648 ≤ entry.imm) (hhi : entry.imm < 2147483648)
    (href : Spec.alu entry.opcode entry.funct3 entry.funct7 entry.Vj entry.Vk entry.imm entry.pc
      = some r) :
    (ExecutionUnit.execute_alu_op entry result).result = r := by
  have hs := sext64_eq_spec entry.imm hlo hhi
  have hop2 : Spec.sext64 entry.imm < W64 := by
    rw [← hs]; simp only [sext64, W64]; omega
  have hj := toInt64_eq_signed entry.Vj hVj
  have hk := toInt64_eq_signed entry.Vk hVk
  have hi := toInt64_eq_signed (Spec.sext64 entry.imm) hop2
  have hb := funct7_bit5 entry.funct7
  rcases entry with ⟨busy, opcode, funct3, funct7, rd, Vj, Vk, Qj, Qk, imm, pc, ready⟩
  simp only at hVj hVk hlo hhi href hs hj hk hi hb hop2
  cases opcode <;>
    simp only [Spec.alu, Option.some.injEq, reduceCtorEq, if_false, if_true, false_and, true_and]
      at href <;>
    simp only [ExecutionUnit.execute_alu_op, hs, reduceCtorEq, if_false, if_true, false_and,
      true_and, Funct3.ADD, Funct3.SLT, Funct3.SLTU, Funct3.XOR, Funct3.OR, Funct3.AND,
      Funct3.SLL, Funct3.SRL, W64, hb]
  all_goals first
    | exact href
    | skip
  all_goals
    split at href
    all_goals try simp only [Option.some.injEq, reduceCtorEq] at href
    all_goals first
      | (subst href
         simp only [hj, hk, hi, Nat.reducePow, OfNat.ofNat_ne_zero, OfNat.zero_ne_ofNat,
           Nat.reduceEqDiff, if_true, if_false])
      | (split at href
         all_goals simp only [Option.some.injEq] at href
         all_goals subst href
         all_goals simp only [*, if_true, if_false, Nat.reducePow]
         all_goals simp only [sext64, W64] at *
         all_goals omega)
  all_goals
    rename_i h0 h2 h3 h4 h6 h7 h1 h5
    simp only [show ¬ funct3 = 0 from h0, show ¬ funct3 = 2 from h2, show ¬ funct3 = 3 from h3,
      show ¬ funct3 = 4 from h4, show ¬ funct3 = 6 from h6, show ¬ funct3 = 7 from h7,
      show ¬ funct3 = 1 from h1, show ¬ funct3 = 5 from h5, if_false]

set_option maxRecDepth 100000 in
/-- C10, at an input: ADDI with immediate -1 (funct7 field all ones) on 5 gives 4: the
immediate is added, not subtracted. -/
theorem C10_execute_alu_op_reference_witness :
    (ExecutionUnit.execute_alu_op
      { busy := true, opcode := Opcode.OP_IMM, funct3 := 0, funct7 := 127, rd := 1, Vj := 5,
        Vk := 0, Qj := 0, Qk := 0, imm := -1, pc := 4, ready := true }
      ExecutePacket.zero).result = 4 :=
  C10_execute_alu_op_reference
    { busy := true, opcode := Opcode.OP_IMM, funct3 := 0, funct7 := 127, rd := 1, Vj := 5,
      Vk := 0, Qj := 0, Qk := 0, imm := -1, pc := 4, ready := true }
    ExecutePacket.zero 4 (by decide) (by decide) (by decide) (by decide) (by decide)

theorem and_3F (x : Nat) : x &&& 0x3F = x % 64 := Nat.and_pow_two_sub_one_eq_mod x 6

/-- The `int64_t` right shift of the code is the arithmetic shift of the pattern. -/
theorem sra_eq_spec (x n : Nat) (hx : x < W64) (hn : n < 64) :
    sext64 (Int.shiftRight (toInt64 x) n) = Spec.sra x n := by
  simp only [W64] at hx
  have hsh : ∀ m : Int, Int.shiftRight m n = m / ((2 ^ n : Nat) : Int) :=
    fun m => Int.shiftRight_eq_div_pow m n
  have hpow : 2 ^ n * 2 ^ (64 - n) = 18446744073709551616 := by
    rw [← Nat.pow_add, Nat.add_sub_cancel' (Nat.le_of_lt hn)]
  have hP : 0 < 2 ^ n := Nat.two_pow_pos _
  have hQ : 0 < 2 ^ (64 - n) := Nat.two_pow_pos _
  have hq : x / 2 ^ n < 2 ^ (64 - n) := by
    rw [Nat.div_lt_iff_lt_mul hP, Nat.mul_comm, hpow]; exact hx
  have hQle : 2 ^ (64 - n) ≤ 18446744073709551616 := by
    rw [← hpow]; exact Nat.le_mul_of_pos_left _ hP
  rw [hsh]
  simp only [toInt64, Spec.sra, sext64, W64, Nat.mod_eq_of_lt hx, Nat.reducePow]
  by_cases hs : x < 9223372036854775808
  · have hb : ¬ (x / 9223372036854775808 % 2 = 1) := by omega
    rw [if_pos hs, if_neg hb]
    have : ((x : Int) / ((2 ^ n : Nat) : Int)) = ((x / 2 ^ n : Nat) : Int) := by
      rw [Int.ofNat_ediv]
    rw [this]
    have hlt : x / 2 ^ n < 18446744073709551616 := lt_of_lt_of_le hq hQle
    generalize x / 2 ^ n = q at *
    omega
  · have hb : x / 9223372036854775808 % 2 = 1 := by omega
    rw [if_neg hs, if_pos hb]
    have e : ((x : Int) - 18446744073709551616) =
        (x : Int) + (-((2 ^ (64 - n) : Nat) : Int)) * ((2 ^ n : Nat) : Int) := by
      have : ((2 ^ n * 2 ^ (64 - n) : Nat) : Int) = 18446744073709551616 := by
        rw [hpow]; rfl
      push_cast at this ⊢
      linarith
    have hne : ((2 ^ n : Nat) : Int) ≠ 0 := by
      have : (0 : Int) < ((2 ^ n : Nat) : Int) := by exact_mod_cast hP
      omega
    rw [e, Int.add_mul_ediv_right _ _ hne]
    have : ((x : Int) / ((2 ^ n : Nat) : Int)) = ((x / 2 ^ n : Nat) : Int) := by
      rw [Int.ofNat_ediv]
    rw [this]
    generalize x / 2 ^ n = q at *
    generalize 2 ^ (64 - n) = Q at *
    omega

/-- C11. For funct3 = 101 the ALU gives the arithmetic right shift of op1 by
op2 mod 64 exactly when the opcode is OP and funct7 bit 5 is set, and the logical right
shift in every other case (OP_IMM with funct7 bit 5 set included). The arithmetic shift
of a value with bit 63 set has bit 63 set; the logical shift by a non-zero amount has
bit 63 clear. -/
theorem C11_shift_right (entry : RSEntry) (result : ExecutePacket)
    (hVj : entry.Vj < W64) (hf3 : entry.funct3 = 5)
    (hop : entry.opcode = Opcode.OP ∨ entry.opcode = Opcode.OP_IMM) :
    (ExecutionUnit.execute_alu_op entry result).result =
      (if entry.opcode = Opcode.OP ∧ entry.funct7 / 32 % 2 = 1 then
        Spec.sra entry.Vj ((if entry.opcode = Opcode.OP_IMM then sext64 entry.imm
          else entry.Vk) % 64)
       else
        Spec.srl entry.Vj ((if entry.opcode = Opcode.OP_IMM then sext64 entry.imm
          else entry.Vk) % 64)) ∧
    (entry.opcode = Opcode.OP ∧ entry.funct7 / 32 % 2 = 1 → entry.Vj / 2 ^ 63 % 2 = 1 →
      (ExecutionUnit.execute_alu_op entry result).result / 2 ^ 63 % 2 = 1) ∧
    (¬ (entry.opcode = Opcode.OP ∧ entry.funct7 / 32 % 2 = 1) →
      (if entry.opcode = Opcode.OP_IMM then sext64 entry.imm else entry.Vk) % 64 ≠ 0 →
      (ExecutionUnit.execute_alu_op entry result).result / 2 ^ 63 % 2 = 0) := by
  have hb := funct7_bit5 entry.funct7
  have key : (ExecutionUnit.execute_alu_op entry result).result =
      (if entry.opcode = Opcode.OP ∧ entry.funct7 / 32 % 2 = 1 then
        Spec.sra entry.Vj ((if entry.opcode = Opcode.OP_IMM then sext64 entry.imm
          else entry.Vk) % 64)
       else
        Spec.srl entry.Vj ((if entry.opcode = Opcode.OP_IMM then sext64 entry.imm
          else entry.Vk) % 64)) := by
    rcases entry with ⟨busy, opcode, funct3, funct7, rd, Vj, Vk, Qj, Qk, imm, pc, ready⟩
    simp only at hVj hf3 hop hb ⊢
    subst hf3
    rcases hop with h | h <;> subst h
    · simp only [ExecutionUnit.execute_alu_op, Funct3.ADD, Funct3.SLT, Funct3.SLTU, Funct3.XOR,
        Funct3.OR, Funct3.AND, Funct3.SLL, Funct3.SRL, reduceCtorEq, if_false, if_true, true_and,
        OfNat.ofNat_ne_zero, OfNat.ofNat_ne_one, Nat.reduceEqDiff, hb, and_3F]
      split
      · exact sra_eq_spec Vj _ hVj (Nat.mod_lt _ (by decide))
      · simp only [Spec.srl, Nat.shiftRight_eq_div_pow]
    · simp only [ExecutionUnit.execute_alu_op, Funct3.ADD, Funct3.SLT, Funct3.SLTU, Funct3.XOR,
        Funct3.OR, Funct3.AND, Funct3.SLL, Funct3.SRL, reduceCtorEq, if_false, if_true, false_and,
        OfNat.ofNat_ne_zero, OfNat.ofNat_ne_one, Nat.reduceEqDiff, and_3F]
      simp only [Spec.srl, Nat.shiftRight_eq_div_pow]
  refine ⟨key, ?_, ?_⟩
  · intro h hs
    rw [key, if_pos h]
    generalize (if entry.opcode = Opcode.OP_IMM then sext64 entry.imm else entry.Vk) % 64 = n
    simp only [Spec.sra, hs, if_true]
    simp only [W64] at hVj
    have hx : 9223372036854775808 ≤ entry.Vj := by
      simp only [Nat.reducePow] at hs; omega
    by_cases hn : n ≤ 64
    · have hpow : 2 ^ n * 2 ^ (64 - n) = 18446744073709551616 := by
        rw [← Nat.pow_add, Nat.add_sub_cancel' hn]
      have hP : 0 < 2 ^ n := Nat.two_pow_pos _
      have hq : entry.Vj / 2 ^ n < 2 ^ (64 - n) := by
        rw [Nat.div_lt_iff_lt_mul hP, Nat.mul_comm, hpow]; exact hVj
      have hQ2 : 2 ^ (64 - n) ≤ 9223372036854775808 ∨ n = 0 := by
        rcases Nat.eq_zero_or_pos n with h0 | h0
        · right; exact h0
        · left
          calc 2 ^ (64 - n) ≤ 2 ^ 63 := Nat.pow_le_pow_right (by decide) (by omega)
            _ = 9223372036854775808 := by norm_num
      rcases hQ2 with hQ2 | h0
      · generalize entry.Vj / 2 ^ n = q at *
        generalize 2 ^ (64 - n) = Q at *
        simp only [Nat.reducePow]
        omega
      · subst h0
        simp only [Nat.reducePow, Nat.pow_zero, Nat.div_one, Nat.sub_zero, Nat.sub_self,
          Nat.add_zero]
        omega
    · have h0 : 64 - n = 0 := by omega
      have hd : entry.Vj / 2 ^ n = 0 := by
        apply Nat.div_eq_of_lt
        calc entry.Vj < 2 ^ 64 := by norm_num; exact hVj
          _ ≤ 2 ^ n := Nat.pow_le_pow_right (by decide) (by omega)
      rw [h0, hd]
      norm_num
  · intro h hn
    rw [key, if_neg h]
    generalize (if entry.opcode = Opcode.OP_IMM then sext64 entry.imm else entry.Vk) % 64 = n
      at hn ⊢
    simp only [Spec.srl]
    have h2 : 2 ≤ 2 ^ n := by
      calc 2 = 2 ^ 1 := rfl
        _ ≤ 2 ^ n := Nat.pow_le_pow_right (by decide) (by omega)
    have hlt : entry.Vj / 2 ^ n < 9223372036854775808 := by
      simp only [W64] at hVj
      rw [Nat.div_lt_iff_lt_mul (by omega)]
      calc entry.Vj < 9223372036854775808 * 2 := by omega
        _ ≤ 9223372036854775808 * 2 ^ n := Nat.mul_le_mul_left _ h2
    generalize entry.Vj / 2 ^ n = q at hlt ⊢
    simp only [Nat.reducePow]
    omega

set_option maxRecDepth 100000 in
/-- C11, at inputs: on 0x8000000000000000 with shift amount 4, SRA (opcode OP, funct7
0x20) gives 0xF800000000000000, while SRAI (opcode OP_IMM, immediate 0x404) gives
0x0800000000000000, the logical shift. -/
theorem C11_shift_right_witness :
    (ExecutionUnit.execute_alu_op
      { busy := true, opcode := Opcode.OP, funct3 := 5, funct7 := 32, rd := 1,
        Vj := 0x8000000000000000, Vk := 4, Qj := 0, Qk := 0, imm := 0, pc := 0, ready := true }
      ExecutePacket.zero).result = 0xF800000000000000 ∧
    (ExecutionUnit.execute_alu_op
      { busy := true, opcode := Opcode.OP_IMM, funct3 := 5, funct7 := 32, rd := 1,
        Vj := 0x8000000000000000, Vk := 0, Qj := 0, Qk := 0, imm := 0x404, pc := 0,
        ready := true }
      ExecutePacket.zero).result = 0x0800000000000000 :=
  ⟨(C11_shift_right
      { busy := true, opcode := Opcode.OP, funct3 := 5, funct7 := 32, rd := 1,
        Vj := 0x8000000000000000, Vk := 4, Qj := 0, Qk := 0, imm := 0, pc := 0, ready := true }
      ExecutePacket.zero (by decide) rfl (Or.inl rfl)).1.trans (by decide),
   by decide⟩

/-- C12. The shifts use only the low 6 bits of op2: for funct3 001 and 101, opcode OP
or OP_IMM, the ALU result is the same when op2 (Vk for OP, the sign-extended immediate
for OP_IMM) is replaced by op2 mod 64; and SLL gives (op1 * 2^(op2 mod 64)) mod 2^64. -/
theorem C12_shift_amount_low_six_bits (entry : RSEntry) (result : ExecutePacket)
    (hf3 : entry.funct3 = 1 ∨ entry.funct3 = 5)
    (hop : entry.opcode = Opcode.OP ∨ entry.opcode = Opcode.OP_IMM) :
    (ExecutionUnit.execute_alu_op entry result).result =
      (ExecutionUnit.execute_alu_op
        { entry with Vk := entry.Vk % 64, imm := ((sext64 entry.imm % 64 : Nat) : Int) }
        result).result ∧
    (entry.funct3 = 1 →
      (ExecutionUnit.execute_alu_op entry result).result =
        Spec.sll entry.Vj
          ((if entry.opcode = Opcode.OP_IMM then sext64 entry.imm else entry.Vk) % 64)) := by
  have hs : sext64 ((sext64 entry.imm % 64 : Nat) : Int) = sext64 entry.imm % 64 := by
    have : sext64 entry.imm % 64 < 64 := Nat.mod_lt _ (by decide)
    generalize sext64 entry.imm % 64 = k at this
    simp only [sext64]
    omega
  rcases entry with ⟨busy, opcode, funct3, funct7, rd, Vj, Vk, Qj, Qk, imm, pc, ready⟩
  simp only at hf3 hop hs ⊢
  rcases hop with h | h <;> subst h <;> rcases hf3 with h3 | h3 <;> subst h3 <;>
    simp only [ExecutionUnit.execute_alu_op, Funct3.ADD, Funct3.SLT, Funct3.SLTU, Funct3.XOR,
      Funct3.OR, Funct3.AND, Funct3.SLL, Funct3.SRL, reduceCtorEq, if_false, if_true, true_and,
      false_and, OfNat.ofNat_ne_zero, OfNat.ofNat_ne_one, OfNat.one_ne_ofNat, one_ne_zero,
      Nat.reduceEqDiff, and_3F, hs, Nat.mod_mod, Spec.sll, Nat.shiftLeft_eq, W64, Nat.reducePow,
      and_self, imp_self, false_implies, and_true]

set_option maxRecDepth 100000 in
/-- C12, at an input: SLL of 3 by 65 is SLL of 3 by 1. -/
theorem C12_shift_amount_low_six_bits_witness :
    (ExecutionUnit.execute_alu_op
      { busy := true, opcode := Opcode.OP, funct3 := 1, funct7 := 0, rd := 1, Vj := 3, Vk := 65,
        Qj := 0, Qk := 0, imm := 0, pc := 0, ready := true }
      ExecutePacket.zero).result = 6 :=
  ((C12_shift_amount_low_six_bits
      { busy := true, opcode := Opcode.OP, funct3 := 1, funct7 := 0, rd := 1, Vj := 3, Vk := 65,
        Qj := 0, Qk := 0, imm := 0, pc := 0, ready := true }
      ExecutePacket.zero (Or.inl rfl) (Or.inl rfl)).2 rfl).trans (by decide)

namespace MemorySystem

theorem init_wf : init.WellFormed := fun _ => by simp [init]

theorem write_loop_wf (n addr data : Nat) (m : MemorySystem) (h : m.WellFormed) :
    (forRange n
      (fun i (mem : MemorySystem) =>
        ({ memory := setAt mem.memory (addr + i) ((data >>> (i * 8)) &&& 0xFF) } : MemorySystem))
      m).WellFormed := by
  induction n with
  | zero => rw [forRange_zero]; exact h
  | succ k ih =>
    rw [forRange_succ]
    intro a
    simp only [setAt]
    split
    · have := Nat.and_pow_two_sub_one_eq_mod (data >>> (k * 8)) 8
      simp only [Nat.reducePow, Nat.reduceSub] at this
      rw [this]
      omega
    · exact ih a

/-- Every write stores bytes. -/
theorem write_data_wf (m : MemorySystem) (addr data size : Nat) (h : m.WellFormed) :
    (m.write_data addr data size).WellFormed := by
  unfold write_data
  split
  · exact h
  · exact write_loop_wf size addr data m h

theorem limit_iff (addr size : Nat) (hs : size ≤ MEMORY_SIZE + 1) :
    addr ≥ limit size ↔ addr + size > MEMORY_SIZE := by
  simp only [limit, MEMORY_SIZE] at *
  omega

theorem or_shift_eq_add (a b k : Nat) (ha : a < 2 ^ k) : a ||| (b <<< k) = a + b * 2 ^ k := by
  rw [Nat.shiftLeft_eq, Nat.lor_comm, or_eq_add_of_dvd (b * 2 ^ k) a k (Dvd.intro_left _ rfl) ha,
    Nat.add_comm]

theorem read_data_1 (m : MemorySystem) (addr : Nat) (hr : addr + 1 ≤ MEMORY_SIZE) :
    m.read_data addr 1 = m.memory addr := by
  have : ¬ addr ≥ limit 1 := by rw [limit_iff _ _ (by decide)]; omega
  simp only [read_data, this, if_false]
  show 0 ||| (m.memory (addr + 0) <<< (0 * 8)) = m.memory addr
  simp

theorem read_data_2 (m : MemorySystem) (addr : Nat) (h0 : m.memory addr < 256)
    (hr : addr + 2 ≤ MEMORY_SIZE) :
    m.read_data addr 2 = m.memory addr + m.memory (addr + 1) * 256 := by
  have : ¬ addr ≥ limit 2 := by rw [limit_iff _ _ (by decide)]; omega
  simp only [read_data, this, if_false]
  show (0 ||| (m.memory (addr + 0) <<< (0 * 8))) ||| (m.memory (addr + 1) <<< (1 * 8)) = _
  simp only [Nat.zero_mul, Nat.shiftLeft_zero, Nat.zero_or, Nat.add_zero, Nat.one_mul]
  rw [or_shift_eq_add _ _ 8 h0]
  norm_num

theorem read_data_4 (m : MemorySystem) (addr : Nat) (h0 : m.memory addr < 256)
    (h1 : m.memory (addr + 1) < 256) (h2 : m.memory (addr + 2) < 256)
    (hr : addr + 4 ≤ MEMORY_SIZE) :
    m.read_data addr 4 = m.memory addr + m.memory (addr + 1) * 256 +
      m.memory (addr + 2) * 65536 + m.memory (addr + 3) * 16777216 := by
  have : ¬ addr ≥ limit 4 := by rw [limit_iff _ _ (by decide)]; omega
  simp only [read_data, this, if_false]
  show (((0 ||| (m.memory (addr + 0) <<< (0 * 8))) ||| (m.memory (addr + 1) <<< (1 * 8))) |||
    (m.memory (addr + 2) <<< (2 * 8))) ||| (m.memory (addr + 3) <<< (3 * 8)) = _
  simp only [Nat.zero_mul, Nat.shiftLeft_zero, Nat.zero_or, Nat.add_zero, Nat.one_mul,
    Nat.reduceMul]
  rw [or_shift_eq_add _ _ 8 h0, or_shift_eq_add _ _ 16 (by norm_num; omega),
    or_shift_eq_add _ _ 24 (by norm_num; omega)]
  norm_num

/-- In range, `read_data` returns the little-endian value of the bytes. -/
theorem read_data_eq_le_bytes (m : MemorySystem) (addr size : Nat) (hwf : m.WellFormed)
    (hs : size = 1 ∨ size = 2 ∨ size = 4) (hr : addr + size ≤ MEMORY_SIZE) :
    m.read_data addr size = Spec.le_bytes m.memory addr size := by
  rcases hs with h | h | h <;> subst h
  · rw [read_data_1 m addr hr]; simp [Spec.le_bytes]
  · rw [read_data_2 m addr (hwf _) hr]; simp [Spec.le_bytes]
  · rw [read_data_4 m addr (hwf _) (hwf _) (hwf _) hr]; simp [Spec.le_bytes]

end MemorySystem

theorem or_high_mask (x k M : Nat) (hx : x < 2 ^ k) (hM : 2 ^ k ∣ M) : x ||| M = x + M := by
  rw [Nat.lor_comm, or_eq_add_of_dvd M x k hM hx, Nat.add_comm]

/-- The sign extension of the loads, on a value of `w` bits. -/
theorem load_sext (data w : Nat) (hw : 1 ≤ w) (hw2 : w ≤ 64) (hd : data < 2 ^ w) :
    (if data &&& 2 ^ (w - 1) ≠ 0 then data ||| (2 ^ 64 - 2 ^ w) else data) =
      Spec.sext_to64 w data := by
  have hb := and_two_pow_eq data (w - 1)
  have hpw : 2 ^ w = 2 * 2 ^ (w - 1) := by
    rw [← Nat.pow_succ']; congr 1; omega
  have hP : 0 < 2 ^ (w - 1) := Nat.two_pow_pos _
  have hdvd : 2 ^ w ∣ 2 ^ 64 - 2 ^ w :=
    Nat.dvd_sub' (Nat.pow_dvd_pow 2 hw2) (dvd_refl _)
  simp only [Spec.sext_to64]
  by_cases hlt : data < 2 ^ (w - 1)
  · have : data / 2 ^ (w - 1) = 0 := Nat.div_eq_of_lt hlt
    rw [hb, this]
    simp [hlt]
  · have hq : data / 2 ^ (w - 1) = 1 := by
      have h1 : data / 2 ^ (w - 1) < 2 := by
        rw [Nat.div_lt_iff_lt_mul hP]; omega
      have h2 : 1 ≤ data / 2 ^ (w - 1) := by
        rw [Nat.le_div_iff_mul_le hP]; omega
      omega
    rw [hb, hq]
    have hne : 1 % 2 * 2 ^ (w - 1) ≠ 0 := by
      simp only [Nat.one_mod, Nat.one_mul]; omega
    rw [if_pos hne, if_neg hlt, or_high_mask data w _ hd hdvd]

theorem le_bytes_lt (m : MemorySystem) (hwf : m.WellFormed) (addr size : Nat) :
    Spec.le_bytes m.memory addr size < 256 ^ size := by
  induction size with
  | zero => simp [Spec.le_bytes]
  | succ k ih =>
    simp only [Spec.le_bytes, Nat.pow_succ]
    have := hwf (addr + k)
    have hk : 0 < 256 ^ k := Nat.pos_pow_of_pos _ (by decide)
    nlinarith

namespace ExecutionUnit

/-- The value `execute_mem_op` computes for a load, from the value read. -/
theorem load_result (entry : RSEntry) (result : ExecutePacket) (mem : MemorySystem)
    (hop : entry.opcode = Opcode.LOAD) :
    (execute_mem_op entry result mem).result =
      (let data := mem.read_data ((entry.Vj + sext64 entry.imm) % W64)
        (Spec.load_size entry.funct3)
       if entry.funct3 = 0 then (if data &&& 0x80 ≠ 0 then data ||| 0xFFFFFFFFFFFFFF00 else data)
       else if entry.funct3 = 1 then
        (if data &&& 0x8000 ≠ 0 then data ||| 0xFFFFFFFFFFFF0000 else data)
       else if entry.funct3 = 2 then
        (if data &&& 0x80000000 ≠ 0 then data ||| 0xFFFFFFFF00000000 else data)
       else data) := by
  simp only [execute_mem_op, hop, if_true, Funct3.LB, Funct3.LBU, Funct3.LH, Funct3.LHU,
    Funct3.LW, Spec.load_size]

/-- C13. For a LOAD whose effective address is in range for its size (and a memory of
bytes), `execute_mem_op` returns the little-endian value read at the address, sign-
extended from 8, 16 or 32 bits for LB, LH, LW and zero-extended for LBU, LHU and any
other funct3 (which reads 4 bytes). -/
theorem C13_load_value (entry : RSEntry) (result : ExecutePacket) (mem : MemorySystem)
    (hwf : mem.WellFormed) (hop : entry.opcode = Opcode.LOAD)
    (hr : (entry.Vj + sext64 entry.imm) % W64 + Spec.load_size entry.funct3
      ≤ MemorySystem.MEMORY_SIZE) :
    (execute_mem_op entry result mem).result =
      Spec.load entry.funct3 mem.memory ((entry.Vj + sext64 entry.imm) % W64) := by
  rw [load_result entry result mem hop]
  generalize (entry.Vj + sext64 entry.imm) % W64 = addr at hr ⊢
  generalize entry.funct3 = f at hr ⊢
  have hsz : Spec.load_size f = 1 ∨ Spec.load_size f = 2 ∨ Spec.load_size f = 4 := by
    simp only [Spec.load_size]
    split
    · left; rfl
    · split
      · right; left; rfl
      · right; right; rfl
  simp only []
  rw [MemorySystem.read_data_eq_le_bytes mem addr _ hwf hsz hr]
  have b1 := le_bytes_lt mem hwf addr 1
  have b2 := le_bytes_lt mem hwf addr 2
  have b4 := le_bytes_lt mem hwf addr 4
  have s1 := load_sext (Spec.le_bytes mem.memory addr 1) 8 (by decide) (by decide)
    (by norm_num at b1 ⊢; exact b1)
  have s2 := load_sext (Spec.le_bytes mem.memory addr 2) 16 (by decide) (by decide)
    (by norm_num at b2 ⊢; exact b2)
  have s4 := load_sext (Spec.le_bytes mem.memory addr 4) 32 (by decide) (by decide)
    (by norm_num at b4 ⊢; exact b4)
  simp only [Nat.reducePow, Nat.reduceSub] at s1 s2 s4
  by_cases h0 : f = 0
  · subst h0; simp only [Spec.load_size, Spec.load, true_or, if_true]; exact s1
  by_cases h1 : f = 1
  · subst h1
    simp only [Spec.load_size, Spec.load, OfNat.one_ne_ofNat, one_ne_zero, false_or, or_false,
      true_or, if_true, if_false]
    exact s2
  by_cases h2 : f = 2
  · subst h2
    simp only [Spec.load_size, Spec.load, OfNat.ofNat_ne_zero, OfNat.ofNat_ne_one,
      Nat.reduceEqDiff, false_or, or_false, if_true, if_false]
    exact s4
  by_cases h4 : f = 4
  · subst h4
    simp only [Spec.load_size, Spec.load, OfNat.ofNat_ne_zero, OfNat.ofNat_ne_one,
      Nat.reduceEqDiff, false_or, or_true, if_true, if_false]
  by_cases h5 : f = 5
  · subst h5
    simp only [Spec.load_size, Spec.load, OfNat.ofNat_ne_zero, OfNat.ofNat_ne_one,
      Nat.reduceEqDiff, false_or, or_true, or_false, if_true, if_false]
  · have hl : Spec.load f mem.memory addr = Spec.le_bytes mem.memory addr 4 := by
      unfold Spec.load
      split <;> first | rfl | omega
    simp only [Spec.load_size, h0, h1, h2, h4, h5, or_self, if_false, hl]

set_option maxRecDepth 100000 in
/-- C13, at an input: with the word 0xDEADBEEF stored at 0x100, the entry of
`lw x4,0x100(x0)` produces 0xFFFFFFFFDEADBEEF. -/
theorem C13_load_value_witness :
    (execute_mem_op
      { busy := true, opcode := Opcode.LOAD, funct3 := 2, funct7 := 8, rd := 4, Vj := 0, Vk := 0,
        Qj := 0, Qk := 0, imm := 0x100, pc := 0, ready := true }
      ExecutePacket.zero (MemorySystem.init.write_data 0x100 0xDEADBEEF 4)).result
      = 0xFFFFFFFFDEADBEEF :=
  (C13_load_value
      { busy := true, opcode := Opcode.LOAD, funct3 := 2, funct7 := 8, rd := 4, Vj := 0, Vk := 0,
        Qj := 0, Qk := 0, imm := 0x100, pc := 0, ready := true }
      ExecutePacket.zero (MemorySystem.init.write_data 0x100 0xDEADBEEF 4)
      (MemorySystem.write_data_wf _ _ _ _ MemorySystem.init_wf) rfl (by decide)).trans
    (by decide)

end ExecutionUnit

namespace ExecutionUnit

/-- The comparison that `execute_branch_op` evaluates for a BRANCH entry. -/
theorem branch_op_fields (entry : RSEntry) (result : ExecutePacket)
    (hop : entry.opcode = Opcode.BRANCH) :
    (execute_branch_op entry result).branch_taken = branch_cond entry ∧
    (execute_branch_op entry result).branch_target =
      (if branch_cond entry = true then (entry.pc + sext64 entry.imm) % W64
       else (entry.pc + 4) % W64) ∧
    (execute_branch_op entry result).result = 0 := by
  have e : execute_branch_op entry result =
      { (if branch_cond entry = true then
          { result with
            instruction := 0, pc := entry.pc, rd := entry.rd, mem_access := false,
            mem_write := false, branch_taken := branch_cond entry,
            branch_target := (entry.pc + sext64 entry.imm) % W64 }
         else
          { result with
            instruction := 0, pc := entry.pc, rd := entry.rd, mem_access := false,
            mem_write := false, branch_taken := branch_cond entry,
            branch_target := (entry.pc + 4) % W64 }) with result := 0 } := by
    simp only [execute_branch_op, hop, branch_cond]
  rw [e]
  cases branch_cond entry <;> simp

/-- C14. For a BRANCH entry `execute_branch_op` sets `taken` to the comparison that
funct3 selects (BEQ, BNE on equality; BLT, BGE signed; BLTU, BGEU unsigned; false for
any other funct3), the target to pc + imm when taken and to pc + 4 otherwise (both
modulo 2^64), and the register result to 0. -/
theorem C14_branch_outcome (entry : RSEntry) (result : ExecutePacket)
    (hVj : entry.Vj < W64) (hVk : entry.Vk < W64)
    (hlo : -2147483648 ≤ entry.imm) (hhi : entry.imm < 2147483648)
    (hop : entry.opcode = Opcode.BRANCH) :
    (execute_branch_op entry result).branch_taken =
      Spec.branch_taken entry.funct3 entry.Vj entry.Vk ∧
    (execute_branch_op entry result).branch_target =
      (if Spec.branch_taken entry.funct3 entry.Vj entry.Vk = true then
        (entry.pc + Spec.sext64 entry.imm) % 2 ^ 64
       else (entry.pc + 4) % 2 ^ 64) ∧
    (execute_branch_op entry result).result = 0 ∧
    (entry.funct3 = 2 ∨ entry.funct3 = 3 →
      (execute_branch_op entry result).branch_taken = false) := by
  have hs := sext64_eq_spec entry.imm hlo hhi
  have hj := toInt64_eq_signed entry.Vj hVj
  have hk := toInt64_eq_signed entry.Vk hVk
  obtain ⟨f1, f2, f3⟩ := branch_op_fields entry result hop
  have ht : branch_cond entry = Spec.branch_taken entry.funct3 entry.Vj entry.Vk := by
    simp only [branch_cond, Funct3.BEQ, Funct3.BNE, Funct3.BLT, Funct3.BGE, Funct3.BLTU,
      Funct3.BGEU, hj, hk]
    generalize entry.funct3 = f
    by_cases h0 : f = 0
    · subst h0; simp [Spec.branch_taken]
    by_cases h1 : f = 1
    · subst h1; simp [Spec.branch_taken]
    by_cases h4 : f = 4
    · subst h4; simp [Spec.branch_taken]
    by_cases h5 : f = 5
    · subst h5; simp [Spec.branch_taken]
    by_cases h6 : f = 6
    · subst h6; simp [Spec.branch_taken]
    by_cases h7 : f = 7
    · subst h7; simp [Spec.branch_taken]
    · have hl : Spec.branch_taken f entry.Vj entry.Vk = false := by
        unfold Spec.branch_taken
        split <;> first | rfl | omega
      simp only [h0, h1, h4, h5, h6, h7, if_false, hl]
  refine ⟨f1.trans ht, ?_, f3, ?_⟩
  · rw [f2, ht, hs]
    simp only [W64, Nat.reducePow]
  · intro h
    rw [f1.trans ht]
    rcases h with h | h <;> rw [h] <;> rfl

set_option maxRecDepth 100000 in
/-- C14, at an input: `bne x1,x0,-4` at pc 8 with x1 = 2 is taken to 4. -/
theorem C14_branch_outcome_witness :
    (execute_branch_op
      { busy := true, opcode := Opcode.BRANCH, funct3 := 1, funct7 := 127, rd := 29, Vj := 2,
        Vk := 0, Qj := 0, Qk := 0, imm := -4, pc := 8, ready := true }
      ExecutePacket.zero).branch_target = 4 :=
  (C14_branch_outcome
      { busy := true, opcode := Opcode.BRANCH, funct3 := 1, funct7 := 127, rd := 29, Vj := 2,
        Vk := 0, Qj := 0, Qk := 0, imm := -4, pc := 8, ready := true }
      ExecutePacket.zero (by decide) (by decide) (by decide) (by decide) rfl).2.1.trans
    (by decide)

/-- C15. For a JAL or JALR entry `execute_branch_op` returns result = pc + 4 (modulo
2^64) and taken = true. The JAL target is (pc + sext64(imm)) mod 2^64; the JALR target
is t = (Vj + sext64(imm)) mod 2^64 with bit 0 cleared: it is t - t mod 2, even, and
agrees with t on the other 63 bits. -/
theorem C15_jump_outcome (entry : RSEntry) (result : ExecutePacket)
    (hlo : -2147483648 ≤ entry.imm) (hhi : entry.imm < 2147483648)
    (hop : entry.opcode = Opcode.JAL ∨ entry.opcode = Opcode.JALR) :
    (execute_branch_op entry result).result = (entry.pc + 4) % 2 ^ 64 ∧
    (execute_branch_op entry result).branch_taken = true ∧
    (entry.opcode = Opcode.JAL →
      (execute_branch_op entry result).branch_target =
        (entry.pc + Spec.sext64 entry.imm) % 2 ^ 64) ∧
    (entry.opcode = Opcode.JALR →
      (execute_branch_op entry result).branch_target =
        (entry.Vj + Spec.sext64 entry.imm) % 2 ^ 64 -
          (entry.Vj + Spec.sext64 entry.imm) % 2 ^ 64 % 2 ∧
      (execute_branch_op entry result).branch_target % 2 = 0 ∧
      (execute_branch_op entry result).branch_target / 2 =
        (entry.Vj + Spec.sext64 entry.imm) % 2 ^ 64 / 2) := by
  have hs := sext64_eq_spec entry.imm hlo hhi
  have hm : ∀ t : Nat, t < 18446744073709551616 → t &&& 0xFFFFFFFFFFFFFFFE = t - t % 2 := by
    intro t ht
    have := and_high_mask t 1 63
    simp only [Nat.reducePow, Nat.reduceSub, Nat.reduceMul] at this
    rw [this]
    omega
  rcases hop with h | h
  · simp only [execute_branch_op, h, hs, W64, Nat.reducePow, reduceCtorEq, false_implies,
      imp_self, and_self, and_true]
  · simp only [execute_branch_op, h, hs, W64, Nat.reducePow, reduceCtorEq, false_implies,
      true_implies, true_and]
    have hlt : (entry.Vj + Spec.sext64 entry.imm) % 18446744073709551616 < 18446744073709551616 :=
      Nat.mod_lt _ (by decide)
    rw [hm _ hlt]
    generalize (entry.Vj + Spec.sext64 entry.imm) % 18446744073709551616 = t at hlt ⊢
    omega

set_option maxRecDepth 100000 in
/-- C15, at an input: `jal x1,+8` at pc 0 gives result 4 and target 8, and the tick of
the engine that takes it leaves 4 in x1. -/
theorem C15_jump_outcome_witness :
    (execute_branch_op
      { busy := true, opcode := Opcode.JAL, funct3 := 0, funct7 := 0, rd := 1, Vj := 0,
        Vk := 0, Qj := 0, Qk := 0, imm := 8, pc := 0, ready := true }
      ExecutePacket.zero).result = 4 ∧
    (execute_branch_op
      { busy := true, opcode := Opcode.JAL, funct3 := 0, funct7 := 0, rd := 1, Vj := 0,
        Vk := 0, Qj := 0, Qk := 0, imm := 8, pc := 0, ready := true }
      ExecutePacket.zero).branch_target = 8 ∧
    (fresh.clock_tick false (DecodeUnit.decode_word 0x008000EF 0) Uninit.zero).regfile.read 1
      = 4 ∧
    (fresh.clock_tick false (DecodeUnit.decode_word 0x008000EF 0)
      Uninit.zero).execute_out.branch_target = 8 :=
  ⟨(C15_jump_outcome
      { busy := true, opcode := Opcode.JAL, funct3 := 0, funct7 := 0, rd := 1, Vj := 0,
        Vk := 0, Qj := 0, Qk := 0, imm := 8, pc := 0, ready := true }
      ExecutePacket.zero (by decide) (by decide) (Or.inl rfl)).1.trans (by decide),
   by decide, by decide!, by decide!⟩

end ExecutionUnit

namespace DecodeUnit

/-- A word whose opcode bits are none of the nine known opcodes decodes to the type
UNKNOWN and to the opcode SYSTEM or UNKNOWN. -/
theorem decode_unknown (w : Nat) (hw : w % 128 ∉ Spec.known_opcodes) :
    get_instruction_type w = InstructionType.UNKNOWN ∧
    (get_opcode w = Opcode.SYSTEM ∨ get_opcode w = Opcode.UNKNOWN) := by
  simp only [Spec.known_opcodes, List.mem_cons, List.mem_singleton, List.not_mem_nil, or_false,
    not_or] at hw
  obtain ⟨h1, h2, h3, h4, h5, h6, h7, h8, h9⟩ := hw
  constructor
  · simp only [get_instruction_type, and_7F, Opcode.toNat, h1, h2, h3, h4, h5, h6, h7, h8, h9,
      or_self, if_false]
  · simp only [get_opcode, and_7F, h1, h2, h3, h4, h5, h6, h7, h8, h9, if_false]
    split
    · left; rfl
    · right; rfl

end DecodeUnit

namespace ExecutionUnit

/-- C16. A word whose 7-bit opcode is none of LUI, AUIPC, JAL, JALR, BRANCH, LOAD,
STORE, OP_IMM, OP decodes to the type UNKNOWN, is placed in the ALU pool, executes to
the result 0, and its commit (in the tick that takes it, in a quiescent engine) writes
0 to register rd when rd is not 0 and changes no other register, nor the memory. -/
theorem C16_unknown_opcode (s : ExecutionUnit) (w pc : Nat) (u : Uninit)
    (hq : s.Quiescent) (hw : w % 128 ∉ Spec.known_opcodes) :
    (DecodeUnit.decode_word w pc).type = InstructionType.UNKNOWN ∧
    select_pool (DecodeUnit.decode_word w pc).opcode = Pool.alu ∧
    (execute_alu_op (s.ready_entry (DecodeUnit.decode_word w pc) u)
      { u.result with valid := true }).result = 0 ∧
    ((DecodeUnit.decode_word w pc).rd ≠ 0 →
      (s.clock_tick false (DecodeUnit.decode_word w pc) u).regfile.read
        ((DecodeUnit.decode_word w pc).rd : Int) = 0) ∧
    (∀ r : Nat, r ≠ (DecodeUnit.decode_word w pc).rd →
      (s.clock_tick false (DecodeUnit.decode_word w pc) u).regfile.read (r : Int) =
        s.regfile.read (r : Int)) ∧
    ((DecodeUnit.decode_word w pc).rd = 0 →
      (s.clock_tick false (DecodeUnit.decode_word w pc) u).regfile = s.regfile) ∧
    (s.clock_tick false (DecodeUnit.decode_word w pc) u).mem = s.mem ∧
    (s.clock_tick false (DecodeUnit.decode_word w pc) u).rob.is_empty = true := by
  obtain ⟨ht, ho⟩ := DecodeUnit.decode_unknown w hw
  have hop : (DecodeUnit.decode_word w pc).opcode = DecodeUnit.get_opcode w := rfl
  have hpool : select_pool (DecodeUnit.decode_word w pc).opcode = Pool.alu := by
    rw [hop]; rcases ho with h | h <;> rw [h] <;> rfl
  have hres : (execute_alu_op (s.ready_entry (DecodeUnit.decode_word w pc) u)
      { u.result with valid := true }).result = 0 := by
    simp only [execute_alu_op, ready_entry, hop]
    rcases ho with h | h <;> rw [h]
  have hp : (DecodeUnit.decode_word w pc).InRange := DecodeUnit.decode_in_range _
  obtain ⟨q, hr, hm, _⟩ := alu_tick s _ u hq rfl hp hpool
  have hsz : s.regfile.size = 32 := hq.2.2.2.2.1
  refine ⟨ht, hpool, hres, ?_, ?_, ?_, hm, ?_⟩
  · intro hrd
    rw [hr, if_pos hrd, hres]
    exact RegisterFile.read_write_same _ _ _ hsz hrd hp.2.2
  · intro r hne
    rw [hr]
    split
    · exact RegisterFile.read_write_other _ _ _ _ hne
    · rfl
  · intro hrd
    rw [hr, if_neg (fun h => h hrd)]
  · simp only [ReorderBuffer.is_empty, q.2.2.2.2.2.2.2.2.1, decide_True]

set_option maxRecDepth 100000 in
/-- C16, at an input: after `addi x10,x0,5`, the word 0x0000057F (opcode bits 1111111,
rd = 10) commits 0 to x10. -/
theorem C16_unknown_opcode_witness :
    (fresh.clock_tick false (DecodeUnit.decode_word 0x00500513 0) Uninit.zero).regfile.read 10
      = 5 ∧
    ((fresh.clock_tick false (DecodeUnit.decode_word 0x00500513 0) Uninit.zero).clock_tick false
      (DecodeUnit.decode_word 0x0000057F 4) Uninit.zero).regfile.read 10 = 0 :=
  ⟨by decide!,
   (C16_unknown_opcode
      (fresh.clock_tick false (DecodeUnit.decode_word 0x00500513 0) Uninit.zero) 0x0000057F 4
      Uninit.zero
      (tick_quiescent _ _ _ (init_quiescent _ _) (fun _ => DecodeUnit.decode_in_range _))
      (by decide)).2.2.2.1 (by decide)⟩

end ExecutionUnit

namespace MemorySystem

theorem write_loop_memory (n addr data : Nat) (m : MemorySystem) (a : Nat) :
    (forRange n
      (fun i (mem : MemorySystem) =>
        ({ memory := setAt mem.memory (addr + i) ((data >>> (i * 8)) &&& 0xFF) } : MemorySystem))
      m).memory a =
      if addr ≤ a ∧ a < addr + n then (data >>> ((a - addr) * 8)) &&& 0xFF else m.memory a := by
  induction n with
  | zero =>
    rw [forRange_zero]
    have : ¬ (addr ≤ a ∧ a < addr + 0) := by omega
    rw [if_neg this]
  | succ k ih =>
    rw [forRange_succ]
    simp only [setAt]
    by_cases h : a = addr + k
    · subst h
      have : addr ≤ addr + k ∧ addr + k < addr + (k + 1) := by omega
      rw [if_pos rfl, if_pos this, Nat.add_sub_cancel_left]
    · rw [if_neg h, ih]
      by_cases h2 : addr ≤ a ∧ a < addr + k
      · have : addr ≤ a ∧ a < addr + (k + 1) := by omega
        rw [if_pos h2, if_pos this]
      · have : ¬ (addr ≤ a ∧ a < addr + (k + 1)) := by omega
        rw [if_neg h2, if_neg this]

/-- The bytes after a write in range: byte `i` of the value at the address `addr + i`
for `i < size`, every other byte unchanged. -/
theorem write_data_memory (m : MemorySystem) (addr data size a : Nat)
    (hs : size ≤ MEMORY_SIZE + 1) (hr : addr + size ≤ MEMORY_SIZE) :
    (m.write_data addr data size).memory a =
      if addr ≤ a ∧ a < addr + size then (data >>> ((a - addr) * 8)) &&& 0xFF
      else m.memory a := by
  have : ¬ addr ≥ limit size := by rw [limit_iff _ _ hs]; omega
  simp only [write_data, this, if_false]
  exact write_loop_memory size addr data m a

theorem written_byte (data k : Nat) : (data >>> (k * 8)) &&& 0xFF = data / 2 ^ (k * 8) % 256 :=
  shr_and data (k * 8) 8

theorem read_instruction_eq_read_data (m : MemorySystem) (addr : Nat) :
    m.read_instruction addr = m.read_data addr 4 := by
  simp only [read_instruction, read_data, limit, MEMORY_SIZE]
  show _ = if _ then _ else
    (((0 ||| (m.memory (addr + 0) <<< (0 * 8))) ||| (m.memory (addr + 1) <<< (1 * 8))) |||
      (m.memory (addr + 2) <<< (2 * 8))) ||| (m.memory (addr + 3) <<< (3 * 8))
  simp

theorem read_loop_congr (n addr : Nat) (m m' : MemorySystem)
    (h : ∀ a, addr ≤ a → a < addr + n → m'.memory a = m.memory a) :
    forRange n (fun i data => data ||| (m'.memory (addr + i) <<< (i * 8))) 0 =
    forRange n (fun i data => data ||| (m.memory (addr + i) <<< (i * 8))) 0 := by
  induction n with
  | zero => rfl
  | succ k ih =>
    rw [forRange_succ, forRange_succ, ih (fun a h1 h2 => h a h1 (by omega)),
      h (addr + k) (by omega) (by omega)]

/-- C17. Write/read round trip: for size 1, 2 or 4 and an access in range, `read_data`
after `write_data` at the same address and size returns the value modulo
2^(8*size). -/
theorem C17_write_read_round_trip (m : MemorySystem) (addr v size : Nat)
    (hs : size = 1 ∨ size = 2 ∨ size = 4) (hr : addr + size ≤ MEMORY_SIZE) :
    (m.write_data addr v size).read_data addr size = v % 2 ^ (8 * size) ∧
    (v < 2 ^ (8 * size) → (m.write_data addr v size).read_data addr size = v) := by
  have key : (m.write_data addr v size).read_data addr size = v % 2 ^ (8 * size) := by
    have hb : ∀ k, k < size → (m.write_data addr v size).memory (addr + k) =
        v / 2 ^ (k * 8) % 256 := by
      intro k hk
      rw [write_data_memory m addr v size (addr + k)
        (by simp only [MEMORY_SIZE]; omega) hr,
        if_pos ⟨by omega, by omega⟩, Nat.add_sub_cancel_left, written_byte]
    have hlt : ∀ k, v / 2 ^ (k * 8) % 256 < 256 := fun k => Nat.mod_lt _ (by decide)
    rcases hs with h | h | h <;> subst h
    · rw [read_data_1 _ addr hr]
      have := hb 0 (by decide)
      simp only [Nat.add_zero, Nat.zero_mul, Nat.pow_zero, Nat.div_one] at this
      rw [this]
      rfl
    · have h0 := hb 0 (by decide)
      have h1 := hb 1 (by decide)
      simp only [Nat.add_zero, Nat.zero_mul, Nat.pow_zero, Nat.div_one, Nat.one_mul,
        Nat.reducePow] at h0 h1
      rw [read_data_2 _ addr (by rw [h0]; exact Nat.mod_lt _ (by decide)) hr, h0, h1]
      simp only [Nat.reduceMul, Nat.reducePow]
      omega
    · have h0 := hb 0 (by decide)
      have h1 := hb 1 (by decide)
      have h2 := hb 2 (by decide)
      have h3 := hb 3 (by decide)
      simp only [Nat.add_zero, Nat.zero_mul, Nat.pow_zero, Nat.div_one, Nat.one_mul,
        Nat.reduceMul, Nat.reducePow] at h0 h1 h2 h3
      rw [read_data_4 _ addr (by rw [h0]; exact Nat.mod_lt _ (by decide))
        (by rw [h1]; exact Nat.mod_lt _ (by decide))
        (by rw [h2]; exact Nat.mod_lt _ (by decide)) hr, h0, h1, h2, h3]
      simp only [Nat.reduceMul, Nat.reducePow]
      omega
  exact ⟨key, fun h => by rw [key, Nat.mod_eq_of_lt h]⟩

set_option maxRecDepth 100000 in
/-- C17, at an input: the halfword write of 0x12345678 at 0xFFFFE reads back 0x5678. -/
theorem C17_write_read_round_trip_witness :
    (init.write_data 0xFFFFE 0x12345678 2).read_data 0xFFFFE 2 = 0x5678 :=
  (C17_write_read_round_trip init 0xFFFFE 0x12345678 2 (Or.inr (Or.inl rfl))
    (by decide)).1.trans (by decide)

/-- C18. For size 1, 2 or 4 and any address, an access is out of range exactly when
addr + size exceeds the 1 MiB image; then `read_data` returns 0 and `write_data`
changes nothing. In range, a write changes no byte outside [addr, addr + size) and
a read depends on no byte outside it. `read_instruction` is `read_data` at size 4: 0
when addr + 4 exceeds the image, the little-endian word otherwise. -/
theorem C18_out_of_range (m : MemorySystem) (addr v size : Nat)
    (hs : size = 1 ∨ size = 2 ∨ size = 4) :
    (addr ≥ limit size ↔ addr + size > MEMORY_SIZE) ∧
    (addr + size > MEMORY_SIZE →
      m.read_data addr size = 0 ∧ m.write_data addr v size = m) ∧
    (addr + size ≤ MEMORY_SIZE → ∀ a, (a < addr ∨ a ≥ addr + size) →
      (m.write_data addr v size).memory a = m.memory a) ∧
    (∀ m' : MemorySystem, (∀ a, addr ≤ a → a < addr + size → m'.memory a = m.memory a) →
      m'.read_data addr size = m.read_data addr size) ∧
    m.read_instruction addr = m.read_data addr 4 ∧
    (addr + 4 > MEMORY_SIZE → m.read_instruction addr = 0) ∧
    (m.WellFormed → addr + 4 ≤ MEMORY_SIZE →
      m.read_instruction addr = Spec.le_bytes m.memory addr 4) := by
  have hsz : size ≤ MEMORY_SIZE + 1 := by
    simp only [MEMORY_SIZE]; rcases hs with h | h | h <;> omega
  have hl := limit_iff addr size hsz
  refine ⟨hl, ?_, ?_, ?_, read_instruction_eq_read_data m addr, ?_, ?_⟩
  · intro h
    have := hl.mpr h
    simp only [read_data, write_data, this, if_true, and_self]
  · intro h a ha
    rw [write_data_memory m addr v size a hsz h, if_neg (by omega)]
  · intro m' hm
    simp only [read_data]
    split
    · rfl
    · exact read_loop_congr size addr m m' hm
  · intro h
    rw [read_instruction_eq_read_data]
    have := (limit_iff addr 4 (by decide)).mpr h
    simp only [read_data, this, if_true]
  · intro hwf h
    rw [read_instruction_eq_read_data]
    exact read_data_eq_le_bytes m addr 4 hwf (Or.inr (Or.inr rfl)) h

set_option maxRecDepth 100000 in
/-- C18, at an input: the word access at 0xFFFFD, one byte past the last word of the
image, is out of range: the write is dropped. -/
theorem C18_out_of_range_witness :
    (init.write_data 0xFFFFD 0x12345678 4).memory 0xFFFFD = 0 ∧
    (init.write_data 0xFFFFC 0x12345678 4).memory 0xFFFFD = 0x56 :=
  ⟨congrArg (fun x => x.memory 0xFFFFD)
    ((C18_out_of_range init 0xFFFFD 0x12345678 4 (Or.inr (Or.inr rfl))).2.1 (by decide)).2,
   by decide⟩

end MemorySystem

namespace RegisterFile

theorem reset_loop_zero (n : Nat) (regs : Nat → Nat) (h : regs 0 = 0) :
    forRange n (fun i (r : Nat → Nat) => setAt r i 0) regs 0 = 0 := by
  induction n with
  | zero => exact h
  | succ k ih =>
    rw [forRange_succ]
    simp only [setAt]
    split
    · rfl
    · exact ih

theorem write_registers_zero (rf : RegisterFile) (index : Int) (value : Nat) :
    (rf.write index value).registers 0 = rf.registers 0 := by
  simp only [write]
  split
  · rfl
  · split
    · have : index.toNat ≠ 0 := by omega
      simp only [setAt, this.symm, if_false]
    · rfl

theorem call_registers_zero (rf : RegisterFile) (c : Call) (h : rf.registers 0 = 0) :
    (rf.call c).registers 0 = 0 := by
  cases c with
  | write index value => exact (write_registers_zero rf index value).trans h
  | reset => exact reset_loop_zero _ _ h

theorem calls_registers_zero (cs : List Call) (rf : RegisterFile) (h : rf.registers 0 = 0) :
    (rf.calls cs).registers 0 = 0 := by
  induction cs generalizing rf with
  | nil => exact h
  | cons c rest ih => exact ih _ (call_registers_zero rf c h)

theorem read_zero (rf : RegisterFile) (h : rf.registers 0 = 0) : rf.read 0 = 0 := by
  simp only [read]
  split
  · rfl
  · exact h

end RegisterFile

namespace ExecutionUnit

theorem reset_tick_regfile (s : ExecutionUnit) (p : DecodePacket) (u : Uninit) :
    (s.clock_tick true p u).regfile = s.regfile := by
  simp only [clock_tick, issue_proc, execute_proc, complete_proc, commit_proc, if_true]

/-- A tick keeps the engine quiescent and element 0 of the register file at 0. -/
theorem tick_x0 (s : ExecutionUnit) (r : Bool) (p : DecodePacket) (u : Uninit)
    (hq : s.Quiescent) (h0 : s.regfile.registers 0 = 0) (hp : p.valid = true → p.InRange) :
    (s.clock_tick r p u).Quiescent ∧ (s.clock_tick r p u).regfile.registers 0 = 0 := by
  cases r
  · refine ⟨tick_quiescent s p u hq hp, ?_⟩
    cases hv : p.valid
    · rw [tick_invalid s p u hq hv]; exact h0
    · rw [(tick_quiescent_aux s p u hq hv (hp hv)).2.2.1]
      split
      · exact (RegisterFile.write_registers_zero _ _ _).trans h0
      · exact h0
  · exact ⟨reset_quiescent s p u hq.1 hq.2.1 hq.2.2.1 hq.2.2.2.1 hq.2.2.2.2.1,
      by rw [reset_tick_regfile]; exact h0⟩

theorem run_ticks_x0 (ticks : List (Bool × DecodePacket × Uninit)) (s : ExecutionUnit)
    (hq : s.Quiescent) (h0 : s.regfile.registers 0 = 0)
    (hp : ∀ t ∈ ticks, t.2.1.valid = true → t.2.1.InRange) :
    (s.run_ticks ticks).Quiescent ∧ (s.run_ticks ticks).regfile.registers 0 = 0 := by
  induction ticks generalizing s with
  | nil => exact ⟨hq, h0⟩
  | cons t rest ih =>
    obtain ⟨r, p, u⟩ := t
    simp only [run_ticks]
    obtain ⟨q1, z1⟩ := tick_x0 s r p u hq h0 (hp (r, p, u) (List.mem_cons_self _ _))
    exact ih _ q1 z1 (fun b hb => hp b (List.mem_cons_of_mem _ hb))

/-- C19. Register x0 is hardwired: a write with index 0, a negative index or an index
past the end changes nothing; a read with a negative index or an index past the end
returns 0; after any sequence of writes and resets on the 32-register file the
constructor builds, read(0) returns 0; and after any sequence of ticks of the engine
from the state the constructor builds (with or without reset, on invalid packets or
valid packets with register numbers) x0 reads 0 and reg_status[0] is not busy. -/
theorem C19_x0_hardwired (rf : RegisterFile) (index : Int) (value : Nat)
    (cs : List RegisterFile.Call) (mem : MemorySystem) (x : ExecutePacket)
    (ticks : List (Bool × DecodePacket × Uninit))
    (hticks : ∀ t ∈ ticks, t.2.1.valid = true → t.2.1.InRange) :
    ((index ≤ 0 ∨ index ≥ (rf.size : Int)) → rf.write index value = rf) ∧
    ((index < 0 ∨ index ≥ (rf.size : Int)) → rf.read index = 0) ∧
    ((RegisterFile.init 32).calls cs).read 0 = 0 ∧
    ((init mem x).run_ticks ticks).regfile.read 0 = 0 ∧
    (((init mem x).run_ticks ticks).reg_status 0).busy = false := by
  refine ⟨?_, ?_, ?_, ?_, ?_⟩
  · intro h
    simp only [RegisterFile.write, h, if_true]
  · intro h
    simp only [RegisterFile.read, h, if_true]
  · exact RegisterFile.read_zero _ (RegisterFile.calls_registers_zero cs _ rfl)
  · exact RegisterFile.read_zero _
      (run_ticks_x0 ticks _ (init_quiescent mem x) rfl hticks).2
  · exact (run_ticks_x0 ticks _ (init_quiescent mem x) rfl hticks).1.2.2.2.2.2.2.2.2.2.2.2.2 0
      (by decide)

set_option maxRecDepth 100000 in
/-- C19, at an input: the tick that takes `addi x0,x0,5` (word 0x00500013) leaves
x0 = 0. -/
theorem C19_x0_hardwired_witness :
    (fresh.run_ticks [(false, DecodeUnit.decode_word 0x00500013 0, Uninit.zero)]).regfile.read 0
      = 0 :=
  (C19_x0_hardwired (RegisterFile.init 32) 0 5 [RegisterFile.Call.write 0 5]
    MemorySystem.init ExecutePacket.zero
    [(false, DecodeUnit.decode_word 0x00500013 0, Uninit.zero)]
    (fun t ht h => by
      simp only [List.mem_singleton] at ht
      subst ht
      exact DecodeUnit.decode_in_range _)).2.2.2.1

end ExecutionUnit

namespace ReorderBuffer

/-- The ring invariant in the form that the operations preserve: the tail is
`count` positions after the head. -/
theorem ring_of_tail_eq (rob : ReorderBuffer) (hh : rob.head < rob.max_entries)
    (hc : rob.count ≤ rob.max_entries)
    (ht : rob.tail = (rob.head + rob.count) % rob.max_entries) : rob.Ring := by
  have hcap : 0 < rob.max_entries := by omega
  refine ⟨hh, by rw [ht]; exact Nat.mod_lt _ hcap, hc, ?_, ?_⟩
  · intro hne
    have hlt : rob.count < rob.max_entries := by omega
    by_cases hsum : rob.head + rob.count < rob.max_entries
    · rw [ht, Nat.mod_eq_of_lt hsum]
      have : ((rob.head + rob.count : Nat) : Int) - (rob.head : Int) = (rob.count : Int) := by
        push_cast; ring
      rw [this, Int.emod_eq_of_lt (by omega) (by omega)]
    · have h2 : (rob.head + rob.count) % rob.max_entries =
          rob.head + rob.count - rob.max_entries := by
        rw [Nat.mod_eq_sub_mod (by omega), Nat.mod_eq_of_lt (by omega)]
      rw [ht, h2]
      have : ((rob.head + rob.count - rob.max_entries : Nat) : Int) - (rob.head : Int) =
          (rob.count : Int) + (-1) * (rob.max_entries : Int) := by
        rw [Int.ofNat_sub (by omega)]; push_cast; ring
      rw [this, Int.add_mul_emod_self, Int.emod_eq_of_lt (by omega) (by omega)]
  · intro he
    rw [ht, he, Nat.add_mod_right, Nat.mod_eq_of_lt hh]

/-- What a call does to the ring: `allocate_entry` on a buffer that is not full moves
the tail, `remove_head` on a buffer that is not empty moves the head, and nothing else
changes the capacity, the head, the tail or the count. -/
theorem call_ring (rob : ReorderBuffer) (c : Call) :
    (rob.call c).max_entries = rob.max_entries ∧
    ((c = Call.allocate_entry ∧ rob.count ≠ rob.max_entries ∧
        (rob.call c).head = rob.head ∧
        (rob.call c).tail = (rob.tail + 1) % rob.max_entries ∧
        (rob.call c).count = rob.count + 1) ∨
     (c = Call.remove_head ∧ rob.count ≠ 0 ∧
        (rob.call c).head = (rob.head + 1) % rob.max_entries ∧
        (rob.call c).tail = rob.tail ∧
        (rob.call c).count = rob.count - 1) ∨
     ((rob.call c).head = rob.head ∧ (rob.call c).tail = rob.tail ∧
        (rob.call c).count = rob.count)) := by
  cases c with
  | allocate_entry =>
    simp only [call, allocate_entry, is_full, decide_eq_true_eq]
    by_cases h : rob.count = rob.max_entries
    · simp [h]
    · simp [h]
  | update_entry index entry =>
    simp only [call, update_entry]
    split <;> simp
  | update_store_entry index addr data =>
    simp only [call, update_store_entry]
    split <;> simp
  | complete_entry index value =>
    simp only [call, complete_entry]
    split <;> simp
  | complete_branch_entry index value taken target =>
    simp only [call, complete_branch_entry]
    split <;> simp
  | remove_head =>
    simp only [call, remove_head, is_empty, decide_eq_true_eq]
    by_cases h : rob.count = 0
    · simp [h]
    · simp [h]
  | get_newly_completed =>
    simp only [call, get_newly_completed_eq]
    simp

/-- A call keeps the tail `count` positions after the head. -/
theorem call_tail_eq (rob : ReorderBuffer) (c : Call) (hh : rob.head < rob.max_entries)
    (hc : rob.count ≤ rob.max_entries)
    (ht : rob.tail = (rob.head + rob.count) % rob.max_entries) :
    (rob.call c).head < (rob.call c).max_entries ∧
    (rob.call c).count ≤ (rob.call c).max_entries ∧
    (rob.call c).tail = ((rob.call c).head + (rob.call c).count) % (rob.call c).max_entries := by
  have hcap : 0 < rob.max_entries := by omega
  obtain ⟨hm, h | h | h⟩ := call_ring rob c
  · obtain ⟨_, hne, h1, h2, h3⟩ := h
    rw [hm, h1, h2, h3]
    refine ⟨hh, by omega, ?_⟩
    rw [ht, Nat.mod_add_mod, Nat.add_assoc]
  · obtain ⟨_, hne, h1, h2, h3⟩ := h
    rw [hm, h1, h2, h3]
    refine ⟨Nat.mod_lt _ hcap, by omega, ?_⟩
    rw [ht, Nat.mod_add_mod]
    congr 1
    omega
  · obtain ⟨h1, h2, h3⟩ := h
    rw [hm, h1, h2, h3]
    exact ⟨hh, hc, ht⟩

theorem calls_tail_eq (cs : List Call) (rob : ReorderBuffer) (hh : rob.head < rob.max_entries)
    (hc : rob.count ≤ rob.max_entries)
    (ht : rob.tail = (rob.head + rob.count) % rob.max_entries) :
    (rob.calls cs).max_entries = rob.max_entries ∧
    (rob.calls cs).head < (rob.calls cs).max_entries ∧
    (rob.calls cs).count ≤ (rob.calls cs).max_entries ∧
    (rob.calls cs).tail =
      ((rob.calls cs).head + (rob.calls cs).count) % (rob.calls cs).max_entries := by
  induction cs generalizing rob with
  | nil => exact ⟨rfl, hh, hc, ht⟩
  | cons c rest ih =>
    obtain ⟨a, b, d⟩ := call_tail_eq rob c hh hc ht
    obtain ⟨e, f⟩ := ih (rob.call c) a b d
    exact ⟨e.trans (call_ring rob c).1, f⟩

/-- C20. ROB ring invariant: after `reset` (capacity not zero) and any sequence of
calls of allocate_entry, update_entry, update_store_entry, complete_entry,
complete_branch_entry, remove_head and get_newly_completed, head and tail are below
the capacity, count is at most the capacity, count = (tail - head) mod capacity when
the buffer is not full, and tail = head when it is. On any buffer, allocate_entry
returns -1 and changes nothing when full, and otherwise returns the old tail, advances
the tail by one modulo the capacity and leaves the head; remove_head changes nothing
when empty and otherwise advances the head by one modulo the capacity and leaves the
tail; no other call changes the tail, and no other call changes the head. -/
theorem C20_rob_ring_invariant (r rob : ReorderBuffer) (cs : List Call) (c : Call)
    (hcap : 0 < r.max_entries) :
    (r.reset.calls cs).Ring ∧ (r.reset.calls cs).max_entries = r.max_entries ∧
    (rob.is_full = true → rob.allocate_entry = (rob, -1)) ∧
    (rob.is_full = false →
      rob.allocate_entry.2 = (rob.tail : Int) ∧
      rob.allocate_entry.1.tail = (rob.tail + 1) % rob.max_entries ∧
      rob.allocate_entry.1.head = rob.head ∧
      rob.allocate_entry.1.count = rob.count + 1) ∧
    (rob.is_empty = true → rob.remove_head = rob) ∧
    (rob.is_empty = false →
      rob.remove_head.head = (rob.head + 1) % rob.max_entries ∧
      rob.remove_head.tail = rob.tail ∧
      rob.remove_head.count = rob.count - 1) ∧
    (c ≠ Call.allocate_entry → (rob.call c).tail = rob.tail) ∧
    (c ≠ Call.remove_head → (rob.call c).head = rob.head) := by
  have h0 : r.reset.max_entries = r.max_entries ∧ r.reset.head = 0 ∧ r.reset.tail = 0 ∧
      r.reset.count = 0 := by
    rw [rob_reset_eq]; exact ⟨rfl, rfl, rfl, rfl⟩
  obtain ⟨m0, hd0, tl0, c0⟩ := h0
  obtain ⟨hm, hh, hc, ht⟩ := calls_tail_eq cs r.reset (by rw [hd0, m0]; exact hcap)
    (by rw [c0]; exact Nat.zero_le _) (by rw [tl0, hd0, c0]; simp)
  refine ⟨ring_of_tail_eq _ hh hc ht, hm.trans m0, ?_, ?_, ?_, ?_, ?_, ?_⟩
  · intro h; simp only [allocate_entry, h, if_true]
  · intro h; simp only [allocate_entry, h, Bool.false_eq_true, if_false, and_self]
  · intro h; simp only [remove_head, h, if_true]
  · intro h; simp only [remove_head, h, Bool.false_eq_true, if_false, and_self]
  · intro hne
    obtain ⟨_, h | h | h⟩ := call_ring rob c
    · exact absurd h.1 hne
    · exact h.2.2.2.1
    · exact h.2.1
  · intro hne
    obtain ⟨_, h | h | h⟩ := call_ring rob c
    · exact h.2.2.1
    · exact absurd h.1 hne
    · exact h.1

set_option maxRecDepth 100000 in
/-- C20, at an input: in a buffer of capacity 2, after two allocations the buffer is
full with tail = head = 0; a third allocation is refused, and after a removal the tail
is one position behind the head. -/
theorem C20_rob_ring_invariant_witness :
    ((init 2).reset.calls [Call.allocate_entry, Call.allocate_entry]).Ring ∧
    ((init 2).reset.calls [Call.allocate_entry, Call.allocate_entry]).count = 2 ∧
    ((init 2).reset.calls [Call.allocate_entry, Call.allocate_entry]).tail = 0 ∧
    ((init 2).reset.calls
      [Call.allocate_entry, Call.allocate_entry, Call.allocate_entry, Call.remove_head]).head
      = 1 :=
  ⟨(C20_rob_ring_invariant (init 2) (init 2) [Call.allocate_entry, Call.allocate_entry]
      Call.remove_head (by decide)).1,
   by decide, by decide, by decide⟩

end ReorderBuffer

namespace ReservationStation

/-- The fields of an entry after the loop body of `update_waiting_entries`. -/
theorem capture_fields (e : RSEntry) (tag : Int) (value : Nat) :
    (capture e tag value).busy = e.busy ∧
    (capture e tag value).Qj = (if (e.Qj : Int) = tag then 0 else e.Qj) ∧
    (capture e tag value).Vj = (if (e.Qj : Int) = tag then value else e.Vj) ∧
    (capture e tag value).Qk = (if (e.Qk : Int) = tag then 0 else e.Qk) ∧
    (capture e tag value).Vk = (if (e.Qk : Int) = tag then value else e.Vk) ∧
    (capture e tag value).ready =
      (if (if (e.Qj : Int) = tag then 0 else e.Qj) = 0 ∧
          (if (e.Qk : Int) = tag then 0 else e.Qk) = 0 then true else e.ready) ∧
    (capture e tag value).opcode = e.opcode ∧ (capture e tag value).funct3 = e.funct3 ∧
    (capture e tag value).funct7 = e.funct7 ∧ (capture e tag value).rd = e.rd ∧
    (capture e tag value).imm = e.imm ∧ (capture e tag value).pc = e.pc := by
  unfold capture
  by_cases h1 : (e.Qj : Int) = tag <;> by_cases h2 : (e.Qk : Int) = tag <;>
    simp only [h1, h2, if_true, if_false] <;>
    (split <;> simp_all)

/-- C21. Broadcast clears its tag: after `update_waiting_entries(t, v)` with t ≠ 0, a
slot keeps its busy flag; a busy slot has neither Qj = t nor Qk = t; a busy slot that
had Qj = t has Vj = v and Qj = 0 (likewise Qk, Vk); an operand of a busy slot whose
tag was not t is unchanged; a slot that is not busy is unchanged. A call with tag 0
changes nothing. -/
theorem C21_broadcast_clears_tag (rs : ReservationStation) (tag : Int) (value : Nat) (i : Nat)
    (hi : i < rs.max_entries) :
    (tag ≠ 0 →
      ((rs.update_waiting_entries tag value).entries i).busy = (rs.entries i).busy ∧
      ((rs.entries i).busy = true →
        (((rs.update_waiting_entries tag value).entries i).Qj : Int) ≠ tag ∧
        (((rs.update_waiting_entries tag value).entries i).Qk : Int) ≠ tag) ∧
      ((rs.entries i).busy = true → ((rs.entries i).Qj : Int) = tag →
        ((rs.update_waiting_entries tag value).entries i).Vj = value ∧
        ((rs.update_waiting_entries tag value).entries i).Qj = 0) ∧
      ((rs.entries i).busy = true → ((rs.entries i).Qk : Int) = tag →
        ((rs.update_waiting_entries tag value).entries i).Vk = value ∧
        ((rs.update_waiting_entries tag value).entries i).Qk = 0) ∧
      ((rs.entries i).busy = true → ((rs.entries i).Qj : Int) ≠ tag →
        ((rs.update_waiting_entries tag value).entries i).Vj = (rs.entries i).Vj ∧
        ((rs.update_waiting_entries tag value).entries i).Qj = (rs.entries i).Qj) ∧
      ((rs.entries i).busy = true → ((rs.entries i).Qk : Int) ≠ tag →
        ((rs.update_waiting_entries tag value).entries i).Vk = (rs.entries i).Vk ∧
        ((rs.update_waiting_entries tag value).entries i).Qk = (rs.entries i).Qk) ∧
      ((rs.entries i).busy = false →
        (rs.update_waiting_entries tag value).entries i = rs.entries i) ∧
      (rs.update_waiting_entries tag value).rob_indices = rs.rob_indices ∧
      (rs.update_waiting_entries tag value).max_entries = rs.max_entries) ∧
    rs.update_waiting_entries 0 value = rs := by
  constructor
  · intro ht
    rw [update_waiting_entries_eq rs tag value ht]
    obtain ⟨c1, c2, c3, c4, c5, _⟩ := capture_fields (rs.entries i) tag value
    cases hb : (rs.entries i).busy
    · simp [hi, hb]
    · simp only [hi, hb, true_and, and_self, if_true, c1, c2, c3, c4, c5, true_implies,
        Bool.true_eq_false, false_implies, and_true]
      refine ⟨⟨?_, ?_⟩, ?_, ?_, ?_, ?_⟩
      · split
        · intro h; exact ht h.symm
        · assumption
      · split
        · intro h; exact ht h.symm
        · assumption
      · intro h; simp [h]
      · intro h; simp [h]
      · intro h; simp [h]
      · intro h; simp [h]
  · simp [update_waiting_entries]

set_option maxRecDepth 100000 in
/-- C21, at an input: a busy slot waiting on tag 3 for both operands receives the
broadcast value 42 in both and becomes ready. -/
theorem C21_broadcast_clears_tag_witness :
    (((ReservationStation.mk 2
        (fun _ => { zero_entry with busy := true, Qj := 3, Qk := 3 })
        (fun _ => 2)).update_waiting_entries 3 42).entries 1).Vj = 42 ∧
    (((ReservationStation.mk 2
        (fun _ => { zero_entry with busy := true, Qj := 3, Qk := 3 })
        (fun _ => 2)).update_waiting_entries 3 42).entries 1).Qj = 0 :=
  ((C21_broadcast_clears_tag
      (ReservationStation.mk 2 (fun _ => { zero_entry with busy := true, Qj := 3, Qk := 3 })
        (fun _ => 2))
      3 42 1 (by decide)).1 (by decide)).2.2.1 rfl rfl

end ReservationStation

namespace ReorderBuffer

/-- C30. `get_newly_completed` is one-shot: it returns, in ascending index order, the
pairs (i, value of entry i) of the slots that are busy and flagged, clears the flag of
each of them and changes nothing else; a second call right after it returns the empty
list. So a busy entry completed by `complete_entry` is reported by the next call and
not by the one after. -/
theorem C30_get_newly_completed_one_shot (rob : ReorderBuffer) (i : Nat) (v : Nat)
    (hi : i < rob.max_entries) (hb : (rob.entries i).busy = true) :
    rob.get_newly_completed.2 =
      ((List.range rob.max_entries).filter
        (fun j => (rob.entries j).busy && rob.newly_completed j)).map
        (fun (j : Nat) => ((j : Int), (rob.entries j).value)) ∧
    rob.get_newly_completed.1 =
      { rob with newly_completed := fun j =>
          if j < rob.max_entries ∧ (rob.entries j).busy = true ∧ rob.newly_completed j = true
          then false else rob.newly_completed j } ∧
    rob.get_newly_completed.1.get_newly_completed.2 = [] ∧
    ((i : Int), v) ∈ (rob.complete_entry (i : Int) v).get_newly_completed.2 ∧
    (rob.complete_entry (i : Int) v).get_newly_completed.1.get_newly_completed.2 = [] := by
  have second : ∀ r : ReorderBuffer, r.get_newly_completed.1.get_newly_completed.2 = [] := by
    intro r
    rw [get_newly_completed_eq r.get_newly_completed.1, get_newly_completed_eq r]
    simp only [List.map_eq_nil_iff]
    apply filter_range_none
    intro j hj
    cases h1 : (r.entries j).busy <;> cases h2 : r.newly_completed j <;> simp [h1, h2, hj]
  refine ⟨?_, ?_, second rob, ?_, second _⟩
  · rw [get_newly_completed_eq]
  · rw [get_newly_completed_eq]
  · rw [get_newly_completed_eq]
    have hr : ¬ ((i : Int) < 0 ∨ (i : Int) ≥ (rob.max_entries : Int)) := by omega
    simp only [complete_entry, hr, if_false, Int.toNat_ofNat, List.mem_map, List.mem_filter,
      List.mem_range, Bool.and_eq_true]
    exact ⟨i, ⟨hi, by simp [setAt, hb], by simp [setAt]⟩, by simp [setAt]⟩

set_option maxRecDepth 100000 in
/-- C30, at an input: in a buffer of capacity 4 with one allocated entry, completed
with the value 9, the first call returns [(0, 9)] and the second returns []. -/
theorem C30_get_newly_completed_one_shot_witness :
    (((init 4).allocate_entry.1.complete_entry 0 9).get_newly_completed.2 = [(0, 9)]) ∧
    (((init 4).allocate_entry.1.complete_entry 0 9).get_newly_completed.1.get_newly_completed.2
      = []) :=
  ⟨by decide,
   (C30_get_newly_completed_one_shot ((init 4).allocate_entry.1.complete_entry 0 9) 0 9
      (by decide) (by decide)).2.2.1⟩

end ReorderBuffer

namespace ReservationStation

/-- A pool that is not full has a first free slot. -/
theorem first_free (rs : ReservationStation) (h : rs.is_full = false) :
    ∃ i, i < rs.max_entries ∧ (rs.entries i).busy = false ∧
      ∀ j, j < i → (rs.entries j).busy = true := by
  unfold is_full at h
  cases hf : (List.range rs.max_entries).find? (fun i => !(rs.entries i).busy) with
  | none => rw [hf] at h; simp at h
  | some i =>
    obtain ⟨h1, h2, h3⟩ := find_range_spec _ _ _ hf
    refine ⟨i, h1, by simpa using h2, fun j hj => ?_⟩
    have := h3 j hj
    simpa using this

end ReservationStation

namespace ExecutionUnit

theorem pool_set_pool (s : ExecutionUnit) (q : Pool) (rs : ReservationStation) :
    (s.set_pool q rs).pool q = rs := by
  cases q <;> rfl

theorem pool_set_pool_ne (s : ExecutionUnit) (q q' : Pool) (rs : ReservationStation)
    (h : q' ≠ q) : (s.set_pool q rs).pool q' = s.pool q' := by
  cases q <;> cases q' <;> first | rfl | exact absurd rfl h

/-- The issue of a valid packet when neither the reorder buffer nor the selected pool
is full: the state after `issue_proc`, `i` being the first free slot of the pool. -/
theorem issue_accepted (s : ExecutionUnit) (p : DecodePacket) (u : Uninit)
    (hv : p.valid = true) (hrob : s.rob.is_full = false)
    (hpool : (s.pool (select_pool p.opcode)).is_full = false) :
    ∃ i, i < (s.pool (select_pool p.opcode)).max_entries ∧
      ((s.pool (select_pool p.opcode)).entries i).busy = false ∧
      (∀ j, j < i → ((s.pool (select_pool p.opcode)).entries j).busy = true) ∧
      s.issue_proc false p u =
        (let rob := s.rob.allocate_entry.1.update_entry (s.rob.tail : Int) (new_rob_entry p u)
         let s2 := ({ s with rob := rob } : ExecutionUnit).set_pool (select_pool p.opcode)
           { s.pool (select_pool p.opcode) with
             entries := setAt (s.pool (select_pool p.opcode)).entries i (new_rs_entry s rob p u)
             rob_indices := setAt (s.pool (select_pool p.opcode)).rob_indices i
               (s.rob.tail : Int) }
         if p.rd ≠ 0 ∧ p.opcode ≠ Opcode.STORE ∧ p.opcode ≠ Opcode.BRANCH then
           { s2 with
             reg_status := setAt s2.reg_status p.rd
               { busy := true, rob_entry := ((s.rob.tail : Int) % 256).toNat } }
         else s2) := by
  obtain ⟨i, hi, hfree, hlt⟩ := ReservationStation.first_free _ hpool
  refine ⟨i, hi, hfree, hlt, ?_⟩
  have hal : s.rob.allocate_entry.2 = (s.rob.tail : Int) := by
    simp only [ReorderBuffer.allocate_entry, hrob, Bool.false_eq_true, if_false]
  have hidx : ¬ ((s.rob.tail : Int) < 0) := by omega
  have hp1 : ∀ r : ReorderBuffer,
      ({ s with rob := r } : ExecutionUnit).pool (select_pool p.opcode) =
        s.pool (select_pool p.opcode) := by
    intro r; cases select_pool p.opcode <;> rfl
  simp only [issue_proc, hv, hrob, hpool, hal, hidx, Bool.false_eq_true, if_false,
    Bool.not_true, hp1]
  rw [ReservationStation.add_entry_at _ _ _ i hi hfree hlt]

end ExecutionUnit

namespace ExecutionUnit

/-- The four outcomes of the operand capture for rs1. -/
theorem capture_rs1_cases (s : ExecutionUnit) (rob : ReorderBuffer) (p : DecodePacket)
    (e : RSEntry) (h1 : (s.reg_status p.rs1).rob_entry < 16) :
    (capture_rs1 s rob p e).Qk = e.Qk ∧ (capture_rs1 s rob p e).Vk = e.Vk ∧
    ((¬ (p.rs1 ≠ 0 ∧ p.type ≠ InstructionType.U_TYPE ∧ p.type ≠ InstructionType.J_TYPE) ∧
        (capture_rs1 s rob p e).Qj = 0 ∧ (capture_rs1 s rob p e).Vj = 0 ∧
        (capture_rs1 s rob p e).ready = e.ready) ∨
     ((p.rs1 ≠ 0 ∧ p.type ≠ InstructionType.U_TYPE ∧ p.type ≠ InstructionType.J_TYPE) ∧
        (s.reg_status p.rs1).busy = false ∧
        (capture_rs1 s rob p e).Qj = 0 ∧
        (capture_rs1 s rob p e).Vj = s.regfile.read (p.rs1 : Int) ∧
        (capture_rs1 s rob p e).ready = e.ready) ∨
     ((p.rs1 ≠ 0 ∧ p.type ≠ InstructionType.U_TYPE ∧ p.type ≠ InstructionType.J_TYPE) ∧
        (s.reg_status p.rs1).busy = true ∧
        rob.is_entry_completed ((s.reg_status p.rs1).rob_entry : Int) = true ∧
        (capture_rs1 s rob p e).Qj = 0 ∧
        (capture_rs1 s rob p e).Vj =
          rob.get_entry_value ((s.reg_status p.rs1).rob_entry : Int) ∧
        (capture_rs1 s rob p e).ready = e.ready) ∨
     ((p.rs1 ≠ 0 ∧ p.type ≠ InstructionType.U_TYPE ∧ p.type ≠ InstructionType.J_TYPE) ∧
        (s.reg_status p.rs1).busy = true ∧
        rob.is_entry_completed ((s.reg_status p.rs1).rob_entry : Int) = false ∧
        (capture_rs1 s rob p e).Qj = (s.reg_status p.rs1).rob_entry + 1 ∧
        (capture_rs1 s rob p e).ready = false)) := by
  have t1 : ((((s.reg_status p.rs1).rob_entry : Int) + 1) % 256).toNat =
      (s.reg_status p.rs1).rob_entry + 1 := by omega
  unfold capture_rs1
  by_cases c : (p.rs1 ≠ 0 ∧ p.type ≠ InstructionType.U_TYPE ∧ p.type ≠ InstructionType.J_TYPE)
  · rw [if_pos c]
    cases b : (s.reg_status p.rs1).busy
    · simp [c, b]
    · cases d : rob.is_entry_completed ((s.reg_status p.rs1).rob_entry : Int)
      · simp [c, b, d, t1]
      · simp [c, b, d]
  · rw [if_neg c]
    simp [c]

/-- The four outcomes of the operand capture for rs2. -/
theorem capture_rs2_cases (s : ExecutionUnit) (rob : ReorderBuffer) (p : DecodePacket)
    (e : RSEntry) (h2 : (s.reg_status p.rs2).rob_entry < 16) :
    (capture_rs2 s rob p e).Qj = e.Qj ∧ (capture_rs2 s rob p e).Vj = e.Vj ∧
    ((¬ (p.rs2 ≠ 0 ∧ (p.type = InstructionType.R_TYPE ∨ p.type = InstructionType.S_TYPE ∨
          p.type = InstructionType.B_TYPE)) ∧
        (capture_rs2 s rob p e).Qk = 0 ∧ (capture_rs2 s rob p e).Vk = 0 ∧
        (capture_rs2 s rob p e).ready = e.ready) ∨
     ((p.rs2 ≠ 0 ∧ (p.type = InstructionType.R_TYPE ∨ p.type = InstructionType.S_TYPE ∨
          p.type = InstructionType.B_TYPE)) ∧
        (s.reg_status p.rs2).busy = false ∧
        (capture_rs2 s rob p e).Qk = 0 ∧
        (capture_rs2 s rob p e).Vk = s.regfile.read (p.rs2 : Int) ∧
        (capture_rs2 s rob p e).ready = e.ready) ∨
     ((p.rs2 ≠ 0 ∧ (p.type = InstructionType.R_TYPE ∨ p.type = InstructionType.S_TYPE ∨
          p.type = InstructionType.B_TYPE)) ∧
        (s.reg_status p.rs2).busy = true ∧
        rob.is_entry_completed ((s.reg_status p.rs2).rob_entry : Int) = true ∧
        (capture_rs2 s rob p e).Qk = 0 ∧
        (capture_rs2 s rob p e).Vk =
          rob.get_entry_value ((s.reg_status p.rs2).rob_entry : Int) ∧
        (capture_rs2 s rob p e).ready = e.ready) ∨
     ((p.rs2 ≠ 0 ∧ (p.type = InstructionType.R_TYPE ∨ p.type = InstructionType.S_TYPE ∨
          p.type = InstructionType.B_TYPE)) ∧
        (s.reg_status p.rs2).busy = true ∧
        rob.is_entry_completed ((s.reg_status p.rs2).rob_entry : Int) = false ∧
        (capture_rs2 s rob p e).Qk = (s.reg_status p.rs2).rob_entry + 1 ∧
        (capture_rs2 s rob p e).ready = false)) := by
  have t2 : ((((s.reg_status p.rs2).rob_entry : Int) + 1) % 256).toNat =
      (s.reg_status p.rs2).rob_entry + 1 := by omega
  unfold capture_rs2
  by_cases c : (p.rs2 ≠ 0 ∧ (p.type = InstructionType.R_TYPE ∨ p.type = InstructionType.S_TYPE ∨
      p.type = InstructionType.B_TYPE))
  · rw [if_pos c]
    cases b : (s.reg_status p.rs2).busy
    · simp [c, b]
    · cases d : rob.is_entry_completed ((s.reg_status p.rs2).rob_entry : Int)
      · simp [c, b, d, t2]
      · simp [c, b, d]
  · rw [if_neg c]
    simp [c]

/-- The operand capture of `issue_proc`, case by case. -/
theorem operand_capture (s : ExecutionUnit) (rob : ReorderBuffer) (p : DecodePacket)
    (u : Uninit) (h1 : (s.reg_status p.rs1).rob_entry < 16)
    (h2 : (s.reg_status p.rs2).rob_entry < 16) :
    (¬ (p.rs1 ≠ 0 ∧ p.type ≠ InstructionType.U_TYPE ∧ p.type ≠ InstructionType.J_TYPE) →
      (new_rs_entry s rob p u).Qj = 0 ∧ (new_rs_entry s rob p u).Vj = 0) ∧
    ((p.rs1 ≠ 0 ∧ p.type ≠ InstructionType.U_TYPE ∧ p.type ≠ InstructionType.J_TYPE) →
      ((s.reg_status p.rs1).busy = false →
        (new_rs_entry s rob p u).Qj = 0 ∧
        (new_rs_entry s rob p u).Vj = s.regfile.read (p.rs1 : Int)) ∧
      ((s.reg_status p.rs1).busy = true →
        rob.is_entry_completed ((s.reg_status p.rs1).rob_entry : Int) = true →
        (new_rs_entry s rob p u).Qj = 0 ∧
        (new_rs_entry s rob p u).Vj =
          rob.get_entry_value ((s.reg_status p.rs1).rob_entry : Int)) ∧
      ((s.reg_status p.rs1).busy = true →
        rob.is_entry_completed ((s.reg_status p.rs1).rob_entry : Int) = false →
        (new_rs_entry s rob p u).Qj = (s.reg_status p.rs1).rob_entry + 1 ∧
        1 ≤ (new_rs_entry s rob p u).Qj ∧ (new_rs_entry s rob p u).Qj ≤ 16)) ∧
    (¬ (p.rs2 ≠ 0 ∧ (p.type = InstructionType.R_TYPE ∨ p.type = InstructionType.S_TYPE ∨
        p.type = InstructionType.B_TYPE)) →
      (new_rs_entry s rob p u).Qk = 0 ∧ (new_rs_entry s rob p u).Vk = 0) ∧
    ((p.rs2 ≠ 0 ∧ (p.type = InstructionType.R_TYPE ∨ p.type = InstructionType.S_TYPE ∨
        p.type = InstructionType.B_TYPE)) →
      ((s.reg_status p.rs2).busy = false →
        (new_rs_entry s rob p u).Qk = 0 ∧
        (new_rs_entry s rob p u).Vk = s.regfile.read (p.rs2 : Int)) ∧
      ((s.reg_status p.rs2).busy = true →
        rob.is_entry_completed ((s.reg_status p.rs2).rob_entry : Int) = true →
        (new_rs_entry s rob p u).Qk = 0 ∧
        (new_rs_entry s rob p u).Vk =
          rob.get_entry_value ((s.reg_status p.rs2).rob_entry : Int)) ∧
      ((s.reg_status p.rs2).busy = true →
        rob.is_entry_completed ((s.reg_status p.rs2).rob_entry : Int) = false →
        (new_rs_entry s rob p u).Qk = (s.reg_status p.rs2).rob_entry + 1 ∧
        1 ≤ (new_rs_entry s rob p u).Qk ∧ (new_rs_entry s rob p u).Qk ≤ 16)) ∧
    ((new_rs_entry s rob p u).ready = true ↔
      ((new_rs_entry s rob p u).Qj = 0 ∧ (new_rs_entry s rob p u).Qk = 0)) := by
  have hn : new_rs_entry s rob p u =
      capture_rs2 s rob p (capture_rs1 s rob p
        { u.rs_entry with
          busy := true, opcode := p.opcode, funct3 := p.funct3, funct7 := p.funct7, rd := p.rd,
          imm := p.imm, pc := p.pc, ready := true }) := rfl
  rw [hn]
  have hr0 : ({ u.rs_entry with
      busy := true, opcode := p.opcode, funct3 := p.funct3, funct7 := p.funct7, rd := p.rd,
      imm := p.imm, pc := p.pc, ready := true } : RSEntry).ready = true := rfl
  generalize ({ u.rs_entry with
      busy := true, opcode := p.opcode, funct3 := p.funct3, funct7 := p.funct7, rd := p.rd,
      imm := p.imm, pc := p.pc, ready := true } : RSEntry) = e0 at hr0 ⊢
  obtain ⟨_, _, A⟩ := capture_rs1_cases s rob p e0 h1
  obtain ⟨b1, b2, B⟩ := capture_rs2_cases s rob p (capture_rs1 s rob p e0) h2
  rw [b1, b2]
  generalize capture_rs2 s rob p (capture_rs1 s rob p e0) = e2 at B ⊢
  generalize capture_rs1 s rob p e0 = e1 at A B ⊢
  rcases A with A | A | A | A <;> rcases B with B | B | B | B <;>
    obtain ⟨c1, A⟩ := A <;> obtain ⟨c2, B⟩ := B <;>
    simp only [c1, c2, not_true_eq_false, not_false_eq_true, true_implies, false_implies,
      true_and] <;>
    simp_all <;>
    omega

theorem new_rs_entry_busy (s : ExecutionUnit) (rob : ReorderBuffer) (p : DecodePacket)
    (u : Uninit) : (new_rs_entry s rob p u).busy = true := by
  simp only [new_rs_entry, capture_rs1, capture_rs2]
  repeat' split
  all_goals rfl

theorem pool_reg_status (s : ExecutionUnit) (st : Nat → RegisterStatus) (q : Pool) :
    ({ s with reg_status := st } : ExecutionUnit).pool q = s.pool q := by
  cases q <;> rfl

theorem pool_rob (s : ExecutionUnit) (r : ReorderBuffer) (q : Pool) :
    ({ s with rob := r } : ExecutionUnit).pool q = s.pool q := by
  cases q <;> rfl

/-- The fields of the state after an accepted issue. -/
theorem issue_accepted_fields (s : ExecutionUnit) (p : DecodePacket) (u : Uninit)
    (hv : p.valid = true) (hrob : s.rob.is_full = false)
    (hpool : (s.pool (select_pool p.opcode)).is_full = false) :
    (s.issue_proc false p u).rob =
      s.rob.allocate_entry.1.update_entry (s.rob.tail : Int) (new_rob_entry p u) ∧
    (s.issue_proc false p u).regfile = s.regfile ∧
    (s.issue_proc false p u).mem = s.mem ∧
    (∀ q, q ≠ select_pool p.opcode → (s.issue_proc false p u).pool q = s.pool q) ∧
    ∃ i, i < (s.pool (select_pool p.opcode)).max_entries ∧
      ((s.pool (select_pool p.opcode)).entries i).busy = false ∧
      (∀ j, j < i → ((s.pool (select_pool p.opcode)).entries j).busy = true) ∧
      (s.issue_proc false p u).pool (select_pool p.opcode) =
        { s.pool (select_pool p.opcode) with
          entries := setAt (s.pool (select_pool p.opcode)).entries i
            (new_rs_entry s (s.issue_proc false p u).rob p u)
          rob_indices := setAt (s.pool (select_pool p.opcode)).rob_indices i
            (s.rob.tail : Int) } := by
  obtain ⟨i, hi, hfree, hlt, he⟩ := issue_accepted s p u hv hrob hpool
  have hrobeq : (s.issue_proc false p u).rob =
      s.rob.allocate_entry.1.update_entry (s.rob.tail : Int) (new_rob_entry p u) := by
    rw [he]
    simp only []
    split <;> cases select_pool p.opcode <;> rfl
  refine ⟨hrobeq, ?_, ?_, ?_, i, hi, hfree, hlt, ?_⟩
  · rw [he]; simp only []
    split <;> cases select_pool p.opcode <;> rfl
  · rw [he]; simp only []
    split <;> cases select_pool p.opcode <;> rfl
  · intro q hq
    rw [he]; simp only []
    split
    · rw [pool_reg_status, pool_set_pool_ne _ _ _ _ hq, pool_rob]
    · rw [pool_set_pool_ne _ _ _ _ hq, pool_rob]
  · rw [hrobeq, he]; simp only []
    split
    · rw [pool_reg_status, pool_set_pool]
    · rw [pool_set_pool]

/-- C25. After the issue of a valid packet that is accepted (reorder buffer and pool
not full), the ROB entry at the allocated index (the old tail) has busy = true,
completed = false, pc and dest from the packet, is_store = (opcode = STORE) and
value = mem_addr = mem_data = 0; its funct3 is not the packet's but the indeterminate
value of the local `rob_entry`, which `issue_proc` never assigns. -/
theorem C25_rob_entry_after_issue (s : ExecutionUnit) (p : DecodePacket) (u : Uninit)
    (hv : p.valid = true) (hrob : s.rob.is_full = false)
    (hpool : (s.pool (select_pool p.opcode)).is_full = false)
    (htail : s.rob.tail < s.rob.max_entries) :
    ((s.issue_proc false p u).rob.entries s.rob.tail).busy = true ∧
    ((s.issue_proc false p u).rob.entries s.rob.tail).completed = false ∧
    ((s.issue_proc false p u).rob.entries s.rob.tail).pc = p.pc ∧
    ((s.issue_proc false p u).rob.entries s.rob.tail).dest = p.rd ∧
    ((s.issue_proc false p u).rob.entries s.rob.tail).is_store =
      decide (p.opcode = Opcode.STORE) ∧
    ((s.issue_proc false p u).rob.entries s.rob.tail).value = 0 ∧
    ((s.issue_proc false p u).rob.entries s.rob.tail).mem_addr = 0 ∧
    ((s.issue_proc false p u).rob.entries s.rob.tail).mem_data = 0 ∧
    ((s.issue_proc false p u).rob.entries s.rob.tail).funct3 = u.rob_entry.funct3 := by
  have he : (s.issue_proc false p u).rob.entries s.rob.tail = new_rob_entry p u := by
    rw [(issue_accepted_fields s p u hv hrob hpool).1]
    have hidx : ¬ ((s.rob.tail : Int) < 0 ∨ (s.rob.tail : Int) ≥ (s.rob.max_entries : Int)) := by
      omega
    have hm : s.rob.allocate_entry.1.max_entries = s.rob.max_entries := by
      simp only [ReorderBuffer.allocate_entry, hrob, Bool.false_eq_true, if_false]
    simp only [ReorderBuffer.update_entry, hm, hidx, if_false, Int.toNat_ofNat, setAt, if_true]
  rw [he]
  exact ⟨rfl, rfl, rfl, rfl, rfl, rfl, rfl, rfl, rfl⟩

set_option maxRecDepth 100000 in
/-- C25, at an input: the ROB entry of `sw x2,0(x0)` (funct3 = 2), issued with the
unassigned local holding 0, has funct3 = 0. -/
theorem C25_rob_entry_after_issue_witness :
    (DecodeUnit.decode_word 0x00202023 0).funct3 = 2 ∧
    ((fresh.issue_proc false (DecodeUnit.decode_word 0x00202023 0) Uninit.zero).rob.entries
      fresh.rob.tail).funct3 = 0 :=
  ⟨by decide,
   (C25_rob_entry_after_issue fresh (DecodeUnit.decode_word 0x00202023 0) Uninit.zero rfl
      (by decide) (by decide!) (by decide)).2.2.2.2.2.2.2.2⟩

/-- C26. Issue is atomic: if the packet is invalid, the reorder buffer is full or the
pool selected by the opcode is full, `issue_proc` changes nothing; otherwise the count
of the reorder buffer grows by one, one free slot of the selected pool (the first)
becomes busy with the new entry, every other slot of that pool and the two other
pools are unchanged, and so are the register file and the memory. -/
theorem C26_issue_atomic (s : ExecutionUnit) (p : DecodePacket) (u : Uninit) :
    ((p.valid = false ∨ s.rob.is_full = true ∨
        (s.pool (select_pool p.opcode)).is_full = true) → s.issue_proc false p u = s) ∧
    (p.valid = true → s.rob.is_full = false →
      (s.pool (select_pool p.opcode)).is_full = false →
      (s.issue_proc false p u).rob.count = s.rob.count + 1 ∧
      (s.issue_proc false p u).rob.head = s.rob.head ∧
      (s.issue_proc false p u).regfile = s.regfile ∧
      (s.issue_proc false p u).mem = s.mem ∧
      (∀ q, q ≠ select_pool p.opcode → (s.issue_proc false p u).pool q = s.pool q) ∧
      ∃ i, i < (s.pool (select_pool p.opcode)).max_entries ∧
        ((s.pool (select_pool p.opcode)).entries i).busy = false ∧
        (((s.issue_proc false p u).pool (select_pool p.opcode)).entries i).busy = true ∧
        ∀ j, j ≠ i →
          ((s.issue_proc false p u).pool (select_pool p.opcode)).entries j =
            (s.pool (select_pool p.opcode)).entries j) ∧
    (select_pool p.opcode =
      (if p.opcode = Opcode.LOAD ∨ p.opcode = Opcode.STORE then Pool.mem
       else if p.opcode = Opcode.BRANCH ∨ p.opcode = Opcode.JAL ∨ p.opcode = Opcode.JALR then
        Pool.branch
       else Pool.alu)) := by
  refine ⟨?_, ?_, ?_⟩
  · intro h
    unfold issue_proc
    rcases h with h | h | h
    · simp [h]
    · simp [h]
    · simp [h]
  · intro hv hrob hpool
    obtain ⟨h1, h2, h3, h4, i, hi, hfree, _, h5⟩ := issue_accepted_fields s p u hv hrob hpool
    refine ⟨?_, ?_, h2, h3, h4, i, hi, hfree, ?_, ?_⟩
    · rw [h1]
      simp only [ReorderBuffer.update_entry, ReorderBuffer.allocate_entry, hrob,
        Bool.false_eq_true, if_false]
      split <;> rfl
    · rw [h1]
      simp only [ReorderBuffer.update_entry, ReorderBuffer.allocate_entry, hrob,
        Bool.false_eq_true, if_false]
      split <;> rfl
    · rw [h5]
      simp only [setAt, if_true]
      exact new_rs_entry_busy _ _ _ _
    · intro j hj
      rw [h5]
      simp only [setAt, hj, if_false]
  · cases p.opcode <;> simp [select_pool]

set_option maxRecDepth 100000 in
/-- C26, at an input: with the reorder buffer full, the issue of `addi x1,x0,7` leaves
the engine as it is. -/
theorem C26_issue_atomic_witness :
    Processor.full_rob_example.executionUnit.issue_proc false
      (DecodeUnit.decode_word 0x00700093 0) Uninit.zero =
      Processor.full_rob_example.executionUnit :=
  (C26_issue_atomic Processor.full_rob_example.executionUnit
    (DecodeUnit.decode_word 0x00700093 0) Uninit.zero).1 (Or.inr (Or.inl (by decide)))

end ExecutionUnit

namespace ReservationStation

theorem capture_ready_iff (e : RSEntry) (tag : Int) (value : Nat) (h : e.ReadyIff) :
    (capture e tag value).ReadyIff := by
  obtain ⟨_, c2, _, c4, _, c6, _⟩ := capture_fields e tag value
  unfold RSEntry.ReadyIff at h ⊢
  rw [c6, c2, c4]
  by_cases hz : (if (e.Qj : Int) = tag then 0 else e.Qj) = 0 ∧
      (if (e.Qk : Int) = tag then 0 else e.Qk) = 0
  · simp only [hz, and_self, if_true]
  · rw [if_neg hz]
    constructor
    · intro hr
      obtain ⟨h1, h2⟩ := h.mp hr
      exact absurd (by simp [h1, h2]) hz
    · intro hh
      exact absurd hh hz

theorem update_ready_inv (rs : ReservationStation) (tag : Int) (value : Nat)
    (h : rs.ReadyInv) : (rs.update_waiting_entries tag value).ReadyInv := by
  by_cases ht : tag = 0
  · simp only [update_waiting_entries, ht, if_true]; exact h
  · rw [update_waiting_entries_eq rs tag value ht]
    intro i hi hb
    simp only at hi hb ⊢
    by_cases hbi : (rs.entries i).busy = true
    · simp only [hi, hbi, and_self, if_true] at hb ⊢
      exact capture_ready_iff _ _ _ (h i hi hbi)
    · simp only [hi, hbi, and_false, if_false] at hb ⊢
      exact absurd hb hbi

theorem add_ready_inv (rs : ReservationStation) (e : RSEntry) (rob_index : Int)
    (h : rs.ReadyInv) (he : e.ReadyIff) : (rs.add_entry e rob_index).1.ReadyInv := by
  unfold add_entry
  split
  · intro i hi hb
    simp only [setAt] at hi hb ⊢
    split
    · exact he
    · rename_i hne
      simp only [hne, if_false] at hb
      exact h i hi hb
  · exact h

theorem remove_ready_inv (rs : ReservationStation) (rob_index : Int) (h : rs.ReadyInv) :
    (rs.remove_entry rob_index).1.ReadyInv := by
  unfold remove_entry
  split
  · intro i hi hb
    simp only [setAt] at hi hb ⊢
    split
    · rename_i heq
      simp only [heq, if_true] at hb
      exact absurd hb (by simp)
    · rename_i hne
      simp only [hne, if_false] at hb
      exact h i hi hb
  · exact h

theorem ready_entries_tags (rs : ReservationStation) (h : rs.ReadyInv) (x : RSEntry × Int)
    (hx : x ∈ rs.get_ready_entries) : x.1.Qj = 0 ∧ x.1.Qk = 0 := by
  rw [get_ready_entries_eq] at hx
  simp only [List.mem_map, List.mem_filter, List.mem_range, Bool.and_eq_true] at hx
  obtain ⟨i, ⟨hi, hb, hr⟩, rfl⟩ := hx
  exact (h i hi hb).mp hr

/-- C27. The entry that issue creates is ready exactly when both its tags are 0 (the
ROB indices recorded in reg_status being below 16); the predicate `every busy slot is
ready exactly when both its tags are 0` is preserved by `update_waiting_entries` for
any tag and value, by `add_entry` of such an entry and by `remove_entry`; and every
entry that `get_ready_entries` returns from a pool with the predicate has Qj = Qk = 0. -/
theorem C27_ready_iff_tags_clear (s : ExecutionUnit) (rob : ReorderBuffer) (p : DecodePacket)
    (u : Uninit) (rs : ReservationStation) (tag : Int) (value : Nat) (e : RSEntry)
    (rob_index : Int)
    (h1 : (s.reg_status p.rs1).rob_entry < 16) (h2 : (s.reg_status p.rs2).rob_entry < 16)
    (hrs : rs.ReadyInv) (he : e.ReadyIff) :
    (ExecutionUnit.new_rs_entry s rob p u).ReadyIff ∧
    (rs.update_waiting_entries tag value).ReadyInv ∧
    (rs.add_entry e rob_index).1.ReadyInv ∧
    (rs.remove_entry rob_index).1.ReadyInv ∧
    (∀ x ∈ rs.get_ready_entries, x.1.Qj = 0 ∧ x.1.Qk = 0) :=
  ⟨(ExecutionUnit.operand_capture s rob p u h1 h2).2.2.2.2,
   update_ready_inv rs tag value hrs, add_ready_inv rs e rob_index hrs he,
   remove_ready_inv rs rob_index hrs, ready_entries_tags rs hrs⟩

set_option maxRecDepth 100000 in
/-- C27, at an input: the entry built for `add x3,x1,x2` after the issue (alone) of
`addi x1,x0,7` waits for x1 with tag 1 and is not ready. -/
theorem C27_ready_iff_tags_clear_witness :
    (ExecutionUnit.new_rs_entry
      (ExecutionUnit.fresh.issue_proc false (DecodeUnit.decode_word 0x00700093 0) Uninit.zero)
      (ExecutionUnit.fresh.issue_proc false (DecodeUnit.decode_word 0x00700093 0)
        Uninit.zero).rob
      (DecodeUnit.decode_word 0x002081B3 4) Uninit.zero).ReadyIff ∧
    (ExecutionUnit.new_rs_entry
      (ExecutionUnit.fresh.issue_proc false (DecodeUnit.decode_word 0x00700093 0) Uninit.zero)
      (ExecutionUnit.fresh.issue_proc false (DecodeUnit.decode_word 0x00700093 0)
        Uninit.zero).rob
      (DecodeUnit.decode_word 0x002081B3 4) Uninit.zero).ready = false :=
  ⟨(C27_ready_iff_tags_clear
    (ExecutionUnit.fresh.issue_proc false (DecodeUnit.decode_word 0x00700093 0) Uninit.zero)
    (ExecutionUnit.fresh.issue_proc false (DecodeUnit.decode_word 0x00700093 0) Uninit.zero).rob
    (DecodeUnit.decode_word 0x002081B3 4) Uninit.zero
    ExecutionUnit.fresh.rs_alu 1 7 { zero_entry with ready := true } 1
    (by decide!) (by decide!)
    (fun i hi hb => absurd hb (by
      have := (ExecutionUnit.init_quiescent MemorySystem.init ExecutePacket.zero).2.2.2.2.2.1
        i hi
      simp only [ExecutionUnit.fresh] at *
      rw [this]; decide))
    (by unfold RSEntry.ReadyIff; decide)).1,
   by decide!⟩

end ReservationStation

namespace ExecutionUnit

theorem commit_step_rob (s : ExecutionUnit) (u : Uninit) :
    (commit_step s u).rob = s.rob.remove_head := by
  unfold commit_step
  simp only []
  split
  · rfl
  · split
    · split <;> rfl
    · rfl

theorem remove_head_nonempty (rob : ReorderBuffer) (h : rob.count ≠ 0) :
    rob.remove_head =
      { rob with
        entries := setAt rob.entries rob.head { rob.entries rob.head with busy := false }
        newly_completed := setAt rob.newly_completed rob.head false
        head := (rob.head + 1) % rob.max_entries
        count := rob.count - 1 } := by
  simp [ReorderBuffer.remove_head, ReorderBuffer.is_empty, h]

theorem ring_pos_ne (head cap j : Nat) (hh : head < cap) (hj0 : 0 < j) (hj : j < cap) :
    (head + j) % cap ≠ head := by
  by_cases h : head + j < cap
  · rw [Nat.mod_eq_of_lt h]; omega
  · rw [Nat.mod_eq_sub_mod (by omega), Nat.mod_eq_of_lt (by omega)]; omega

/-- The loop of `commit_proc` with enough fuel retires the longest run of completed
entries from the head. -/
theorem commit_loop_spec (fuel : Nat) (s : ExecutionUnit) (u : Uninit)
    (hh : s.rob.head < s.rob.max_entries) (hc : s.rob.count ≤ s.rob.max_entries)
    (hf : s.rob.count ≤ fuel) :
    ∃ k, k ≤ s.rob.count ∧
      commit_loop fuel s u = commit_steps k s u ∧
      (∀ j, j < k →
        (s.rob.entries ((s.rob.head + j) % s.rob.max_entries)).completed = true) ∧
      (k < s.rob.count →
        (s.rob.entries ((s.rob.head + k) % s.rob.max_entries)).completed = false) ∧
      (commit_loop fuel s u).rob.head = (s.rob.head + k) % s.rob.max_entries ∧
      (commit_loop fuel s u).rob.count = s.rob.count - k ∧
      (commit_loop fuel s u).rob.max_entries = s.rob.max_entries ∧
      (commit_loop fuel s u).rob.tail = s.rob.tail ∧
      (∀ j, k ≤ j → j < s.rob.count →
        (commit_loop fuel s u).rob.entries ((s.rob.head + j) % s.rob.max_entries) =
          s.rob.entries ((s.rob.head + j) % s.rob.max_entries)) := by
  induction fuel generalizing s with
  | zero =>
    refine ⟨0, Nat.zero_le _, rfl, fun j hj => absurd hj (Nat.not_lt_zero _), fun h => by omega,
      ?_, rfl, rfl, rfl, fun j _ _ => rfl⟩
    simp only [commit_loop, Nat.add_zero, Nat.mod_eq_of_lt hh]
  | succ n ih =>
    by_cases hcond : (!s.rob.is_empty && s.rob.is_head_completed) = true
    · have hne : s.rob.count ≠ 0 := by
        intro h0
        simp [ReorderBuffer.is_empty, h0] at hcond
      have hcomp : (s.rob.entries s.rob.head).completed = true := by
        simp [ReorderBuffer.is_empty, ReorderBuffer.is_head_completed, hne] at hcond
        exact hcond
      have hrob : (commit_step s u).rob =
          { s.rob with
            entries := setAt s.rob.entries s.rob.head
              { s.rob.entries s.rob.head with busy := false }
            newly_completed := setAt s.rob.newly_completed s.rob.head false
            head := (s.rob.head + 1) % s.rob.max_entries
            count := s.rob.count - 1 } := by
        rw [commit_step_rob, remove_head_nonempty _ hne]
      have hcap : 0 < s.rob.max_entries := by omega
      have e1 : (commit_step s u).rob.head = (s.rob.head + 1) % s.rob.max_entries := by
        rw [hrob]
      have e2 : (commit_step s u).rob.count = s.rob.count - 1 := by rw [hrob]
      have e3 : (commit_step s u).rob.max_entries = s.rob.max_entries := by rw [hrob]
      have e4 : (commit_step s u).rob.tail = s.rob.tail := by rw [hrob]
      have e5 : ∀ x, ((commit_step s u).rob.entries x).completed =
          (s.rob.entries x).completed := by
        intro x
        rw [hrob]
        simp only [setAt]
        split
        · rename_i hx; rw [hx]
        · rfl
      have e6 : ∀ x, x ≠ s.rob.head → (commit_step s u).rob.entries x = s.rob.entries x := by
        intro x hx
        rw [hrob]
        simp only [setAt, hx, if_false]
      have hidx : ∀ j, ((s.rob.head + 1) % s.rob.max_entries + j) % s.rob.max_entries =
          (s.rob.head + (j + 1)) % s.rob.max_entries := by
        intro j
        rw [Nat.mod_add_mod]
        congr 1
        omega
      obtain ⟨k, hk, h1, h2, h3, h4, h5, h6, h7, h8⟩ := ih (commit_step s u)
        (by rw [e1, e3]; exact Nat.mod_lt _ hcap) (by rw [e2, e3]; omega) (by rw [e2]; omega)
      have hl : commit_loop (n + 1) s u = commit_loop n (commit_step s u) u := by
        simp only [commit_loop, hcond, if_true]
      simp only [e1, e2, e3, e4] at hk h2 h3 h4 h5 h6 h7 h8
      refine ⟨k + 1, by omega, ?_, ?_, ?_, ?_, ?_, ?_, ?_, ?_⟩
      · rw [hl, h1]; rfl
      · intro j hj
        cases j with
        | zero => rw [Nat.add_zero, Nat.mod_eq_of_lt hh]; exact hcomp
        | succ j' =>
          have := h2 j' (by omega)
          rw [e5, hidx] at this
          exact this
      · intro hlt
        have := h3 (by omega)
        rw [e5, hidx] at this
        exact this
      · rw [hl, h4, hidx]
      · rw [hl, h5]; omega
      · rw [hl, h6]
      · rw [hl, h7]
      · intro j hkj hjc
        obtain ⟨j', rfl⟩ : ∃ j', j = j' + 1 := ⟨j - 1, by omega⟩
        have := h8 j' (by omega) (by omega)
        rw [hidx] at this
        rw [hl, this]
        exact e6 _ (ring_pos_ne _ _ _ hh (by omega) (by omega))
    · have hl : commit_loop (n + 1) s u = s := by
        simp only [commit_loop, hcond, Bool.false_eq_true, if_false]
      rw [hl]
      refine ⟨0, Nat.zero_le _, rfl, fun j hj => absurd hj (Nat.not_lt_zero _), ?_, ?_, rfl, rfl,
        rfl, fun j _ _ => rfl⟩
      · intro hpos
        have hne : s.rob.count ≠ 0 := by omega
        rw [Nat.add_zero, Nat.mod_eq_of_lt hh]
        simp [ReorderBuffer.is_empty, ReorderBuffer.is_head_completed, hne] at hcond
        exact hcond
      · rw [Nat.add_zero, Nat.mod_eq_of_lt hh]

/-- The number of iterations of the loop of `commit_proc` is determined by the
reorder buffer. -/
theorem run_length_unique (f : Nat → Bool) (c k1 k2 : Nat) (h1 : k1 ≤ c) (h2 : k2 ≤ c)
    (a1 : ∀ j, j < k1 → f j = true) (b1 : k1 < c → f k1 = false)
    (a2 : ∀ j, j < k2 → f j = true) (b2 : k2 < c → f k2 = false) : k1 = k2 := by
  rcases Nat.lt_trichotomy k1 k2 with h | h | h
  · have := a2 k1 h
    have := b1 (by omega)
    simp_all
  · exact h
  · have := a1 k2 h
    have := b2 (by omega)
    simp_all

theorem commit_steps_succ (k : Nat) (s : ExecutionUnit) (u : Uninit) :
    commit_steps (k + 1) s u = commit_step (commit_steps k s u) u := by
  induction k generalizing s with
  | zero => rfl
  | succ n ih =>
    show commit_steps (n + 1) (commit_step s u) u = _
    rw [ih (commit_step s u)]
    rfl

/-- The architectural effect of one iteration of the loop of `commit_proc` on a
non-empty buffer, in terms of the head entry. -/
theorem commit_step_effect (s : ExecutionUnit) (u : Uninit) (hne : s.rob.count ≠ 0) :
    (commit_step s u).mem =
      (if (s.rob.entries s.rob.head).is_store = true then
        s.mem.write_data (s.rob.entries s.rob.head).mem_addr (s.rob.entries s.rob.head).mem_data
          (store_size (s.rob.entries s.rob.head).funct3)
       else s.mem) ∧
    (commit_step s u).regfile =
      (if (s.rob.entries s.rob.head).is_store = false ∧ (s.rob.entries s.rob.head).dest ≠ 0 then
        s.regfile.write ((s.rob.entries s.rob.head).dest : Int) (s.rob.entries s.rob.head).value
       else s.regfile) ∧
    (commit_step s u).reg_status =
      (if (s.rob.entries s.rob.head).is_store = false ∧ (s.rob.entries s.rob.head).dest ≠ 0 ∧
          ((s.reg_status (s.rob.entries s.rob.head).dest).rob_entry : Int) = (s.rob.head : Int)
       then setAt s.reg_status (s.rob.entries s.rob.head).dest
          { s.reg_status (s.rob.entries s.rob.head).dest with busy := false }
       else s.reg_status) ∧
    (commit_step s u).rs_alu = s.rs_alu ∧ (commit_step s u).rs_mem = s.rs_mem ∧
    (commit_step s u).rs_branch = s.rs_branch ∧
    (commit_step s u).execute_out = s.execute_out := by
  have hg : s.rob.get_head_entry u.rob_entry = s.rob.entries s.rob.head := by
    simp [ReorderBuffer.get_head_entry, ReorderBuffer.is_empty, hne]
  unfold commit_step
  simp only [hg, ReorderBuffer.get_head_index]
  cases hs : (s.rob.entries s.rob.head).is_store
  · by_cases hd : (s.rob.entries s.rob.head).dest = 0
    · simp [hd]
    · by_cases hn : ((s.reg_status (s.rob.entries s.rob.head).dest).rob_entry : Int) =
          (s.rob.head : Int)
      · simp [hd, hn]
      · simp [hd, hn]
  · simp

/-- The reorder buffer after `j` iterations of the loop body. -/
theorem commit_steps_rob (j : Nat) (s : ExecutionUnit) (u : Uninit)
    (hh : s.rob.head < s.rob.max_entries) (hc : s.rob.count ≤ s.rob.max_entries)
    (hj : j ≤ s.rob.count) :
    (commit_steps j s u).rob.head = (s.rob.head + j) % s.rob.max_entries ∧
    (commit_steps j s u).rob.count = s.rob.count - j ∧
    (commit_steps j s u).rob.max_entries = s.rob.max_entries ∧
    (∀ i, j ≤ i → i < s.rob.count →
      (commit_steps j s u).rob.entries ((s.rob.head + i) % s.rob.max_entries) =
        s.rob.entries ((s.rob.head + i) % s.rob.max_entries)) := by
  induction j generalizing s with
  | zero =>
    refine ⟨?_, rfl, rfl, fun _ _ _ => rfl⟩
    show s.rob.head = _
    rw [Nat.add_zero, Nat.mod_eq_of_lt hh]
  | succ n ih =>
    have hne : s.rob.count ≠ 0 := by omega
    have hrob : (commit_step s u).rob =
        { s.rob with
          entries := setAt s.rob.entries s.rob.head
            { s.rob.entries s.rob.head with busy := false }
          newly_completed := setAt s.rob.newly_completed s.rob.head false
          head := (s.rob.head + 1) % s.rob.max_entries
          count := s.rob.count - 1 } := by
      rw [commit_step_rob, remove_head_nonempty _ hne]
    have hcap : 0 < s.rob.max_entries := by omega
    have e1 : (commit_step s u).rob.head = (s.rob.head + 1) % s.rob.max_entries := by
      rw [hrob]
    have e2 : (commit_step s u).rob.count = s.rob.count - 1 := by rw [hrob]
    have e3 : (commit_step s u).rob.max_entries = s.rob.max_entries := by rw [hrob]
    have e6 : ∀ x, x ≠ s.rob.head → (commit_step s u).rob.entries x = s.rob.entries x := by
      intro x hx
      rw [hrob]
      simp only [setAt, hx, if_false]
    have hidx : ∀ i, ((s.rob.head + 1) % s.rob.max_entries + i) % s.rob.max_entries =
        (s.rob.head + (i + 1)) % s.rob.max_entries := by
      intro i
      rw [Nat.mod_add_mod]
      congr 1
      omega
    obtain ⟨h1, h2, h3, h4⟩ := ih (commit_step s u)
      (by rw [e1, e3]; exact Nat.mod_lt _ hcap) (by rw [e2, e3]; omega) (by rw [e2]; omega)
    simp only [e1, e2, e3] at h1 h2 h3 h4
    have hs : commit_steps (n + 1) s u = commit_steps n (commit_step s u) u := rfl
    rw [hs]
    refine ⟨by rw [h1, hidx], by rw [h2]; omega, h3, fun i hi1 hi2 => ?_⟩
    obtain ⟨i', rfl⟩ : ∃ i', i = i' + 1 := ⟨i - 1, by omega⟩
    have := h4 i' (by omega) (by omega)
    rw [hidx] at this
    rw [this]
    exact e6 _ (ring_pos_ne _ _ _ hh (by omega) (by omega))

/-- C28. Commit is in order and maximal: with a reorder buffer that satisfies the ring
invariant, `commit_proc` is the loop body run k times, where the k entries from the
head on (in ring order) are completed and either k = count or the next entry is not
completed; the j-th iteration applies the architectural effect of the entry at
position head + j to the state the iterations before it have left: a store entry
writes its data to memory at its address (with the size from its funct3), any other
entry with dest ≠ 0 writes its value to register dest and clears the busy flag of
reg_status[dest] if that names this slot, and nothing else changes outside the
buffer. Afterwards the buffer is empty or its head entry is not completed, its head
has advanced by k and its count dropped by k, and every entry behind the first
non-completed one is unchanged. The loop makes at most `count` iterations: any larger
bound on the iterations gives the same result. -/
theorem C28_commit_in_order_maximal (s : ExecutionUnit) (u : Uninit) (hring : s.rob.Ring) :
    ∃ k, k ≤ s.rob.count ∧
      commit_proc s false u = commit_steps k s u ∧
      (∀ j, j < k →
        (s.rob.entries ((s.rob.head + j) % s.rob.max_entries)).completed = true) ∧
      (k < s.rob.count →
        (s.rob.entries ((s.rob.head + k) % s.rob.max_entries)).completed = false) ∧
      ((commit_proc s false u).rob.is_empty = true ∨
        (commit_proc s false u).rob.is_head_completed = false) ∧
      (commit_proc s false u).rob.head = (s.rob.head + k) % s.rob.max_entries ∧
      (commit_proc s false u).rob.count = s.rob.count - k ∧
      (commit_proc s false u).rob.tail = s.rob.tail ∧
      (∀ j, k ≤ j → j < s.rob.count →
        (commit_proc s false u).rob.entries ((s.rob.head + j) % s.rob.max_entries) =
          s.rob.entries ((s.rob.head + j) % s.rob.max_entries)) ∧
      (∀ fuel, s.rob.count ≤ fuel → commit_loop fuel s u = commit_proc s false u) ∧
      (∀ j, j < k →
        (commit_steps (j + 1) s u).mem =
          (if (s.rob.entries ((s.rob.head + j) % s.rob.max_entries)).is_store = true then
            (commit_steps j s u).mem.write_data
              (s.rob.entries ((s.rob.head + j) % s.rob.max_entries)).mem_addr
              (s.rob.entries ((s.rob.head + j) % s.rob.max_entries)).mem_data
              (store_size (s.rob.entries ((s.rob.head + j) % s.rob.max_entries)).funct3)
           else (commit_steps j s u).mem) ∧
        (commit_steps (j + 1) s u).regfile =
          (if (s.rob.entries ((s.rob.head + j) % s.rob.max_entries)).is_store = false ∧
              (s.rob.entries ((s.rob.head + j) % s.rob.max_entries)).dest ≠ 0 then
            (commit_steps j s u).regfile.write
              ((s.rob.entries ((s.rob.head + j) % s.rob.max_entries)).dest : Int)
              (s.rob.entries ((s.rob.head + j) % s.rob.max_entries)).value
           else (commit_steps j s u).regfile) ∧
        (commit_steps (j + 1) s u).reg_status =
          (if (s.rob.entries ((s.rob.head + j) % s.rob.max_entries)).is_store = false ∧
              (s.rob.entries ((s.rob.head + j) % s.rob.max_entries)).dest ≠ 0 ∧
              (((commit_steps j s u).reg_status
                (s.rob.entries ((s.rob.head + j) % s.rob.max_entries)).dest).rob_entry : Int) =
                (((s.rob.head + j) % s.rob.max_entries : Nat) : Int)
           then setAt (commit_steps j s u).reg_status
              (s.rob.entries ((s.rob.head + j) % s.rob.max_entries)).dest
              { (commit_steps j s u).reg_status
                  (s.rob.entries ((s.rob.head + j) % s.rob.max_entries)).dest with
                busy := false }
           else (commit_steps j s u).reg_status) ∧
        (commit_steps (j + 1) s u).rs_alu = (commit_steps j s u).rs_alu ∧
        (commit_steps (j + 1) s u).rs_mem = (commit_steps j s u).rs_mem ∧
        (commit_steps (j + 1) s u).rs_branch = (commit_steps j s u).rs_branch ∧
        (commit_steps (j + 1) s u).execute_out = (commit_steps j s u).execute_out) := by
  obtain ⟨hh, _, hc, _, _⟩ := hring
  have hp : commit_proc s false u = commit_loop s.rob.count s u := by
    simp only [commit_proc, Bool.false_eq_true, if_false]
  obtain ⟨k, hk, h1, h2, h3, h4, h5, h6, h7, h8⟩ :=
    commit_loop_spec s.rob.count s u hh hc (Nat.le_refl _)
  rw [← hp] at h1 h4 h5 h6 h7 h8
  refine ⟨k, hk, h1, h2, h3, ?_, h4, h5, h7, h8, ?_, ?_⟩
  · by_cases hkc : k < s.rob.count
    · right
      have hne : (commit_proc s false u).rob.count ≠ 0 := by rw [h5]; omega
      have := h8 k (Nat.le_refl _) hkc
      simp only [ReorderBuffer.is_head_completed, ReorderBuffer.is_empty, hne, decide_False,
        Bool.false_eq_true, if_false, h4, this]
      exact h3 hkc
    · left
      simp only [ReorderBuffer.is_empty, h5, decide_eq_true_eq]
      omega
  · intro fuel hf
    obtain ⟨k', hk', g1, g2, g3, _⟩ := commit_loop_spec fuel s u hh hc hf
    have : k' = k := run_length_unique
      (fun j => (s.rob.entries ((s.rob.head + j) % s.rob.max_entries)).completed)
      s.rob.count k' k hk' hk g2 g3 h2 h3
    rw [g1, this, h1]
  · intro j hj
    obtain ⟨r1, r2, _, r4⟩ := commit_steps_rob j s u hh hc (by omega)
    have hne : (commit_steps j s u).rob.count ≠ 0 := by rw [r2]; omega
    have hent := r4 j (Nat.le_refl _) (by omega)
    have heff := commit_step_effect (commit_steps j s u) u hne
    rw [r1, hent, ← commit_steps_succ] at heff
    exact heff

set_option maxRecDepth 100000 in
/-- Witness for C28: on an engine whose buffer holds three entries with the first and
the third completed, the buffer is a ring, and `commit_proc` retires the first entry
only; on the engine that has issued `addi x1, x0, 7` twice and completed the first,
`commit_proc` retires the first and writes 7 to x1, leaving the register status of x1
busy for the second. -/
theorem C28_commit_in_order_maximal_witness :
    commit_example.rob.Ring ∧ commit_example.rob.count = 3 ∧
    ((commit_proc commit_example false Uninit.zero).rob.is_empty = true ∨
      (commit_proc commit_example false Uninit.zero).rob.is_head_completed = false) ∧
    (commit_proc commit_example false Uninit.zero).rob.count = 2 ∧
    rename_example.regfile.read 1 = 0 ∧
    ((commit_proc rename_example false Uninit.zero).rob.is_empty = true ∨
      (commit_proc rename_example false Uninit.zero).rob.is_head_completed = false) ∧
    (commit_proc rename_example false Uninit.zero).rob.count = 1 ∧
    (commit_proc rename_example false Uninit.zero).regfile.read 1 = 7 ∧
    ((commit_proc rename_example false Uninit.zero).reg_status 1).busy = true :=
  ⟨by unfold ReorderBuffer.Ring; decide!, by decide!,
    (C28_commit_in_order_maximal commit_example Uninit.zero
      (by unfold ReorderBuffer.Ring; decide!)).elim
      (fun _ h => h.2.2.2.2.1),
    by decide!, by decide!,
    (C28_commit_in_order_maximal rename_example Uninit.zero
      (by unfold ReorderBuffer.Ring; decide!)).elim
      (fun _ h => h.2.2.2.2.1),
    by decide!, by decide!, by decide!⟩

/-- C29. Commit and the register status: when the head entry of a non-empty buffer
commits and it is not a store and its destination d is not 0, the busy flag of
`reg_status[d]` is cleared if `reg_status[d].rob_entry` equals the head index and
`reg_status[d]` is unchanged otherwise, and `reg_status[r]` is unchanged for every
r ≠ d; when the head entry is a store or has destination 0, no register status
changes. -/
theorem C29_commit_reg_status_frame (s : ExecutionUnit) (u : Uninit)
    (hne : s.rob.is_empty = false) :
    ((s.rob.entries s.rob.head).is_store = false → (s.rob.entries s.rob.head).dest ≠ 0 →
      (((s.reg_status (s.rob.entries s.rob.head).dest).rob_entry : Int) = (s.rob.head : Int) →
        (commit_step s u).reg_status (s.rob.entries s.rob.head).dest =
          { s.reg_status (s.rob.entries s.rob.head).dest with busy := false }) ∧
      (((s.reg_status (s.rob.entries s.rob.head).dest).rob_entry : Int) ≠ (s.rob.head : Int) →
        (commit_step s u).reg_status (s.rob.entries s.rob.head).dest =
          s.reg_status (s.rob.entries s.rob.head).dest) ∧
      (∀ r, r ≠ (s.rob.entries s.rob.head).dest →
        (commit_step s u).reg_status r = s.reg_status r)) ∧
    (((s.rob.entries s.rob.head).is_store = true ∨ (s.rob.entries s.rob.head).dest = 0) →
      (commit_step s u).reg_status = s.reg_status) := by
  have hg : s.rob.get_head_entry u.rob_entry = s.rob.entries s.rob.head := by
    simp only [ReorderBuffer.get_head_entry, hne, Bool.false_eq_true, if_false]
  refine ⟨fun hs hd => ⟨fun heq => ?_, fun hneq => ?_, fun r hr => ?_⟩, fun h => ?_⟩
  · simp only [commit_step, hg, hs, Bool.false_eq_true, if_false, hd, ne_eq, not_false_eq_true,
      if_true, ReorderBuffer.get_head_index, heq, setAt]
  · simp only [commit_step, hg, hs, Bool.false_eq_true, if_false, hd, ne_eq, not_false_eq_true,
      if_true, ReorderBuffer.get_head_index, hneq]
  · simp only [commit_step, hg, hs, Bool.false_eq_true, if_false, hd, ne_eq, not_false_eq_true,
      if_true, ReorderBuffer.get_head_index]
    split
    · simp only [setAt, hr, if_false]
    · rfl
  · rcases h with h | h
    · simp only [commit_step, hg, h, if_true]
    · cases hs : (s.rob.entries s.rob.head).is_store
      · simp only [commit_step, hg, hs, Bool.false_eq_true, if_false, h, ne_eq,
          not_true_eq_false]
      · simp only [commit_step, hg, hs, if_true]

set_option maxRecDepth 100000 in
/-- Witness for C29: after two issues of `addi x1, x0, 7` the register status of x1
names the younger one (index 1), so the commit of the older one (head index 0) leaves
it busy. -/
theorem C29_commit_reg_status_frame_witness :
    (rename_example.reg_status 1).rob_entry = 1 ∧ rename_example.rob.head = 0 ∧
    (rename_example.reg_status 1).busy = true ∧
    (commit_step rename_example Uninit.zero).reg_status 1 = rename_example.reg_status 1 :=
  ⟨by decide!, by decide!, by decide!,
    ((C29_commit_reg_status_frame rename_example Uninit.zero (by decide!)).1
      (by decide!) (by decide!)).2.1 (by decide!)⟩

end ExecutionUnit

namespace FetchUnit

theorem sign_mask_J (inst : Nat) :
    (if (inst >>> 31) &&& 0x1 ≠ 0 then 0xFFFFFFFF else 0) &&& 0xFFF00000 =
      (if inst / 2147483648 % 2 = 0 then 0 else 0xFFF00000) := by
  have e1 : (inst >>> 31) &&& 0x1 = inst / 2147483648 % 2 := shr_and inst 31 1
  rw [e1]
  by_cases h : inst / 2147483648 % 2 = 0
  · simp [h]
  · simp only [ne_eq, h, not_false_eq_true, if_true, if_false]; decide

theorem sign_mask_B (inst : Nat) :
    (if (inst >>> 31) &&& 0x1 ≠ 0 then 0xFFFFFFFF else 0) &&& 0xFFFFF000 =
      (if inst / 2147483648 % 2 = 0 then 0 else 0xFFFFF000) := by
  have e1 : (inst >>> 31) &&& 0x1 = inst / 2147483648 % 2 := shr_and inst 31 1
  rw [e1]
  by_cases h : inst / 2147483648 % 2 = 0
  · simp [h]
  · simp only [ne_eq, h, not_false_eq_true, if_true, if_false]; decide

/-- The offset that `predict_next_pc` assembles from a J-type word is the decoder's
J immediate. -/
theorem j_offset_eq (inst : Nat) : j_offset inst = DecodeUnit.get_immediate inst .J_TYPE := by
  have e2 : (inst >>> 12) &&& 0xFF = inst / 4096 % 256 := shr_and inst 12 8
  have e3 : (inst >>> 20) &&& 0x1 = inst / 1048576 % 2 := shr_and inst 20 1
  have e4 : (inst >>> 21) &&& 0x3FF = inst / 2097152 % 1024 := shr_and inst 21 10
  simp only [j_offset, DecodeUnit.get_immediate, imm_J_bits, sign_mask_J, e2, e3, e4,
    Nat.shiftLeft_eq]
  simp only [Nat.reducePow]
  congr 1
  have h2 : inst / 4096 % 256 < 256 := Nat.mod_lt _ (by norm_num)
  have h3 : inst / 1048576 % 2 < 2 := Nat.mod_lt _ (by norm_num)
  have h4 : inst / 2097152 % 1024 < 1024 := Nat.mod_lt _ (by norm_num)
  generalize inst / 4096 % 256 = f8 at h2 ⊢
  generalize inst / 1048576 % 2 = b20 at h3 ⊢
  generalize inst / 2097152 % 1024 = f10 at h4 ⊢
  by_cases h : inst / 2147483648 % 2 = 0
  · simp only [h, if_true]
    rw [or_add 0 (f8 * 4096) 20 (by norm_num) (by simp only [Nat.reducePow]; omega)]
    rw [or_add _ (b20 * 2048) 12
      (by simp only [Nat.reducePow]; omega) (by simp only [Nat.reducePow]; omega)]
    rw [or_add _ (f10 * 2) 11
      (by simp only [Nat.reducePow]; omega) (by simp only [Nat.reducePow]; omega)]
    omega
  · simp only [h, if_false]
    rw [or_add 4293918720 (f8 * 4096) 20 (by norm_num) (by simp only [Nat.reducePow]; omega)]
    rw [or_add _ (b20 * 2048) 12
      (by simp only [Nat.reducePow]; omega) (by simp only [Nat.reducePow]; omega)]
    rw [or_add _ (f10 * 2) 11
      (by simp only [Nat.reducePow]; omega) (by simp only [Nat.reducePow]; omega)]
    omega

/-- The offset that `predict_next_pc` assembles from a B-type word is the decoder's
B immediate. -/
theorem b_offset_eq (inst : Nat) :
    BranchPredictor.b_offset inst = DecodeUnit.get_immediate inst .B_TYPE := by
  have e2 : (inst >>> 7) &&& 0x1 = inst / 128 % 2 := shr_and inst 7 1
  have e3 : (inst >>> 25) &&& 0x3F = inst / 33554432 % 64 := shr_and inst 25 6
  have e4 : (inst >>> 8) &&& 0xF = inst / 256 % 16 := shr_and inst 8 4
  simp only [BranchPredictor.b_offset, DecodeUnit.get_immediate, imm_B_bits, sign_mask_B,
    e2, e3, e4, Nat.shiftLeft_eq]
  simp only [Nat.reducePow]
  congr 1
  have h2 : inst / 128 % 2 < 2 := Nat.mod_lt _ (by norm_num)
  have h3 : inst / 33554432 % 64 < 64 := Nat.mod_lt _ (by norm_num)
  have h4 : inst / 256 % 16 < 16 := Nat.mod_lt _ (by norm_num)
  generalize inst / 128 % 2 = b7 at h2 ⊢
  generalize inst / 33554432 % 64 = f6 at h3 ⊢
  generalize inst / 256 % 16 = f4 at h4 ⊢
  by_cases h : inst / 2147483648 % 2 = 0
  · simp only [h, if_true]
    rw [or_add 0 (b7 * 2048) 12 (by norm_num) (by simp only [Nat.reducePow]; omega)]
    rw [or_add _ (f6 * 32) 11
      (by simp only [Nat.reducePow]; omega) (by simp only [Nat.reducePow]; omega)]
    rw [or_add _ (f4 * 2) 5
      (by simp only [Nat.reducePow]; omega) (by simp only [Nat.reducePow]; omega)]
    omega
  · simp only [h, if_false]
    rw [or_add 4294963200 (b7 * 2048) 12 (by norm_num) (by simp only [Nat.reducePow]; omega)]
    rw [or_add _ (f6 * 32) 11
      (by simp only [Nat.reducePow]; omega) (by simp only [Nat.reducePow]; omega)]
    rw [or_add _ (f4 * 2) 5
      (by simp only [Nat.reducePow]; omega) (by simp only [Nat.reducePow]; omega)]
    omega

/-- C23. For every pc and instruction word, the address returned by `predict_next_pc`
is pc + sext64(get_immediate(inst, J_TYPE)) when the opcode is JAL and the predictor
predicts taken, pc + sext64(get_immediate(inst, B_TYPE)) when the opcode is BRANCH and
the predictor predicts taken, and pc + 4 in every other case, all modulo 2^64; the
offsets that the fetch stage assembles inline are the decoder's J and B immediates, and
for a JAL or BRANCH word they are the immediate of the decoded packet. -/
theorem C23_predict_next_pc (f : FetchUnit) (pc inst : Nat) :
    (f.predict_next_pc pc inst).2 =
      (if inst &&& 0x7F = Opcode.JAL.toNat ∧ (f.branch_predictor.predict pc inst).2 = true then
        (pc + sext64 (DecodeUnit.get_immediate inst .J_TYPE)) % W64
      else if inst &&& 0x7F = Opcode.BRANCH.toNat ∧
          (f.branch_predictor.predict pc inst).2 = true then
        (pc + sext64 (DecodeUnit.get_immediate inst .B_TYPE)) % W64
      else (pc + 4) % W64) ∧
    j_offset inst = DecodeUnit.get_immediate inst .J_TYPE ∧
    BranchPredictor.b_offset inst = DecodeUnit.get_immediate inst .B_TYPE ∧
    (inst &&& 0x7F = Opcode.JAL.toNat →
      (DecodeUnit.decode { instruction := inst, pc := pc, valid := true }).imm =
        j_offset inst) ∧
    (inst &&& 0x7F = Opcode.BRANCH.toNat →
      (DecodeUnit.decode { instruction := inst, pc := pc, valid := true }).imm =
        BranchPredictor.b_offset inst) := by
  refine ⟨?_, j_offset_eq inst, b_offset_eq inst, ?_, ?_⟩
  · have n1 : ¬ (Opcode.BRANCH.toNat = Opcode.JAL.toNat) := by decide
    have n2 : ¬ (Opcode.JALR.toNat = Opcode.JAL.toNat) := by decide
    have n3 : ¬ (Opcode.JALR.toNat = Opcode.BRANCH.toNat) := by decide
    simp only [predict_next_pc, j_offset_eq, b_offset_eq]
    by_cases hj : inst &&& 0x7F = Opcode.JAL.toNat
    · have hb : ¬ (inst &&& 0x7F = Opcode.BRANCH.toNat) := by rw [hj]; decide
      cases ht : (f.branch_predictor.predict pc inst).2 <;> simp [hj, ht]
    · by_cases hb : inst &&& 0x7F = Opcode.BRANCH.toNat
      · cases ht : (f.branch_predictor.predict pc inst).2 <;> simp [hj, hb, ht, n1]
      · by_cases hr : inst &&& 0x7F = Opcode.JALR.toNat
        · cases ht : (f.branch_predictor.predict pc inst).2 <;> simp [hj, hb, hr, ht, n2, n3]
        · simp [hj, hb, hr]
  · intro h
    have ht : DecodeUnit.get_instruction_type inst = .J_TYPE := by
      simp only [DecodeUnit.get_instruction_type, h]; decide
    simp only [DecodeUnit.decode, ht, j_offset_eq]
  · intro h
    have ht : DecodeUnit.get_instruction_type inst = .B_TYPE := by
      simp only [DecodeUnit.get_instruction_type, h]; decide
    simp only [DecodeUnit.decode, ht, b_offset_eq]

/-- Witness for C23: with the always-taken predictor, `jal x0, 64` at address 8 gives
72, and `bne x1, x0, -4` at address 8 gives 4; the decoded immediates are 64 and -4. -/
theorem C23_predict_next_pc_witness :
    ((init PredictorType.ALWAYS_TAKEN).predict_next_pc 8 0x0400006F).2 = 72 ∧
    ((init PredictorType.ALWAYS_TAKEN).predict_next_pc 8 0xFE009EE3).2 = 4 ∧
    (DecodeUnit.decode { instruction := 0x0400006F, pc := 8, valid := true }).imm = 64 ∧
    (DecodeUnit.decode { instruction := 0xFE009EE3, pc := 8, valid := true }).imm = -4 :=
  ⟨(C23_predict_next_pc (init PredictorType.ALWAYS_TAKEN) 8 0x0400006F).1.trans (by decide),
    (C23_predict_next_pc (init PredictorType.ALWAYS_TAKEN) 8 0xFE009EE3).1.trans (by decide),
    ((C23_predict_next_pc (init PredictorType.ALWAYS_TAKEN) 8 0x0400006F).2.2.2.1
      (by decide)).trans (by decide),
    ((C23_predict_next_pc (init PredictorType.ALWAYS_TAKEN) 8 0xFE009EE3).2.2.2.2
      (by decide)).trans (by decide)⟩

end FetchUnit

namespace BranchPredictor

theorem ite_field {α β : Type} (f : α → β) (c : Prop) [Decidable c] (a b : α) (x : β)
    (ha : f a = x) (hb : f b = x) : f (if c then a else b) = x := by
  split <;> assumption

theorem update_fields (bp : BranchPredictor) (pc : Nat) (t : Bool) :
    (bp.update pc t).predictor_type = bp.predictor_type ∧
    (bp.update pc t).bht_size = bp.bht_size ∧
    (bp.update pc t).ghr_bits = bp.ghr_bits := by
  cases h : bp.predictor_type <;> simp only [update, h] <;> (try split_ifs) <;>
    first
    | exact ⟨rfl, rfl, rfl⟩
    | exact ⟨h, rfl, rfl⟩

theorem update_one_bit (bp : BranchPredictor) (pc : Nat) (t : Bool)
    (h : bp.predictor_type = .ONE_BIT) :
    (bp.update pc t).bht_one_bit =
      setAt bp.bht_one_bit (bp.compute_bht_index pc) (if t then 1 else 0) := by
  simp only [update, h]
  exact ite_field BranchPredictor.bht_one_bit _ _ _ _ rfl rfl

theorem update_two_bit (bp : BranchPredictor) (pc : Nat) (t : Bool)
    (h : bp.predictor_type = .TWO_BIT ∨ bp.predictor_type = .TOURNAMENT) :
    (bp.update pc t).bht_two_bit =
      setAt bp.bht_two_bit (bp.compute_bht_index pc)
        (step_counter (bp.bht_two_bit (bp.compute_bht_index pc)) t) := by
  rcases h with h | h <;> simp only [update, h] <;> split_ifs <;> rfl

theorem update_pht (bp : BranchPredictor) (pc : Nat) (t : Bool)
    (h : bp.predictor_type = .GSHARE ∨ bp.predictor_type = .TOURNAMENT) :
    (bp.update pc t).pht =
      setAt bp.pht (bp.compute_pht_index pc) (step_pht (bp.pht (bp.compute_pht_index pc)) t) ∧
    (bp.update pc t).ghr = bp.shift_ghr t := by
  rcases h with h | h <;> simp only [update, h] <;> split_ifs <;> exact ⟨rfl, rfl⟩

theorem update_n_fields (bp : BranchPredictor) (pc : Nat) (t : Bool) (n : Nat) :
    (bp.update_n pc t n).predictor_type = bp.predictor_type ∧
    (bp.update_n pc t n).bht_size = bp.bht_size ∧
    (bp.update_n pc t n).ghr_bits = bp.ghr_bits := by
  induction n with
  | zero => exact ⟨rfl, rfl, rfl⟩
  | succ n ih =>
    obtain ⟨a, b, c⟩ := update_fields (bp.update_n pc t n) pc t
    exact ⟨a.trans ih.1, b.trans ih.2.1, c.trans ih.2.2⟩

theorem bht_index_congr (a b : BranchPredictor) (pc : Nat) (h : a.bht_size = b.bht_size) :
    a.compute_bht_index pc = b.compute_bht_index pc := by
  simp only [compute_bht_index, h]

theorem pht_index_congr (a b : BranchPredictor) (pc : Nat) (h : a.bht_size = b.bht_size)
    (hg : a.ghr = b.ghr) : a.compute_pht_index pc = b.compute_pht_index pc := by
  simp only [compute_pht_index, h, hg]

theorem toward_zero (d : Bool) (c : Nat) : Toward d 0 c ↔ c ≤ 3 := by
  cases d <;> simp [Toward]

theorem toward_step_counter (d : Bool) (m c : Nat) (h : Toward d m c) :
    Toward d (min 2 (m + 1)) (step_counter c d) := by
  cases d <;> simp only [Toward, step_counter, Bool.false_eq_true, if_false, if_true,
    TwoBitState.STRONGLY_TAKEN, TwoBitState.STRONGLY_NOT_TAKEN] at h ⊢ <;>
    split <;> omega

theorem toward_step_pht (d : Bool) (m c : Nat) (h : Toward d m c) :
    Toward d (min 2 (m + 1)) (step_pht c d) := by
  cases d <;> simp only [Toward, step_pht, Bool.false_eq_true, if_false, if_true,
    TwoBitState.STRONGLY_TAKEN, TwoBitState.STRONGLY_NOT_TAKEN] at h ⊢ <;>
    split <;> omega

theorem toward_keep_pht (d : Bool) (c : Nat) (h : c ≤ 3) : step_pht c d ≤ 3 := by
  cases d <;> simp only [step_pht, Bool.false_eq_true, if_false, if_true,
    TwoBitState.STRONGLY_TAKEN, TwoBitState.STRONGLY_NOT_TAKEN] <;> split <;> omega

theorem toward_two (d : Bool) (c : Nat) (h : Toward d 2 c) :
    decide (c ≥ TwoBitState.WEAKLY_TAKEN) = d := by
  cases d <;> simp only [Toward, Bool.false_eq_true, if_false, if_true] at h <;>
    simp only [TwoBitState.WEAKLY_TAKEN, ge_iff_le, decide_eq_true_eq, decide_eq_false_iff_not] <;>
    omega

/-- After `n` updates in direction `d` the bimodal counter of `pc` has made
`min 2 n` steps towards `d`. -/
theorem two_bit_progress (bp : BranchPredictor) (pc : Nat) (d : Bool) (n : Nat)
    (ht : bp.predictor_type = .TWO_BIT ∨ bp.predictor_type = .TOURNAMENT)
    (hr : bp.bht_two_bit (bp.compute_bht_index pc) ≤ 3) :
    Toward d (min 2 n) ((bp.update_n pc d n).bht_two_bit (bp.compute_bht_index pc)) := by
  induction n with
  | zero => exact (toward_zero d _).2 hr
  | succ n ih =>
    obtain ⟨f1, f2, _⟩ := update_n_fields bp pc d n
    have e : (bp.update_n pc d (n + 1)).bht_two_bit (bp.compute_bht_index pc) =
        step_counter ((bp.update_n pc d n).bht_two_bit (bp.compute_bht_index pc)) d := by
      show ((bp.update_n pc d n).update pc d).bht_two_bit _ = _
      rw [update_two_bit _ _ _ (by rw [f1]; exact ht), bht_index_congr _ bp pc f2]
      simp only [setAt, if_true]
    rw [e]
    have := toward_step_counter d _ _ ih
    have e2 : min 2 (min 2 n + 1) = min 2 (n + 1) := by omega
    rw [e2] at this
    exact this

theorem shift_ghr_testBit (bp : BranchPredictor) (t : Bool) (hb : bp.ghr_bits < 32) (i : Nat) :
    (bp.shift_ghr t).testBit i =
      (decide (i < bp.ghr_bits) && (if i = 0 then t else bp.ghr.testBit (i - 1))) := by
  have e32 : W32 = 2 ^ 32 := by decide
  have e1 : ∀ j, (1 : Nat).testBit j = decide (j = 0) := by
    intro j; cases j <;> simp [Nat.testBit_succ]
  simp only [shift_ghr, e32, Nat.testBit_mod_two_pow, Nat.testBit_and, Nat.testBit_or,
    Nat.testBit_shiftLeft, Nat.one_shiftLeft, Nat.testBit_two_pow_sub_one]
  by_cases hi : i < bp.ghr_bits
  · have h32 : i < 32 := by omega
    by_cases h0 : i = 0
    · subst h0
      cases t <;> simp [hi, e1]
    · have h1 : i ≥ 1 := by omega
      cases t <;> simp [hi, h32, h0, h1, e1]
  · simp [hi]

/-- After `n` updates in direction `d` the low `min n history_bits` bits of the
history register are `d`, and its bits from `history_bits` on are clear. -/
theorem ghr_progress (bp : BranchPredictor) (pc : Nat) (d : Bool) (n : Nat)
    (ht : bp.predictor_type = .GSHARE ∨ bp.predictor_type = .TOURNAMENT)
    (hb : bp.ghr_bits < 32) (hg : bp.ghr_bits = 0 → bp.ghr = 0) (i : Nat) :
    (i < n → i < bp.ghr_bits → (bp.update_n pc d n).ghr.testBit i = d) ∧
    (bp.ghr_bits ≤ i → (1 ≤ n ∨ bp.ghr_bits = 0) →
      (bp.update_n pc d n).ghr.testBit i = false) := by
  induction n generalizing i with
  | zero =>
    refine ⟨fun h => absurd h (Nat.not_lt_zero _), fun _ h => ?_⟩
    rcases h with h | h
    · omega
    · show bp.ghr.testBit i = false
      rw [hg h]; exact Nat.zero_testBit i
  | succ n ih =>
    obtain ⟨f1, _, f3⟩ := update_n_fields bp pc d n
    have e : (bp.update_n pc d (n + 1)).ghr = (bp.update_n pc d n).shift_ghr d :=
      (update_pht _ pc d (by rw [f1]; exact ht)).2
    rw [e, shift_ghr_testBit _ _ (by rw [f3]; exact hb), f3]
    refine ⟨fun h1 h2 => ?_, fun h1 _ => ?_⟩
    · by_cases h0 : i = 0
      · subst h0
        have : decide (0 < bp.ghr_bits) = true := decide_eq_true h2
        rw [this]
        simp
      · have := (ih (i - 1)).1 (by omega) (by omega)
        simp [h2, h0, this]
    · have : ¬ i < bp.ghr_bits := by omega
      simp [this]

theorem settled_ghr_testBit (h : Nat) (d : Bool) (i : Nat) :
    (settled_ghr h d).testBit i = (d && decide (i < h)) := by
  cases d
  · simp [settled_ghr]
  · simp [settled_ghr, Nat.testBit_two_pow_sub_one]

/-- From `history_bits` updates in direction `d` on the history register is all `d`. -/
theorem ghr_settled (bp : BranchPredictor) (pc : Nat) (d : Bool) (n : Nat)
    (ht : bp.predictor_type = .GSHARE ∨ bp.predictor_type = .TOURNAMENT)
    (hb : bp.ghr_bits < 32) (hg : bp.ghr_bits = 0 → bp.ghr = 0) (hn : bp.ghr_bits ≤ n) :
    (bp.update_n pc d n).ghr = settled_ghr bp.ghr_bits d := by
  apply Nat.eq_of_testBit_eq
  intro i
  rw [settled_ghr_testBit]
  obtain ⟨a, b⟩ := ghr_progress bp pc d n ht hb hg i
  by_cases hi : i < bp.ghr_bits
  · rw [a (by omega) hi]; simp [hi]
  · rw [b (by omega) (by omega)]; simp [hi]

/-- After `n` updates in direction `d` the pattern counter that `pc` selects with the
settled history has made `min 2 (n - history_bits)` steps towards `d`. -/
theorem pht_progress (bp : BranchPredictor) (pc : Nat) (d : Bool) (n : Nat)
    (ht : bp.predictor_type = .GSHARE ∨ bp.predictor_type = .TOURNAMENT)
    (hb : bp.ghr_bits < 32) (hg : bp.ghr_bits = 0 → bp.ghr = 0)
    (hr : ∀ i, bp.pht i ≤ 3) :
    Toward d (min 2 (n - bp.ghr_bits))
      ((bp.update_n pc d n).pht
        (compute_pht_index { bp with ghr := settled_ghr bp.ghr_bits d } pc)) := by
  induction n with
  | zero =>
    rw [Nat.zero_sub, Nat.min_zero]
    exact (toward_zero d _).2 (hr _)
  | succ n ih =>
    obtain ⟨f1, f2, _⟩ := update_n_fields bp pc d n
    have e : (bp.update_n pc d (n + 1)).pht =
        setAt (bp.update_n pc d n).pht ((bp.update_n pc d n).compute_pht_index pc)
          (step_pht ((bp.update_n pc d n).pht ((bp.update_n pc d n).compute_pht_index pc)) d) :=
      (update_pht _ pc d (by rw [f1]; exact ht)).1
    rw [e]
    by_cases hn : bp.ghr_bits ≤ n
    · have ei : (bp.update_n pc d n).compute_pht_index pc =
          compute_pht_index { bp with ghr := settled_ghr bp.ghr_bits d } pc :=
        pht_index_congr _ _ pc f2 (ghr_settled bp pc d n ht hb hg hn)
      rw [ei]
      simp only [setAt, if_true]
      have := toward_step_pht d _ _ ih
      have e2 : min 2 (min 2 (n - bp.ghr_bits) + 1) = min 2 (n + 1 - bp.ghr_bits) := by omega
      rw [e2] at this
      exact this
    · have e2 : min 2 (n + 1 - bp.ghr_bits) = 0 := by omega
      have e3 : min 2 (n - bp.ghr_bits) = 0 := by omega
      rw [e2, toward_zero]
      rw [e3, toward_zero] at ih
      simp only [setAt]
      split
      · rename_i hx
        rw [hx] at ih
        exact toward_keep_pht d _ ih
      · exact ih

theorem predict_branch (bp : BranchPredictor) (pc inst : Nat)
    (hop : inst &&& 0x7F = Opcode.BRANCH.toNat) :
    (bp.predict pc inst).2 =
      (match bp.predictor_type with
      | .ALWAYS_NOT_TAKEN => false
      | .ALWAYS_TAKEN => true
      | .STATIC_BTFN => static_predict inst
      | .ONE_BIT => decide (bp.bht_one_bit (bp.compute_bht_index pc) = 1)
      | .TWO_BIT => decide (bp.bht_two_bit (bp.compute_bht_index pc) ≥ TwoBitState.WEAKLY_TAKEN)
      | .GSHARE => decide (bp.pht (bp.compute_pht_index pc) ≥ TwoBitState.WEAKLY_TAKEN)
      | .TOURNAMENT =>
        if pc &&& 0x100 ≠ 0 then
          decide (bp.pht (bp.compute_pht_index pc) ≥ TwoBitState.WEAKLY_TAKEN)
        else decide (bp.bht_two_bit (bp.compute_bht_index pc) ≥ TwoBitState.WEAKLY_TAKEN)) := by
  cases h : bp.predictor_type <;>
    simp only [predict, hop, h, ne_eq, not_true_eq_false, false_and, if_false]

/-- The prediction for `pc` after `n ≥ history_bits + 2` updates in direction `d`. -/
theorem convergence (bp : BranchPredictor) (pc inst : Nat) (d : Bool) (n : Nat)
    (htype : bp.predictor_type = .ONE_BIT ∨ bp.predictor_type = .TWO_BIT ∨
      bp.predictor_type = .GSHARE ∨ bp.predictor_type = .TOURNAMENT)
    (hbits : bp.ghr_bits < 32)
    (hrange : bp.CountersInRange)
    (hghr : bp.ghr_bits = 0 → bp.ghr = 0)
    (hop : inst &&& 0x7F = Opcode.BRANCH.toNat)
    (hn : bp.ghr_bits + 2 ≤ n) :
    ((bp.update_n pc d n).predict pc inst).2 = d := by
  obtain ⟨f1, f2, f3⟩ := update_n_fields bp pc d n
  rw [predict_branch _ _ _ hop, f1, bht_index_congr _ bp pc f2]
  have hbim : bp.predictor_type = .TWO_BIT ∨ bp.predictor_type = .TOURNAMENT →
      decide ((bp.update_n pc d n).bht_two_bit (bp.compute_bht_index pc) ≥
        TwoBitState.WEAKLY_TAKEN) = d := by
    intro ht
    have := two_bit_progress bp pc d n ht (hrange _).1
    rw [show min 2 n = 2 by omega] at this
    exact toward_two d _ this
  have hglob : bp.predictor_type = .GSHARE ∨ bp.predictor_type = .TOURNAMENT →
      decide ((bp.update_n pc d n).pht ((bp.update_n pc d n).compute_pht_index pc) ≥
        TwoBitState.WEAKLY_TAKEN) = d := by
    intro ht
    have := pht_progress bp pc d n ht hbits hghr (fun i => (hrange i).2)
    rw [show min 2 (n - bp.ghr_bits) = 2 by omega] at this
    rw [pht_index_congr (bp.update_n pc d n) { bp with ghr := settled_ghr bp.ghr_bits d } pc f2
      (ghr_settled bp pc d n ht hbits hghr (by omega))]
    exact toward_two d _ this
  rcases htype with h | h | h | h
  · rw [h]
    simp only []
    obtain ⟨m, rfl⟩ : ∃ m, n = m + 1 := ⟨n - 1, by omega⟩
    obtain ⟨g1, g2, _⟩ := update_n_fields bp pc d m
    have e : (bp.update_n pc d (m + 1)).bht_one_bit =
        setAt (bp.update_n pc d m).bht_one_bit ((bp.update_n pc d m).compute_bht_index pc)
          (if d then 1 else 0) := update_one_bit _ pc d (by rw [g1]; exact h)
    rw [e, bht_index_congr _ bp pc g2]
    cases d <;> simp [setAt]
  · rw [h]; exact hbim (Or.inl h)
  · rw [h]; exact hglob (Or.inl h)
  · rw [h]
    simp only []
    split
    · exact hglob (Or.inr h)
    · exact hbim (Or.inr h)

theorem index_in_table (x size k : Nat) (hk : k < 32) (hs : size = 2 ^ k) :
    (x &&& ((size + W32 - 1) % W32)) % W32 < size := by
  have hpos : 0 < 2 ^ k := Nat.two_pow_pos k
  have hlt : 2 ^ k < 2 ^ 32 := Nat.pow_lt_pow_right (by norm_num) hk
  have e32 : W32 = 2 ^ 32 := by decide
  rw [hs, e32]
  have hm : (2 ^ k + 2 ^ 32 - 1) % 2 ^ 32 = 2 ^ k - 1 := by
    generalize 2 ^ k = m at hpos hlt ⊢
    simp only [Nat.reducePow] at hlt ⊢
    omega
  rw [hm]
  have h1 : x &&& (2 ^ k - 1) ≤ 2 ^ k - 1 := Nat.and_le_right
  have h2 := Nat.mod_le (x &&& (2 ^ k - 1)) (2 ^ 32)
  omega

end BranchPredictor

namespace BranchPredictor

/-- The state that `predict` leaves: only the counter of predictions can differ. -/
theorem predict_state (bp : BranchPredictor) (pc inst : Nat) :
    (bp.predict pc inst).1 =
      { bp with
        total_predictions :=
          if inst &&& 0x7F = Opcode.BRANCH.toNat ∨ inst &&& 0x7F = Opcode.JAL.toNat ∨
              inst &&& 0x7F = Opcode.JALR.toNat then
            (bp.total_predictions + 1) % W32
          else bp.total_predictions } := by
  unfold predict
  by_cases h : inst &&& 0x7F ≠ Opcode.BRANCH.toNat ∧ inst &&& 0x7F ≠ Opcode.JAL.toNat ∧
      inst &&& 0x7F ≠ Opcode.JALR.toNat
  · have h' : ¬ (inst &&& 0x7F = Opcode.BRANCH.toNat ∨ inst &&& 0x7F = Opcode.JAL.toNat ∨
        inst &&& 0x7F = Opcode.JALR.toNat) := by
      rintro (a | a | a)
      · exact h.1 a
      · exact h.2.1 a
      · exact h.2.2 a
    rw [if_pos h, if_neg h']
  · have h' : inst &&& 0x7F = Opcode.BRANCH.toNat ∨ inst &&& 0x7F = Opcode.JAL.toNat ∨
        inst &&& 0x7F = Opcode.JALR.toNat := by
      by_contra hc
      push_neg at hc
      exact h hc
    rw [if_neg h, if_pos h']

/-- The prediction reads the type, the sizes, the history register and the tables. -/
theorem predict_congr (a b : BranchPredictor) (pc inst : Nat)
    (h1 : a.predictor_type = b.predictor_type)
    (h4 : a.bht_one_bit (a.compute_bht_index pc) = b.bht_one_bit (b.compute_bht_index pc))
    (h5 : a.bht_two_bit (a.compute_bht_index pc) = b.bht_two_bit (b.compute_bht_index pc))
    (h6 : a.pht (a.compute_pht_index pc) = b.pht (b.compute_pht_index pc)) :
    (a.predict pc inst).2 = (b.predict pc inst).2 := by
  unfold predict
  simp only []
  split
  · rfl
  · simp only [h1, h4, h5, h6]

/-- What `update` does to the three tables, for every predictor type: an entry is
left as it is or, at the computed index, overwritten. -/
theorem update_tables (bp : BranchPredictor) (pc : Nat) (t : Bool) (i : Nat) :
    (i ≠ bp.compute_bht_index pc →
      (bp.update pc t).bht_one_bit i = bp.bht_one_bit i ∧
      (bp.update pc t).bht_two_bit i = bp.bht_two_bit i) ∧
    (i ≠ bp.compute_pht_index pc → (bp.update pc t).pht i = bp.pht i) ∧
    ((bp.update pc t).bht_two_bit i = bp.bht_two_bit i ∨
      (bp.update pc t).bht_two_bit i = step_counter (bp.bht_two_bit i) t) ∧
    ((bp.update pc t).pht i = bp.pht i ∨ (bp.update pc t).pht i = step_pht (bp.pht i) t) := by
  cases h : bp.predictor_type
  all_goals simp only [update, h]
  all_goals (try split_ifs)
  all_goals simp only [setAt]
  all_goals refine ⟨fun hi => ?_, fun hi => ?_, ?_, ?_⟩
  all_goals
    by_cases hx : i = bp.compute_bht_index pc <;> by_cases hy : i = bp.compute_pht_index pc <;>
      simp_all

/-- What `update` does to the other members, for every predictor type. -/
theorem update_members (bp : BranchPredictor) (pc : Nat) (t : Bool) :
    (bp.update pc t).total_predictions = bp.total_predictions ∧
    (bp.predictor_type ≠ .GSHARE → bp.predictor_type ≠ .TOURNAMENT →
      (bp.update pc t).ghr = bp.ghr) ∧
    (bp.predictor_type ≠ .TWO_BIT → bp.predictor_type ≠ .TOURNAMENT →
      (bp.update pc t).bht_two_bit = bp.bht_two_bit) ∧
    (bp.predictor_type ≠ .GSHARE → bp.predictor_type ≠ .TOURNAMENT →
      (bp.update pc t).pht = bp.pht) ∧
    (bp.predictor_type ≠ .ONE_BIT → (bp.update pc t).bht_one_bit = bp.bht_one_bit) := by
  cases h : bp.predictor_type
  all_goals simp only [update, h]
  all_goals (try split_ifs)
  all_goals simp

theorem step_counter_eq (c : Nat) (t : Bool) : step_counter c t = Spec.saturating_step c t := by
  cases t <;>
    simp only [step_counter, Spec.saturating_step, TwoBitState.STRONGLY_TAKEN,
      TwoBitState.STRONGLY_NOT_TAKEN, Bool.false_eq_true, if_false, if_true] <;>
    split_ifs <;> omega

theorem step_pht_eq (c : Nat) (t : Bool) (hc : c ≤ 3) :
    step_pht c t = Spec.saturating_step c t := by
  cases t <;>
    simp only [step_pht, Spec.saturating_step, TwoBitState.STRONGLY_TAKEN,
      TwoBitState.STRONGLY_NOT_TAKEN, Bool.false_eq_true, if_false, if_true] <;>
    split_ifs <;> omega

theorem step_counter_le (c : Nat) (t : Bool) (hc : c ≤ 3) : step_counter c t ≤ 3 := by
  rw [step_counter_eq]
  cases t <;> simp only [Spec.saturating_step, Bool.false_eq_true, if_false, if_true] <;>
    split <;> omega

theorem update_range (bp : BranchPredictor) (pc : Nat) (t : Bool) (h : bp.CountersInRange) :
    (bp.update pc t).CountersInRange := by
  intro i
  obtain ⟨_, _, a, b⟩ := update_tables bp pc t i
  refine ⟨?_, ?_⟩
  · rcases a with a | a <;> rw [a]
    · exact (h i).1
    · exact step_counter_le _ _ (h i).1
  · rcases b with b | b <;> rw [b]
    · exact (h i).2
    · exact toward_keep_pht _ _ (h i).2

theorem call_range (bp : BranchPredictor) (c : Call) (h : bp.CountersInRange) :
    (bp.call c).CountersInRange := by
  cases c with
  | predict pc inst =>
    show (bp.predict pc inst).1.CountersInRange
    rw [predict_state]
    exact h
  | update pc taken => exact update_range bp pc taken h

theorem call_fields (bp : BranchPredictor) (c : Call) :
    (bp.call c).predictor_type = bp.predictor_type ∧ (bp.call c).bht_size = bp.bht_size ∧
    (bp.call c).ghr_bits = bp.ghr_bits := by
  cases c with
  | predict pc inst =>
    show (bp.predict pc inst).1.predictor_type = _ ∧ (bp.predict pc inst).1.bht_size = _ ∧
      (bp.predict pc inst).1.ghr_bits = _
    rw [predict_state]
    exact ⟨rfl, rfl, rfl⟩
  | update pc taken => exact update_fields bp pc taken

theorem calls_range (cs : List Call) (bp : BranchPredictor) (h : bp.CountersInRange) :
    (bp.calls cs).CountersInRange ∧ (bp.calls cs).predictor_type = bp.predictor_type ∧
    (bp.calls cs).bht_size = bp.bht_size ∧ (bp.calls cs).ghr_bits = bp.ghr_bits := by
  induction cs generalizing bp with
  | nil => exact ⟨h, rfl, rfl, rfl⟩
  | cons c rest ih =>
    obtain ⟨a, b, c', d⟩ := ih (bp.call c) (call_range bp c h)
    obtain ⟨f1, f2, f3⟩ := call_fields bp c
    exact ⟨a, b.trans f1, c'.trans f2, d.trans f3⟩

/-- The new history register is the old one shifted left by one with the outcome
in bit 0, modulo 2^history_bits. -/
theorem shift_ghr_eq (bp : BranchPredictor) (t : Bool) (hb : bp.ghr_bits < 32) :
    bp.shift_ghr t = (2 * bp.ghr + (if t then 1 else 0)) % 2 ^ bp.ghr_bits := by
  apply Nat.eq_of_testBit_eq
  intro i
  rw [shift_ghr_testBit bp t hb, Nat.testBit_mod_two_pow]
  congr 1
  cases i with
  | zero =>
    simp only [if_true, Nat.testBit_zero]
    cases t
    · simp only [Bool.false_eq_true, if_false, Nat.add_zero]
      have : 2 * bp.ghr % 2 = 0 := by omega
      simp [this]
    · simp only [if_true]
      have : (2 * bp.ghr + 1) % 2 = 1 := by omega
      simp [this]
  | succ j =>
    have e : (2 * bp.ghr + (if t then 1 else 0)) / 2 = bp.ghr := by
      cases t
      · simp
      · simp only [if_true]; omega
    rw [Nat.testBit_succ, e]
    simp

end BranchPredictor

namespace BranchPredictor

theorem init_range (type : PredictorType) (size h : Nat) : (init type size h).CountersInRange :=
  fun _ => ⟨(by decide : (1 : Nat) ≤ 3), (by decide : (1 : Nat) ≤ 3)⟩

/-- C32. Two-bit counters saturate: from the initial tables every counter of the
two-bit table and of the pattern table stays in 0..3 after any sequence of predict and
update calls; from a state with counters in 0..3, update(pc, taken) changes, in each
table the predictor type owns (the two-bit table for two_bit and tournament, the
pattern table for gshare and tournament), only the counter at the computed index, up by
one when taken unless it is 3 and down by one when not taken unless it is 0, and
leaves the other table as it is; for gshare and tournament it sets the history register
to (2*ghr + (1 if taken else 0)) mod 2^history_bits, and for every other type it
leaves the history register untouched. The history length is below 32, the range in
which the shift `1 << ghr_bits` of the code is defined. -/
theorem C32_counters_saturate (bp : BranchPredictor) (pc : Nat) (taken : Bool)
    (hbits : bp.ghr_bits < 32) (hr : bp.CountersInRange) :
    (∀ type size h cs, ((init type size h).calls cs).CountersInRange) ∧
    (∀ cs, (bp.calls cs).CountersInRange) ∧
    ((bp.predictor_type = .TWO_BIT ∨ bp.predictor_type = .TOURNAMENT) →
      (bp.update pc taken).bht_two_bit =
        setAt bp.bht_two_bit (bp.compute_bht_index pc)
          (Spec.saturating_step (bp.bht_two_bit (bp.compute_bht_index pc)) taken)) ∧
    ((bp.predictor_type = .GSHARE ∨ bp.predictor_type = .TOURNAMENT) →
      (bp.update pc taken).pht =
        setAt bp.pht (bp.compute_pht_index pc)
          (Spec.saturating_step (bp.pht (bp.compute_pht_index pc)) taken) ∧
      (bp.update pc taken).ghr =
        (2 * bp.ghr + (if taken then 1 else 0)) % 2 ^ bp.ghr_bits) ∧
    (bp.predictor_type = .TWO_BIT → (bp.update pc taken).pht = bp.pht) ∧
    (bp.predictor_type = .GSHARE → (bp.update pc taken).bht_two_bit = bp.bht_two_bit) ∧
    (bp.predictor_type ≠ .GSHARE → bp.predictor_type ≠ .TOURNAMENT →
      (bp.update pc taken).ghr = bp.ghr) := by
  obtain ⟨_, m2, m3, m4, _⟩ := update_members bp pc taken
  refine ⟨fun type size h cs => (calls_range cs _ (init_range type size h)).1,
    fun cs => (calls_range cs bp hr).1, fun h => ?_, fun h => ⟨?_, ?_⟩, fun h => ?_, fun h => ?_,
    m2⟩
  · rw [update_two_bit bp pc taken h, step_counter_eq]
  · rw [(update_pht bp pc taken h).1, step_pht_eq _ _ (hr _).2]
  · rw [(update_pht bp pc taken h).2, shift_ghr_eq bp taken hbits]
  · exact m4 (by rw [h]; decide) (by rw [h]; decide)
  · exact m3 (by rw [h]; decide) (by rw [h]; decide)

/-- Witness for C32: in the gshare predictor as built, with the history register at
0b101, a taken outcome at pc 0x40 moves the counter at index 0x10 xor 5 from 1 to 2 and
the history register to 0b1011. -/
theorem C32_counters_saturate_witness :
    ({ init PredictorType.GSHARE 1024 8 with ghr := 5 }.update 0x40 true).pht 21 = 2 ∧
    ({ init PredictorType.GSHARE 1024 8 with ghr := 5 }.update 0x40 true).ghr = 11 :=
  ⟨(congrFun ((C32_counters_saturate { init PredictorType.GSHARE 1024 8 with ghr := 5 } 0x40 true
      (by decide) (fun _ => ⟨(by decide : (1 : Nat) ≤ 3), (by decide : (1 : Nat) ≤ 3)⟩)).2.2.2.1
      (Or.inl rfl)).1 21).trans (by decide),
   ((C32_counters_saturate { init PredictorType.GSHARE 1024 8 with ghr := 5 } 0x40 true
      (by decide) (fun _ => ⟨(by decide : (1 : Nat) ≤ 3), (by decide : (1 : Nat) ≤ 3)⟩)).2.2.2.1
      (Or.inl rfl)).2.trans (by decide)⟩

/-- C33. For the two_bit and gshare predictors, update(pc, taken) adds one (as an
unsigned 32-bit counter) to correct_predictions when the prediction implied by the
counter stored at the indexed entry before the update (taken iff counter ≥
WEAKLY_TAKEN) equals `taken`, and leaves correct_predictions unchanged otherwise;
update never changes total_predictions. -/
theorem C33_update_statistics (bp : BranchPredictor) (pc : Nat) (taken : Bool)
    (htype : bp.predictor_type = .TWO_BIT ∨ bp.predictor_type = .GSHARE) :
    (bp.predictor_type = .TWO_BIT →
      (bp.update pc taken).correct_predictions =
        (if decide (bp.bht_two_bit (bp.compute_bht_index pc) ≥ TwoBitState.WEAKLY_TAKEN) = taken
         then (bp.correct_predictions + 1) % W32 else bp.correct_predictions)) ∧
    (bp.predictor_type = .GSHARE →
      (bp.update pc taken).correct_predictions =
        (if decide (bp.pht (bp.compute_pht_index pc) ≥ TwoBitState.WEAKLY_TAKEN) = taken
         then (bp.correct_predictions + 1) % W32 else bp.correct_predictions)) ∧
    ((bp.update pc taken).correct_predictions = bp.correct_predictions ∨
      (bp.update pc taken).correct_predictions = (bp.correct_predictions + 1) % W32) ∧
    (bp.correct_predictions + 1 < W32 →
      (bp.correct_predictions + 1) % W32 = bp.correct_predictions + 1) ∧
    (bp.update pc taken).total_predictions = bp.total_predictions := by
  have a : bp.predictor_type = .TWO_BIT →
      (bp.update pc taken).correct_predictions =
        (if decide (bp.bht_two_bit (bp.compute_bht_index pc) ≥ TwoBitState.WEAKLY_TAKEN) = taken
         then (bp.correct_predictions + 1) % W32 else bp.correct_predictions) := by
    intro h
    simp only [update, h]
    split_ifs <;> rfl
  have b : bp.predictor_type = .GSHARE →
      (bp.update pc taken).correct_predictions =
        (if decide (bp.pht (bp.compute_pht_index pc) ≥ TwoBitState.WEAKLY_TAKEN) = taken
         then (bp.correct_predictions + 1) % W32 else bp.correct_predictions) := by
    intro h
    simp only [update, h]
    split_ifs <;> rfl
  refine ⟨a, b, ?_, fun h => Nat.mod_eq_of_lt h, (update_members bp pc taken).1⟩
  rcases htype with h | h
  · rw [a h]; split_ifs
    · exact Or.inr rfl
    · exact Or.inl rfl
  · rw [b h]; split_ifs
    · exact Or.inr rfl
    · exact Or.inl rfl

/-- Witness for C33: in the two_bit predictor as built (counters at 1, weakly not
taken), a taken outcome leaves correct_predictions at 0 and a not-taken outcome makes
it 1. -/
theorem C33_update_statistics_witness :
    ((init PredictorType.TWO_BIT 1024 8).update 0x40 true).correct_predictions = 0 ∧
    ((init PredictorType.TWO_BIT 1024 8).update 0x40 false).correct_predictions = 1 :=
  ⟨((C33_update_statistics (init PredictorType.TWO_BIT 1024 8) 0x40 true (Or.inl rfl)).1
      rfl).trans (by decide),
   ((C33_update_statistics (init PredictorType.TWO_BIT 1024 8) 0x40 false (Or.inl rfl)).1
      rfl).trans (by decide)⟩

/-- C34. For the one_bit predictor, update(pc, taken) stores `taken` in the bit at the
BHT index and leaves every other bit; it compares the bit with `taken` only after it
has stored it, so it adds one to correct_predictions (as an unsigned 32-bit counter)
in every call, also when the bit stored before the update mispredicts. -/
theorem C34_one_bit_update (bp : BranchPredictor) (pc : Nat) (taken : Bool)
    (htype : bp.predictor_type = .ONE_BIT) :
    (bp.update pc taken).correct_predictions = (bp.correct_predictions + 1) % W32 ∧
    (bp.update pc taken).bht_one_bit (bp.compute_bht_index pc) = (if taken then 1 else 0) ∧
    (∀ i, i ≠ bp.compute_bht_index pc → (bp.update pc taken).bht_one_bit i = bp.bht_one_bit i) ∧
    (bp.update pc taken).total_predictions = bp.total_predictions := by
  refine ⟨?_, ?_, fun i hi => ((update_tables bp pc taken i).1 hi).1,
    (update_members bp pc taken).1⟩
  · simp only [update, htype]
    cases taken <;> simp [setAt]
  · rw [update_one_bit bp pc taken htype]
    simp only [setAt, if_true]

/-- Witness for C34: in the one_bit predictor as built the bit of pc 0x40 is 0
(predict not taken); update(0x40, taken) counts a correct prediction all the same. -/
theorem C34_one_bit_update_witness :
    (init PredictorType.ONE_BIT 1024 8).bht_one_bit
      ((init PredictorType.ONE_BIT 1024 8).compute_bht_index 0x40) = 0 ∧
    (init PredictorType.ONE_BIT 1024 8).correct_predictions = 0 ∧
    ((init PredictorType.ONE_BIT 1024 8).update 0x40 true).correct_predictions = 1 :=
  ⟨by decide, rfl,
    (C34_one_bit_update (init PredictorType.ONE_BIT 1024 8) 0x40 true rfl).1.trans (by decide)⟩

theorem mask_of_pow (k : Nat) (hk : k < 32) : (2 ^ k + W32 - 1) % W32 = 2 ^ k - 1 := by
  have hpos : 0 < 2 ^ k := Nat.two_pow_pos k
  have hlt : 2 ^ k < 2 ^ 32 := Nat.pow_lt_pow_right (by norm_num) hk
  have e32 : W32 = 2 ^ 32 := by decide
  rw [e32]
  generalize 2 ^ k = m at hpos hlt ⊢
  simp only [Nat.reducePow] at hlt ⊢
  omega

theorem index_eq_mod (x size k : Nat) (hk : k < 32) (hs : size = 2 ^ k) :
    (x &&& ((size + W32 - 1) % W32)) % W32 = x % size := by
  have hlt : 2 ^ k < W32 := by
    have e32 : W32 = 2 ^ 32 := by decide
    rw [e32]
    exact Nat.pow_lt_pow_right (by norm_num) hk
  rw [hs, mask_of_pow k hk, Nat.and_pow_two_sub_one_eq_mod]
  exact Nat.mod_eq_of_lt (lt_trans (Nat.mod_lt _ (Nat.two_pow_pos k)) hlt)

/-- C35. Predictor table accesses are in bounds: for a table size that is a power of
two (of an `unsigned int`, so 2^k with k < 32), every pc and every history register,
compute_bht_index(pc) = (pc >> 2) mod table_size and compute_pht_index(pc) =
((pc >> 2) xor ghr) mod table_size, both below table_size; update changes no table
entry at table_size or beyond, and the prediction depends on no table entry at
table_size or beyond. -/
theorem C35_indices_in_bounds (bp : BranchPredictor) (pc inst : Nat) (taken : Bool) (k : Nat)
    (hk : k < 32) (hs : bp.bht_size = 2 ^ k) :
    bp.compute_bht_index pc = (pc >>> 2) % bp.bht_size ∧
    bp.compute_pht_index pc = ((pc >>> 2) ^^^ bp.ghr) % bp.bht_size ∧
    bp.compute_bht_index pc < bp.bht_size ∧
    bp.compute_pht_index pc < bp.bht_size ∧
    (∀ i, bp.bht_size ≤ i →
      (bp.update pc taken).bht_one_bit i = bp.bht_one_bit i ∧
      (bp.update pc taken).bht_two_bit i = bp.bht_two_bit i ∧
      (bp.update pc taken).pht i = bp.pht i) ∧
    (∀ other : BranchPredictor, bp.SameBelowSize other →
      (other.predict pc inst).2 = (bp.predict pc inst).2) := by
  have e1 : bp.compute_bht_index pc = (pc >>> 2) % bp.bht_size :=
    index_eq_mod _ _ k hk hs
  have e2 : bp.compute_pht_index pc = ((pc >>> 2) ^^^ bp.ghr) % bp.bht_size :=
    index_eq_mod _ _ k hk hs
  have hpos : 0 < bp.bht_size := by rw [hs]; exact Nat.two_pow_pos k
  have l1 : bp.compute_bht_index pc < bp.bht_size := by rw [e1]; exact Nat.mod_lt _ hpos
  have l2 : bp.compute_pht_index pc < bp.bht_size := by rw [e2]; exact Nat.mod_lt _ hpos
  refine ⟨e1, e2, l1, l2, fun i hi => ?_, fun other ho => ?_⟩
  · obtain ⟨a, b, _, _⟩ := update_tables bp pc taken i
    exact ⟨(a (by omega)).1, (a (by omega)).2, b (by omega)⟩
  · obtain ⟨o1, o2, _, o4, o5⟩ := ho
    have i1 : other.compute_bht_index pc = bp.compute_bht_index pc :=
      bht_index_congr other bp pc o2.symm
    have i2 : other.compute_pht_index pc = bp.compute_pht_index pc :=
      pht_index_congr other bp pc o2.symm o4.symm
    apply predict_congr other bp pc inst o1.symm
    · rw [i1]; exact ((o5 _ l1).1).symm
    · rw [i1]; exact ((o5 _ l1).2.1).symm
    · rw [i2]; exact ((o5 _ l2).2.2).symm

/-- Witness for C35: in the gshare predictor as built with history register 5 the
pattern index of pc 0x40 is 21. -/
theorem C35_indices_in_bounds_witness :
    compute_pht_index { init PredictorType.GSHARE 1024 8 with ghr := 5 } 0x40 = 21 :=
  (C35_indices_in_bounds { init PredictorType.GSHARE 1024 8 with ghr := 5 } 0x40 0 true 10
    (by decide) (by decide)).2.1.trans (by decide)

/-- C40. A call of predict is read-only on the prediction state: for every predictor
type, pc and instruction word it changes nothing except total_predictions, to which it
adds one (as an unsigned 32-bit counter) when the opcode is BRANCH, JAL or JALR and
which it leaves unchanged otherwise, returning false in that case; so two consecutive
predict calls with the same arguments return the same result. -/
theorem C40_predict_read_only (bp : BranchPredictor) (pc inst : Nat) :
    (bp.predict pc inst).1 =
      { bp with
        total_predictions :=
          if inst &&& 0x7F = Opcode.BRANCH.toNat ∨ inst &&& 0x7F = Opcode.JAL.toNat ∨
              inst &&& 0x7F = Opcode.JALR.toNat then
            (bp.total_predictions + 1) % W32
          else bp.total_predictions } ∧
    (¬ (inst &&& 0x7F = Opcode.BRANCH.toNat ∨ inst &&& 0x7F = Opcode.JAL.toNat ∨
        inst &&& 0x7F = Opcode.JALR.toNat) → (bp.predict pc inst).2 = false) ∧
    (bp.predict pc inst).1.bht_one_bit = bp.bht_one_bit ∧
    (bp.predict pc inst).1.bht_two_bit = bp.bht_two_bit ∧
    (bp.predict pc inst).1.pht = bp.pht ∧
    (bp.predict pc inst).1.ghr = bp.ghr ∧
    (bp.predict pc inst).1.correct_predictions = bp.correct_predictions ∧
    (bp.total_predictions + 1 < W32 →
      (bp.total_predictions + 1) % W32 = bp.total_predictions + 1) ∧
    ((bp.predict pc inst).1.predict pc inst).2 = (bp.predict pc inst).2 := by
  have e := predict_state bp pc inst
  refine ⟨e, fun h => ?_, by rw [e], by rw [e], by rw [e], by rw [e], by rw [e],
    fun h => Nat.mod_eq_of_lt h, ?_⟩
  · have h' : inst &&& 0x7F ≠ Opcode.BRANCH.toNat ∧ inst &&& 0x7F ≠ Opcode.JAL.toNat ∧
        inst &&& 0x7F ≠ Opcode.JALR.toNat :=
      ⟨fun a => h (Or.inl a), fun a => h (Or.inr (Or.inl a)), fun a => h (Or.inr (Or.inr a))⟩
    unfold predict
    rw [if_pos h']
  · rw [e]
    exact predict_congr _ bp pc inst rfl rfl rfl rfl

/-- Witness for C40: the two_bit predictor as built counts the prediction for a `bne`
and not the one for an `addi`, and predicts not taken both times. -/
theorem C40_predict_read_only_witness :
    ((init PredictorType.TWO_BIT 1024 8).predict 8 0xFE009EE3).1.total_predictions = 1 ∧
    ((init PredictorType.TWO_BIT 1024 8).predict 8 0x00700093).1.total_predictions = 0 ∧
    ((init PredictorType.TWO_BIT 1024 8).predict 8 0x00700093).2 = false :=
  ⟨(congrArg BranchPredictor.total_predictions
      (C40_predict_read_only (init PredictorType.TWO_BIT 1024 8) 8 0xFE009EE3).1).trans
      (by decide),
   (congrArg BranchPredictor.total_predictions
      (C40_predict_read_only (init PredictorType.TWO_BIT 1024 8) 8 0x00700093).1).trans
      (by decide),
   (C40_predict_read_only (init PredictorType.TWO_BIT 1024 8) 8 0x00700093).2.1 (by decide)⟩

end BranchPredictor

namespace BranchPredictor

/-- One call keeps the history register at 0 in a predictor built without history
bits: `predict` assigns no table, and `update` masks the shifted register with
(1 << 0) - 1 = 0 or leaves it alone. -/
theorem call_ghr (bp : BranchPredictor) (c : Call) (hb : bp.ghr_bits < 32)
    (h : bp.ghr_bits = 0 → bp.ghr = 0) :
    (bp.call c).ghr_bits = 0 → (bp.call c).ghr = 0 := by
  intro h0
  rw [(call_fields bp c).2.2] at h0
  cases c with
  | predict pc inst =>
    show (bp.predict pc inst).1.ghr = 0
    rw [predict_state]
    exact h h0
  | update pc taken =>
    show (bp.update pc taken).ghr = 0
    by_cases hg : bp.predictor_type = .GSHARE ∨ bp.predictor_type = .TOURNAMENT
    · rw [(update_pht bp pc taken hg).2, shift_ghr_eq bp taken hb, h0, Nat.pow_zero,
        Nat.mod_one]
    · rw [(update_members bp pc taken).2.1 (fun e => hg (Or.inl e)) (fun e => hg (Or.inr e))]
      exact h h0

/-- Every sequence of predict and update calls keeps the history register at 0 in a
predictor without history bits. -/
theorem calls_ghr (cs : List Call) (bp : BranchPredictor) (hb : bp.ghr_bits < 32)
    (h : bp.ghr_bits = 0 → bp.ghr = 0) :
    (bp.calls cs).ghr_bits = 0 → (bp.calls cs).ghr = 0 := by
  induction cs generalizing bp with
  | nil => exact h
  | cons c rest ih =>
    exact ih (bp.call c) (by rw [(call_fields bp c).2.2]; exact hb) (call_ghr bp c hb h)

/-- C22. Predictor convergence: for each stateful predictor type (one_bit, two_bit,
gshare, tournament) with history_bits < 32, from any predictor state that the
constructor followed by any sequence of predict and update calls produces, for every
pc, every direction d and every instruction word with opcode BRANCH: after n
consecutive calls update(pc, d) with n ≥ history_bits + 2, predict(pc, inst) returns d
(third part). Those states have their 2-bit counters in 0..3 and a history register
that is 0 when history_bits is 0, and the same convergence holds from every state of
the members with these two properties (first part). This holds for every table size;
when the table size is a power of two below 2^32, the two indices that predict reads
are inside the tables (second part). -/
theorem C22_predictor_convergence (bp : BranchPredictor) (pc inst : Nat) (d : Bool) (n : Nat)
    (htype : bp.predictor_type = .ONE_BIT ∨ bp.predictor_type = .TWO_BIT ∨
      bp.predictor_type = .GSHARE ∨ bp.predictor_type = .TOURNAMENT)
    (hbits : bp.ghr_bits < 32)
    (hrange : bp.CountersInRange)
    (hghr : bp.ghr_bits = 0 → bp.ghr = 0)
    (hop : inst &&& 0x7F = Opcode.BRANCH.toNat)
    (hn : bp.ghr_bits + 2 ≤ n) :
    ((bp.update_n pc d n).predict pc inst).2 = d ∧
    (∀ k, k < 32 → bp.bht_size = 2 ^ k →
      (bp.update_n pc d n).compute_bht_index pc < (bp.update_n pc d n).bht_size ∧
      (bp.update_n pc d n).compute_pht_index pc < (bp.update_n pc d n).bht_size) ∧
    (∀ (type : PredictorType) (size h : Nat) (cs : List Call) (pc1 inst1 : Nat) (d1 : Bool)
        (m : Nat),
      (type = .ONE_BIT ∨ type = .TWO_BIT ∨ type = .GSHARE ∨ type = .TOURNAMENT) →
      h < 32 → inst1 &&& 0x7F = Opcode.BRANCH.toNat → h + 2 ≤ m →
      ((init type size h).calls cs).CountersInRange ∧
      (((init type size h).calls cs).ghr_bits = 0 → ((init type size h).calls cs).ghr = 0) ∧
      ((((init type size h).calls cs).update_n pc1 d1 m).predict pc1 inst1).2 = d1) := by
  refine ⟨convergence bp pc inst d n htype hbits hrange hghr hop hn, fun k hk hs => ?_, ?_⟩
  · obtain ⟨_, f2, _⟩ := update_n_fields bp pc d n
    exact ⟨index_in_table _ _ k hk (f2.trans hs), index_in_table _ _ k hk (f2.trans hs)⟩
  · intro type size h cs pc1 inst1 d1 m ht hh hop1 hm
    obtain ⟨r1, r2, _, r4⟩ := calls_range cs (init type size h) (init_range type size h)
    have hg := calls_ghr cs (init type size h) hh (fun _ => rfl)
    have ht2 : ((init type size h).calls cs).predictor_type = type := r2
    have hb2 : ((init type size h).calls cs).ghr_bits = h := r4
    exact ⟨r1, hg,
      convergence ((init type size h).calls cs) pc1 inst1 d1 m (by rw [ht2]; exact ht)
        (by rw [hb2]; exact hh) r1 hg hop1 (by rw [hb2]; exact hm)⟩

/-- Witness for C22: the tournament predictor as built (1024 entries, 8 history bits)
predicts taken for the branch at 0x100 after ten taken outcomes, and so does the gshare
predictor built with no history bits after a not-taken outcome and two taken ones. -/
theorem C22_predictor_convergence_witness :
    (((init PredictorType.TOURNAMENT 1024 8).update_n 0x100 true 10).predict 0x100
      0xFE009EE3).2 = true ∧
    ((((init PredictorType.GSHARE 1024 0).calls [Call.update 0x100 false]).update_n 0x100
      true 2).predict 0x100 0xFE009EE3).2 = true :=
  ⟨(C22_predictor_convergence (init PredictorType.TOURNAMENT 1024 8) 0x100 0xFE009EE3 true 10
    (Or.inr (Or.inr (Or.inr rfl))) (by decide)
    (fun _ => ⟨(by decide : (1 : Nat) ≤ 3), (by decide : (1 : Nat) ≤ 3)⟩)
    (fun h => absurd h (by decide)) (by decide)
    (by decide)).1,
   ((C22_predictor_convergence (init PredictorType.TOURNAMENT 1024 8) 0x100 0xFE009EE3 true 10
    (Or.inr (Or.inr (Or.inr rfl))) (by decide)
    (fun _ => ⟨(by decide : (1 : Nat) ≤ 3), (by decide : (1 : Nat) ≤ 3)⟩)
    (fun h => absurd h (by decide)) (by decide)
    (by decide)).2.2 PredictorType.GSHARE 1024 0 [Call.update 0x100 false] 0x100 0xFE009EE3
      true 2 (Or.inr (Or.inr (Or.inl rfl))) (by decide) (by decide) (by decide)).2.2⟩

/-- The hypothesis on the history register is needed for member values that no
sequence of calls produces: in a gshare predictor with 1024 entries and no history bits
whose counters are all in 0..3 (the pattern counters are 0) and whose history register
holds 1, the first update(0, taken) steps counter 1 and clears the history register,
the second steps counter 0 from 0 to 1, and predict(0, bne) still returns not taken
after the two updates. -/
theorem stale_history_not_settled :
    stale_history.predictor_type = PredictorType.GSHARE ∧
    stale_history.bht_size = 2 ^ 10 ∧
    stale_history.ghr_bits = 0 ∧
    stale_history.ghr_bits < 32 ∧
    stale_history.CountersInRange ∧
    0xFE009EE3 &&& 0x7F = Opcode.BRANCH.toNat ∧
    stale_history.ghr_bits + 2 ≤ 2 ∧
    (stale_history.update_n 0 true 1).pht 1 = 1 ∧
    (stale_history.update_n 0 true 1).ghr = 0 ∧
    (stale_history.update_n 0 true 2).pht 0 = 1 ∧
    ((stale_history.update_n 0 true 2).predict 0 0xFE009EE3).2 = false :=
  ⟨rfl, by decide, rfl, by decide,
    fun _ => ⟨(by decide : (1 : Nat) ≤ 3), (by decide : (0 : Nat) ≤ 3)⟩, by decide, by decide,
    by decide, by decide, by decide, by decide⟩

end BranchPredictor

namespace MemorySystem

/-- C31. A call of write_data touches only its own bytes: for size 1, 2 or 4, an
address in range (addr + size within the 1 MiB image) and a value v, after
write_data(addr, v, size) byte addr + i holds bits [8i+7 : 8i] of v for each i < size
and every byte at an address outside [addr, addr + size) is unchanged; read_data and
read_instruction leave the memory as it is. -/
theorem C31_write_data_frame (m : MemorySystem) (addr v size : Nat)
    (hs : size = 1 ∨ size = 2 ∨ size = 4) (hr : addr + size ≤ MEMORY_SIZE) :
    (∀ i, i < size → (m.write_data addr v size).memory (addr + i) = v / 2 ^ (8 * i) % 256) ∧
    (∀ a, (a < addr ∨ addr + size ≤ a) → (m.write_data addr v size).memory a = m.memory a) ∧
    (m.call (.write_data addr v size)).1 = m.write_data addr v size ∧
    (∀ a s, (m.call (.read_data a s)).1 = m ∧ (m.call (.read_data a s)).2 = m.read_data a s) ∧
    (∀ a, (m.call (.read_instruction a)).1 = m ∧
      (m.call (.read_instruction a)).2 = m.read_instruction a) := by
  have hsz : size ≤ MEMORY_SIZE + 1 := by
    simp only [MEMORY_SIZE]
    rcases hs with h | h | h <;> omega
  refine ⟨fun i hi => ?_, fun a ha => ?_, rfl, fun a s => ⟨rfl, rfl⟩, fun a => ⟨rfl, rfl⟩⟩
  · rw [write_data_memory m addr v size (addr + i) hsz hr,
      if_pos ⟨by omega, by omega⟩, Nat.add_sub_cancel_left, written_byte, Nat.mul_comm]
  · rw [write_data_memory m addr v size a hsz hr, if_neg (by omega)]

/-- Witness for C31: a half-word write of 0x12345678 at the last two bytes of the
image stores 0x78 and 0x56 there and leaves the byte before them. -/
theorem C31_write_data_frame_witness :
    (init.write_data 0xFFFFE 0x12345678 2).memory 0xFFFFE = 0x78 ∧
    (init.write_data 0xFFFFE 0x12345678 2).memory 0xFFFFF = 0x56 ∧
    (init.write_data 0xFFFFE 0x12345678 2).memory 0xFFFFD = init.memory 0xFFFFD :=
  ⟨((C31_write_data_frame init 0xFFFFE 0x12345678 2 (Or.inr (Or.inl rfl)) (by decide)).1 0
      (by decide)).trans (by decide),
   ((C31_write_data_frame init 0xFFFFE 0x12345678 2 (Or.inr (Or.inl rfl)) (by decide)).1 1
      (by decide)).trans (by decide),
   (C31_write_data_frame init 0xFFFFE 0x12345678 2 (Or.inr (Or.inl rfl)) (by decide)).2.1
      0xFFFFD (Or.inl (by decide))⟩

end MemorySystem

namespace FetchUnit

/-- The fetch stage leaves the tables of the predictor as they are: it only calls
`predict`. -/
theorem fetch_proc_tables (f : FetchUnit) (reset stall branch_taken : Bool) (branch_target : Nat)
    (mem : MemorySystem) (fetch_out : FetchPacket) (u : Uninit) :
    (f.fetch_proc reset stall branch_taken branch_target mem fetch_out u).1.branch_predictor.bht_two_bit
      = f.branch_predictor.bht_two_bit ∧
    (f.fetch_proc reset stall branch_taken branch_target mem fetch_out u).1.branch_predictor.pht
      = f.branch_predictor.pht := by
  have hq : ∀ (g : FetchUnit) (pc inst : Nat),
      (g.predict_next_pc pc inst).1.branch_predictor = g.branch_predictor ∨
      (g.predict_next_pc pc inst).1.branch_predictor = (g.branch_predictor.predict pc inst).1 := by
    intro g pc inst
    unfold predict_next_pc
    simp only []
    split_ifs <;>
      first
      | exact Or.inl rfl
      | exact Or.inr rfl
  have hp : ∀ (g : FetchUnit) (pc inst : Nat),
      (g.predict_next_pc pc inst).1.branch_predictor.bht_two_bit = g.branch_predictor.bht_two_bit ∧
      (g.predict_next_pc pc inst).1.branch_predictor.pht = g.branch_predictor.pht := by
    intro g pc inst
    rcases hq g pc inst with e | e <;> rw [e]
    · exact ⟨rfl, rfl⟩
    · rw [BranchPredictor.predict_state]
      exact ⟨rfl, rfl⟩
  unfold fetch_proc
  cases reset
  · cases stall
    · simp only [Bool.false_eq_true, if_false, Bool.not_false, if_true]
      cases branch_taken
      · exact hp _ _ _
      · exact hp _ _ _
    · exact ⟨rfl, rfl⟩
  · exact ⟨rfl, rfl⟩

end FetchUnit

namespace BranchPredictor

theorem update_taken_mono (bp : BranchPredictor) (pc : Nat) (i : Nat) :
    bp.bht_two_bit i ≤ (bp.update pc true).bht_two_bit i ∧
    bp.pht i ≤ (bp.update pc true).pht i := by
  obtain ⟨_, _, a, b⟩ := update_tables bp pc true i
  refine ⟨?_, ?_⟩
  · rcases a with a | a <;> rw [a]
    simp only [step_counter, if_true]
    split <;> omega
  · rcases b with b | b <;> rw [b]
    simp only [step_pht, if_true]
    split <;> omega

end BranchPredictor

namespace Processor

theorem tick_branch_taken (p : Processor) (r : Bool) (u : Uninit) :
    (p.clock_tick r u).branch_taken =
      (if p.exec_writeback_channel.valid = true ∧ p.exec_writeback_channel.branch_taken = true
       then true else p.branch_taken) := by
  simp only [clock_tick, clock_proc]
  cases h1 : p.exec_writeback_channel.valid <;> cases h2 : p.exec_writeback_channel.branch_taken <;>
    simp

theorem tick_fetch_pc (p : Processor) (r : Bool) (u : Uninit) :
    (p.clock_tick r u).fetchUnit.pc =
      (p.fetchUnit.fetch_proc r p.stall_fetch p.branch_taken p.branch_target p.executionUnit.mem
        p.fetch_decode_channel u).1.pc := by
  simp only [clock_tick, clock_proc]
  split
  · split <;> rfl
  · rfl

theorem tick_keeps_branch_taken (p : Processor) (r : Bool) (u : Uninit)
    (h : p.branch_taken = true) : (p.clock_tick r u).branch_taken = true := by
  rw [tick_branch_taken, h]
  exact ite_self _

theorem run_with_keeps_branch_taken (p : Processor) (resets : Nat → Bool) (us : Nat → Uninit)
    (n k : Nat) (h : (p.run_with resets us n).branch_taken = true) :
    (p.run_with resets us (n + k)).branch_taken = true := by
  induction k with
  | zero => exact h
  | succ k ih => exact tick_keeps_branch_taken _ _ _ ih

/-- C38. The branch-redirect signal is never deasserted: a tick in which the
write-back channel shows a valid taken packet makes branch_taken true, and once
branch_taken is true it is true after every later tick, with or without reset; so in
every later tick without reset in which the fetch stage is not stalled, the fetch stage
first sets the PC to the current branch_target and emits the packet fetched there. -/
theorem C38_branch_taken_never_deasserted (p : Processor) (resets : Nat → Bool)
    (us : Nat → Uninit) (n m : Nat) (hnm : n ≤ m)
    (h : (p.run_with resets us n).branch_taken = true) :
    (p.run_with resets us m).branch_taken = true ∧
    (resets m = false → (p.run_with resets us m).stall_fetch = false →
      (p.run_with resets us (m + 1)).fetch_decode_channel =
        { instruction := (p.run_with resets us m).executionUnit.mem.read_instruction
            (p.run_with resets us m).branch_target
          pc := (p.run_with resets us m).branch_target
          valid := true } ∧
      (p.run_with resets us (m + 1)).fetchUnit.pc =
        ((p.run_with resets us m).fetchUnit.predict_next_pc (p.run_with resets us m).branch_target
          ((p.run_with resets us m).executionUnit.mem.read_instruction
            (p.run_with resets us m).branch_target)).2) ∧
    (∀ (q : Processor) (r : Bool) (u : Uninit),
      (q.exec_writeback_channel.valid = true ∧ q.exec_writeback_channel.branch_taken = true) ∨
        q.branch_taken = true →
      (q.clock_tick r u).branch_taken = true) := by
  obtain ⟨k, rfl⟩ : ∃ k, m = n + k := ⟨m - n, by omega⟩
  have hm := run_with_keeps_branch_taken p resets us n k h
  refine ⟨hm, fun hr hst => ⟨?_, ?_⟩, fun q r u hq => ?_⟩
  · show ((p.run_with resets us (n + k)).clock_tick (resets (n + k)) (us (n + k))).fetch_decode_channel
      = _
    rw [tick_fetch_channel, hr, hst, hm]
    simp only [FetchUnit.fetch_proc, Bool.false_eq_true, if_false, Bool.not_false, if_true]
  · show ((p.run_with resets us (n + k)).clock_tick (resets (n + k)) (us (n + k))).fetchUnit.pc
      = _
    rw [tick_fetch_pc, hr, hst, hm]
    simp only [FetchUnit.fetch_proc, Bool.false_eq_true, if_false, Bool.not_false, if_true]
    simp only [FetchUnit.predict_next_pc]
    split_ifs <;> rfl
  · rw [tick_branch_taken]
    rcases hq with hq | hq
    · rw [if_pos hq]
    · rw [hq]; exact ite_self _

set_option maxRecDepth 1000000 in
/-- Witness for C38: on the image with `jal x0,+64` at 0, branch_taken is true after
the fourth tick from reset; it is still true two ticks later, although the tick in
between is a reset tick, and the tick after that fetches at the branch target 64. -/
theorem C38_branch_taken_never_deasserted_witness :
    ((boot jump_image Uninit.zero).run_with (fun i => decide (i = 4)) (fun _ => Uninit.zero)
      3).branch_taken = false ∧
    ((boot jump_image Uninit.zero).run_with (fun i => decide (i = 4)) (fun _ => Uninit.zero)
      6).branch_taken = true ∧
    ((boot jump_image Uninit.zero).run_with (fun i => decide (i = 4)) (fun _ => Uninit.zero)
      7).fetch_decode_channel.pc = 64 :=
  ⟨by decide!,
   (C38_branch_taken_never_deasserted (boot jump_image Uninit.zero) (fun i => decide (i = 4))
      (fun _ => Uninit.zero) 4 6 (by decide) (by decide!)).1,
   (congrArg FetchPacket.pc
      ((C38_branch_taken_never_deasserted (boot jump_image Uninit.zero)
        (fun i => decide (i = 4)) (fun _ => Uninit.zero) 4 6 (by decide) (by decide!)).2.1
        (by decide) (by decide!)).1).trans (by decide!)⟩

theorem tick_predictor (p : Processor) (r : Bool) (u : Uninit) :
    (p.clock_tick r u).fetchUnit.branch_predictor =
      p.update_calls.foldl (fun bp c => bp.update c.1 c.2)
        (p.fetchUnit.fetch_proc r p.stall_fetch p.branch_taken p.branch_target
          p.executionUnit.mem p.fetch_decode_channel u).1.branch_predictor := by
  simp only [clock_tick, clock_proc, update_calls]
  cases h1 : p.exec_writeback_channel.valid <;>
    cases h2 : p.exec_writeback_channel.branch_taken <;>
    simp [FetchUnit.update_branch_prediction]

theorem update_calls_cases (p : Processor) :
    (p.update_calls = [] ∧
      ¬ (p.exec_writeback_channel.valid = true ∧ p.exec_writeback_channel.branch_taken = true)) ∨
    (p.update_calls = [(p.exec_writeback_channel.pc, true)] ∧
      p.exec_writeback_channel.valid = true ∧ p.exec_writeback_channel.branch_taken = true) := by
  simp only [update_calls]
  cases h1 : p.exec_writeback_channel.valid <;>
    cases h2 : p.exec_writeback_channel.branch_taken <;>
    simp

theorem tick_counters_mono (p : Processor) (r : Bool) (u : Uninit) (i : Nat) :
    p.fetchUnit.branch_predictor.bht_two_bit i ≤
      (p.clock_tick r u).fetchUnit.branch_predictor.bht_two_bit i ∧
    p.fetchUnit.branch_predictor.pht i ≤ (p.clock_tick r u).fetchUnit.branch_predictor.pht i := by
  rw [tick_predictor]
  obtain ⟨t1, t2⟩ := FetchUnit.fetch_proc_tables p.fetchUnit r p.stall_fetch p.branch_taken
    p.branch_target p.executionUnit.mem p.fetch_decode_channel u
  rcases update_calls_cases p with ⟨e, _⟩ | ⟨e, _⟩
  · rw [e]
    simp only [List.foldl_nil, t1, t2]
    exact ⟨Nat.le_refl _, Nat.le_refl _⟩
  · rw [e]
    simp only [List.foldl_cons, List.foldl_nil]
    have := BranchPredictor.update_taken_mono
      (p.fetchUnit.fetch_proc r p.stall_fetch p.branch_taken p.branch_target
        p.executionUnit.mem p.fetch_decode_channel u).1.branch_predictor
      p.exec_writeback_channel.pc i
    rw [t1, t2] at this
    exact this

/-- C39. Every call that the orchestrator makes to the predictor's update has
taken = true: in a tick, clock_proc calls update(pc, taken) exactly when the execute
packet it reads is valid and has branch_taken = true, with the pc and the branch_taken
of that packet, and the predictor after the tick is the one the fetch stage leaves
with these calls applied; so a not-taken outcome never reaches the predictor and no
counter of the two-bit table or of the pattern table ever decreases during a run. -/
theorem C39_update_calls_taken (p : Processor) (resets : Nat → Bool) (us : Nat → Uninit)
    (r : Bool) (u : Uninit) :
    (∀ c ∈ p.update_calls, c.2 = true) ∧
    (p.update_calls ≠ [] ↔
      (p.exec_writeback_channel.valid = true ∧ p.exec_writeback_channel.branch_taken = true)) ∧
    (p.exec_writeback_channel.valid = true → p.exec_writeback_channel.branch_taken = true →
      p.update_calls = [(p.exec_writeback_channel.pc, true)]) ∧
    (p.clock_tick r u).fetchUnit.branch_predictor =
      p.update_calls.foldl (fun bp c => bp.update c.1 c.2)
        (p.fetchUnit.fetch_proc r p.stall_fetch p.branch_taken p.branch_target
          p.executionUnit.mem p.fetch_decode_channel u).1.branch_predictor ∧
    (∀ n m i, n ≤ m →
      (p.run_with resets us n).fetchUnit.branch_predictor.bht_two_bit i ≤
        (p.run_with resets us m).fetchUnit.branch_predictor.bht_two_bit i ∧
      (p.run_with resets us n).fetchUnit.branch_predictor.pht i ≤
        (p.run_with resets us m).fetchUnit.branch_predictor.pht i) := by
  refine ⟨?_, ?_, ?_, tick_predictor p r u, ?_⟩
  · intro c hc
    rcases update_calls_cases p with ⟨e, _⟩ | ⟨e, _⟩
    · rw [e] at hc; exact absurd hc (List.not_mem_nil _)
    · rw [e] at hc
      rw [List.mem_singleton.1 hc]
  · rcases update_calls_cases p with ⟨e, h⟩ | ⟨e, h⟩
    · rw [e]; exact ⟨fun a => absurd rfl a, fun a => absurd a h⟩
    · rw [e]; exact ⟨fun _ => h, fun _ => by simp⟩
  · intro h1 h2
    rcases update_calls_cases p with ⟨_, h⟩ | ⟨e, _⟩
    · exact absurd ⟨h1, h2⟩ h
    · exact e
  · intro n m i hnm
    obtain ⟨k, rfl⟩ : ∃ k, m = n + k := ⟨m - n, by omega⟩
    clear hnm
    induction k with
    | zero => exact ⟨Nat.le_refl _, Nat.le_refl _⟩
    | succ k ih =>
      have := tick_counters_mono (p.run_with resets us (n + k)) (resets (n + k)) (us (n + k)) i
      exact ⟨Nat.le_trans ih.1 this.1, Nat.le_trans ih.2 this.2⟩

set_option maxRecDepth 1000000 in
/-- Witness for C39: on the image with `jal x0,+64` at 0 the tick after the one that
executes the jump makes the one call update(0, true), which moves the counter of pc 0
from 1 to 2. -/
theorem C39_update_calls_taken_witness :
    ((boot jump_image Uninit.zero).run (fun _ => Uninit.zero) 3).update_calls = [(0, true)] ∧
    ((boot jump_image Uninit.zero).run (fun _ => Uninit.zero)
      3).fetchUnit.branch_predictor.bht_two_bit 0 = 1 ∧
    (((boot jump_image Uninit.zero).run (fun _ => Uninit.zero) 3).clock_tick false
      Uninit.zero).fetchUnit.branch_predictor.bht_two_bit 0 = 2 :=
  ⟨(C39_update_calls_taken ((boot jump_image Uninit.zero).run (fun _ => Uninit.zero) 3)
      (fun _ => false) (fun _ => Uninit.zero) false Uninit.zero).2.2.1 (by decide!) (by decide!),
   by decide!, by decide!⟩

end Processor

namespace ExecutionUnit

theorem run_ticks_quiescent (ticks : List (Bool × DecodePacket × Uninit)) (s : ExecutionUnit)
    (hq : s.Quiescent) (hp : ∀ t ∈ ticks, t.2.1.valid = true → t.2.1.InRange) :
    (s.run_ticks ticks).Quiescent := by
  induction ticks generalizing s with
  | nil => exact hq
  | cons t rest ih =>
    obtain ⟨r, p, u⟩ := t
    simp only [run_ticks]
    have h1 : (s.clock_tick r p u).Quiescent := by
      cases r
      · exact tick_quiescent s p u hq (hp (false, p, u) (List.mem_cons_self _ _))
      · exact reset_quiescent s p u hq.1 hq.2.1 hq.2.2.1 hq.2.2.2.1 hq.2.2.2.2.1
    exact ih _ h1 (fun b hb => hp b (List.mem_cons_of_mem _ hb))

theorem quiescent_pools (s : ExecutionUnit) (hq : s.Quiescent) (q : Pool) (i : Nat)
    (hi : i < (s.pool q).max_entries) : ((s.pool q).entries i).busy = false := by
  obtain ⟨_, _, _, _, _, ia, im, ib, _⟩ := hq
  cases q
  · exact ia i hi
  · exact im i hi
  · exact ib i hi

/-- C37. The engine is quiescent between ticks: the state the constructor builds and
the state after a reset tick have an empty reorder buffer, no busy reservation-station
slot and no busy register status, and so has the state after every tick of any
sequence of ticks (with or without reset, with valid or invalid decode packets, the
valid ones carrying register numbers below 32) that starts in such a state. In such a
state issue is never refused: a valid packet gets ROB slot `tail` and slot 0 of its
pool, with both tags 0 and ready set, and at the end of that same tick the reorder
buffer is empty again, with its head advanced by one. -/
theorem C37_quiescent_after_every_tick (s : ExecutionUnit)
    (ticks : List (Bool × DecodePacket × Uninit)) (p : DecodePacket) (u : Uninit)
    (hq : s.Quiescent) (hp : ∀ t ∈ ticks, t.2.1.valid = true → t.2.1.InRange)
    (hv : p.valid = true) (hr : p.InRange) :
    (∀ mem x, (init mem x).Quiescent) ∧
    (∀ (s0 : ExecutionUnit) p0 u0, s0.rs_alu.max_entries = 8 → s0.rs_mem.max_entries = 4 →
      s0.rs_branch.max_entries = 2 → s0.rob.max_entries = 16 → s0.regfile.size = 32 →
      (s0.clock_tick true p0 u0).Quiescent) ∧
    (s.run_ticks ticks).Quiescent ∧
    (s.run_ticks ticks).rob.is_empty = true ∧
    (∀ q i, i < ((s.run_ticks ticks).pool q).max_entries →
      (((s.run_ticks ticks).pool q).entries i).busy = false) ∧
    (∀ r, r < 32 → ((s.run_ticks ticks).reg_status r).busy = false) ∧
    (s.issue_proc false p u).rob.count = 1 ∧
    ((s.issue_proc false p u).rob.entries s.rob.tail).busy = true ∧
    (((s.issue_proc false p u).pool (select_pool p.opcode)).entries 0).busy = true ∧
    (((s.issue_proc false p u).pool (select_pool p.opcode)).entries 0).Qj = 0 ∧
    (((s.issue_proc false p u).pool (select_pool p.opcode)).entries 0).Qk = 0 ∧
    (((s.issue_proc false p u).pool (select_pool p.opcode)).entries 0).ready = true ∧
    ((s.issue_proc false p u).pool (select_pool p.opcode)).rob_indices 0 = (s.rob.tail : Int) ∧
    (s.clock_tick false p u).Quiescent ∧
    (s.clock_tick false p u).rob.is_empty = true ∧
    (s.clock_tick false p u).rob.head = (s.rob.head + 1) % 16 := by
  have hrun := run_ticks_quiescent ticks s hq hp
  have htick := tick_quiescent_aux s p u hq hv hr
  have hiss := issue_quiescent s p u hq hv hr
  have hempty : ∀ t : ExecutionUnit, t.Quiescent → t.rob.is_empty = true := by
    intro t ht
    obtain ⟨_, _, _, _, _, _, _, _, hc, _⟩ := ht
    simp [ReorderBuffer.is_empty, hc]
  refine ⟨init_quiescent, fun s0 p0 u0 a b c d e => reset_quiescent s0 p0 u0 a b c d e, hrun,
    hempty _ hrun, quiescent_pools _ hrun, hrun.2.2.2.2.2.2.2.2.2.2.2.2, ?_, ?_, ?_, ?_, ?_, ?_,
    ?_, htick.1, hempty _ htick.1, htick.2.1⟩
  all_goals rw [hiss]
  all_goals cases select_pool p.opcode
  all_goals simp [set_pool, pool, setAt, ready_entry, new_rob_entry]

set_option maxRecDepth 100000 in
/-- Witness for C37: from the engine as built, `addi x1,x0,7` is issued into slot 0 of
the ALU pool with both tags 0, and after the tick the reorder buffer is empty. -/
theorem C37_quiescent_after_every_tick_witness :
    ((fresh.issue_proc false (DecodeUnit.decode_word 0x00700093 0) Uninit.zero).rs_alu.entries
      0).Qj = 0 ∧
    (fresh.clock_tick false (DecodeUnit.decode_word 0x00700093 0) Uninit.zero).rob.is_empty
      = true ∧
    ((fresh.run_ticks [(false, DecodeUnit.decode_word 0x00700093 0, Uninit.zero),
      (true, DecodeUnit.decode_word 0x00500113 4, Uninit.zero),
      (false, DecodeUnit.decode_word 0x002081B3 8, Uninit.zero)]).rob.is_empty = true) :=
  ⟨(C37_quiescent_after_every_tick fresh [] (DecodeUnit.decode_word 0x00700093 0) Uninit.zero
      (init_quiescent _ _) (fun _ h => absurd h (List.not_mem_nil _)) rfl
      (by decide)).2.2.2.2.2.2.2.2.2.1,
   (C37_quiescent_after_every_tick fresh [] (DecodeUnit.decode_word 0x00700093 0) Uninit.zero
      (init_quiescent _ _) (fun _ h => absurd h (List.not_mem_nil _)) rfl
      (by decide)).2.2.2.2.2.2.2.2.2.2.2.2.2.2.1,
   (C37_quiescent_after_every_tick fresh
      [(false, DecodeUnit.decode_word 0x00700093 0, Uninit.zero),
        (true, DecodeUnit.decode_word 0x00500113 4, Uninit.zero),
        (false, DecodeUnit.decode_word 0x002081B3 8, Uninit.zero)]
      (DecodeUnit.decode_word 0x00700093 0) Uninit.zero
      (init_quiescent _ _)
      (fun t ht _ => by
        simp only [List.mem_cons, List.mem_singleton, List.not_mem_nil, or_false] at ht
        rcases ht with h | h | h <;> rw [h] <;> decide)
      rfl (by decide)).2.2.2.1⟩

end ExecutionUnit

namespace ExecutionUnit

theorem pending_unbroadcast (rob : ReorderBuffer) (k : Nat) (h : rob.Pending k) :
    rob.Unbroadcast k :=
  ⟨h.1, h.2.1, Or.inl h.2.2⟩

theorem wf_mid (s : ExecutionUnit) (h : s.WellFormed) : s.MidFormed := by
  obtain ⟨hsz, hring, hwin, hst, hpair, hdis, htag, _⟩ := h
  refine ⟨hsz, hring, hwin, hst, hpair, hdis, fun q i hi hb => ?_⟩
  obtain ⟨a, b⟩ := htag q i hi hb
  exact ⟨fun h => pending_unbroadcast _ _ (a h), fun h => pending_unbroadcast _ _ (b h)⟩

theorem quiescent_idle_pools (s : ExecutionUnit) (hq : s.Quiescent) (q : Pool) (i : Nat)
    (hi : i < (s.pool q).max_entries) : ((s.pool q).entries i).busy = false := by
  obtain ⟨_, _, _, _, _, ia, im, ib, _⟩ := hq
  cases q
  · exact ia i hi
  · exact im i hi
  · exact ib i hi

/-- A quiescent engine is well formed. -/
theorem quiescent_wf (s : ExecutionUnit) (hq : s.Quiescent) : s.WellFormed := by
  have hidle := quiescent_idle_pools s hq
  obtain ⟨ha, hm, hb, hr, hf, ia, im, ib, hc, hht, hh, he, hst⟩ := hq
  refine ⟨⟨ha, hm, hb, hr, hf⟩, ?_, ?_, ?_, ?_, ?_, ?_, ?_⟩
  · refine ⟨by omega, by omega, by omega, fun _ => ?_, fun h => by omega⟩
    rw [hc, hht, hr]
    simp
  · intro i hi
    rw [hr] at hi
    simp only [ReorderBuffer.InWindow, hc, he i hi, Nat.not_lt_zero, Bool.false_eq_true]
  · intro r hr' hb'
    rw [hst r hr'] at hb'
    exact absurd hb' (by decide)
  · intro q i hi hb'
    rw [hidle q i hi] at hb'
    exact absurd hb' (by decide)
  · intro q i q' i' hi _ hb' _ _
    rw [hidle q i hi] at hb'
    exact absurd hb' (by decide)
  · intro q i hi hb'
    rw [hidle q i hi] at hb'
    exact absurd hb' (by decide)
  · intro i hi hb'
    rw [hr] at hi
    rw [he i hi] at hb'
    exact absurd hb' (by decide)

theorem commit_step_pool (s : ExecutionUnit) (u : Uninit) (q : Pool) :
    (commit_step s u).pool q = s.pool q := by
  unfold commit_step
  simp only []
  split_ifs <;> cases q <;> rfl

theorem commit_step_regfile_size (s : ExecutionUnit) (u : Uninit) :
    (commit_step s u).regfile.size = s.regfile.size := by
  unfold commit_step
  simp only []
  split_ifs <;> first | rfl | exact RegisterFile.write_size _ _ _

/-- The register status after the commit of the head entry of a non-empty buffer. -/
theorem commit_step_reg_status (s : ExecutionUnit) (u : Uninit) (hne : s.rob.count ≠ 0) :
    (commit_step s u).reg_status =
      (if (s.rob.entries s.rob.head).is_store = true then s.reg_status
       else if (s.rob.entries s.rob.head).dest ≠ 0 then
        (if ((s.reg_status (s.rob.entries s.rob.head).dest).rob_entry : Int) = (s.rob.head : Int)
         then setAt s.reg_status (s.rob.entries s.rob.head).dest
            { s.reg_status (s.rob.entries s.rob.head).dest with busy := false }
         else s.reg_status)
       else s.reg_status) := by
  have hg : s.rob.get_head_entry u.rob_entry = s.rob.entries s.rob.head := by
    simp [ReorderBuffer.get_head_entry, ReorderBuffer.is_empty, hne]
  unfold commit_step
  simp only [hg, ReorderBuffer.get_head_index]
  split_ifs <;> rfl

/-- The commit of a completed head entry keeps the engine well formed. -/
theorem commit_step_wf (s : ExecutionUnit) (u : Uninit) (hwf : s.WellFormed)
    (hne : s.rob.count ≠ 0) (hc : (s.rob.entries s.rob.head).completed = true) :
    (commit_step s u).WellFormed := by
  obtain ⟨⟨ha, hm, hb, hr, hf⟩, hring, hwin, hst, hpair, hdis, htag, hfl⟩ := hwf
  obtain ⟨rh, rt, rc, re1, re2⟩ := hring
  have hrob : (commit_step s u).rob = _ :=
    (commit_step_rob s u).trans (remove_head_nonempty _ hne)
  have hpool := commit_step_pool s u
  have hstat := commit_step_reg_status s u hne
  rw [hr] at rh rt rc re1 re2
  -- slots other than the head are as before
  have hent : ∀ k, k ≠ s.rob.head → (commit_step s u).rob.entries k = s.rob.entries k := by
    intro k hk
    rw [hrob]
    simp only [setAt, hk, if_false]
  have hflag : ∀ k, k ≠ s.rob.head →
      (commit_step s u).rob.newly_completed k = s.rob.newly_completed k := by
    intro k hk
    rw [hrob]
    simp only [setAt, hk, if_false]
  have hmax : (commit_step s u).rob.max_entries = 16 := by rw [hrob]; exact hr
  have hpend : ∀ k, s.rob.Pending k → (commit_step s u).rob.Pending k := by
    intro k ⟨h1, h2, h3⟩
    have hk : k ≠ s.rob.head := by
      intro e
      rw [e, hc] at h3
      exact absurd h3 (by decide)
    exact ⟨by rw [hmax]; omega, by rw [hent k hk]; exact h2, by rw [hent k hk]; exact h3⟩
  refine ⟨⟨?_, ?_, ?_, hmax, ?_⟩, ?_, ?_, ?_, ?_, ?_, ?_, ?_⟩
  · exact (congrArg ReservationStation.max_entries (hpool Pool.alu)).trans ha
  · exact (congrArg ReservationStation.max_entries (hpool Pool.mem)).trans hm
  · exact (congrArg ReservationStation.max_entries (hpool Pool.branch)).trans hb
  · rw [commit_step_regfile_size]; exact hf
  · rw [hrob]
    simp only [ReorderBuffer.Ring, hr]
    refine ⟨Nat.mod_lt _ (by norm_num), rt, by omega, fun h1 => ?_, fun h1 => by omega⟩
    by_cases h16 : s.rob.count = 16
    · have := re2 h16
      omega
    · have := re1 h16
      omega
  · intro i hi
    rw [hmax] at hi
    by_cases hih : i = s.rob.head
    · have hbusy : ((commit_step s u).rob.entries i).busy = false := by
        rw [hrob, hih]
        simp only [setAt, if_true]
      rw [hbusy]
      simp only [ReorderBuffer.InWindow, hrob, hr, hih, Bool.false_eq_true, false_iff]
      omega
    · rw [hent i hih]
      have := hwin i (by rw [hr]; exact hi)
      rw [this]
      simp only [ReorderBuffer.InWindow, hrob, hr]
      omega
  · intro r hr' hb'
    have hsame : (commit_step s u).reg_status r = s.reg_status r ∧
        (s.reg_status r).rob_entry ≠ s.rob.head := by
      rw [hstat] at hb' ⊢
      by_cases hs1 : (s.rob.entries s.rob.head).is_store = true
      · rw [if_pos hs1] at hb' ⊢
        refine ⟨rfl, fun e => ?_⟩
        have := (hst r hr' hb').2.2.2.1
        rw [e, hs1] at this
        exact absurd this (by decide)
      · rw [if_neg hs1] at hb' ⊢
        by_cases hd : (s.rob.entries s.rob.head).dest ≠ 0
        · rw [if_pos hd] at hb' ⊢
          by_cases hn : ((s.reg_status (s.rob.entries s.rob.head).dest).rob_entry : Int) =
              (s.rob.head : Int)
          · rw [if_pos hn] at hb' ⊢
            by_cases hrd : r = (s.rob.entries s.rob.head).dest
            · rw [hrd] at hb'
              simp only [setAt, if_true] at hb'
              exact absurd hb' (by decide)
            · have e1 : setAt s.reg_status (s.rob.entries s.rob.head).dest
                  { s.reg_status (s.rob.entries s.rob.head).dest with busy := false } r =
                  s.reg_status r := by
                simp only [setAt, hrd, if_false]
              rw [e1] at hb' ⊢
              refine ⟨rfl, fun e => ?_⟩
              have := (hst r hr' hb').2.2.2.2
              rw [e] at this
              exact hrd this.symm
          · rw [if_neg hn] at hb' ⊢
            refine ⟨rfl, fun e => ?_⟩
            have := (hst r hr' hb').2.2.2.2
            rw [e] at this
            rw [this] at hn
            exact hn (by rw [e])
        · rw [if_neg hd] at hb' ⊢
          refine ⟨rfl, fun e => ?_⟩
          have h1 := (hst r hr' hb').2.2.2.2
          have h2 := (hst r hr' hb').1
          rw [e] at h1
          simp only [ne_eq, not_not] at hd
          omega
    obtain ⟨e, hk⟩ := hsame
    rw [e] at hb' ⊢
    obtain ⟨h1, h2, h3, h4, h5⟩ := hst r hr' hb'
    rw [hmax, hent _ hk]
    exact ⟨h1, by omega, h3, h4, h5⟩
  · intro q i hi hb'
    rw [hpool] at hi hb' ⊢
    obtain ⟨k, e, hp⟩ := hpair q i hi hb'
    exact ⟨k, e, hpend k hp⟩
  · intro q i q' i' hi hi' hb1 hb2 e
    rw [hpool] at hi hb1 e
    rw [hpool] at hi' hb2 e
    exact hdis q i q' i' hi hi' hb1 hb2 e
  · intro q i hi hb'
    rw [hpool] at hi hb' ⊢
    obtain ⟨a1, a2⟩ := htag q i hi hb'
    exact ⟨fun h => hpend _ (a1 h), fun h => hpend _ (a2 h)⟩
  · intro i hi hb'
    rw [hmax] at hi
    by_cases hih : i = s.rob.head
    · rw [hrob, hih]
      simp only [setAt, if_true]
    · rw [hent i hih] at hb'
      rw [hflag i hih]
      exact hfl i (by rw [hr]; exact hi) hb'

theorem commit_loop_wf (fuel : Nat) (s : ExecutionUnit) (u : Uninit) (hwf : s.WellFormed) :
    (commit_loop fuel s u).WellFormed := by
  induction fuel generalizing s with
  | zero => exact hwf
  | succ n ih =>
    by_cases hcond : (!s.rob.is_empty && s.rob.is_head_completed) = true
    · have hne : s.rob.count ≠ 0 := by
        intro h0
        simp [ReorderBuffer.is_empty, h0] at hcond
      have hcomp : (s.rob.entries s.rob.head).completed = true := by
        simp [ReorderBuffer.is_empty, ReorderBuffer.is_head_completed, hne] at hcond
        exact hcond
      have hl : commit_loop (n + 1) s u = commit_loop n (commit_step s u) u := by
        simp only [commit_loop, hcond, if_true]
      rw [hl]
      exact ih _ (commit_step_wf s u hwf hne hcomp)
    · have hl : commit_loop (n + 1) s u = s := by
        simp only [commit_loop, hcond, Bool.false_eq_true, if_false]
      rw [hl]
      exact hwf

theorem commit_proc_wf (s : ExecutionUnit) (u : Uninit) (hwf : s.WellFormed) :
    (commit_proc s false u).WellFormed := by
  simp only [commit_proc, Bool.false_eq_true, if_false]
  exact commit_loop_wf _ s u hwf

end ExecutionUnit

namespace ReservationStation

/-- One broadcast on a pool: lengths, pairings and busy flags stay; a tag stays or is
cleared, and the tags of busy slots that equal the broadcast tag are cleared. -/
theorem broadcast_pool (rs : ReservationStation) (tag : Int) (value : Nat) (ht : tag ≠ 0) :
    (rs.update_waiting_entries tag value).max_entries = rs.max_entries ∧
    (rs.update_waiting_entries tag value).rob_indices = rs.rob_indices ∧
    ∀ i, i < rs.max_entries →
      ((rs.update_waiting_entries tag value).entries i).busy = (rs.entries i).busy ∧
      (((rs.update_waiting_entries tag value).entries i).Qj = (rs.entries i).Qj ∨
        ((rs.update_waiting_entries tag value).entries i).Qj = 0) ∧
      (((rs.update_waiting_entries tag value).entries i).Qk = (rs.entries i).Qk ∨
        ((rs.update_waiting_entries tag value).entries i).Qk = 0) ∧
      ((rs.entries i).busy = true →
        (((rs.update_waiting_entries tag value).entries i).Qj : Int) ≠ tag ∧
        (((rs.update_waiting_entries tag value).entries i).Qk : Int) ≠ tag) := by
  rw [update_waiting_entries_eq rs tag value ht]
  refine ⟨rfl, rfl, fun i hi => ?_⟩
  simp only []
  by_cases hb : (rs.entries i).busy = true
  · rw [if_pos ⟨hi, hb⟩]
    obtain ⟨c1, c2, _, c4, _⟩ := capture_fields (rs.entries i) tag value
    rw [c1, c2, c4]
    refine ⟨rfl, ?_, ?_, fun _ => ⟨?_, ?_⟩⟩
    · split
      · exact Or.inr rfl
      · exact Or.inl rfl
    · split
      · exact Or.inr rfl
      · exact Or.inl rfl
    · split
      · intro h; exact ht (by rw [← h]; rfl)
      · assumption
    · split
      · intro h; exact ht (by rw [← h]; rfl)
      · assumption
  · rw [if_neg (fun h => hb h.2)]
    exact ⟨rfl, Or.inl rfl, Or.inl rfl, fun h => absurd h hb⟩

end ReservationStation

namespace ExecutionUnit

theorem broadcast_pool_eq (s : ExecutionUnit) (c : Int × Nat) (q : Pool) :
    (s.broadcast c).pool q = (s.pool q).update_waiting_entries (c.1 + 1) c.2 := by
  cases q <;> rfl

theorem broadcast_rest (s : ExecutionUnit) (c : Int × Nat) :
    (s.broadcast c).rob = s.rob ∧ (s.broadcast c).reg_status = s.reg_status ∧
    (s.broadcast c).regfile = s.regfile :=
  ⟨rfl, rfl, rfl⟩

theorem complete_proc_eq (s : ExecutionUnit) :
    complete_proc s false =
      s.rob.get_newly_completed.2.foldl broadcast { s with rob := s.rob.get_newly_completed.1 } :=
  rfl

/-- The loop of `complete_proc`: what a sequence of broadcasts leaves of a state. -/
theorem broadcast_fold (cs : List (Int × Nat)) (s : ExecutionUnit) (hpos : ∀ c ∈ cs, 0 ≤ c.1) :
    (cs.foldl broadcast s).rob = s.rob ∧ (cs.foldl broadcast s).reg_status = s.reg_status ∧
    (cs.foldl broadcast s).regfile = s.regfile ∧
    ∀ q, ((cs.foldl broadcast s).pool q).max_entries = (s.pool q).max_entries ∧
      ((cs.foldl broadcast s).pool q).rob_indices = (s.pool q).rob_indices ∧
      ∀ i, i < (s.pool q).max_entries →
        (((cs.foldl broadcast s).pool q).entries i).busy = ((s.pool q).entries i).busy ∧
        ((((cs.foldl broadcast s).pool q).entries i).Qj = ((s.pool q).entries i).Qj ∨
          (((cs.foldl broadcast s).pool q).entries i).Qj = 0) ∧
        ((((cs.foldl broadcast s).pool q).entries i).Qk = ((s.pool q).entries i).Qk ∨
          (((cs.foldl broadcast s).pool q).entries i).Qk = 0) ∧
        (((s.pool q).entries i).busy = true → ∀ c ∈ cs,
          ((((cs.foldl broadcast s).pool q).entries i).Qj : Int) ≠ c.1 + 1 ∧
          ((((cs.foldl broadcast s).pool q).entries i).Qk : Int) ≠ c.1 + 1) := by
  induction cs generalizing s with
  | nil =>
    refine ⟨rfl, rfl, rfl, fun q => ⟨rfl, rfl, fun i _ => ⟨rfl, Or.inl rfl, Or.inl rfl, ?_⟩⟩⟩
    intro _ c hc
    exact absurd hc (List.not_mem_nil _)
  | cons c rest ih =>
    have hc0 : 0 ≤ c.1 := hpos c (List.mem_cons_self _ _)
    have hne : c.1 + 1 ≠ 0 := by omega
    obtain ⟨r1, r2, r3, r4⟩ := ih (s.broadcast c) (fun x hx => hpos x (List.mem_cons_of_mem _ hx))
    obtain ⟨b1, b2, b3⟩ := broadcast_rest s c
    simp only [List.foldl_cons]
    refine ⟨r1.trans b1, r2.trans b2, r3.trans b3, fun q => ?_⟩
    obtain ⟨m1, m2, m3⟩ := r4 q
    rw [broadcast_pool_eq] at m1 m2 m3
    obtain ⟨p1, p2, p3⟩ := ReservationStation.broadcast_pool (s.pool q) (c.1 + 1) c.2 hne
    rw [p1] at m1 m3
    rw [p2] at m2
    refine ⟨m1, m2, fun i hi => ?_⟩
    obtain ⟨n1, n2, n3, n4⟩ := m3 i hi
    obtain ⟨o1, o2, o3, o4⟩ := p3 i hi
    refine ⟨n1.trans o1, ?_, ?_, fun hb x hx => ?_⟩
    · rcases n2 with h | h
      · rcases o2 with h' | h'
        · exact Or.inl (h.trans h')
        · exact Or.inr (h.trans h')
      · exact Or.inr h
    · rcases n3 with h | h
      · rcases o3 with h' | h'
        · exact Or.inl (h.trans h')
        · exact Or.inr (h.trans h')
      · exact Or.inr h
    · rcases List.mem_cons.1 hx with hx | hx
      · subst hx
        obtain ⟨t1, t2⟩ := o4 hb
        refine ⟨?_, ?_⟩
        · rcases n2 with h | h
          · rw [h]; exact t1
          · rw [h]; omega
        · rcases n3 with h | h
          · rw [h]; exact t2
          · rw [h]; omega
      · exact n4 (by rw [o1]; exact hb) x hx

/-- The broadcast of the completions of the tick makes a mid-tick state well formed. -/
theorem complete_proc_wf (s : ExecutionUnit) (hmid : s.MidFormed) :
    (complete_proc s false).WellFormed := by
  obtain ⟨⟨ha, hm, hb, hr, hf⟩, hring, hwin, hst, hpair, hdis, htag⟩ := hmid
  rw [complete_proc_eq, ReorderBuffer.get_newly_completed_eq]
  simp only []
  have hpos : ∀ c ∈ ((List.range s.rob.max_entries).filter
      (fun i => (s.rob.entries i).busy && s.rob.newly_completed i)).map
      (fun (i : Nat) => ((i : Int), (s.rob.entries i).value)), 0 ≤ c.1 := by
    intro c hc
    obtain ⟨i, _, rfl⟩ := List.mem_map.1 hc
    exact Int.ofNat_nonneg i
  obtain ⟨f1, f2, f3, f4⟩ := broadcast_fold _
    ({ s with rob :=
        { s.rob with newly_completed := fun i =>
            if i < s.rob.max_entries ∧ (s.rob.entries i).busy = true ∧
              s.rob.newly_completed i = true then false else s.rob.newly_completed i } } :
      ExecutionUnit) hpos
  have hp : ∀ q, ({ s with rob :=
        { s.rob with newly_completed := fun i =>
            if i < s.rob.max_entries ∧ (s.rob.entries i).busy = true ∧
              s.rob.newly_completed i = true then false else s.rob.newly_completed i } } :
      ExecutionUnit).pool q = s.pool q := by
    intro q; cases q <;> rfl
  simp only [hp] at f4
  generalize List.foldl broadcast _ _ = t at f1 f2 f3 f4 ⊢
  have hpend : ∀ k, s.rob.Pending k → t.rob.Pending k := by
    intro k hk
    rw [f1]
    exact hk
  refine ⟨⟨?_, ?_, ?_, ?_, ?_⟩, ?_, ?_, ?_, ?_, ?_, ?_, ?_⟩
  · exact ((f4 Pool.alu).1).trans ha
  · exact ((f4 Pool.mem).1).trans hm
  · exact ((f4 Pool.branch).1).trans hb
  · rw [f1]; exact hr
  · rw [f3]; exact hf
  · rw [f1]; exact hring
  · intro i hi
    rw [f1] at hi ⊢
    exact hwin i hi
  · intro r hr' hb'
    rw [f2] at hb' ⊢
    rw [f1]
    exact hst r hr' hb'
  · intro q i hi hb'
    obtain ⟨m1, m2, m3⟩ := f4 q
    rw [m1] at hi
    rw [(m3 i hi).1] at hb'
    rw [m2]
    obtain ⟨k, e, hk⟩ := hpair q i hi hb'
    exact ⟨k, e, hpend k hk⟩
  · intro q i q' i' hi hi' hb1 hb2 e
    obtain ⟨m1, m2, m3⟩ := f4 q
    obtain ⟨m1', m2', m3'⟩ := f4 q'
    rw [m1] at hi
    rw [m1'] at hi'
    rw [(m3 i hi).1] at hb1
    rw [(m3' i' hi').1] at hb2
    rw [m2, m2'] at e
    exact hdis q i q' i' hi hi' hb1 hb2 e
  · intro q i hi hb'
    obtain ⟨m1, m2, m3⟩ := f4 q
    rw [m1] at hi
    obtain ⟨n1, n2, n3, n4⟩ := m3 i hi
    rw [n1] at hb'
    obtain ⟨t1, t2⟩ := htag q i hi hb'
    have key : ∀ x : Nat, x ≠ 0 → s.rob.Unbroadcast (x - 1) →
        (∀ c ∈ ((List.range s.rob.max_entries).filter
          (fun i => (s.rob.entries i).busy && s.rob.newly_completed i)).map
          (fun (i : Nat) => ((i : Int), (s.rob.entries i).value)), (x : Int) ≠ c.1 + 1) →
        t.rob.Pending (x - 1) := by
      intro x hx ⟨u1, u2, u3⟩ hc
      rcases u3 with u3 | u3
      · exact hpend _ ⟨u1, u2, u3⟩
      · exfalso
        refine hc (((x - 1 : Nat) : Int), (s.rob.entries (x - 1)).value) ?_ (by simp only []; omega)
        apply List.mem_map.2
        refine ⟨x - 1, ?_, rfl⟩
        rw [List.mem_filter]
        exact ⟨List.mem_range.2 u1, by simp [u2, u3]⟩
    refine ⟨fun hq => ?_, fun hq => ?_⟩
    · rcases n2 with h | h
      · rw [h] at hq ⊢
        refine key _ hq (t1 hq) (fun c hc => ?_)
        have := (n4 hb' c hc).1
        rw [h] at this
        exact this
      · exact absurd h hq
    · rcases n3 with h | h
      · rw [h] at hq ⊢
        refine key _ hq (t2 hq) (fun c hc => ?_)
        have := (n4 hb' c hc).2
        rw [h] at this
        exact this
      · exact absurd h hq
  · intro i hi hb'
    rw [f1] at hi hb' ⊢
    simp only [] at hi hb' ⊢
    by_cases hfl : s.rob.newly_completed i = true
    · rw [if_pos ⟨hi, hb', hfl⟩]
    · rw [if_neg (fun h => hfl h.2.2)]
      simpa using hfl

end ExecutionUnit

namespace ReorderBuffer

theorem completion_refl (rob : ReorderBuffer) (k : Nat) : rob.CompletionOf rob k :=
  ⟨rfl, rfl, rfl, rfl, fun _ => ⟨rfl, rfl, rfl⟩, fun _ _ => ⟨rfl, rfl⟩, fun h => h⟩

theorem completion_complete_entry (rob : ReorderBuffer) (k : Nat) (v : Nat) :
    rob.CompletionOf (rob.complete_entry (k : Int) v) k := by
  unfold complete_entry
  split
  · exact completion_refl rob k
  · refine ⟨rfl, rfl, rfl, rfl, fun i => ?_, fun i hi => ?_, fun _ => Or.inr ?_⟩
    · simp only [Int.toNat_ofNat, setAt]
      split
      · rename_i h; subst h; exact ⟨rfl, rfl, rfl⟩
      · exact ⟨rfl, rfl, rfl⟩
    · simp only [Int.toNat_ofNat, setAt, hi, if_false, and_self]
    · simp only [Int.toNat_ofNat, setAt, if_true]

theorem completion_complete_branch_entry (rob : ReorderBuffer) (k : Nat) (v : Nat) (b : Bool)
    (t : Nat) : rob.CompletionOf (rob.complete_branch_entry (k : Int) v b t) k := by
  unfold complete_branch_entry
  split
  · exact completion_refl rob k
  · refine ⟨rfl, rfl, rfl, rfl, fun i => ?_, fun i hi => ?_, fun _ => Or.inr ?_⟩
    · simp only [Int.toNat_ofNat, setAt]
      split
      · rename_i h; subst h; exact ⟨rfl, rfl, rfl⟩
      · exact ⟨rfl, rfl, rfl⟩
    · simp only [Int.toNat_ofNat, setAt, hi, if_false, and_self]
    · simp only [Int.toNat_ofNat, setAt, if_true]

theorem completion_update_store_entry (rob : ReorderBuffer) (k : Nat) (a d : Nat) :
    rob.CompletionOf (rob.update_store_entry (k : Int) a d) k := by
  unfold update_store_entry
  split
  · exact completion_refl rob k
  · refine ⟨rfl, rfl, rfl, rfl, fun i => ?_, fun i hi => ?_, fun _ => Or.inr ?_⟩
    · simp only [Int.toNat_ofNat, setAt]
      split
      · rename_i h; subst h; exact ⟨rfl, rfl, rfl⟩
      · exact ⟨rfl, rfl, rfl⟩
    · simp only [Int.toNat_ofNat, setAt, hi, if_false, and_self]
    · simp only [Int.toNat_ofNat, setAt, if_true]

end ReorderBuffer

namespace ExecutionUnit

theorem alu_step_exec (u : Uninit) (s : ExecutionUnit) (e : RSEntry) (k : Nat) :
    ExecStep Pool.alu k s (alu_step u s (e, (k : Int))) := by
  refine ⟨ReorderBuffer.completion_complete_entry _ _ _, rfl, fun q' hq => ?_, rfl, rfl⟩
  cases q' <;> first | rfl | exact absurd rfl hq

theorem branch_step_exec (u : Uninit) (s : ExecutionUnit) (e : RSEntry) (k : Nat) :
    ExecStep Pool.branch k s (branch_step u s (e, (k : Int))) := by
  refine ⟨?_, rfl, fun q' hq => ?_, rfl, rfl⟩
  · exact ReorderBuffer.completion_complete_branch_entry _ k _
      (execute_branch_op e { u.result with valid := true }).branch_taken
      (execute_branch_op e { u.result with valid := true }).branch_target
  · cases q' <;> first | rfl | exact absurd rfl hq

theorem mem_step_exec (u : Uninit) (s : ExecutionUnit) (e : RSEntry) (k : Nat) :
    ExecStep Pool.mem k s (mem_step u s (e, (k : Int))) := by
  unfold mem_step
  simp only []
  split_ifs
  · refine ⟨ReorderBuffer.completion_complete_entry _ _ _, rfl, fun q' hq => ?_, rfl, rfl⟩
    cases q' <;> first | rfl | exact absurd rfl hq
  · refine ⟨ReorderBuffer.completion_update_store_entry _ _ _ _, rfl, fun q' hq => ?_, rfl, rfl⟩
    cases q' <;> first | rfl | exact absurd rfl hq
  · refine ⟨ReorderBuffer.completion_refl _ _, rfl, fun q' hq => ?_, rfl, rfl⟩
    cases q' <;> first | rfl | exact absurd rfl hq

theorem sized_pool (s t : ExecutionUnit) (hs : s.Sized)
    (hp : ∀ q, (t.pool q).max_entries = (s.pool q).max_entries)
    (hr : t.rob.max_entries = s.rob.max_entries) (hf : t.regfile.size = s.regfile.size) :
    t.Sized := by
  obtain ⟨ha, hm, hb, h16, h32⟩ := hs
  exact ⟨(hp Pool.alu).trans ha, (hp Pool.mem).trans hm, (hp Pool.branch).trans hb,
    hr.trans h16, hf.trans h32⟩

/-- One iteration of a loop of `execute_proc` keeps the mid-tick invariant, and keeps
every other busy entry of the pool. -/
theorem exec_step_mid (q : Pool) (k : Nat) (s t : ExecutionUnit) (hmid : s.MidFormed)
    (hex : ∃ i, i < (s.pool q).max_entries ∧ ((s.pool q).entries i).busy = true ∧
      (s.pool q).rob_indices i = (k : Int))
    (hstep : ExecStep q k s t) :
    t.MidFormed ∧ (t.pool q).max_entries = (s.pool q).max_entries ∧
    ∀ j, j < (s.pool q).max_entries → ((s.pool q).entries j).busy = true →
      (s.pool q).rob_indices j ≠ (k : Int) →
      ((t.pool q).entries j).busy = true ∧ (t.pool q).rob_indices j = (s.pool q).rob_indices j := by
  obtain ⟨hsz, hring, hwin, hst, hpair, hdis, htag⟩ := hmid
  obtain ⟨i, hi, hbi, hki⟩ := hex
  obtain ⟨⟨c1, c2, c3, c4, c5, c6, c7⟩, hq, hoth, hrs, hrf⟩ := hstep
  have hfirst : ∀ j, j < i →
      ¬ (((s.pool q).entries j).busy = true ∧ (s.pool q).rob_indices j = (k : Int)) := by
    intro j hj ⟨b1, b2⟩
    have := (hdis q j q i (by omega) hi b1 hbi (b2.trans hki.symm)).2
    omega
  rw [ReservationStation.remove_entry_at _ _ i hi hbi hki hfirst] at hq
  -- the pool `q` after the step
  have hqmax : (t.pool q).max_entries = (s.pool q).max_entries := by rw [hq]
  have hqent : ∀ j, j ≠ i → (t.pool q).entries j = (s.pool q).entries j ∧
      (t.pool q).rob_indices j = (s.pool q).rob_indices j := by
    intro j hj
    rw [hq]
    simp only [setAt, hj, if_false, and_self]
  have hqi : ((t.pool q).entries i).busy = false := by
    rw [hq]
    simp only [setAt, if_true]
  -- every busy entry of `t` is a busy entry of `s`, other than the one removed
  have hsub : ∀ q' j, j < (t.pool q').max_entries → ((t.pool q').entries j).busy = true →
      j < (s.pool q').max_entries ∧ (t.pool q').entries j = (s.pool q').entries j ∧
      (t.pool q').rob_indices j = (s.pool q').rob_indices j ∧
      ((s.pool q').entries j).busy = true ∧ (s.pool q').rob_indices j ≠ (k : Int) := by
    intro q' j hj hbj
    by_cases hqq : q' = q
    · subst hqq
      have hji : j ≠ i := by
        intro e
        rw [e, hqi] at hbj
        exact absurd hbj (by decide)
      obtain ⟨e1, e2⟩ := hqent j hji
      rw [hqmax] at hj
      rw [e1] at hbj
      refine ⟨hj, e1, e2, hbj, fun e => ?_⟩
      exact hji (hdis q' j q' i hj hi hbj hbi (e.trans hki.symm)).2
    · rw [hoth q' hqq] at hj hbj ⊢
      refine ⟨hj, rfl, rfl, hbj, fun e => ?_⟩
      exact hqq (hdis q' j q i hj hi hbj hbi (e.trans hki.symm)).1
  have hpmax : ∀ q', (t.pool q').max_entries = (s.pool q').max_entries := by
    intro q'
    by_cases hqq : q' = q
    · subst hqq; exact hqmax
    · rw [hoth q' hqq]
  have hunb : ∀ x, s.rob.Unbroadcast x → t.rob.Unbroadcast x := by
    intro x ⟨u1, u2, u3⟩
    refine ⟨by rw [c1]; exact u1, by rw [(c5 x).1]; exact u2, ?_⟩
    by_cases hx : x = k
    · subst hx; exact c7 u3
    · rw [(c6 x hx).1, (c6 x hx).2]; exact u3
  refine ⟨⟨sized_pool s t hsz hpmax c1 (by rw [hrf]), ?_, ?_, ?_, ?_, ?_, ?_⟩, hqmax, ?_⟩
  · unfold ReorderBuffer.Ring
    rw [c1, c2, c3, c4]
    exact hring
  · intro x hx
    rw [c1] at hx
    rw [(c5 x).1]
    unfold ReorderBuffer.InWindow
    rw [c1, c2, c4]
    exact hwin x hx
  · intro r hr hb
    rw [hrs] at hb ⊢
    obtain ⟨h1, h2, h3, h4, h5⟩ := hst r hr hb
    rw [c1, (c5 _).1, (c5 _).2.1, (c5 _).2.2]
    exact ⟨h1, h2, h3, h4, h5⟩
  · intro q' j hj hbj
    obtain ⟨s1, s2, s3, s4, s5⟩ := hsub q' j hj hbj
    obtain ⟨x, ex, p1, p2, p3⟩ := hpair q' j s1 s4
    have hxk : x ≠ k := by
      intro e
      rw [e] at ex
      exact s5 ex
    refine ⟨x, s3.trans ex, by rw [c1]; exact p1, by rw [(c5 x).1]; exact p2, ?_⟩
    rw [(c6 x hxk).1]
    exact p3
  · intro q' j q'' j' hj hj' hb1 hb2 e
    obtain ⟨s1, _, s3, s4, _⟩ := hsub q' j hj hb1
    obtain ⟨s1', _, s3', s4', _⟩ := hsub q'' j' hj' hb2
    rw [s3, s3'] at e
    exact hdis q' j q'' j' s1 s1' s4 s4' e
  · intro q' j hj hbj
    obtain ⟨s1, s2, _, s4, _⟩ := hsub q' j hj hbj
    rw [s2]
    obtain ⟨t1, t2⟩ := htag q' j s1 s4
    exact ⟨fun h => hunb _ (t1 h), fun h => hunb _ (t2 h)⟩
  · intro j hj hbj hne
    have hji : j ≠ i := by
      intro e
      rw [e] at hne
      exact hne hki
    obtain ⟨e1, e2⟩ := hqent j hji
    rw [e1]
    exact ⟨hbj, e2⟩

/-- A loop of `execute_proc` over a list of entries of pool `q` that are busy and paired
with different slots keeps the mid-tick invariant. -/
theorem exec_fold_mid (q : Pool) (f : ExecutionUnit → RSEntry × Int → ExecutionUnit)
    (hf : ∀ s e (k : Nat), ExecStep q k s (f s (e, (k : Int))))
    (l : List (RSEntry × Int)) (s : ExecutionUnit) (hmid : s.MidFormed)
    (hnd : (l.map Prod.snd).Nodup)
    (hl : ∀ x ∈ l, ∃ k : Nat, x.2 = (k : Int) ∧ ∃ i, i < (s.pool q).max_entries ∧
      ((s.pool q).entries i).busy = true ∧ (s.pool q).rob_indices i = (k : Int)) :
    (l.foldl f s).MidFormed ∧ ∀ q', q' ≠ q → (l.foldl f s).pool q' = s.pool q' := by
  induction l generalizing s with
  | nil => exact ⟨hmid, fun _ _ => rfl⟩
  | cons x rest ih =>
    obtain ⟨e, xk⟩ := x
    obtain ⟨k, hk, hex⟩ := hl (e, xk) (List.mem_cons_self _ _)
    simp only [] at hk
    subst hk
    simp only [List.foldl_cons]
    have hstep := hf s e k
    obtain ⟨m1, m2, m3⟩ := exec_step_mid q k s _ hmid hex hstep
    simp only [List.map_cons, List.nodup_cons] at hnd
    obtain ⟨hnot, hnd'⟩ := hnd
    obtain ⟨r1, r2⟩ := ih (f s (e, (k : Int))) m1 hnd' (by
      intro y hy
      obtain ⟨k', hk', j, hj, hbj, hkj⟩ := hl y (List.mem_cons_of_mem _ hy)
      refine ⟨k', hk', j, by rw [m2]; exact hj, ?_⟩
      have hne : (s.pool q).rob_indices j ≠ (k : Int) := by
        intro e'
        apply hnot
        rw [← e', hkj, ← hk']
        exact List.mem_map_of_mem Prod.snd hy
      obtain ⟨a, b⟩ := m3 j hj hbj hne
      exact ⟨a, b.trans hkj⟩)
    refine ⟨r1, fun q' hq' => ?_⟩
    rw [r2 q' hq']
    exact hstep.2.2.1 q' hq'

/-- The snapshot that `get_ready_entries` returns lists busy entries of the pool,
paired with different slots. -/
theorem ready_snapshot (s : ExecutionUnit) (hmid : s.MidFormed) (q : Pool) :
    (((s.pool q).get_ready_entries).map Prod.snd).Nodup ∧
    ∀ x ∈ (s.pool q).get_ready_entries, ∃ k : Nat, x.2 = (k : Int) ∧
      ∃ i, i < (s.pool q).max_entries ∧ ((s.pool q).entries i).busy = true ∧
        (s.pool q).rob_indices i = (k : Int) := by
  obtain ⟨_, _, _, _, hpair, hdis, _⟩ := hmid
  rw [ReservationStation.get_ready_entries_eq]
  refine ⟨?_, ?_⟩
  · rw [List.map_map]
    apply List.Nodup.map_on
    · intro a ha b hb e
      rw [List.mem_filter, List.mem_range] at ha hb
      simp only [Function.comp, Bool.and_eq_true] at e ha hb
      exact (hdis q a q b ha.1 hb.1 ha.2.1 hb.2.1 e).2
    · exact List.Nodup.filter _ (List.nodup_range _)
  · intro x hx
    obtain ⟨i, hi, rfl⟩ := List.mem_map.1 hx
    rw [List.mem_filter, List.mem_range] at hi
    simp only [Bool.and_eq_true] at hi
    obtain ⟨k, e, _⟩ := hpair q i hi.1 hi.2.1
    exact ⟨k, e, i, hi.1, hi.2.1, e⟩

theorem execute_proc_eq (s : ExecutionUnit) (u : Uninit) :
    execute_proc s false u =
      (let s1 := (s.pool Pool.alu).get_ready_entries.foldl (alu_step u) s
       let s2 := (s1.pool Pool.mem).get_ready_entries.foldl (mem_step u) s1
       (s2.pool Pool.branch).get_ready_entries.foldl (branch_step u) s2) :=
  rfl

/-- The three loops of `execute_proc` keep the mid-tick invariant. -/
theorem execute_proc_mid (s : ExecutionUnit) (u : Uninit) (hmid : s.MidFormed) :
    (execute_proc s false u).MidFormed := by
  rw [execute_proc_eq]
  simp only []
  obtain ⟨n1, l1⟩ := ready_snapshot s hmid Pool.alu
  obtain ⟨m1, _⟩ := exec_fold_mid Pool.alu (alu_step u) (alu_step_exec u) _ s hmid n1 l1
  generalize List.foldl (alu_step u) s (s.pool Pool.alu).get_ready_entries = s1 at m1 ⊢
  obtain ⟨n2, l2⟩ := ready_snapshot s1 m1 Pool.mem
  obtain ⟨m2, _⟩ := exec_fold_mid Pool.mem (mem_step u) (mem_step_exec u) _ s1 m1 n2 l2
  generalize List.foldl (mem_step u) s1 (s1.pool Pool.mem).get_ready_entries = s2 at m2 ⊢
  obtain ⟨n3, l3⟩ := ready_snapshot s2 m2 Pool.branch
  exact (exec_fold_mid Pool.branch (branch_step u) (branch_step_exec u) _ s2 m2 n3 l3).1

end ExecutionUnit

namespace ExecutionUnit

theorem issue_refused (s : ExecutionUnit) (p : DecodePacket) (u : Uninit)
    (h : p.valid = false ∨ s.rob.is_full = true ∨
      (s.pool (select_pool p.opcode)).is_full = true) : s.issue_proc false p u = s := by
  unfold issue_proc
  rcases h with h | h | h
  · simp [h]
  · simp [h]
  · simp [h]

theorem issue_reg_status (s : ExecutionUnit) (p : DecodePacket) (u : Uninit)
    (hv : p.valid = true) (hrob : s.rob.is_full = false)
    (hpool : (s.pool (select_pool p.opcode)).is_full = false) :
    (s.issue_proc false p u).reg_status =
      (if p.rd ≠ 0 ∧ p.opcode ≠ Opcode.STORE ∧ p.opcode ≠ Opcode.BRANCH then
        setAt s.reg_status p.rd
          { busy := true, rob_entry := ((s.rob.tail : Int) % 256).toNat }
       else s.reg_status) := by
  obtain ⟨i, _, _, _, he⟩ := issue_accepted s p u hv hrob hpool
  rw [he]
  simp only []
  split <;> cases select_pool p.opcode <;> rfl

/-- The reorder buffer after `allocate_entry` and `update_entry` at the old tail. -/
theorem rob_after_issue (rob : ReorderBuffer) (e : ROBEntry) (hfull : rob.is_full = false)
    (ht : rob.tail < rob.max_entries) :
    rob.allocate_entry.1.update_entry (rob.tail : Int) e =
      { rob with
        tail := (rob.tail + 1) % rob.max_entries
        count := rob.count + 1
        entries := setAt rob.entries rob.tail e
        newly_completed := setAt rob.newly_completed rob.tail false } := by
  have hidx : ¬ ((rob.tail : Int) < 0 ∨ (rob.tail : Int) ≥ (rob.max_entries : Int)) := by omega
  simp only [ReorderBuffer.allocate_entry, hfull, Bool.false_eq_true, if_false,
    ReorderBuffer.update_entry, hidx, Int.toNat_ofNat]
  congr 1
  funext x
  simp only [setAt]
  split <;> rfl

/-- The tags of the entry that `issue_proc` builds: 0, or the slot named by the register
status of a busy source register, plus one, when that slot is not busy and completed. -/
theorem new_entry_tags (s : ExecutionUnit) (rob : ReorderBuffer) (p : DecodePacket)
    (u : Uninit) :
    ((new_rs_entry s rob p u).Qj = 0 ∨
      ((s.reg_status p.rs1).busy = true ∧
        rob.is_entry_completed ((s.reg_status p.rs1).rob_entry : Int) = false ∧
        (new_rs_entry s rob p u).Qj =
          ((((s.reg_status p.rs1).rob_entry : Int) + 1) % 256).toNat)) ∧
    ((new_rs_entry s rob p u).Qk = 0 ∨
      ((s.reg_status p.rs2).busy = true ∧
        rob.is_entry_completed ((s.reg_status p.rs2).rob_entry : Int) = false ∧
        (new_rs_entry s rob p u).Qk =
          ((((s.reg_status p.rs2).rob_entry : Int) + 1) % 256).toNat)) := by
  simp only [new_rs_entry, capture_rs1, capture_rs2]
  refine ⟨?_, ?_⟩
  · split_ifs <;> simp_all
  · split_ifs <;> simp_all

/-- The issue of a packet keeps the mid-tick invariant. -/
theorem issue_proc_mid (s : ExecutionUnit) (p : DecodePacket) (u : Uninit)
    (hmid : s.MidFormed) (hp : p.valid = true → p.InRange) :
    (s.issue_proc false p u).MidFormed := by
  by_cases hacc : p.valid = true ∧ s.rob.is_full = false ∧
      (s.pool (select_pool p.opcode)).is_full = false
  swap
  · rw [issue_refused s p u]
    · exact hmid
    · by_contra hc
      apply hacc
      refine ⟨?_, ?_, ?_⟩
      · cases h : p.valid
        · exact absurd (Or.inl h) hc
        · rfl
      · cases h : s.rob.is_full
        · rfl
        · exact absurd (Or.inr (Or.inl h)) hc
      · cases h : (s.pool (select_pool p.opcode)).is_full
        · rfl
        · exact absurd (Or.inr (Or.inr h)) hc
  obtain ⟨hv, hrob, hpool⟩ := hacc
  obtain ⟨hrs1, hrs2, hrd⟩ := hp hv
  obtain ⟨hsz, hring, hwin, hst, hpair, hdis, htag⟩ := hmid
  obtain ⟨ha, hm, hb, hr, hf⟩ := hsz
  obtain ⟨rh, rt, rc, re1, re2⟩ := hring
  rw [hr] at rh rt rc re1 re2
  have hcount : s.rob.count ≠ 16 := by
    intro h
    simp [ReorderBuffer.is_full, h, hr] at hrob
  have hcnt := re1 hcount
  obtain ⟨f1, f2, _, f4, i0, hi0, hfree, _, f5⟩ := issue_accepted_fields s p u hv hrob hpool
  have f3 := issue_reg_status s p u hv hrob hpool
  rw [rob_after_issue s.rob _ hrob (by rw [hr]; exact rt)] at f1
  have htoNat : ((s.rob.tail : Int) % 256).toNat = s.rob.tail := by omega
  rw [htoNat] at f3
  generalize s.issue_proc false p u = t at f1 f2 f3 f4 f5 ⊢
  -- the slot at the old tail was free
  have hTfree : (s.rob.entries s.rob.tail).busy = false := by
    have := hwin s.rob.tail (by rw [hr]; exact rt)
    cases hbz : (s.rob.entries s.rob.tail).busy
    · rfl
    · have hw := this.1 hbz
      simp only [ReorderBuffer.InWindow, hr] at hw
      omega
  have hmax : t.rob.max_entries = 16 := by rw [f1]; exact hr
  have hold : ∀ x, (s.rob.entries x).busy = true →
      x ≠ s.rob.tail ∧ t.rob.entries x = s.rob.entries x ∧
      t.rob.newly_completed x = s.rob.newly_completed x := by
    intro x hx
    have hne : x ≠ s.rob.tail := by
      intro e
      rw [e, hTfree] at hx
      exact absurd hx (by decide)
    rw [f1]
    simp only [setAt, hne, if_false, and_self, ne_eq, not_false_eq_true]
  have hnew : t.rob.entries s.rob.tail = new_rob_entry p u := by
    rw [f1]
    simp only [setAt, if_true]
  have hpend : ∀ x, s.rob.Pending x → t.rob.Pending x := by
    intro x ⟨u1, u2, u3⟩
    obtain ⟨_, e1, _⟩ := hold x u2
    exact ⟨by rw [hmax]; omega, by rw [e1]; exact u2, by rw [e1]; exact u3⟩
  have hunb : ∀ x, s.rob.Unbroadcast x → t.rob.Unbroadcast x := by
    intro x ⟨u1, u2, u3⟩
    obtain ⟨_, e1, e2⟩ := hold x u2
    exact ⟨by rw [hmax]; omega, by rw [e1]; exact u2, by rw [e1, e2]; exact u3⟩
  -- the pools after the issue
  have hpmax : ∀ q, (t.pool q).max_entries = (s.pool q).max_entries := by
    intro q
    by_cases hq : q = select_pool p.opcode
    · subst hq; rw [f5]
    · rw [f4 q hq]
  have hslot : ∀ q j, j < (t.pool q).max_entries → ((t.pool q).entries j).busy = true →
      (q = select_pool p.opcode ∧ j = i0 ∧ (t.pool q).entries j = new_rs_entry s t.rob p u ∧
        (t.pool q).rob_indices j = (s.rob.tail : Int)) ∨
      (j < (s.pool q).max_entries ∧ ((s.pool q).entries j).busy = true ∧
        (t.pool q).entries j = (s.pool q).entries j ∧
        (t.pool q).rob_indices j = (s.pool q).rob_indices j) := by
    intro q j hj hbj
    by_cases hq : q = select_pool p.opcode
    · subst hq
      rw [hpmax] at hj
      by_cases hji : j = i0
      · subst hji
        left
        rw [f5]
        simp only [setAt, if_true, and_self]
      · right
        have e1 : (t.pool (select_pool p.opcode)).entries j =
            (s.pool (select_pool p.opcode)).entries j := by
          rw [f5]
          simp only [setAt, hji, if_false]
        have e2 : (t.pool (select_pool p.opcode)).rob_indices j =
            (s.pool (select_pool p.opcode)).rob_indices j := by
          rw [f5]
          simp only [setAt, hji, if_false]
        rw [e1] at hbj
        exact ⟨hj, hbj, e1, e2⟩
    · right
      rw [f4 q hq] at hj hbj ⊢
      exact ⟨hj, hbj, rfl, rfl⟩
  have hpairT : ∀ q j, j < (s.pool q).max_entries → ((s.pool q).entries j).busy = true →
      (s.pool q).rob_indices j ≠ (s.rob.tail : Int) := by
    intro q j hj hbj e
    obtain ⟨k, ek, _, k2, _⟩ := hpair q j hj hbj
    rw [ek] at e
    have : k = s.rob.tail := by omega
    rw [this, hTfree] at k2
    exact absurd k2 (by decide)
  refine ⟨⟨(hpmax Pool.alu).trans ha, (hpmax Pool.mem).trans hm, (hpmax Pool.branch).trans hb,
    hmax, by rw [f2]; exact hf⟩, ?_, ?_, ?_, ?_, ?_, ?_⟩
  · rw [f1]
    simp only [ReorderBuffer.Ring, hr]
    refine ⟨rh, Nat.mod_lt _ (by norm_num), by omega, fun _ => ?_, fun _ => ?_⟩
    · omega
    · omega
  · intro x hx
    rw [hmax] at hx
    by_cases hxt : x = s.rob.tail
    · rw [hxt, hnew]
      simp only [ReorderBuffer.InWindow, f1, hr, new_rob_entry, true_iff]
      omega
    · have hb' : (t.rob.entries x).busy = (s.rob.entries x).busy := by
        rw [f1]
        simp only [setAt, hxt, if_false]
      rw [hb', hwin x (by rw [hr]; exact hx)]
      simp only [ReorderBuffer.InWindow, f1, hr]
      omega
  · intro r hr' hbr
    rw [f3] at hbr ⊢
    by_cases hc : p.rd ≠ 0 ∧ p.opcode ≠ Opcode.STORE ∧ p.opcode ≠ Opcode.BRANCH
    · rw [if_pos hc] at hbr ⊢
      by_cases hrr : r = p.rd
      · subst hrr
        simp only [setAt, if_true]
        rw [hnew, hmax]
        refine ⟨hc.1, rt, rfl, ?_, rfl⟩
        simp only [new_rob_entry, decide_eq_false_iff_not]
        exact hc.2.1
      · simp only [setAt, hrr, if_false] at hbr ⊢
        obtain ⟨h1, h2, h3, h4, h5⟩ := hst r hr' hbr
        obtain ⟨_, e1, _⟩ := hold _ h3
        rw [e1, hmax]
        exact ⟨h1, by omega, h3, h4, h5⟩
    · rw [if_neg hc] at hbr ⊢
      obtain ⟨h1, h2, h3, h4, h5⟩ := hst r hr' hbr
      obtain ⟨_, e1, _⟩ := hold _ h3
      rw [e1, hmax]
      exact ⟨h1, by omega, h3, h4, h5⟩
  · intro q j hj hbj
    rcases hslot q j hj hbj with ⟨_, _, _, e4⟩ | ⟨o1, o2, _, o4⟩
    · refine ⟨s.rob.tail, e4, by rw [hmax]; exact rt, by rw [hnew]; rfl, by rw [hnew]; rfl⟩
    · obtain ⟨k, ek, hk⟩ := hpair q j o1 o2
      exact ⟨k, o4.trans ek, hpend k hk⟩
  · intro q j q' j' hj hj' hb1 hb2 e
    rcases hslot q j hj hb1 with ⟨a1, a2, _, a4⟩ | ⟨o1, o2, _, o4⟩
    · rcases hslot q' j' hj' hb2 with ⟨b1, b2, _, _⟩ | ⟨o1', o2', _, o4'⟩
      · exact ⟨a1.trans b1.symm, a2.trans b2.symm⟩
      · rw [a4, o4'] at e
        exact absurd e.symm (hpairT q' j' o1' o2')
    · rcases hslot q' j' hj' hb2 with ⟨_, _, _, b4⟩ | ⟨o1', o2', _, o4'⟩
      · rw [o4, b4] at e
        exact absurd e (hpairT q j o1 o2)
      · rw [o4, o4'] at e
        exact hdis q j q' j' o1 o1' o2 o2' e
  · intro q j hj hbj
    rcases hslot q j hj hbj with ⟨_, _, e3, _⟩ | ⟨o1, o2, o3, _⟩
    · rw [e3]
      obtain ⟨tj, tk⟩ := new_entry_tags s t.rob p u
      have key : ∀ r, r < 32 → (s.reg_status r).busy = true →
          t.rob.is_entry_completed ((s.reg_status r).rob_entry : Int) = false →
          t.rob.Unbroadcast
            (((((s.reg_status r).rob_entry : Int) + 1) % 256).toNat - 1) := by
        intro r hr32 hbr hnc
        obtain ⟨_, h2, h3, _, _⟩ := hst r hr32 hbr
        rw [hr] at h2
        obtain ⟨_, e1, _⟩ := hold _ h3
        have hidx : ¬ (((s.reg_status r).rob_entry : Int) < 0 ∨
            ((s.reg_status r).rob_entry : Int) ≥ (t.rob.max_entries : Int)) := by
          rw [hmax]; omega
        simp only [ReorderBuffer.is_entry_completed, hidx, if_false, Int.toNat_ofNat, e1, h3,
          Bool.true_and] at hnc
        have hx : ((((s.reg_status r).rob_entry : Int) + 1) % 256).toNat - 1 =
            (s.reg_status r).rob_entry := by omega
        rw [hx]
        exact ⟨by rw [hmax]; exact h2, by rw [e1]; exact h3, Or.inl (by rw [e1]; exact hnc)⟩
      refine ⟨fun hq => ?_, fun hq => ?_⟩
      · rcases tj with h | ⟨h1, h2, h3⟩
        · exact absurd h hq
        · rw [h3]; exact key _ hrs1 h1 h2
      · rcases tk with h | ⟨h1, h2, h3⟩
        · exact absurd h hq
        · rw [h3]; exact key _ hrs2 h1 h2
    · rw [o3]
      obtain ⟨t1, t2⟩ := htag q j o1 o2
      exact ⟨fun h => hunb _ (t1 h), fun h => hunb _ (t2 h)⟩

end ExecutionUnit

namespace ExecutionUnit

theorem mid_unflagged_wf (s : ExecutionUnit) (hmid : s.MidFormed) (hfl : s.Unflagged) :
    s.WellFormed := by
  obtain ⟨hsz, hring, hwin, hst, hpair, hdis, htag⟩ := hmid
  refine ⟨hsz, hring, hwin, hst, hpair, hdis, fun q i hi hb => ?_, hfl⟩
  have key : ∀ x, s.rob.Unbroadcast x → s.rob.Pending x := by
    intro x ⟨u1, u2, u3⟩
    refine ⟨u1, u2, ?_⟩
    rcases u3 with u3 | u3
    · exact u3
    · rw [hfl x u1 u2] at u3
      exact absurd u3 (by decide)
  obtain ⟨t1, t2⟩ := htag q i hi hb
  exact ⟨fun h => key _ (t1 h), fun h => key _ (t2 h)⟩

/-- The issue of a packet keeps the engine well formed. -/
theorem issue_proc_wf (s : ExecutionUnit) (p : DecodePacket) (u : Uninit)
    (hwf : s.WellFormed) (hp : p.valid = true → p.InRange) :
    (s.issue_proc false p u).WellFormed := by
  refine mid_unflagged_wf _ (issue_proc_mid s p u (wf_mid s hwf) hp) ?_
  obtain ⟨⟨_, _, _, hr, _⟩, ⟨_, rt, _, _, _⟩, _, _, _, _, _, hfl⟩ := hwf
  by_cases hacc : p.valid = true ∧ s.rob.is_full = false ∧
      (s.pool (select_pool p.opcode)).is_full = false
  · obtain ⟨hv, hrob, hpool⟩ := hacc
    have f1 := (issue_accepted_fields s p u hv hrob hpool).1
    rw [rob_after_issue s.rob _ hrob rt] at f1
    intro i hi hb
    rw [f1] at hi hb ⊢
    simp only [setAt] at hb ⊢
    split
    · rfl
    · rename_i hne
      simp only [hne, if_false] at hb
      exact hfl i hi hb
  · rw [issue_refused s p u]
    · exact hfl
    · by_contra hc
      apply hacc
      refine ⟨?_, ?_, ?_⟩
      · cases h : p.valid
        · exact absurd (Or.inl h) hc
        · rfl
      · cases h : s.rob.is_full
        · rfl
        · exact absurd (Or.inr (Or.inl h)) hc
      · cases h : (s.pool (select_pool p.opcode)).is_full
        · rfl
        · exact absurd (Or.inr (Or.inr h)) hc

/-- A tick without reset keeps the engine well formed. -/
theorem tick_wf (s : ExecutionUnit) (p : DecodePacket) (u : Uninit) (hwf : s.WellFormed)
    (hp : p.valid = true → p.InRange) : (s.clock_tick false p u).WellFormed :=
  commit_proc_wf _ u
    (complete_proc_wf _ (execute_proc_mid _ u (issue_proc_mid s p u (wf_mid s hwf) hp)))

/-- C36 (amended). Engine well-formedness is an inductive invariant of the tick: it
holds in the state the constructor builds and in the state after a reset tick, and for
every engine state that satisfies it and every decode packet whose register fields are
below 32 when it is valid, the state after one full tick (issue, execute, complete,
commit in that order) satisfies it again. Well-formed means: the vectors have the
constructor's lengths, the reorder buffer is a ring (head and tail are positions,
count = (tail - head) mod capacity, or tail = head when it is full), and (a) a ROB slot
is busy exactly when it lies among the `count` slots starting at head; (b) whenever
reg_status[r].busy, r ≠ 0 and rob_entry names a busy, non-store ROB slot whose dest is
r; (c) every busy reservation-station entry is paired with a distinct busy,
not-completed ROB slot and each of its non-zero tags names (as index + 1) a busy,
not-completed ROB slot; (d) no busy ROB slot has newly_completed set. Hence after the
tick a waiting operand refers to a slot that is busy and not completed. -/
theorem C36_well_formed_inductive (s : ExecutionUnit) (reset : Bool) (p : DecodePacket)
    (u : Uninit) (hwf : s.WellFormed) (hp : p.valid = true → p.InRange) :
    (s.clock_tick reset p u).WellFormed ∧
    (∀ mem x, (init mem x).WellFormed) ∧
    (∀ (s0 : ExecutionUnit) p0 u0, s0.Sized → (s0.clock_tick true p0 u0).WellFormed) ∧
    (∀ q i, i < ((s.clock_tick reset p u).pool q).max_entries →
      (((s.clock_tick reset p u).pool q).entries i).busy = true →
      ((((s.clock_tick reset p u).pool q).entries i).Qj ≠ 0 →
        (s.clock_tick reset p u).rob.Pending
          ((((s.clock_tick reset p u).pool q).entries i).Qj - 1)) ∧
      ((((s.clock_tick reset p u).pool q).entries i).Qk ≠ 0 →
        (s.clock_tick reset p u).rob.Pending
          ((((s.clock_tick reset p u).pool q).entries i).Qk - 1))) := by
  have hreset : ∀ (s0 : ExecutionUnit) p0 u0, s0.Sized →
      (s0.clock_tick true p0 u0).WellFormed := by
    intro s0 p0 u0 ⟨a, b, c, d, e⟩
    exact quiescent_wf _ (reset_quiescent s0 p0 u0 a b c d e)
  have htick : (s.clock_tick reset p u).WellFormed := by
    cases reset
    · exact tick_wf s p u hwf hp
    · exact hreset s p u hwf.1
  exact ⟨htick, fun mem x => quiescent_wf _ (init_quiescent mem x), hreset,
    htick.2.2.2.2.2.2.1⟩

set_option maxRecDepth 1000000 in
/-- Witness for C36: the engine that has issued `addi x1,x0,7` and not yet executed it
is well formed; the tick that takes `add x3,x1,x2` leaves it well formed, with the
`add` in slot 1 of the ALU pool, woken by the broadcast of the `addi` (Qj = 0,
Vj = 7), and alone in the reorder buffer. -/
theorem C36_well_formed_inductive_witness :
    (issued_example.rs_alu.entries 0).busy = true ∧
    (issued_example.clock_tick false (DecodeUnit.decode_word 0x002081B3 4)
      Uninit.zero).WellFormed ∧
    (issued_example.clock_tick false (DecodeUnit.decode_word 0x002081B3 4)
      Uninit.zero).rob.count = 1 ∧
    ((issued_example.clock_tick false (DecodeUnit.decode_word 0x002081B3 4)
      Uninit.zero).rs_alu.entries 1).busy = true ∧
    ((issued_example.clock_tick false (DecodeUnit.decode_word 0x002081B3 4)
      Uninit.zero).rs_alu.entries 1).Qj = 0 ∧
    ((issued_example.clock_tick false (DecodeUnit.decode_word 0x002081B3 4)
      Uninit.zero).rs_alu.entries 1).Vj = 7 :=
  ⟨by decide!,
   (C36_well_formed_inductive issued_example false (DecodeUnit.decode_word 0x002081B3 4)
      Uninit.zero
      (issue_proc_wf fresh (DecodeUnit.decode_word 0x00700093 0) Uninit.zero
        (quiescent_wf _ (init_quiescent _ _)) (fun _ => by decide))
      (fun _ => by decide)).1,
   by decide!, by decide!, by decide!, by decide!⟩

theorem stale_tail_pool (q : Pool) : stale_tail_example.pool q = fresh.pool q := by
  cases q <;> rfl

set_option maxRecDepth 1000000 in
/-- C36, counterexample: an engine state with one busy, not-completed ROB slot at
head 0 (count 1) whose tail is still 0 satisfies (a), (b), (c) and (d), with the
constructor's vector lengths; the tick that takes `addi x1,x0,7` allocates the slot at
tail, the busy slot 0, commits it and leaves head = 1 and count = 1 with slot 1 not
busy: (a) does not hold after the tick. -/
theorem C36_counterexample :
    stale_tail_example.Sized ∧ stale_tail_example.WindowBusy ∧
    stale_tail_example.StatusNamed ∧ stale_tail_example.Paired ∧
    stale_tail_example.Distinct ∧ stale_tail_example.Tagged stale_tail_example.rob.Pending ∧
    stale_tail_example.Unflagged ∧
    (DecodeUnit.decode_word 0x00700093 0).InRange ∧
    ¬ (stale_tail_example.clock_tick false (DecodeUnit.decode_word 0x00700093 0)
      Uninit.zero).WindowBusy := by
  have hq : fresh.Quiescent := init_quiescent _ _
  have hidle : ∀ q i, i < (stale_tail_example.pool q).max_entries →
      ((stale_tail_example.pool q).entries i).busy = false := by
    intro q i hi
    rw [stale_tail_pool] at hi ⊢
    exact quiescent_idle_pools fresh hq q i hi
  refine ⟨⟨hq.1, hq.2.1, hq.2.2.1, hq.2.2.2.1, hq.2.2.2.2.1⟩, ?_, ?_, ?_, ?_, ?_, ?_, by decide,
    ?_⟩
  · intro i hi
    have hi16 : i < 16 := hi
    by_cases h0 : i = 0
    · subst h0
      exact ⟨fun _ => (by decide : (0 + 16 - 0) % 16 < 1), fun _ => rfl⟩
    · have hb : (stale_tail_example.rob.entries i).busy = false := by
        have := hq.2.2.2.2.2.2.2.2.2.2.2.1 i hi16
        show (setAt fresh.rob.entries 0 _ i).busy = false
        simp only [setAt, h0, if_false]
        exact this
      rw [hb]
      refine ⟨fun h => absurd h (by decide), fun h => ?_⟩
      have h' : (i + 16 - 0) % 16 < 1 := h
      omega
  · intro r hr hb
    have := hq.2.2.2.2.2.2.2.2.2.2.2.2 r hr
    rw [show stale_tail_example.reg_status = fresh.reg_status from rfl, this] at hb
    exact absurd hb (by decide)
  · intro q i hi hb
    rw [hidle q i hi] at hb
    exact absurd hb (by decide)
  · intro q i q' i' hi _ hb _ _
    rw [hidle q i hi] at hb
    exact absurd hb (by decide)
  · intro q i hi hb
    rw [hidle q i hi] at hb
    exact absurd hb (by decide)
  · intro i hi hb
    have hi16 : i < 16 := hi
    have : i = 0 := by
      by_contra h0
      have hb' : (stale_tail_example.rob.entries i).busy = false := by
        have := hq.2.2.2.2.2.2.2.2.2.2.2.1 i hi16
        show (setAt fresh.rob.entries 0 _ i).busy = false
        simp only [setAt, h0, if_false]
        exact this
      rw [hb'] at hb
      exact absurd hb (by decide)
    subst this
    decide
  · intro h
    have h1 := (h 1 (by decide!)).2 (by
      show (1 + _ - _) % _ < _
      decide!)
    revert h1
    decide!

end ExecutionUnit

end CakemuOoO
